import Mathlib

/-! Virtual-memory simulator: address translation

A shallow embedding of the translation cache (`TLB.cpp`), the hierarchical page
table (`PageTable.cpp`), the frame allocator (`PhysicalMemory.cpp`) and the
orchestrating translator (`VirtualMemoryManager.cpp`).

Conventions of the embedding.

* `size_t` and `uint64_t` values are natural numbers.  Physical addresses are
  reduced modulo `2 ^ 64` where the source computes them.  Event counters are
  unbounded naturals; a counter is only ever decremented right after a test that
  guarantees it counts at least one object.
* A `std::vector` indexed only below its size is a total map from indices.
* `std::unordered_map` is an association list (newest binding first) and
  `std::list` / `std::queue` are lists with the front at the head.
* A method that mutates its object returns the new object next to its result.  A
  method that throws returns `Except.error` next to the state left behind.
* Two operations of the source have no defined behaviour on part of their
  inputs: a shift of a 64-bit word by 64 or more (`Config.shifts_defined` bounds
  the shift counts of a configuration), and `back()` on an empty recency list,
  reached by `TLB::insert` on a cache of capacity 0 (`TLB.insert_defined` and
  `VirtualMemoryManager.translate_defined` mark the calls that stay clear of
  it).  The functions below are total; the value they take outside these domains
  describes no behaviour of the source.
-/

namespace vm

/-! ## Config.h -/

/-- The modulus of 64-bit unsigned arithmetic. -/
def W64 : Nat := 2 ^ 64

/-- The configuration record of `Config.h`. -/
structure Config where
  page_size : Nat
  offset_bits : Nat
  virtual_address_bits : Nat
  physical_memory_size : Nat
  num_frames : Nat
  page_table_levels : Nat
  bits_per_level : Nat
  tlb_size : Nat
deriving DecidableEq

/-- The preset `Config::default_config`. -/
def Config.default_config : Config where
  page_size := 4096
  offset_bits := 12
  virtual_address_bits := 32
  physical_memory_size := 64 * 1024 * 1024
  num_frames := (64 * 1024 * 1024) / 4096
  page_table_levels := 2
  bits_per_level := 10
  tlb_size := 64

/-- The preset `Config::small_config`. -/
def Config.small_config : Config where
  page_size := 256
  offset_bits := 8
  virtual_address_bits := 16
  physical_memory_size := 16 * 1024
  num_frames := (16 * 1024) / 256
  page_table_levels := 2
  bits_per_level := 4
  tlb_size := 8

/-- The exceptions the source throws. -/
inductive Error where
  | out_of_range
  | runtime_error
deriving DecidableEq

/-- Assignment to one slot of a vector. -/
def setAt {α : Type} (f : Nat → α) (i : Nat) (v : α) : Nat → α :=
  fun j => if j = i then v else f j

/-! ## TLB.cpp -/

/-- The translation cache: `cache_` maps a page number to its frame, `lru_list_`
holds the cached page numbers, most recently used first. -/
structure TLB where
  capacity_ : Nat
  hits_ : Nat
  misses_ : Nat
  lru_list_ : List Nat
  cache_ : List (Nat × Nat)

/-- The constructor `TLB::TLB`. -/
def TLB.new (capacity : Nat) : TLB where
  capacity_ := capacity
  hits_ := 0
  misses_ := 0
  lru_list_ := []
  cache_ := []

/-- The map operation `cache_.find(vpn)`, giving the frame when found. -/
def TLB.find (t : TLB) (vpn : Nat) : Option Nat :=
  t.cache_.lookup vpn

/-- The map operation `cache_.erase(vpn)`. -/
def mapErase (m : List (Nat × Nat)) (vpn : Nat) : List (Nat × Nat) :=
  m.filter (fun p => p.1 != vpn)

/-- Overwriting the frame of a key that is present (`it->second.first = pfn`). -/
def mapAssign (m : List (Nat × Nat)) (vpn pfn : Nat) : List (Nat × Nat) :=
  m.map (fun p => if p.1 = vpn then (p.1, pfn) else p)

/-- The method `TLB::touch`: a cached page number moves to the front of the
recency list. -/
def TLB.touch (t : TLB) (vpn : Nat) : TLB :=
  match t.find vpn with
  | some _ => { t with lru_list_ := vpn :: t.lru_list_.erase vpn }
  | none => t

/-- The method `TLB::lookup`. -/
def TLB.lookup (t : TLB) (vpn : Nat) : Option Nat × TLB :=
  match t.find vpn with
  | some pfn => (some pfn, TLB.touch { t with hits_ := t.hits_ + 1 } vpn)
  | none => (none, { t with misses_ := t.misses_ + 1 })

/-- The eviction step of `TLB::insert`: the page number at the back of the
recency list leaves the list and the map.  The source calls `back()` and
`pop_back()` without testing for an empty list, so on an empty list the step has
no defined behaviour; the value given here for that case (the cache unchanged)
describes no behaviour of the source, and `TLB.insert_defined` is `false` for
the calls that reach it. -/
def TLB.evict (t : TLB) : TLB :=
  match t.lru_list_.getLast? with
  | some lru_vpn =>
      { t with lru_list_ := t.lru_list_.dropLast, cache_ := mapErase t.cache_ lru_vpn }
  | none => t

/-- The method `TLB::insert`. -/
def TLB.insert (t : TLB) (vpn pfn : Nat) : TLB :=
  match t.find vpn with
  | some _ => TLB.touch { t with cache_ := mapAssign t.cache_ vpn pfn } vpn
  | none =>
      let t1 := if t.cache_.length ≥ t.capacity_ then t.evict else t
      { t1 with lru_list_ := vpn :: t1.lru_list_, cache_ := (vpn, pfn) :: t1.cache_ }

/-- The call `insert(vpn, pfn)` has defined behaviour: it is `false` exactly when
the call reaches `lru_list_.back()` with an empty recency list, which is when
`vpn` is not in the map, `cache_.size() >= capacity_` holds and `lru_list_` is
empty. -/
def TLB.insert_defined (t : TLB) (vpn : Nat) : Bool :=
  match t.find vpn with
  | some _ => true
  | none => if t.cache_.length ≥ t.capacity_ then !t.lru_list_.isEmpty else true

/-- The method `TLB::invalidate`. -/
def TLB.invalidate (t : TLB) (vpn : Nat) : TLB :=
  match t.find vpn with
  | some _ => { t with lru_list_ := t.lru_list_.erase vpn, cache_ := mapErase t.cache_ vpn }
  | none => t

/-- The method `TLB::clear`. -/
def TLB.clear (t : TLB) : TLB :=
  { t with cache_ := [], lru_list_ := [] }

/-- The method `TLB::reset_stats`. -/
def TLB.reset_stats (t : TLB) : TLB :=
  { t with hits_ := 0, misses_ := 0 }

/-! ## PageTable.cpp -/

/-- A leaf slot of the page table. -/
structure PageTableEntry where
  frame_number : Nat
  valid : Bool
  dirty : Bool
  referenced : Bool
deriving DecidableEq

/-- The default constructor `PageTableEntry()`. -/
def PageTableEntry.empty : PageTableEntry where
  frame_number := 0
  valid := false
  dirty := false
  referenced := false

/-- An owning pointer to a page-table node: `null` is the empty pointer, `leaf`
a node with `is_leaf` set (its `entries` vector), `node` an internal node (its
`children` vector). -/
inductive PageTableNode where
  | null : PageTableNode
  | leaf (entries : Nat → PageTableEntry) : PageTableNode
  | node (children : Nat → PageTableNode) : PageTableNode

/-- The constructor `PageTableNode(size, leaf)`: every entry default
constructed, every child pointer empty. -/
def PageTableNode.make (is_leaf : Bool) : PageTableNode :=
  if is_leaf then PageTableNode.leaf (fun _ => PageTableEntry.empty)
  else PageTableNode.node (fun _ => PageTableNode.null)

/-- The page table. -/
structure PageTable where
  config_ : Config
  num_levels_ : Nat
  bits_per_level_ : Nat
  entries_per_level_ : Nat
  num_entries_ : Nat
  root_ : PageTableNode

/-- The constructor `PageTable::PageTable`. -/
def PageTable.new (config : Config) : PageTable where
  config_ := config
  num_levels_ := config.page_table_levels
  bits_per_level_ := config.bits_per_level
  entries_per_level_ := 2 ^ config.bits_per_level % W64
  num_entries_ := 0
  root_ := PageTableNode.make (config.page_table_levels == 1)

/-- The method `PageTable::extract_level_index`; the member fields `num_levels_`
and `bits_per_level_` it reads are the first two arguments.  The source computes
`(1ULL << bits_per_level_) - 1` and `vpn >> shift` on 64-bit words: for
`bits_per_level_ < 64` and `shift < 64` (see `Config.levels_defined`) these are
the values below; a shift by 64 or more has no defined behaviour in the source,
and the value given here for it describes no behaviour of the source. -/
def extract_level_index (num_levels_ bits_per_level_ vpn level : Nat) : Nat :=
  let shift := (num_levels_ - 1 - level) * bits_per_level_
  let mask := 2 ^ bits_per_level_ - 1
  (vpn >>> shift) &&& mask

/-- The loop of `PageTable::walk_page_table` for a table of `L` levels with `B`
bits per level, entered at loop counter `level` with `fuel` iterations left and
`current` the node pointed at.  The result is the entry the returned pointer
designates (as it is before the caller writes to it) and the subtree after the
walk: nodes created on the way are in it, and the entry reached holds `upd` of
its old value, which is how the callers write through the pointer.  The test
`level == num_levels_ - 2` is `level + 2 = L`, since the unsigned subtraction
wraps for fewer than two levels, where no level matches. -/
def walk_loop (L B vpn : Nat) (create : Bool) (upd : PageTableEntry → PageTableEntry) :
    Nat → Nat → PageTableNode → Option PageTableEntry × PageTableNode
  | 0, _, current => (none, current)
  | fuel + 1, level, current =>
      let index := extract_level_index L B vpn level
      match current with
      | PageTableNode.null => (none, current)
      | PageTableNode.leaf entries =>
          (some (entries index), PageTableNode.leaf (setAt entries index (upd (entries index))))
      | PageTableNode.node children =>
          match children index with
          | PageTableNode.null =>
              if create then
                let r := walk_loop L B vpn create upd fuel (level + 1)
                  (PageTableNode.make (decide (level + 2 = L)))
                (r.1, PageTableNode.node (setAt children index r.2))
              else (none, current)
          | child =>
              let r := walk_loop L B vpn create upd fuel (level + 1) child
              (r.1, PageTableNode.node (setAt children index r.2))

/-- The method `PageTable::walk_page_table`, started at the root. -/
def PageTable.walk_page_table (pt : PageTable) (vpn : Nat) (create : Bool)
    (upd : PageTableEntry → PageTableEntry) : Option PageTableEntry × PageTableNode :=
  walk_loop pt.num_levels_ pt.bits_per_level_ vpn create upd pt.num_levels_ 0 pt.root_

/-- The method `PageTable::get_entry`: the entry the walk reaches, without
creating nodes. -/
def PageTable.get_entry (pt : PageTable) (vpn : Nat) : Option PageTableEntry :=
  (pt.walk_page_table vpn false id).1

/-- The method `PageTable::translate`. -/
def PageTable.translate (pt : PageTable) (vpn : Nat) : Option Nat × PageTable :=
  match pt.get_entry vpn with
  | some entry =>
      if entry.valid then
        (some entry.frame_number,
          { pt with root_ :=
              (pt.walk_page_table vpn false (fun e => { e with referenced := true })).2 })
      else (none, pt)
  | none => (none, pt)

/-- The method `PageTable::insert`. -/
def PageTable.insert (pt : PageTable) (vpn pfn : Nat) : PageTable :=
  let r := pt.walk_page_table vpn true
    (fun e => { e with frame_number := pfn, valid := true, referenced := true })
  match r.1 with
  | some entry =>
      { pt with
        root_ := r.2
        num_entries_ := if entry.valid then pt.num_entries_ else pt.num_entries_ + 1 }
  | none => { pt with root_ := r.2 }

/-- The method `PageTable::is_present`. -/
def PageTable.is_present (pt : PageTable) (vpn : Nat) : Bool :=
  match pt.get_entry vpn with
  | some entry => entry.valid
  | none => false

/-- The method `PageTable::set_dirty`. -/
def PageTable.set_dirty (pt : PageTable) (vpn : Nat) (dirty : Bool) : PageTable :=
  match pt.get_entry vpn with
  | some entry =>
      if entry.valid then
        { pt with root_ := (pt.walk_page_table vpn false (fun e => { e with dirty := dirty })).2 }
      else pt
  | none => pt

/-- The method `PageTable::set_referenced`. -/
def PageTable.set_referenced (pt : PageTable) (vpn : Nat) (referenced : Bool) : PageTable :=
  match pt.get_entry vpn with
  | some entry =>
      if entry.valid then
        { pt with
          root_ := (pt.walk_page_table vpn false (fun e => { e with referenced := referenced })).2 }
      else pt
  | none => pt

/-- The method `PageTable::invalidate`. -/
def PageTable.invalidate (pt : PageTable) (vpn : Nat) : PageTable :=
  match pt.get_entry vpn with
  | some entry =>
      if entry.valid then
        { pt with
          root_ := (pt.walk_page_table vpn false (fun e => { e with valid := false })).2
          num_entries_ := pt.num_entries_ - 1 }
      else pt
  | none => pt

/-- The method `PageTable::clear`. -/
def PageTable.clear (pt : PageTable) : PageTable :=
  { pt with root_ := PageTableNode.make (pt.num_levels_ == 1), num_entries_ := 0 }

/-! ## PhysicalMemory.cpp -/

/-- The bookkeeping record of one physical frame. -/
structure Frame where
  allocated : Bool
  owner_vpn : Nat
  pinned : Bool
deriving DecidableEq

/-- The default constructor `Frame()`. -/
def Frame.empty : Frame where
  allocated := false
  owner_vpn := 0
  pinned := false

/-- The frame allocator with its byte store; `memory_size` is `memory_.size()`
and `free_frames_` the queue of free frames, front first. -/
structure PhysicalMemory where
  config_ : Config
  num_frames_ : Nat
  allocated_frames_ : Nat
  page_faults_ : Nat
  frames_ : Nat → Frame
  memory_size : Nat
  memory_ : Nat → Nat
  free_frames_ : List Nat

/-- The constructor `PhysicalMemory::PhysicalMemory`. -/
def PhysicalMemory.new (config : Config) : PhysicalMemory where
  config_ := config
  num_frames_ := config.num_frames
  allocated_frames_ := 0
  page_faults_ := 0
  frames_ := fun _ => Frame.empty
  memory_size := config.physical_memory_size
  memory_ := fun _ => 0
  free_frames_ := List.range config.num_frames

/-- The loop of `PhysicalMemory::find_victim_frame`, at index `i` with `fuel`
indices left to scan. -/
def find_victim_loop (frames : Nat → Frame) : Nat → Nat → Option Nat
  | 0, _ => none
  | fuel + 1, i =>
      if (frames i).allocated && !(frames i).pinned then some i
      else find_victim_loop frames fuel (i + 1)

/-- The method `PhysicalMemory::find_victim_frame`. -/
def PhysicalMemory.find_victim_frame (pm : PhysicalMemory) : Option Nat :=
  find_victim_loop pm.frames_ pm.num_frames_ 0

/-- The method `PhysicalMemory::allocate_frame`. -/
def PhysicalMemory.allocate_frame (pm : PhysicalMemory) (vpn : Nat) :
    Option Nat × PhysicalMemory :=
  let pm1 := { pm with page_faults_ := pm.page_faults_ + 1 }
  match pm.free_frames_ with
  | pfn :: rest =>
      (some pfn,
        { pm1 with
          free_frames_ := rest
          frames_ := setAt pm.frames_ pfn { pm.frames_ pfn with allocated := true, owner_vpn := vpn }
          allocated_frames_ := pm.allocated_frames_ + 1 })
  | [] => (pm1.find_victim_frame, pm1)

/-- The method `PhysicalMemory::free_frame`. -/
def PhysicalMemory.free_frame (pm : PhysicalMemory) (pfn : Nat) : Except Error PhysicalMemory :=
  if pfn ≥ pm.num_frames_ then Except.error Error.out_of_range
  else if (pm.frames_ pfn).allocated then
    Except.ok
      { pm with
        frames_ := setAt pm.frames_ pfn Frame.empty
        allocated_frames_ := pm.allocated_frames_ - 1
        free_frames_ := pm.free_frames_ ++ [pfn] }
  else Except.ok pm

/-- The method `PhysicalMemory::is_allocated`. -/
def PhysicalMemory.is_allocated (pm : PhysicalMemory) (pfn : Nat) : Bool :=
  if pfn ≥ pm.num_frames_ then false else (pm.frames_ pfn).allocated

/-- The method `PhysicalMemory::pin_frame`. -/
def PhysicalMemory.pin_frame (pm : PhysicalMemory) (pfn : Nat) : Except Error PhysicalMemory :=
  if pfn ≥ pm.num_frames_ then Except.error Error.out_of_range
  else Except.ok { pm with frames_ := setAt pm.frames_ pfn { pm.frames_ pfn with pinned := true } }

/-- The method `PhysicalMemory::unpin_frame`. -/
def PhysicalMemory.unpin_frame (pm : PhysicalMemory) (pfn : Nat) : Except Error PhysicalMemory :=
  if pfn ≥ pm.num_frames_ then Except.error Error.out_of_range
  else Except.ok { pm with frames_ := setAt pm.frames_ pfn { pm.frames_ pfn with pinned := false } }

/-- The method `PhysicalMemory::read_byte`. -/
def PhysicalMemory.read_byte (pm : PhysicalMemory) (addr : Nat) : Except Error Nat :=
  if addr ≥ pm.memory_size then Except.error Error.out_of_range
  else Except.ok (pm.memory_ addr)

/-- The method `PhysicalMemory::write_byte`; the value is a `uint8_t`. -/
def PhysicalMemory.write_byte (pm : PhysicalMemory) (addr value : Nat) :
    Except Error PhysicalMemory :=
  if addr ≥ pm.memory_size then Except.error Error.out_of_range
  else Except.ok { pm with memory_ := setAt pm.memory_ addr (value % 256) }

/-- The method `PhysicalMemory::reset_stats`. -/
def PhysicalMemory.reset_stats (pm : PhysicalMemory) : PhysicalMemory :=
  { pm with page_faults_ := 0 }

/-- The allocator a call of one of the methods above leaves behind: the
returned allocator, or, when the call throws, the allocator it was made on
(each `throw` of `PhysicalMemory.cpp` is the first statement of its method, so
nothing is written before it). -/
def PhysicalMemory.state_after (pm : PhysicalMemory) (r : Except Error PhysicalMemory) :
    PhysicalMemory :=
  match r with
  | Except.ok pm2 => pm2
  | Except.error _ => pm

/-! ## VirtualMemoryManager.cpp -/

/-- The address translator, owner of one cache, one page table and one frame
allocator. -/
structure VirtualMemoryManager where
  config_ : Config
  tlb_ : TLB
  page_table_ : PageTable
  physical_memory_ : PhysicalMemory
  total_accesses_ : Nat
  tlb_hits_ : Nat
  page_table_hits_ : Nat
  page_faults_ : Nat

/-- The constructor `VirtualMemoryManager::VirtualMemoryManager`. -/
def VirtualMemoryManager.new (config : Config) : VirtualMemoryManager where
  config_ := config
  tlb_ := TLB.new config.tlb_size
  page_table_ := PageTable.new config
  physical_memory_ := PhysicalMemory.new config
  total_accesses_ := 0
  tlb_hits_ := 0
  page_table_hits_ := 0
  page_faults_ := 0

/-- The method `extract_page_number`. -/
def VirtualMemoryManager.extract_page_number (s : VirtualMemoryManager) (vaddr : Nat) : Nat :=
  vaddr >>> s.config_.offset_bits

/-- The method `extract_offset`. -/
def VirtualMemoryManager.extract_offset (s : VirtualMemoryManager) (vaddr : Nat) : Nat :=
  let mask := 2 ^ s.config_.offset_bits - 1
  vaddr &&& mask

/-- The expression `(pfn * config_.page_size) + offset` in 64-bit arithmetic. -/
def VirtualMemoryManager.physical_address (s : VirtualMemoryManager) (pfn offset : Nat) : Nat :=
  (pfn * s.config_.page_size + offset) % W64

/-- The method `handle_page_fault`. -/
def VirtualMemoryManager.handle_page_fault (s : VirtualMemoryManager) (vpn : Nat) :
    Bool × VirtualMemoryManager :=
  match s.physical_memory_.allocate_frame vpn with
  | (none, pm) => (false, { s with physical_memory_ := pm })
  | (some pfn, pm) =>
      (true, { s with physical_memory_ := pm, page_table_ := s.page_table_.insert vpn pfn })

/-- The method `VirtualMemoryManager::translate`. -/
def VirtualMemoryManager.translate (s : VirtualMemoryManager) (vaddr : Nat) (write : Bool) :
    Option Nat × VirtualMemoryManager :=
  let vpn := s.extract_page_number vaddr
  let offset := s.extract_offset vaddr
  let s0 := { s with total_accesses_ := s.total_accesses_ + 1 }
  match s.tlb_.lookup vpn with
  | (some pfn, tlb1) =>
      let pt1 := if write then s.page_table_.set_dirty vpn true else s.page_table_
      (some (s.physical_address pfn offset),
        { s0 with
          tlb_ := tlb1
          tlb_hits_ := s.tlb_hits_ + 1
          page_table_ := pt1.set_referenced vpn true })
  | (none, tlb1) =>
      match s.page_table_.translate vpn with
      | (some pfn, pt1) =>
          (some (s.physical_address pfn offset),
            { s0 with
              tlb_ := tlb1.insert vpn pfn
              page_table_hits_ := s.page_table_hits_ + 1
              page_table_ := if write then pt1.set_dirty vpn true else pt1 })
      | (none, pt1) =>
          let s1 := { s0 with tlb_ := tlb1, page_table_ := pt1, page_faults_ := s.page_faults_ + 1 }
          match s1.handle_page_fault vpn with
          | (false, s2) => (none, s2)
          | (true, s2) =>
              match s2.page_table_.translate vpn with
              | (some pfn, pt3) =>
                  (some (s.physical_address pfn offset),
                    { s2 with
                      tlb_ := s2.tlb_.insert vpn pfn
                      page_table_ := if write then pt3.set_dirty vpn true else pt3 })
              | (none, pt3) => (none, { s2 with page_table_ := pt3 })

/-- The call `translate(vaddr, is_write)` has defined behaviour: the
`tlb_->insert` it reaches on the page-table-hit path or after a served fault is
a defined call.  The branches are those of `translate`. -/
def VirtualMemoryManager.translate_defined (s : VirtualMemoryManager) (vaddr : Nat) : Bool :=
  let vpn := s.extract_page_number vaddr
  let s0 := { s with total_accesses_ := s.total_accesses_ + 1 }
  match s.tlb_.lookup vpn with
  | (some _, _) => true
  | (none, tlb1) =>
      match s.page_table_.translate vpn with
      | (some _, _) => tlb1.insert_defined vpn
      | (none, pt1) =>
          let s1 := { s0 with tlb_ := tlb1, page_table_ := pt1, page_faults_ := s.page_faults_ + 1 }
          match s1.handle_page_fault vpn with
          | (false, _) => true
          | (true, s2) =>
              match s2.page_table_.translate vpn with
              | (some _, _) => s2.tlb_.insert_defined vpn
              | (none, _) => true

/-- The method `VirtualMemoryManager::read_byte`. -/
def VirtualMemoryManager.read_byte (s : VirtualMemoryManager) (vaddr : Nat) :
    Except Error Nat × VirtualMemoryManager :=
  match s.translate vaddr false with
  | (none, s1) => (Except.error Error.runtime_error, s1)
  | (some paddr, s1) => (s1.physical_memory_.read_byte paddr, s1)

/-- The method `VirtualMemoryManager::write_byte`. -/
def VirtualMemoryManager.write_byte (s : VirtualMemoryManager) (vaddr value : Nat) :
    Except Error Unit × VirtualMemoryManager :=
  match s.translate vaddr true with
  | (none, s1) => (Except.error Error.runtime_error, s1)
  | (some paddr, s1) =>
      match s1.physical_memory_.write_byte paddr value with
      | Except.ok pm => (Except.ok (), { s1 with physical_memory_ := pm })
      | Except.error e => (Except.error e, s1)

/-- The method `VirtualMemoryManager::allocate_page`. -/
def VirtualMemoryManager.allocate_page (s : VirtualMemoryManager) (vaddr : Nat) :
    Bool × VirtualMemoryManager :=
  let vpn := s.extract_page_number vaddr
  if s.page_table_.is_present vpn then (true, s)
  else s.handle_page_fault vpn

/-- The method `VirtualMemoryManager::free_page`. -/
def VirtualMemoryManager.free_page (s : VirtualMemoryManager) (vaddr : Nat) :
    Except Error Unit × VirtualMemoryManager :=
  let vpn := s.extract_page_number vaddr
  match s.page_table_.get_entry vpn with
  | some entry =>
      if entry.valid then
        let s1 :=
          { s with
            page_table_ := s.page_table_.invalidate vpn
            tlb_ := s.tlb_.invalidate vpn }
        match s.physical_memory_.free_frame entry.frame_number with
        | Except.ok pm => (Except.ok (), { s1 with physical_memory_ := pm })
        | Except.error e => (Except.error e, s1)
      else (Except.ok (), s)
  | none => (Except.ok (), s)

/-- The method `VirtualMemoryManager::reset_statistics`. -/
def VirtualMemoryManager.reset_statistics (s : VirtualMemoryManager) : VirtualMemoryManager :=
  { s with
    total_accesses_ := 0
    tlb_hits_ := 0
    page_table_hits_ := 0
    page_faults_ := 0
    tlb_ := s.tlb_.reset_stats
    physical_memory_ := s.physical_memory_.reset_stats }

/-! ## Runs of the public operations -/

/-- A call of one public operation of the translator. -/
inductive Op where
  | translate (vaddr : Nat) (write : Bool)
  | read_byte (vaddr : Nat)
  | write_byte (vaddr value : Nat)
  | allocate_page (vaddr : Nat)
  | free_page (vaddr : Nat)
  | reset_statistics

/-- The state a call leaves behind (also when it throws). -/
def step (s : VirtualMemoryManager) : Op → VirtualMemoryManager
  | Op.translate vaddr write => (s.translate vaddr write).2
  | Op.read_byte vaddr => (s.read_byte vaddr).2
  | Op.write_byte vaddr value => (s.write_byte vaddr value).2
  | Op.allocate_page vaddr => (s.allocate_page vaddr).2
  | Op.free_page vaddr => (s.free_page vaddr).2
  | Op.reset_statistics => s.reset_statistics

/-- The call has defined behaviour: the three accesses start with a `translate`
call, the other operations never call `tlb_->insert`. -/
def step_defined (s : VirtualMemoryManager) : Op → Bool
  | Op.translate vaddr _ => s.translate_defined vaddr
  | Op.read_byte vaddr => s.translate_defined vaddr
  | Op.write_byte vaddr _ => s.translate_defined vaddr
  | _ => true

/-- The state after a sequence of calls, first call first. -/
def run (s : VirtualMemoryManager) (ops : List Op) : VirtualMemoryManager :=
  ops.foldl step s

/-- States reachable from construction with `config` through calls of the
public operations, each call admitted by `guard` in the state it is made in. -/
inductive ReachableBy (config : Config) (guard : VirtualMemoryManager → Op → Prop) :
    VirtualMemoryManager → Prop where
  | init : ReachableBy config guard (VirtualMemoryManager.new config)
  | next (s : VirtualMemoryManager) (op : Op) :
      ReachableBy config guard s → guard s op → ReachableBy config guard (step s op)

/-- A state reachable from construction with `config` through the public
operations, with no restriction on the calls. -/
def Reachable (config : Config) (s : VirtualMemoryManager) : Prop :=
  ReachableBy config (fun _ _ => True) s

/-- States that calls of the public operations lead to from `start`, each call
admitted by `guard` in the state it is made in. -/
inductive RunsTo (guard : VirtualMemoryManager → Op → Prop) (start : VirtualMemoryManager) :
    VirtualMemoryManager → Prop where
  | refl : RunsTo guard start start
  | next (s : VirtualMemoryManager) (op : Op) :
      RunsTo guard start s → guard s op → RunsTo guard start (step s op)

/-- The virtual address a call names, when it names one. -/
def Op.vaddr : Op → Option Nat
  | Op.translate vaddr _ => some vaddr
  | Op.read_byte vaddr => some vaddr
  | Op.write_byte vaddr _ => some vaddr
  | Op.allocate_page vaddr => some vaddr
  | Op.free_page vaddr => some vaddr
  | Op.reset_statistics => none

/-- The call is a memory access: `translate`, `read_byte` or `write_byte`. -/
def Op.is_access : Op → Bool
  | Op.translate _ _ => true
  | Op.read_byte _ => true
  | Op.write_byte _ _ => true
  | _ => false

/-- The call names no address outside the configured virtual address space. -/
def in_address_space (config : Config) (op : Op) : Prop :=
  ∀ vaddr, op.vaddr = some vaddr → vaddr < 2 ^ config.virtual_address_bits

/-- The call leaves the byte at `vaddr` and the mapping of its page alone as far
as its kind goes: it is neither `free_page` on the page of `vaddr` nor
`write_byte` to `vaddr` itself. -/
def spares (config : Config) (vaddr : Nat) : Op → Prop
  | Op.free_page v => v / 2 ^ config.offset_bits ≠ vaddr / 2 ^ config.offset_bits
  | Op.write_byte v _ => v ≠ vaddr
  | _ => True

/-- The page table of `config` covers the page-number width: the bits consumed
by its levels are at least the address bits above the offset. -/
def Config.covers (config : Config) : Prop :=
  config.virtual_address_bits ≤ config.offset_bits + config.page_table_levels * config.bits_per_level

/-- The shifts of the page table are by less than the word width: the mask
`(1ULL << bits_per_level) - 1` and the largest shift count
`(page_table_levels - 1) * bits_per_level` of `extract_level_index`. -/
def Config.levels_defined (config : Config) : Prop :=
  config.bits_per_level < 64 ∧ (config.page_table_levels - 1) * config.bits_per_level < 64

/-- Every shift the source performs for `config` is by less than the word width:
those by `offset_bits` in `extract_page_number` and `extract_offset`, and those
of the page table. -/
def Config.shifts_defined (config : Config) : Prop :=
  config.offset_bits < 64 ∧ config.levels_defined

/-- The call does not run `allocate_frame` on an empty free list: either the
free list is non-empty, or the allocator's fault counter (which every
`allocate_frame` call increments) is left alone. -/
def from_free_list (s : VirtualMemoryManager) (op : Op) : Prop :=
  match op with
  | Op.reset_statistics => True
  | _ =>
      s.physical_memory_.free_frames_ ≠ [] ∨
        (step s op).physical_memory_.page_faults_ = s.physical_memory_.page_faults_

/-- The caller's `get_physical_memory().pin_frame(pfn)`: the state is left alone
when the allocator throws. -/
def VirtualMemoryManager.pin (s : VirtualMemoryManager) (pfn : Nat) : VirtualMemoryManager :=
  match s.physical_memory_.pin_frame pfn with
  | Except.ok pm => { s with physical_memory_ := pm }
  | Except.error _ => s

/-- The small preset cut down to one frame, after page 0 took the frame and the
frame was pinned. -/
def pinned_one_frame : VirtualMemoryManager :=
  (step (VirtualMemoryManager.new
    { Config.small_config with physical_memory_size := 256, num_frames := 1 })
    (Op.translate 0 false)).pin 0

/-- One write to each of the pages 0 to 63 of the small preset, at addresses
`0, 256, ..., 63 * 256`. -/
def fill_frames : List Op :=
  (List.range 64).map (fun i => Op.write_byte (i * 256) 1)

/-- The small preset after `fill_frames`: every one of its 64 frames is
allocated and the free list is empty. -/
def exhausted_small : VirtualMemoryManager :=
  run (VirtualMemoryManager.new Config.small_config) fill_frames

/-! ## Observations of the page table -/

/-- The entry a page number designates, an absent path reading as a default
constructed entry. -/
def PageTable.entry_at (pt : PageTable) (vpn : Nat) : PageTableEntry :=
  (pt.get_entry vpn).getD PageTableEntry.empty

/-- Two page numbers select the same index at every level, so the walk takes
them to the same leaf slot. -/
def PageTable.same_slot (pt : PageTable) (v w : Nat) : Prop :=
  ∀ level, level < pt.num_levels_ →
    extract_level_index pt.num_levels_ pt.bits_per_level_ v level =
      extract_level_index pt.num_levels_ pt.bits_per_level_ w level

/-- The shape of a subtree with `r` levels left below its parent: a leaf when one
level is left, otherwise an internal node whose children are empty or subtrees
with one level less. -/
def WellShaped : Nat → PageTableNode → Prop
  | 0, _ => True
  | 1, n => ∃ entries, n = PageTableNode.leaf entries
  | r + 2, n =>
      ∃ children, n = PageTableNode.node children ∧
        ∀ i, children i = PageTableNode.null ∨ WellShaped (r + 1) (children i)

/-- The number of page numbers below `2 ^ (levels * bits)` (one per leaf slot)
whose entry is valid and holds frame `pfn`. -/
def PageTable.owners (pt : PageTable) (pfn : Nat) : Nat :=
  ((List.range (2 ^ (pt.num_levels_ * pt.bits_per_level_))).filter
    (fun vpn => (pt.entry_at vpn).valid && decide ((pt.entry_at vpn).frame_number = pfn))).length

/-! ## Invariants -/

/-- Bookkeeping facts about the page table and the allocator of a translator
built from `config`: the copied parameters, the shape of the tree, the free list
holding exactly the unallocated frames of the pool, once each, and every valid
entry naming a frame of the pool. -/
structure Consistent (config : Config) (pt : PageTable) (pm : PhysicalMemory) : Prop where
  levels_eq : pt.num_levels_ = config.page_table_levels
  bits_eq : pt.bits_per_level_ = config.bits_per_level
  frames_eq : pm.num_frames_ = config.num_frames
  memory_eq : pm.memory_size = config.physical_memory_size
  shaped : WellShaped pt.num_levels_ pt.root_
  free_lt : ∀ f, f ∈ pm.free_frames_ → f < pm.num_frames_ ∧ (pm.frames_ f).allocated = false
  free_nodup : pm.free_frames_.Nodup
  free_complete : ∀ f, f < pm.num_frames_ → (pm.frames_ f).allocated = false →
    f ∈ pm.free_frames_
  valid_lt : ∀ vpn, (pt.entry_at vpn).valid = true →
    (pt.entry_at vpn).frame_number < pm.num_frames_

/-- Every cache entry `vpn -> f` has a page number below `2 ^ (levels * bits)`
and a valid page-table entry holding `f`. -/
def Coherent (tlb : TLB) (pt : PageTable) : Prop :=
  ∀ vpn f, tlb.find vpn = some f →
    vpn < 2 ^ (pt.num_levels_ * pt.bits_per_level_) ∧
      (pt.entry_at vpn).valid = true ∧ (pt.entry_at vpn).frame_number = f

/-- Every valid entry holds an allocated frame, and two valid entries holding
the same frame are one leaf slot. -/
def Exclusive (pt : PageTable) (pm : PhysicalMemory) : Prop :=
  (∀ vpn, (pt.entry_at vpn).valid = true →
      (pm.frames_ (pt.entry_at vpn).frame_number).allocated = true) ∧
    ∀ v w, (pt.entry_at v).valid = true → (pt.entry_at w).valid = true →
      (pt.entry_at v).frame_number = (pt.entry_at w).frame_number → pt.same_slot v w

/-! ## Runs of the page-table operations -/

/-- A call of one public operation of the page table. -/
inductive PtOp where
  | translate (vpn : Nat)
  | insert (vpn pfn : Nat)
  | is_present (vpn : Nat)
  | get_entry (vpn : Nat)
  | set_dirty (vpn : Nat) (dirty : Bool)
  | set_referenced (vpn : Nat) (referenced : Bool)
  | invalidate (vpn : Nat)
  | clear

/-- The page table a call leaves behind; `is_present` and `get_entry` only read
it. -/
def PageTable.step (pt : PageTable) : PtOp → PageTable
  | PtOp.translate vpn => (pt.translate vpn).2
  | PtOp.insert vpn pfn => pt.insert vpn pfn
  | PtOp.is_present _ => pt
  | PtOp.get_entry _ => pt
  | PtOp.set_dirty vpn dirty => pt.set_dirty vpn dirty
  | PtOp.set_referenced vpn referenced => pt.set_referenced vpn referenced
  | PtOp.invalidate vpn => pt.invalidate vpn
  | PtOp.clear => pt.clear

/-- The page table after a sequence of calls, first call first. -/
def PageTable.run (pt : PageTable) (ops : List PtOp) : PageTable :=
  ops.foldl PageTable.step pt

/-- The page number a call names; `clear` names none. -/
def PtOp.vpn : PtOp → Option Nat
  | PtOp.translate vpn => some vpn
  | PtOp.insert vpn _ => some vpn
  | PtOp.is_present vpn => some vpn
  | PtOp.get_entry vpn => some vpn
  | PtOp.set_dirty vpn _ => some vpn
  | PtOp.set_referenced vpn _ => some vpn
  | PtOp.invalidate vpn => some vpn
  | PtOp.clear => none

/-- The number of leaf slots holding a valid entry; the page numbers below
`2 ^ (levels * bits)` name each slot once. -/
def PageTable.valid_count (pt : PageTable) : Nat :=
  ((List.range (2 ^ (pt.num_levels_ * pt.bits_per_level_))).filter
    (fun vpn => (pt.entry_at vpn).valid)).length

/-- The number of valid entries in the leaves of a subtree; a leaf has
`2 ^ B` entries and an internal node `2 ^ B` child pointers. -/
def PageTableNode.count_valid (B : Nat) : PageTableNode → Nat
  | PageTableNode.null => 0
  | PageTableNode.leaf entries =>
      ((List.range (2 ^ B)).filter (fun i => (entries i).valid)).length
  | PageTableNode.node children =>
      ((List.range (2 ^ B)).map (fun i => (children i).count_valid B)).sum

/-! ## Runs of the cache operations -/

/-- A call of one public operation of the cache. -/
inductive TlbOp where
  | lookup (vpn : Nat)
  | insert (vpn pfn : Nat)
  | invalidate (vpn : Nat)
  | clear

/-- The cache a call leaves behind. -/
def TLB.step (t : TLB) : TlbOp → TLB
  | TlbOp.lookup vpn => (t.lookup vpn).2
  | TlbOp.insert vpn pfn => t.insert vpn pfn
  | TlbOp.invalidate vpn => t.invalidate vpn
  | TlbOp.clear => t.clear

/-- The cache after a sequence of calls, first call first. -/
def TLB.run (t : TLB) (ops : List TlbOp) : TLB :=
  ops.foldl TLB.step t

/-- The call on cache `t` has defined behaviour; only `insert` can fail to. -/
def TLB.step_defined (t : TLB) : TlbOp → Bool
  | TlbOp.insert vpn _ => t.insert_defined vpn
  | _ => true

/-- Every call of the sequence has defined behaviour in the cache the calls
before it leave. -/
def TLB.run_defined (t : TLB) : List TlbOp → Bool
  | [] => true
  | op :: ops => t.step_defined op && (t.step op).run_defined ops

/-- The page number a call on cache `t` touches: the key of an `insert`, and the
key of a `lookup` that hits. -/
def TlbOp.touched (t : TLB) : TlbOp → Option Nat
  | TlbOp.insert vpn _ => some vpn
  | TlbOp.lookup vpn => if (t.find vpn).isSome then some vpn else none
  | TlbOp.invalidate _ => none
  | TlbOp.clear => none

/-- A cache together with the record of touches: `clock` counts the calls made
so far and `last_touch vpn` is the number of the most recent call that touched
`vpn` (0 when none did). -/
structure Recency where
  tlb : TLB
  clock : Nat
  last_touch : Nat → Nat

/-- One call on the cache, recorded. -/
def Recency.step (r : Recency) (op : TlbOp) : Recency where
  tlb := r.tlb.step op
  clock := r.clock + 1
  last_touch :=
    match op.touched r.tlb with
    | some vpn => setAt r.last_touch vpn (r.clock + 1)
    | none => r.last_touch

/-- The record after a sequence of calls on the empty cache of the given
capacity, first call first. -/
def Recency.run (capacity : Nat) (ops : List TlbOp) : Recency :=
  ops.foldl Recency.step { tlb := TLB.new capacity, clock := 0, last_touch := fun _ => 0 }

/-- The frame of the most recent `insert` of `vpn` among the calls `ops` (first
call first), if there is one. -/
def last_inserted (vpn : Nat) (ops : List TlbOp) : Option Nat :=
  ops.foldl
    (fun acc op =>
      match op with
      | TlbOp.insert v pfn => if v = vpn then some pfn else acc
      | _ => acc)
    none

/-! ## Invariants of the cache -/

/-- The page numbers held by the cache map. -/
def TLB.keys (t : TLB) : List Nat :=
  t.cache_.map Prod.fst

/-- The map holds each page number once, and the recency list holds the page
numbers of the map, each once. -/
def TLB.Linked (t : TLB) : Prop :=
  t.keys.Nodup ∧ t.lru_list_.Perm t.keys

/-- The recency list is in the order of the recorded touches, latest first, and
no touch is later than the clock. -/
def Recency.Ordered (r : Recency) : Prop :=
  r.tlb.lru_list_.Pairwise (fun a b => r.last_touch b < r.last_touch a) ∧
    ∀ v, r.last_touch v ≤ r.clock

/-! ## The walk of the page table -/

theorem setAt_same {α : Type} (f : Nat → α) (i : Nat) (v : α) : setAt f i v i = v := by
  simp [setAt]

theorem setAt_other {α : Type} (f : Nat → α) (i j : Nat) (v : α) (h : j ≠ i) :
    setAt f i v j = f j := by
  simp [setAt, h]

theorem walk_loop_zero (L B vpn : Nat) (create : Bool) (upd : PageTableEntry → PageTableEntry)
    (level : Nat) (n : PageTableNode) :
    walk_loop L B vpn create upd 0 level n = (none, n) := by
  simp [walk_loop]

theorem walk_loop_null (L B vpn : Nat) (create : Bool) (upd : PageTableEntry → PageTableEntry)
    (fuel level : Nat) :
    walk_loop L B vpn create upd fuel level PageTableNode.null = (none, PageTableNode.null) := by
  cases fuel <;> simp [walk_loop]

theorem walk_loop_leaf (L B vpn : Nat) (create : Bool) (upd : PageTableEntry → PageTableEntry)
    (fuel level : Nat) (es : Nat → PageTableEntry) :
    walk_loop L B vpn create upd (fuel + 1) level (PageTableNode.leaf es) =
      (some (es (extract_level_index L B vpn level)),
        PageTableNode.leaf (setAt es (extract_level_index L B vpn level)
          (upd (es (extract_level_index L B vpn level))))) := by
  simp [walk_loop]

theorem walk_loop_node_null (L B vpn : Nat) (create : Bool) (upd : PageTableEntry → PageTableEntry)
    (fuel level : Nat) (cs : Nat → PageTableNode)
    (h : cs (extract_level_index L B vpn level) = PageTableNode.null) :
    walk_loop L B vpn create upd (fuel + 1) level (PageTableNode.node cs) =
      if create then
        ((walk_loop L B vpn create upd fuel (level + 1)
            (PageTableNode.make (decide (level + 2 = L)))).1,
          PageTableNode.node (setAt cs (extract_level_index L B vpn level)
            (walk_loop L B vpn create upd fuel (level + 1)
              (PageTableNode.make (decide (level + 2 = L)))).2))
      else (none, PageTableNode.node cs) := by
  simp [walk_loop, h]

theorem walk_loop_node_child (L B vpn : Nat) (create : Bool) (upd : PageTableEntry → PageTableEntry)
    (fuel level : Nat) (cs : Nat → PageTableNode)
    (h : cs (extract_level_index L B vpn level) ≠ PageTableNode.null) :
    walk_loop L B vpn create upd (fuel + 1) level (PageTableNode.node cs) =
      ((walk_loop L B vpn create upd fuel (level + 1) (cs (extract_level_index L B vpn level))).1,
        PageTableNode.node (setAt cs (extract_level_index L B vpn level)
          (walk_loop L B vpn create upd fuel (level + 1)
            (cs (extract_level_index L B vpn level))).2)) := by
  cases hc : cs (extract_level_index L B vpn level) with
  | null => exact absurd hc h
  | leaf es => simp [walk_loop, hc]
  | node cs2 => simp [walk_loop, hc]

theorem walk_loop_snd_ne_null (L B vpn : Nat) (create : Bool)
    (upd : PageTableEntry → PageTableEntry) (fuel level : Nat) (n : PageTableNode)
    (h : n ≠ PageTableNode.null) :
    (walk_loop L B vpn create upd fuel level n).2 ≠ PageTableNode.null := by
  cases fuel with
  | zero => simpa [walk_loop] using h
  | succ fuel =>
    cases n with
    | null => exact absurd rfl h
    | leaf es => simp [walk_loop_leaf]
    | node cs =>
      by_cases hc : cs (extract_level_index L B vpn level) = PageTableNode.null
      · rw [walk_loop_node_null _ _ _ _ _ _ _ _ hc]
        cases create <;> simp
      · rw [walk_loop_node_child _ _ _ _ _ _ _ _ hc]
        simp

theorem make_ne_null (b : Bool) : PageTableNode.make b ≠ PageTableNode.null := by
  cases b <;> simp [PageTableNode.make]

/-- The entry reached does not depend on what the caller writes to it. -/
theorem walk_loop_fst_upd (L B vpn : Nat) (create : Bool)
    (upd : PageTableEntry → PageTableEntry) (fuel : Nat) :
    ∀ (level : Nat) (n : PageTableNode),
      (walk_loop L B vpn create upd fuel level n).1 =
        (walk_loop L B vpn create id fuel level n).1 := by
  induction fuel with
  | zero => intro level n; simp [walk_loop]
  | succ fuel ih =>
    intro level n
    cases n with
    | null => simp [walk_loop_null]
    | leaf es => simp [walk_loop_leaf]
    | node cs =>
      by_cases hc : cs (extract_level_index L B vpn level) = PageTableNode.null
      · rw [walk_loop_node_null _ _ _ _ _ _ _ _ hc, walk_loop_node_null _ _ _ _ _ _ _ _ hc]
        cases create
        · simp
        · simpa using ih _ _
      · rw [walk_loop_node_child _ _ _ _ _ _ _ _ hc, walk_loop_node_child _ _ _ _ _ _ _ _ hc]
        simpa using ih _ _

/-- Looking a page number up after a walk that agrees with it on every level
left finds the entry the walk reached, as the caller left it. -/
theorem walk_loop_lookup_same (L B vpn w : Nat) (create : Bool)
    (upd : PageTableEntry → PageTableEntry) (fuel : Nat) :
    ∀ (level : Nat) (n : PageTableNode),
      (∀ k, level ≤ k → k < level + fuel →
        extract_level_index L B w k = extract_level_index L B vpn k) →
      (walk_loop L B w false id fuel level (walk_loop L B vpn create upd fuel level n).2).1 =
        (walk_loop L B vpn create upd fuel level n).1.map upd := by
  induction fuel with
  | zero => intro level n _; simp [walk_loop]
  | succ fuel ih =>
    intro level n hk
    have h0 : extract_level_index L B w level = extract_level_index L B vpn level :=
      hk level (Nat.le_refl _) (by omega)
    have hk' : ∀ k, level + 1 ≤ k → k < level + 1 + fuel →
        extract_level_index L B w k = extract_level_index L B vpn k :=
      fun k h1 h2 => hk k (by omega) (by omega)
    cases n with
    | null => simp [walk_loop_null]
    | leaf es => simp [walk_loop_leaf, h0, setAt_same]
    | node cs =>
      by_cases hc : cs (extract_level_index L B vpn level) = PageTableNode.null
      · rw [walk_loop_node_null _ _ _ _ _ _ _ _ hc]
        cases create
        · simp only [Bool.false_eq_true, if_false]
          rw [walk_loop_node_null _ _ _ _ _ _ _ _ (by rw [h0]; exact hc)]
          simp
        · simp only [if_true]
          have hne := walk_loop_snd_ne_null L B vpn true upd fuel (level + 1)
            (PageTableNode.make (decide (level + 2 = L))) (make_ne_null _)
          rw [walk_loop_node_child _ _ _ _ _ _ _ _ (by rw [h0, setAt_same]; exact hne)]
          simp only [h0, setAt_same]
          exact ih _ _ hk'
      · rw [walk_loop_node_child _ _ _ _ _ _ _ _ hc]
        have hne := walk_loop_snd_ne_null L B vpn create upd fuel (level + 1)
            (cs (extract_level_index L B vpn level)) hc
        rw [walk_loop_node_child _ _ _ _ _ _ _ _ (by rw [h0, setAt_same]; exact hne)]
        simp only [h0, setAt_same]
        exact ih _ _ hk'

theorem wellShaped_make (r level L : Nat) (h : r + 1 + level = L) (hr : 1 ≤ r) :
    WellShaped r (PageTableNode.make (decide (level + 2 = L))) := by
  cases r with
  | zero => omega
  | succ r =>
    cases r with
    | zero =>
      have : level + 2 = L := by omega
      simp [PageTableNode.make, this, WellShaped]
    | succ r =>
      have : ¬ level + 2 = L := by omega
      simp [PageTableNode.make, this, WellShaped]

theorem lookup_make (L B w : Nat) (fuel level : Nat) (b : Bool) :
    ((walk_loop L B w false id fuel level (PageTableNode.make b)).1).getD PageTableEntry.empty =
      PageTableEntry.empty := by
  cases fuel with
  | zero => simp [walk_loop]
  | succ fuel =>
    cases b
    · simp only [PageTableNode.make, Bool.false_eq_true, if_false]
      rw [walk_loop_node_null _ _ _ _ _ _ _ _ rfl]
      simp
    · simp [PageTableNode.make, walk_loop_leaf]

/-- The walk keeps the shape of the tree. -/
theorem walk_loop_wellShaped (L B vpn : Nat) (create : Bool)
    (upd : PageTableEntry → PageTableEntry) (fuel : Nat) :
    ∀ (level : Nat) (n : PageTableNode), fuel + level = L → WellShaped fuel n →
      WellShaped fuel (walk_loop L B vpn create upd fuel level n).2 := by
  induction fuel with
  | zero => intro level n _ _; simp [WellShaped]
  | succ fuel ih =>
    intro level n hL hn
    cases fuel with
    | zero =>
      obtain ⟨es, rfl⟩ := hn
      simp [walk_loop_leaf, WellShaped]
    | succ r =>
      obtain ⟨cs, rfl, hcs⟩ := hn
      by_cases hc : cs (extract_level_index L B vpn level) = PageTableNode.null
      · rw [walk_loop_node_null _ _ _ _ _ _ _ _ hc]
        cases create
        · simp only [Bool.false_eq_true, if_false]
          exact ⟨cs, rfl, hcs⟩
        · simp only [if_true]
          refine ⟨_, rfl, fun i => ?_⟩
          by_cases hi : i = extract_level_index L B vpn level
          · right
            rw [hi, setAt_same]
            exact ih _ _ (by omega) (wellShaped_make (r + 1) level L (by omega) (by omega))
          · rw [setAt_other _ _ _ _ hi]
            exact hcs i
      · rw [walk_loop_node_child _ _ _ _ _ _ _ _ hc]
        refine ⟨_, rfl, fun i => ?_⟩
        by_cases hi : i = extract_level_index L B vpn level
        · right
          rw [hi, setAt_same]
          refine ih _ _ (by omega) ?_
          rcases hcs (extract_level_index L B vpn level) with h | h
          · exact absurd h hc
          · exact h
        · rw [setAt_other _ _ _ _ hi]
          exact hcs i

/-- With node creation on, the walk of a well-shaped tree with a level left
always reaches an entry: the one a lookup finds, or a fresh default one. -/
theorem walk_loop_create (L B vpn : Nat) (upd : PageTableEntry → PageTableEntry) (fuel : Nat) :
    ∀ (level : Nat) (n : PageTableNode), fuel + level = L → 1 ≤ fuel → WellShaped fuel n →
      (walk_loop L B vpn true upd fuel level n).1 =
        some (((walk_loop L B vpn false id fuel level n).1).getD PageTableEntry.empty) := by
  induction fuel with
  | zero => intro level n _ h _; omega
  | succ fuel ih =>
    intro level n hL _ hn
    cases fuel with
    | zero =>
      obtain ⟨es, rfl⟩ := hn
      simp [walk_loop_leaf]
    | succ r =>
      obtain ⟨cs, rfl, hcs⟩ := hn
      by_cases hc : cs (extract_level_index L B vpn level) = PageTableNode.null
      · rw [walk_loop_node_null _ _ _ _ _ _ _ _ hc, walk_loop_node_null _ _ _ _ _ _ _ _ hc]
        simp only [if_true, Bool.false_eq_true, if_false, Option.getD_none]
        rw [ih _ _ (by omega) (by omega) (wellShaped_make (r + 1) level L (by omega) (by omega))]
        rw [lookup_make]
      · rw [walk_loop_node_child _ _ _ _ _ _ _ _ hc, walk_loop_node_child _ _ _ _ _ _ _ _ hc]
        simp only
        refine ih _ _ (by omega) (by omega) ?_
        rcases hcs (extract_level_index L B vpn level) with h | h
        · exact absurd h hc
        · exact h

/-- A walk leaves the entries of page numbers that part from it at some level as
they were (an absent path and a default entry read alike). -/
theorem walk_loop_lookup_other (L B vpn w : Nat) (create : Bool)
    (upd : PageTableEntry → PageTableEntry) (fuel : Nat) :
    ∀ (level : Nat) (n : PageTableNode), fuel + level = L → WellShaped fuel n →
      (∃ k, level ≤ k ∧ k < level + fuel ∧
        extract_level_index L B w k ≠ extract_level_index L B vpn k) →
      ((walk_loop L B w false id fuel level
          (walk_loop L B vpn create upd fuel level n).2).1).getD PageTableEntry.empty =
        ((walk_loop L B w false id fuel level n).1).getD PageTableEntry.empty := by
  induction fuel with
  | zero => intro level n _ _ _; simp [walk_loop]
  | succ fuel ih =>
    intro level n hL hn hk
    cases fuel with
    | zero =>
      obtain ⟨es, rfl⟩ := hn
      obtain ⟨k, h1, h2, h3⟩ := hk
      have : k = level := by omega
      subst this
      simp [walk_loop_leaf, setAt_other _ _ _ _ h3]
    | succ r =>
      obtain ⟨cs, rfl, hcs⟩ := hn
      by_cases h0 : extract_level_index L B w level = extract_level_index L B vpn level
      · have hk' : ∃ k, level + 1 ≤ k ∧ k < level + 1 + (r + 1) ∧
            extract_level_index L B w k ≠ extract_level_index L B vpn k := by
          obtain ⟨k, h1, h2, h3⟩ := hk
          refine ⟨k, ?_, by omega, h3⟩
          rcases Nat.eq_or_lt_of_le h1 with h | h
          · subst h; exact absurd h0 h3
          · omega
        by_cases hc : cs (extract_level_index L B vpn level) = PageTableNode.null
        · rw [walk_loop_node_null _ _ _ _ _ _ _ _ hc]
          cases create
          · simp
          · simp only [if_true]
            have hne := walk_loop_snd_ne_null L B vpn true upd (r + 1) (level + 1)
              (PageTableNode.make (decide (level + 2 = L))) (make_ne_null _)
            rw [walk_loop_node_child _ _ _ _ _ _ _ _ (by rw [h0, setAt_same]; exact hne)]
            rw [walk_loop_node_null L B w false id _ _ _ (by rw [h0]; exact hc)]
            simp only [h0, setAt_same, Bool.false_eq_true, if_false, Option.getD_none]
            rw [ih _ _ (by omega) (wellShaped_make (r + 1) level L (by omega) (by omega)) hk']
            exact lookup_make _ _ _ _ _ _
        · rw [walk_loop_node_child _ _ _ _ _ _ _ _ hc]
          have hne := walk_loop_snd_ne_null L B vpn create upd (r + 1) (level + 1)
              (cs (extract_level_index L B vpn level)) hc
          rw [walk_loop_node_child _ _ _ _ _ _ _ _ (by rw [h0, setAt_same]; exact hne)]
          rw [walk_loop_node_child L B w false id _ _ _ (by rw [h0]; exact hc)]
          simp only [h0, setAt_same]
          refine ih _ _ (by omega) ?_ hk'
          rcases hcs (extract_level_index L B vpn level) with h | h
          · exact absurd h hc
          · exact h
      · -- the two part at this level: the child that `w` selects is untouched
        have key : ∀ cs2 : PageTableNode,
            (walk_loop L B w false id (r + 1 + 1) level
              (PageTableNode.node (setAt cs (extract_level_index L B vpn level) cs2))).1 =
            (walk_loop L B w false id (r + 1 + 1) level (PageTableNode.node cs)).1 := by
          intro cs2
          by_cases hw : cs (extract_level_index L B w level) = PageTableNode.null
          · rw [walk_loop_node_null _ _ _ _ _ _ _ _ hw,
              walk_loop_node_null _ _ _ _ _ _ _ _ (by rw [setAt_other _ _ _ _ h0]; exact hw)]
            simp
          · rw [walk_loop_node_child _ _ _ _ _ _ _ _ hw,
              walk_loop_node_child _ _ _ _ _ _ _ _ (by rw [setAt_other _ _ _ _ h0]; exact hw)]
            simp [setAt_other _ _ _ _ h0]
        by_cases hc : cs (extract_level_index L B vpn level) = PageTableNode.null
        · rw [walk_loop_node_null _ _ _ _ _ _ _ _ hc]
          cases create
          · simp
          · simp only [if_true]
            rw [key]
        · rw [walk_loop_node_child _ _ _ _ _ _ _ _ hc]
          simp only
          rw [key]

theorem setAt_self {α : Type} (f : Nat → α) (i : Nat) : setAt f i (f i) = f := by
  funext j
  by_cases h : j = i
  · subst h; simp [setAt]
  · simp [setAt, h]

/-- A lookup (no creation, nothing written) leaves the tree as it is. -/
theorem walk_loop_lookup_snd (L B vpn : Nat) (fuel : Nat) :
    ∀ (level : Nat) (n : PageTableNode), (walk_loop L B vpn false id fuel level n).2 = n := by
  induction fuel with
  | zero => intro level n; simp [walk_loop]
  | succ fuel ih =>
    intro level n
    cases n with
    | null => simp [walk_loop_null]
    | leaf es => simp [walk_loop_leaf, setAt_self]
    | node cs =>
      by_cases hc : cs (extract_level_index L B vpn level) = PageTableNode.null
      · rw [walk_loop_node_null _ _ _ _ _ _ _ _ hc]; simp
      · rw [walk_loop_node_child _ _ _ _ _ _ _ _ hc]
        simp [ih, setAt_self]

theorem get_entry_same_slot (pt : PageTable) (v w : Nat) (h : pt.same_slot v w) :
    pt.get_entry v = pt.get_entry w := by
  have := walk_loop_lookup_same pt.num_levels_ pt.bits_per_level_ w v false id pt.num_levels_ 0
    pt.root_ (fun k _ hk => h k (by omega))
  rw [walk_loop_lookup_snd] at this
  simpa [PageTable.get_entry, PageTable.walk_page_table] using this

theorem entry_at_same_slot (pt : PageTable) (v w : Nat) (h : pt.same_slot v w) :
    pt.entry_at v = pt.entry_at w := by
  simp [PageTable.entry_at, get_entry_same_slot pt v w h]

theorem same_slot_refl (pt : PageTable) (v : Nat) : pt.same_slot v v := fun _ _ => rfl

theorem same_slot_symm (pt : PageTable) (v w : Nat) (h : pt.same_slot v w) : pt.same_slot w v :=
  fun k hk => (h k hk).symm

theorem same_slot_trans (pt : PageTable) (u v w : Nat) (h1 : pt.same_slot u v)
    (h2 : pt.same_slot v w) : pt.same_slot u w :=
  fun k hk => (h1 k hk).trans (h2 k hk)

theorem same_slot_params (pt pt2 : PageTable) (hL : pt2.num_levels_ = pt.num_levels_)
    (hB : pt2.bits_per_level_ = pt.bits_per_level_) (v w : Nat) :
    pt2.same_slot v w ↔ pt.same_slot v w := by
  simp [PageTable.same_slot, hL, hB]

theorem walk_fst_eq_get_entry (pt : PageTable) (vpn : Nat)
    (upd : PageTableEntry → PageTableEntry) :
    (pt.walk_page_table vpn false upd).1 = pt.get_entry vpn := by
  simp only [PageTable.walk_page_table, PageTable.get_entry]
  exact walk_loop_fst_upd _ _ _ _ _ _ _ _

/-- The entry of a page number in the slot a walk wrote to. -/
theorem get_entry_written (pt pt2 : PageTable) (vpn w : Nat) (create : Bool)
    (upd : PageTableEntry → PageTableEntry)
    (hL : pt2.num_levels_ = pt.num_levels_) (hB : pt2.bits_per_level_ = pt.bits_per_level_)
    (hroot : pt2.root_ = (pt.walk_page_table vpn create upd).2)
    (hs : pt.same_slot w vpn) :
    pt2.get_entry w = (pt.walk_page_table vpn create upd).1.map upd := by
  simp only [PageTable.get_entry, PageTable.walk_page_table, hL, hB, hroot]
  exact walk_loop_lookup_same _ _ _ _ _ _ _ _ _ (fun k _ hk => hs k (by omega))

/-- The entry of a page number outside the slot a walk wrote to. -/
theorem entry_at_unwritten (pt pt2 : PageTable) (vpn w : Nat) (create : Bool)
    (upd : PageTableEntry → PageTableEntry)
    (hL : pt2.num_levels_ = pt.num_levels_) (hB : pt2.bits_per_level_ = pt.bits_per_level_)
    (hroot : pt2.root_ = (pt.walk_page_table vpn create upd).2)
    (hwf : WellShaped pt.num_levels_ pt.root_)
    (hs : ¬ pt.same_slot w vpn) :
    pt2.entry_at w = pt.entry_at w := by
  simp only [PageTable.entry_at, PageTable.get_entry, PageTable.walk_page_table, hL, hB, hroot]
  refine walk_loop_lookup_other _ _ _ _ _ _ _ _ _ (by omega) hwf ?_
  simp only [PageTable.same_slot, not_forall] at hs
  obtain ⟨k, hk, hne⟩ := hs
  exact ⟨k, by omega, by omega, hne⟩

theorem wellShaped_written (pt pt2 : PageTable) (vpn : Nat) (create : Bool)
    (upd : PageTableEntry → PageTableEntry)
    (hL : pt2.num_levels_ = pt.num_levels_)
    (hroot : pt2.root_ = (pt.walk_page_table vpn create upd).2)
    (hwf : WellShaped pt.num_levels_ pt.root_) :
    WellShaped pt2.num_levels_ pt2.root_ := by
  rw [hL, hroot]
  exact walk_loop_wellShaped _ _ _ _ _ _ _ _ (by omega) hwf

theorem entry_at_valid_iff (pt : PageTable) (vpn : Nat) :
    (pt.entry_at vpn).valid = true ↔ ∃ e, pt.get_entry vpn = some e ∧ e.valid = true := by
  unfold PageTable.entry_at
  cases h : pt.get_entry vpn with
  | none => simp [PageTableEntry.empty]
  | some e => simp

theorem entry_at_of_get_entry (pt : PageTable) (vpn : Nat) (e : PageTableEntry)
    (h : pt.get_entry vpn = some e) : pt.entry_at vpn = e := by
  simp [PageTable.entry_at, h]

/-! ## Page-table operations -/

/-- Writing flags through a lookup changes neither validity nor frame of any
page number. -/
theorem flag_update (pt pt2 : PageTable) (vpn : Nat) (upd : PageTableEntry → PageTableEntry)
    (hL : pt2.num_levels_ = pt.num_levels_) (hB : pt2.bits_per_level_ = pt.bits_per_level_)
    (hroot : pt2.root_ = (pt.walk_page_table vpn false upd).2)
    (hwf : WellShaped pt.num_levels_ pt.root_)
    (hupd : ∀ e, (upd e).valid = e.valid ∧ (upd e).frame_number = e.frame_number) (w : Nat) :
    (pt2.entry_at w).valid = (pt.entry_at w).valid ∧
      (pt2.entry_at w).frame_number = (pt.entry_at w).frame_number := by
  by_cases hs : pt.same_slot w vpn
  · have h1 := get_entry_written pt pt2 vpn w false upd hL hB hroot hs
    rw [walk_fst_eq_get_entry, ← get_entry_same_slot pt w vpn hs] at h1
    unfold PageTable.entry_at
    rw [h1]
    cases pt.get_entry w with
    | none => simp
    | some e => simpa using hupd e
  · rw [entry_at_unwritten pt pt2 vpn w false upd hL hB hroot hwf hs]
    exact ⟨rfl, rfl⟩

theorem translate_fst (pt : PageTable) (vpn : Nat) :
    (pt.translate vpn).1 =
      if (pt.entry_at vpn).valid then some (pt.entry_at vpn).frame_number else none := by
  unfold PageTable.translate PageTable.entry_at
  cases pt.get_entry vpn with
  | none => simp [PageTableEntry.empty]
  | some e => cases h : e.valid <;> simp [h]

theorem translate_snd_none (pt : PageTable) (vpn : Nat) (h : (pt.translate vpn).1 = none) :
    (pt.translate vpn).2 = pt := by
  unfold PageTable.translate at h ⊢
  cases hg : pt.get_entry vpn with
  | none => simp
  | some e =>
    cases hv : e.valid
    · simp [hv]
    · simp [hg, hv] at h

theorem translate_snd_params (pt : PageTable) (vpn : Nat) :
    (pt.translate vpn).2.num_levels_ = pt.num_levels_ ∧
    (pt.translate vpn).2.bits_per_level_ = pt.bits_per_level_ ∧
    (pt.translate vpn).2.num_entries_ = pt.num_entries_ := by
  unfold PageTable.translate
  cases pt.get_entry vpn with
  | none => simp
  | some e => cases hv : e.valid <;> simp [hv]

theorem translate_snd_root (pt : PageTable) (vpn : Nat) :
    (pt.translate vpn).2.root_ =
      (pt.walk_page_table vpn false
        (fun e => if (pt.entry_at vpn).valid then { e with referenced := true } else e)).2 := by
  unfold PageTable.translate PageTable.entry_at
  cases hg : pt.get_entry vpn with
  | none =>
    simp only [Option.getD_none, PageTableEntry.empty, Bool.false_eq_true, if_false]
    exact (walk_loop_lookup_snd _ _ _ _ _ _).symm
  | some e =>
    cases hv : e.valid
    · simp only [Option.getD_some, hv, Bool.false_eq_true, if_false]
      exact (walk_loop_lookup_snd _ _ _ _ _ _).symm
    · simp [hv]

theorem translate_snd_fields (pt : PageTable) (vpn : Nat)
    (hwf : WellShaped pt.num_levels_ pt.root_) (w : Nat) :
    ((pt.translate vpn).2.entry_at w).valid = (pt.entry_at w).valid ∧
      ((pt.translate vpn).2.entry_at w).frame_number = (pt.entry_at w).frame_number := by
  refine flag_update pt _ vpn _ (translate_snd_params pt vpn).1 (translate_snd_params pt vpn).2.1
    (translate_snd_root pt vpn) hwf ?_ w
  intro e
  split <;> simp

theorem translate_snd_wellShaped (pt : PageTable) (vpn : Nat)
    (hwf : WellShaped pt.num_levels_ pt.root_) :
    WellShaped (pt.translate vpn).2.num_levels_ (pt.translate vpn).2.root_ :=
  wellShaped_written pt _ vpn false _ (translate_snd_params pt vpn).1 (translate_snd_root pt vpn) hwf

theorem set_dirty_params (pt : PageTable) (vpn : Nat) (d : Bool) :
    (pt.set_dirty vpn d).num_levels_ = pt.num_levels_ ∧
    (pt.set_dirty vpn d).bits_per_level_ = pt.bits_per_level_ ∧
    (pt.set_dirty vpn d).num_entries_ = pt.num_entries_ := by
  unfold PageTable.set_dirty
  cases pt.get_entry vpn with
  | none => simp
  | some e => cases hv : e.valid <;> simp [hv]

theorem set_dirty_root (pt : PageTable) (vpn : Nat) (d : Bool) :
    (pt.set_dirty vpn d).root_ =
      (pt.walk_page_table vpn false
        (fun e => if (pt.entry_at vpn).valid then { e with dirty := d } else e)).2 := by
  unfold PageTable.set_dirty PageTable.entry_at
  cases hg : pt.get_entry vpn with
  | none =>
    simp only [Option.getD_none, PageTableEntry.empty, Bool.false_eq_true, if_false]
    exact (walk_loop_lookup_snd _ _ _ _ _ _).symm
  | some e =>
    cases hv : e.valid
    · simp only [Option.getD_some, hv, Bool.false_eq_true, if_false]
      exact (walk_loop_lookup_snd _ _ _ _ _ _).symm
    · simp [hv]

theorem set_dirty_fields (pt : PageTable) (vpn : Nat) (d : Bool)
    (hwf : WellShaped pt.num_levels_ pt.root_) (w : Nat) :
    ((pt.set_dirty vpn d).entry_at w).valid = (pt.entry_at w).valid ∧
      ((pt.set_dirty vpn d).entry_at w).frame_number = (pt.entry_at w).frame_number := by
  refine flag_update pt _ vpn _ (set_dirty_params pt vpn d).1 (set_dirty_params pt vpn d).2.1
    (set_dirty_root pt vpn d) hwf ?_ w
  intro e
  split <;> simp

theorem set_dirty_wellShaped (pt : PageTable) (vpn : Nat) (d : Bool)
    (hwf : WellShaped pt.num_levels_ pt.root_) :
    WellShaped (pt.set_dirty vpn d).num_levels_ (pt.set_dirty vpn d).root_ :=
  wellShaped_written pt _ vpn false _ (set_dirty_params pt vpn d).1 (set_dirty_root pt vpn d) hwf

theorem set_referenced_params (pt : PageTable) (vpn : Nat) (d : Bool) :
    (pt.set_referenced vpn d).num_levels_ = pt.num_levels_ ∧
    (pt.set_referenced vpn d).bits_per_level_ = pt.bits_per_level_ ∧
    (pt.set_referenced vpn d).num_entries_ = pt.num_entries_ := by
  unfold PageTable.set_referenced
  cases pt.get_entry vpn with
  | none => simp
  | some e => cases hv : e.valid <;> simp [hv]

theorem set_referenced_root (pt : PageTable) (vpn : Nat) (d : Bool) :
    (pt.set_referenced vpn d).root_ =
      (pt.walk_page_table vpn false
        (fun e => if (pt.entry_at vpn).valid then { e with referenced := d } else e)).2 := by
  unfold PageTable.set_referenced PageTable.entry_at
  cases hg : pt.get_entry vpn with
  | none =>
    simp only [Option.getD_none, PageTableEntry.empty, Bool.false_eq_true, if_false]
    exact (walk_loop_lookup_snd _ _ _ _ _ _).symm
  | some e =>
    cases hv : e.valid
    · simp only [Option.getD_some, hv, Bool.false_eq_true, if_false]
      exact (walk_loop_lookup_snd _ _ _ _ _ _).symm
    · simp [hv]

theorem set_referenced_fields (pt : PageTable) (vpn : Nat) (d : Bool)
    (hwf : WellShaped pt.num_levels_ pt.root_) (w : Nat) :
    ((pt.set_referenced vpn d).entry_at w).valid = (pt.entry_at w).valid ∧
      ((pt.set_referenced vpn d).entry_at w).frame_number = (pt.entry_at w).frame_number := by
  refine flag_update pt _ vpn _ (set_referenced_params pt vpn d).1
    (set_referenced_params pt vpn d).2.1 (set_referenced_root pt vpn d) hwf ?_ w
  intro e
  split <;> simp

theorem set_referenced_wellShaped (pt : PageTable) (vpn : Nat) (d : Bool)
    (hwf : WellShaped pt.num_levels_ pt.root_) :
    WellShaped (pt.set_referenced vpn d).num_levels_ (pt.set_referenced vpn d).root_ :=
  wellShaped_written pt _ vpn false _ (set_referenced_params pt vpn d).1
    (set_referenced_root pt vpn d) hwf

theorem is_present_eq (pt : PageTable) (vpn : Nat) :
    pt.is_present vpn = (pt.entry_at vpn).valid := by
  unfold PageTable.is_present PageTable.entry_at
  cases pt.get_entry vpn with
  | none => simp [PageTableEntry.empty]
  | some e => simp

theorem insert_params (pt : PageTable) (vpn pfn : Nat) :
    (pt.insert vpn pfn).num_levels_ = pt.num_levels_ ∧
    (pt.insert vpn pfn).bits_per_level_ = pt.bits_per_level_ := by
  unfold PageTable.insert
  simp only
  split <;> simp

theorem insert_root (pt : PageTable) (vpn pfn : Nat) :
    (pt.insert vpn pfn).root_ =
      (pt.walk_page_table vpn true
        (fun e => { e with frame_number := pfn, valid := true, referenced := true })).2 := by
  unfold PageTable.insert
  simp only
  split <;> simp

theorem insert_wellShaped (pt : PageTable) (vpn pfn : Nat)
    (hwf : WellShaped pt.num_levels_ pt.root_) :
    WellShaped (pt.insert vpn pfn).num_levels_ (pt.insert vpn pfn).root_ :=
  wellShaped_written pt _ vpn true _ (insert_params pt vpn pfn).1 (insert_root pt vpn pfn) hwf

theorem insert_other (pt : PageTable) (vpn pfn w : Nat)
    (hwf : WellShaped pt.num_levels_ pt.root_) (hs : ¬ pt.same_slot w vpn) :
    (pt.insert vpn pfn).entry_at w = pt.entry_at w :=
  entry_at_unwritten pt _ vpn w true _ (insert_params pt vpn pfn).1 (insert_params pt vpn pfn).2
    (insert_root pt vpn pfn) hwf hs

theorem walk_create_fst (pt : PageTable) (vpn : Nat) (upd : PageTableEntry → PageTableEntry)
    (hwf : WellShaped pt.num_levels_ pt.root_) (hL : 1 ≤ pt.num_levels_) :
    (pt.walk_page_table vpn true upd).1 = some (pt.entry_at vpn) := by
  simp only [PageTable.walk_page_table, PageTable.entry_at, PageTable.get_entry]
  exact walk_loop_create _ _ _ _ _ _ _ (by omega) hL hwf

theorem insert_same (pt : PageTable) (vpn pfn w : Nat)
    (hwf : WellShaped pt.num_levels_ pt.root_) (hL : 1 ≤ pt.num_levels_)
    (hs : pt.same_slot w vpn) :
    (pt.insert vpn pfn).entry_at w =
      { pt.entry_at vpn with frame_number := pfn, valid := true, referenced := true } := by
  have h1 := get_entry_written pt _ vpn w true _ (insert_params pt vpn pfn).1
    (insert_params pt vpn pfn).2 (insert_root pt vpn pfn) hs
  rw [walk_create_fst pt vpn _ hwf hL] at h1
  simp [PageTable.entry_at, h1]

theorem insert_num_entries (pt : PageTable) (vpn pfn : Nat)
    (hwf : WellShaped pt.num_levels_ pt.root_) (hL : 1 ≤ pt.num_levels_) :
    (pt.insert vpn pfn).num_entries_ =
      if (pt.entry_at vpn).valid then pt.num_entries_ else pt.num_entries_ + 1 := by
  unfold PageTable.insert
  simp only [walk_create_fst pt vpn _ hwf hL]

theorem insert_zero_levels (pt : PageTable) (vpn pfn : Nat) (hL : pt.num_levels_ = 0) :
    pt.insert vpn pfn = pt := by
  have h : pt.walk_page_table vpn true
      (fun e => { e with frame_number := pfn, valid := true, referenced := true }) =
      (none, pt.root_) := by
    simp [PageTable.walk_page_table, hL, walk_loop]
  unfold PageTable.insert
  simp only [h]

theorem entry_at_zero_levels (pt : PageTable) (vpn : Nat) (hL : pt.num_levels_ = 0) :
    pt.entry_at vpn = PageTableEntry.empty := by
  simp [PageTable.entry_at, PageTable.get_entry, PageTable.walk_page_table, hL, walk_loop]

theorem invalidate_params (pt : PageTable) (vpn : Nat) :
    (pt.invalidate vpn).num_levels_ = pt.num_levels_ ∧
    (pt.invalidate vpn).bits_per_level_ = pt.bits_per_level_ := by
  unfold PageTable.invalidate
  cases pt.get_entry vpn with
  | none => simp
  | some e => cases hv : e.valid <;> simp [hv]

theorem invalidate_root (pt : PageTable) (vpn : Nat) :
    (pt.invalidate vpn).root_ =
      (pt.walk_page_table vpn false
        (fun e => if (pt.entry_at vpn).valid then { e with valid := false } else e)).2 := by
  unfold PageTable.invalidate PageTable.entry_at
  cases hg : pt.get_entry vpn with
  | none =>
    simp only [Option.getD_none, PageTableEntry.empty, Bool.false_eq_true, if_false]
    exact (walk_loop_lookup_snd _ _ _ _ _ _).symm
  | some e =>
    cases hv : e.valid
    · simp only [Option.getD_some, hv, Bool.false_eq_true, if_false]
      exact (walk_loop_lookup_snd _ _ _ _ _ _).symm
    · simp [hv]

theorem invalidate_wellShaped (pt : PageTable) (vpn : Nat)
    (hwf : WellShaped pt.num_levels_ pt.root_) :
    WellShaped (pt.invalidate vpn).num_levels_ (pt.invalidate vpn).root_ :=
  wellShaped_written pt _ vpn false _ (invalidate_params pt vpn).1 (invalidate_root pt vpn) hwf

theorem invalidate_other (pt : PageTable) (vpn w : Nat)
    (hwf : WellShaped pt.num_levels_ pt.root_) (hs : ¬ pt.same_slot w vpn) :
    (pt.invalidate vpn).entry_at w = pt.entry_at w :=
  entry_at_unwritten pt _ vpn w false _ (invalidate_params pt vpn).1 (invalidate_params pt vpn).2
    (invalidate_root pt vpn) hwf hs

theorem invalidate_same (pt : PageTable) (vpn w : Nat) (hs : pt.same_slot w vpn) :
    ((pt.invalidate vpn).entry_at w).valid = false := by
  have h1 := get_entry_written pt _ vpn w false _ (invalidate_params pt vpn).1
    (invalidate_params pt vpn).2 (invalidate_root pt vpn) hs
  rw [walk_fst_eq_get_entry] at h1
  unfold PageTable.entry_at at h1 ⊢
  rw [h1]
  cases pt.get_entry vpn with
  | none => simp [PageTableEntry.empty]
  | some e => cases hv : e.valid <;> simp [hv]

/-- Whatever is valid after an invalidation was valid before, with the same
frame. -/
theorem invalidate_valid (pt : PageTable) (vpn w : Nat)
    (hwf : WellShaped pt.num_levels_ pt.root_)
    (h : ((pt.invalidate vpn).entry_at w).valid = true) :
    ¬ pt.same_slot w vpn ∧ (pt.invalidate vpn).entry_at w = pt.entry_at w := by
  by_cases hs : pt.same_slot w vpn
  · rw [invalidate_same pt vpn w hs] at h; exact absurd h (by simp)
  · exact ⟨hs, invalidate_other pt vpn w hwf hs⟩

theorem invalidate_num_entries (pt : PageTable) (vpn : Nat) :
    (pt.invalidate vpn).num_entries_ =
      if (pt.entry_at vpn).valid then pt.num_entries_ - 1 else pt.num_entries_ := by
  unfold PageTable.invalidate PageTable.entry_at
  cases pt.get_entry vpn with
  | none => simp [PageTableEntry.empty]
  | some e => cases hv : e.valid <;> simp [hv]

/-! ## Translation cache -/

theorem lookup_mapErase_self (m : List (Nat × Nat)) (v : Nat) :
    (mapErase m v).lookup v = none := by
  induction m with
  | nil => simp [mapErase]
  | cons p m ih =>
    obtain ⟨k, b⟩ := p
    by_cases h : k = v
    · simpa [mapErase, List.filter_cons, h] using ih
    · have h2 : (v == k) = false := by simp; exact fun e => h e.symm
      simp only [mapErase] at ih
      simp [mapErase, List.filter_cons, h, List.lookup_cons, h2, ih]

theorem lookup_mapErase_other (m : List (Nat × Nat)) (v w : Nat) (hw : w ≠ v) :
    (mapErase m v).lookup w = m.lookup w := by
  induction m with
  | nil => simp [mapErase]
  | cons p m ih =>
    obtain ⟨k, b⟩ := p
    simp only [mapErase] at ih
    by_cases h : k = v
    · subst h
      have h2 : (w == k) = false := by simp [hw]
      simp [mapErase, List.filter_cons, List.lookup_cons, h2, ih]
    · simp only [mapErase, List.filter_cons, bne_iff_ne, ne_eq, h, not_false_eq_true, decide_True,
        if_true, List.lookup_cons]
      cases hk : (w == k)
      · simpa using ih
      · simp

theorem lookup_mapAssign_self (m : List (Nat × Nat)) (v p f : Nat) (h : m.lookup v = some f) :
    (mapAssign m v p).lookup v = some p := by
  induction m with
  | nil => simp at h
  | cons q m ih =>
    obtain ⟨k, b⟩ := q
    by_cases hk : k = v
    · subst hk; simp [mapAssign, List.lookup_cons]
    · have h2 : (v == k) = false := by simp; exact fun e => hk e.symm
      simp only [List.lookup_cons, h2] at h
      simp only [mapAssign] at ih
      simp [mapAssign, hk, List.lookup_cons, h2, ih h]

theorem lookup_mapAssign_other (m : List (Nat × Nat)) (v p w : Nat) (hw : w ≠ v) :
    (mapAssign m v p).lookup w = m.lookup w := by
  induction m with
  | nil => simp [mapAssign]
  | cons q m ih =>
    obtain ⟨k, b⟩ := q
    simp only [mapAssign] at ih
    by_cases hk : k = v
    · subst hk
      have h2 : (w == k) = false := by simp [hw]
      simp [mapAssign, List.lookup_cons, h2, ih]
    · simp only [mapAssign, List.map_cons, hk, if_false, List.lookup_cons]
      cases hk2 : (w == k)
      · simpa using ih
      · simp

theorem touch_cache (t : TLB) (vpn : Nat) : (t.touch vpn).cache_ = t.cache_ := by
  unfold TLB.touch; split <;> rfl

theorem touch_find (t : TLB) (vpn w : Nat) : (t.touch vpn).find w = t.find w := by
  simp [TLB.find, touch_cache]

theorem lookup_fst (t : TLB) (vpn : Nat) : (t.lookup vpn).1 = t.find vpn := by
  unfold TLB.lookup; cases h : t.find vpn <;> simp

theorem lookup_cache (t : TLB) (vpn : Nat) : (t.lookup vpn).2.cache_ = t.cache_ := by
  unfold TLB.lookup; cases h : t.find vpn <;> simp [touch_cache]

theorem lookup_find (t : TLB) (vpn w : Nat) : (t.lookup vpn).2.find w = t.find w := by
  simp [TLB.find, lookup_cache]

theorem lookup_miss (t : TLB) (vpn : Nat) (h : t.find vpn = none) :
    (t.lookup vpn).2.cache_ = t.cache_ ∧ (t.lookup vpn).2.lru_list_ = t.lru_list_ ∧
      (t.lookup vpn).2.capacity_ = t.capacity_ := by
  unfold TLB.lookup; simp [h]

theorem evict_find (t : TLB) (w f : Nat) (h : t.evict.find w = some f) : t.find w = some f := by
  unfold TLB.evict at h
  cases hl : t.lru_list_.getLast? with
  | none => simpa [hl] using h
  | some v =>
    simp only [hl, TLB.find] at h
    by_cases hw : w = v
    · subst hw; rw [lookup_mapErase_self] at h; exact absurd h (by simp)
    · rw [lookup_mapErase_other _ _ _ hw] at h; exact h

theorem insert_find_self (t : TLB) (vpn pfn : Nat) : (t.insert vpn pfn).find vpn = some pfn := by
  unfold TLB.insert
  cases h : t.find vpn with
  | none => simp [TLB.find, List.lookup_cons]
  | some f =>
    simp only [touch_find]
    exact lookup_mapAssign_self _ _ _ _ h

theorem insert_find_other (t : TLB) (vpn pfn w f : Nat) (hw : w ≠ vpn)
    (h : (t.insert vpn pfn).find w = some f) : t.find w = some f := by
  unfold TLB.insert at h
  cases hf : t.find vpn with
  | none =>
    have h2 : (w == vpn) = false := by simp [hw]
    simp only [hf] at h
    by_cases hc : t.cache_.length ≥ t.capacity_
    · simp only [hc, if_true, TLB.find, List.lookup_cons, h2] at h
      exact evict_find t w f h
    · simp only [hc, if_false, TLB.find, List.lookup_cons, h2] at h
      exact h
  | some g =>
    simp only [hf, touch_find] at h
    simp only [TLB.find] at h ⊢
    rwa [lookup_mapAssign_other _ _ _ _ hw] at h

theorem invalidate_find_self (t : TLB) (vpn : Nat) : (t.invalidate vpn).find vpn = none := by
  unfold TLB.invalidate
  cases h : t.find vpn with
  | none => simpa using h
  | some f => simp [TLB.find, lookup_mapErase_self]

theorem invalidate_find_other (t : TLB) (vpn w : Nat) (hw : w ≠ vpn) :
    (t.invalidate vpn).find w = t.find w := by
  unfold TLB.invalidate
  cases h : t.find vpn with
  | none => simp
  | some f => simp [TLB.find, lookup_mapErase_other _ _ _ hw]

/-! ## Frame allocator -/

theorem find_victim_loop_some (frames : Nat → Frame) (fuel : Nat) :
    ∀ (i r : Nat), find_victim_loop frames fuel i = some r →
      i ≤ r ∧ r < i + fuel ∧ (frames r).allocated = true ∧ (frames r).pinned = false := by
  induction fuel with
  | zero => intro i r h; simp [find_victim_loop] at h
  | succ fuel ih =>
    intro i r h
    unfold find_victim_loop at h
    by_cases hc : ((frames i).allocated && !(frames i).pinned) = true
    · simp only [hc, if_true, Option.some.injEq] at h
      subst h
      simp only [Bool.and_eq_true, Bool.not_eq_true'] at hc
      exact ⟨Nat.le_refl _, by omega, hc.1, hc.2⟩
    · simp only [hc, if_false] at h
      obtain ⟨h1, h2, h3⟩ := ih _ _ h
      exact ⟨by omega, by omega, h3⟩

theorem allocate_frame_cons (pm : PhysicalMemory) (vpn pfn : Nat) (rest : List Nat)
    (h : pm.free_frames_ = pfn :: rest) :
    pm.allocate_frame vpn =
      (some pfn,
        { pm with
          page_faults_ := pm.page_faults_ + 1
          free_frames_ := rest
          frames_ := setAt pm.frames_ pfn { pm.frames_ pfn with allocated := true, owner_vpn := vpn }
          allocated_frames_ := pm.allocated_frames_ + 1 }) := by
  unfold PhysicalMemory.allocate_frame
  simp only [h]

theorem allocate_frame_nil (pm : PhysicalMemory) (vpn : Nat) (h : pm.free_frames_ = []) :
    pm.allocate_frame vpn =
      (pm.find_victim_frame, { pm with page_faults_ := pm.page_faults_ + 1 }) := by
  unfold PhysicalMemory.allocate_frame
  simp only [h]
  rfl

theorem allocate_frame_page_faults (pm : PhysicalMemory) (vpn : Nat) :
    (pm.allocate_frame vpn).2.page_faults_ = pm.page_faults_ + 1 := by
  unfold PhysicalMemory.allocate_frame
  cases pm.free_frames_ <;> simp

theorem allocate_frame_none (pm : PhysicalMemory) (vpn : Nat)
    (h : (pm.allocate_frame vpn).1 = none) :
    pm.free_frames_ = [] ∧
      (pm.allocate_frame vpn).2 = { pm with page_faults_ := pm.page_faults_ + 1 } := by
  have hf : pm.free_frames_ = [] := by
    cases hf : pm.free_frames_ with
    | nil => rfl
    | cons a l => rw [allocate_frame_cons pm vpn a l hf] at h; simp at h
  exact ⟨hf, by rw [allocate_frame_nil pm vpn hf]⟩

/-! ## Paths of translate -/

theorem translate_hit (s : VirtualMemoryManager) (vaddr : Nat) (write : Bool) (pfn : Nat)
    (h : s.tlb_.find (s.extract_page_number vaddr) = some pfn) :
    s.translate vaddr write =
      (some (s.physical_address pfn (s.extract_offset vaddr)),
        { s with
          total_accesses_ := s.total_accesses_ + 1
          tlb_ := (s.tlb_.lookup (s.extract_page_number vaddr)).2
          tlb_hits_ := s.tlb_hits_ + 1
          page_table_ :=
            (if write then s.page_table_.set_dirty (s.extract_page_number vaddr) true
              else s.page_table_).set_referenced (s.extract_page_number vaddr) true }) := by
  have hl : s.tlb_.lookup (s.extract_page_number vaddr) =
      (some pfn, (s.tlb_.lookup (s.extract_page_number vaddr)).2) :=
    Prod.ext (by simp [lookup_fst, h]) rfl
  unfold VirtualMemoryManager.translate
  simp only
  rw [hl]

theorem translate_pt_hit (s : VirtualMemoryManager) (vaddr : Nat) (write : Bool)
    (h : s.tlb_.find (s.extract_page_number vaddr) = none)
    (hv : (s.page_table_.entry_at (s.extract_page_number vaddr)).valid = true) :
    s.translate vaddr write =
      (some (s.physical_address (s.page_table_.entry_at (s.extract_page_number vaddr)).frame_number
          (s.extract_offset vaddr)),
        { s with
          total_accesses_ := s.total_accesses_ + 1
          tlb_ := (s.tlb_.lookup (s.extract_page_number vaddr)).2.insert
            (s.extract_page_number vaddr)
            (s.page_table_.entry_at (s.extract_page_number vaddr)).frame_number
          page_table_hits_ := s.page_table_hits_ + 1
          page_table_ :=
            if write then
              (s.page_table_.translate (s.extract_page_number vaddr)).2.set_dirty
                (s.extract_page_number vaddr) true
            else (s.page_table_.translate (s.extract_page_number vaddr)).2 }) := by
  have hl : s.tlb_.lookup (s.extract_page_number vaddr) =
      (none, (s.tlb_.lookup (s.extract_page_number vaddr)).2) :=
    Prod.ext (by simp [lookup_fst, h]) rfl
  have hp : s.page_table_.translate (s.extract_page_number vaddr) =
      (some (s.page_table_.entry_at (s.extract_page_number vaddr)).frame_number,
        (s.page_table_.translate (s.extract_page_number vaddr)).2) :=
    Prod.ext (by simp [translate_fst, hv]) rfl
  unfold VirtualMemoryManager.translate
  simp only
  rw [hl]
  simp only
  rw [hp]

theorem handle_page_fault_none (s : VirtualMemoryManager) (vpn : Nat)
    (h : (s.physical_memory_.allocate_frame vpn).1 = none) :
    s.handle_page_fault vpn =
      (false, { s with physical_memory_ := (s.physical_memory_.allocate_frame vpn).2 }) := by
  have ha : s.physical_memory_.allocate_frame vpn =
      (none, (s.physical_memory_.allocate_frame vpn).2) := Prod.ext h rfl
  unfold VirtualMemoryManager.handle_page_fault
  rw [ha]

theorem handle_page_fault_some (s : VirtualMemoryManager) (vpn pfn : Nat)
    (h : (s.physical_memory_.allocate_frame vpn).1 = some pfn) :
    s.handle_page_fault vpn =
      (true, { s with
        physical_memory_ := (s.physical_memory_.allocate_frame vpn).2
        page_table_ := s.page_table_.insert vpn pfn }) := by
  have ha : s.physical_memory_.allocate_frame vpn =
      (some pfn, (s.physical_memory_.allocate_frame vpn).2) := Prod.ext h rfl
  unfold VirtualMemoryManager.handle_page_fault
  rw [ha]

theorem translate_fault_fail (s : VirtualMemoryManager) (vaddr : Nat) (write : Bool)
    (h : s.tlb_.find (s.extract_page_number vaddr) = none)
    (hv : (s.page_table_.entry_at (s.extract_page_number vaddr)).valid = false)
    (ha : (s.physical_memory_.allocate_frame (s.extract_page_number vaddr)).1 = none) :
    s.translate vaddr write =
      (none,
        { s with
          total_accesses_ := s.total_accesses_ + 1
          tlb_ := (s.tlb_.lookup (s.extract_page_number vaddr)).2
          page_faults_ := s.page_faults_ + 1
          physical_memory_ :=
            (s.physical_memory_.allocate_frame (s.extract_page_number vaddr)).2 }) := by
  have hl : s.tlb_.lookup (s.extract_page_number vaddr) =
      (none, (s.tlb_.lookup (s.extract_page_number vaddr)).2) :=
    Prod.ext (by simp [lookup_fst, h]) rfl
  have hp1 : (s.page_table_.translate (s.extract_page_number vaddr)).1 = none := by
    simp [translate_fst, hv]
  have hp : s.page_table_.translate (s.extract_page_number vaddr) = (none, s.page_table_) :=
    Prod.ext hp1 (translate_snd_none _ _ hp1)
  unfold VirtualMemoryManager.translate
  simp only
  rw [hl]
  simp only
  rw [hp]
  simp only
  have key := handle_page_fault_none
    { s with
      total_accesses_ := s.total_accesses_ + 1
      tlb_ := (s.tlb_.lookup (s.extract_page_number vaddr)).2
      page_table_ := s.page_table_
      page_faults_ := s.page_faults_ + 1 } (s.extract_page_number vaddr) ha
  rw [key]

theorem translate_fault_ok (s : VirtualMemoryManager) (vaddr : Nat) (write : Bool) (pfn : Nat)
    (h : s.tlb_.find (s.extract_page_number vaddr) = none)
    (hv : (s.page_table_.entry_at (s.extract_page_number vaddr)).valid = false)
    (ha : (s.physical_memory_.allocate_frame (s.extract_page_number vaddr)).1 = some pfn) :
    s.translate vaddr write =
      match (s.page_table_.insert (s.extract_page_number vaddr) pfn).translate
          (s.extract_page_number vaddr) with
      | (some f, pt3) =>
          (some (s.physical_address f (s.extract_offset vaddr)),
            { s with
              total_accesses_ := s.total_accesses_ + 1
              page_faults_ := s.page_faults_ + 1
              physical_memory_ :=
                (s.physical_memory_.allocate_frame (s.extract_page_number vaddr)).2
              tlb_ := (s.tlb_.lookup (s.extract_page_number vaddr)).2.insert
                (s.extract_page_number vaddr) f
              page_table_ :=
                if write then pt3.set_dirty (s.extract_page_number vaddr) true else pt3 })
      | (none, pt3) =>
          (none,
            { s with
              total_accesses_ := s.total_accesses_ + 1
              page_faults_ := s.page_faults_ + 1
              physical_memory_ :=
                (s.physical_memory_.allocate_frame (s.extract_page_number vaddr)).2
              tlb_ := (s.tlb_.lookup (s.extract_page_number vaddr)).2
              page_table_ := pt3 }) := by
  have hl : s.tlb_.lookup (s.extract_page_number vaddr) =
      (none, (s.tlb_.lookup (s.extract_page_number vaddr)).2) :=
    Prod.ext (by simp [lookup_fst, h]) rfl
  have hp1 : (s.page_table_.translate (s.extract_page_number vaddr)).1 = none := by
    simp [translate_fst, hv]
  have hp : s.page_table_.translate (s.extract_page_number vaddr) = (none, s.page_table_) :=
    Prod.ext hp1 (translate_snd_none _ _ hp1)
  unfold VirtualMemoryManager.translate
  simp only
  rw [hl]
  simp only
  rw [hp]
  simp only
  have key := handle_page_fault_some
    { s with
      total_accesses_ := s.total_accesses_ + 1
      tlb_ := (s.tlb_.lookup (s.extract_page_number vaddr)).2
      page_table_ := s.page_table_
      page_faults_ := s.page_faults_ + 1 } (s.extract_page_number vaddr) pfn ha
  rw [key]

/-- The five ways a `translate` call can go, each with the result and the state
it leaves: cache hit, page-table hit, fault without a frame, fault whose retried
lookup finds the new entry, fault whose retried lookup finds none. -/
theorem translate_cases (s : VirtualMemoryManager) (vaddr : Nat) (write : Bool)
    (P : Option Nat × VirtualMemoryManager → Prop)
    (hit : ∀ pfn, s.tlb_.find (s.extract_page_number vaddr) = some pfn →
      P (some (s.physical_address pfn (s.extract_offset vaddr)),
        { s with
          total_accesses_ := s.total_accesses_ + 1
          tlb_ := (s.tlb_.lookup (s.extract_page_number vaddr)).2
          tlb_hits_ := s.tlb_hits_ + 1
          page_table_ :=
            (if write then s.page_table_.set_dirty (s.extract_page_number vaddr) true
              else s.page_table_).set_referenced (s.extract_page_number vaddr) true }))
    (pt_hit : s.tlb_.find (s.extract_page_number vaddr) = none →
      (s.page_table_.entry_at (s.extract_page_number vaddr)).valid = true →
      P (some (s.physical_address (s.page_table_.entry_at (s.extract_page_number vaddr)).frame_number
          (s.extract_offset vaddr)),
        { s with
          total_accesses_ := s.total_accesses_ + 1
          tlb_ := (s.tlb_.lookup (s.extract_page_number vaddr)).2.insert
            (s.extract_page_number vaddr)
            (s.page_table_.entry_at (s.extract_page_number vaddr)).frame_number
          page_table_hits_ := s.page_table_hits_ + 1
          page_table_ :=
            if write then
              (s.page_table_.translate (s.extract_page_number vaddr)).2.set_dirty
                (s.extract_page_number vaddr) true
            else (s.page_table_.translate (s.extract_page_number vaddr)).2 }))
    (no_frame : s.tlb_.find (s.extract_page_number vaddr) = none →
      (s.page_table_.entry_at (s.extract_page_number vaddr)).valid = false →
      (s.physical_memory_.allocate_frame (s.extract_page_number vaddr)).1 = none →
      P (none,
        { s with
          total_accesses_ := s.total_accesses_ + 1
          tlb_ := (s.tlb_.lookup (s.extract_page_number vaddr)).2
          page_faults_ := s.page_faults_ + 1
          physical_memory_ :=
            (s.physical_memory_.allocate_frame (s.extract_page_number vaddr)).2 }))
    (mapped : ∀ pfn, s.tlb_.find (s.extract_page_number vaddr) = none →
      (s.page_table_.entry_at (s.extract_page_number vaddr)).valid = false →
      (s.physical_memory_.allocate_frame (s.extract_page_number vaddr)).1 = some pfn →
      ((s.page_table_.insert (s.extract_page_number vaddr) pfn).entry_at
        (s.extract_page_number vaddr)).valid = true →
      P (some (s.physical_address
          ((s.page_table_.insert (s.extract_page_number vaddr) pfn).entry_at
            (s.extract_page_number vaddr)).frame_number (s.extract_offset vaddr)),
        { s with
          total_accesses_ := s.total_accesses_ + 1
          page_faults_ := s.page_faults_ + 1
          physical_memory_ :=
            (s.physical_memory_.allocate_frame (s.extract_page_number vaddr)).2
          tlb_ := (s.tlb_.lookup (s.extract_page_number vaddr)).2.insert
            (s.extract_page_number vaddr)
            ((s.page_table_.insert (s.extract_page_number vaddr) pfn).entry_at
              (s.extract_page_number vaddr)).frame_number
          page_table_ :=
            if write then
              ((s.page_table_.insert (s.extract_page_number vaddr) pfn).translate
                (s.extract_page_number vaddr)).2.set_dirty (s.extract_page_number vaddr) true
            else
              ((s.page_table_.insert (s.extract_page_number vaddr) pfn).translate
                (s.extract_page_number vaddr)).2 }))
    (unmapped : ∀ pfn, s.tlb_.find (s.extract_page_number vaddr) = none →
      (s.page_table_.entry_at (s.extract_page_number vaddr)).valid = false →
      (s.physical_memory_.allocate_frame (s.extract_page_number vaddr)).1 = some pfn →
      ((s.page_table_.insert (s.extract_page_number vaddr) pfn).entry_at
        (s.extract_page_number vaddr)).valid = false →
      P (none,
        { s with
          total_accesses_ := s.total_accesses_ + 1
          page_faults_ := s.page_faults_ + 1
          physical_memory_ :=
            (s.physical_memory_.allocate_frame (s.extract_page_number vaddr)).2
          tlb_ := (s.tlb_.lookup (s.extract_page_number vaddr)).2
          page_table_ := s.page_table_.insert (s.extract_page_number vaddr) pfn })) :
    P (s.translate vaddr write) := by
  cases hf : s.tlb_.find (s.extract_page_number vaddr) with
  | some pfn => rw [translate_hit s vaddr write pfn hf]; exact hit pfn hf
  | none =>
    cases hv : (s.page_table_.entry_at (s.extract_page_number vaddr)).valid with
    | true => rw [translate_pt_hit s vaddr write hf hv]; exact pt_hit hf hv
    | false =>
      cases ha : (s.physical_memory_.allocate_frame (s.extract_page_number vaddr)).1 with
      | none => rw [translate_fault_fail s vaddr write hf hv ha]; exact no_frame hf hv ha
      | some pfn =>
        rw [translate_fault_ok s vaddr write pfn hf hv ha]
        cases hv2 : ((s.page_table_.insert (s.extract_page_number vaddr) pfn).entry_at
            (s.extract_page_number vaddr)).valid with
        | true =>
          have hp : (s.page_table_.insert (s.extract_page_number vaddr) pfn).translate
              (s.extract_page_number vaddr) =
              (some ((s.page_table_.insert (s.extract_page_number vaddr) pfn).entry_at
                (s.extract_page_number vaddr)).frame_number,
              ((s.page_table_.insert (s.extract_page_number vaddr) pfn).translate
                (s.extract_page_number vaddr)).2) :=
            Prod.ext (by simp [translate_fst, hv2]) rfl
          rw [hp]
          exact mapped pfn hf hv ha hv2
        | false =>
          have hp1 : ((s.page_table_.insert (s.extract_page_number vaddr) pfn).translate
              (s.extract_page_number vaddr)).1 = none := by simp [translate_fst, hv2]
          have hp : (s.page_table_.insert (s.extract_page_number vaddr) pfn).translate
              (s.extract_page_number vaddr) =
              (none, s.page_table_.insert (s.extract_page_number vaddr) pfn) :=
            Prod.ext hp1 (translate_snd_none _ _ hp1)
          rw [hp]
          exact unmapped pfn hf hv ha hv2

/-! ## Preservation of the bookkeeping invariant -/

theorem consistent_fields (config : Config) (pt pt2 : PageTable) (pm : PhysicalMemory)
    (h : Consistent config pt pm)
    (hL : pt2.num_levels_ = pt.num_levels_) (hB : pt2.bits_per_level_ = pt.bits_per_level_)
    (hwf : WellShaped pt2.num_levels_ pt2.root_)
    (hf : ∀ w, (pt2.entry_at w).valid = true →
      (pt.entry_at w).valid = true ∧ (pt2.entry_at w).frame_number = (pt.entry_at w).frame_number) :
    Consistent config pt2 pm where
  levels_eq := hL.trans h.levels_eq
  bits_eq := hB.trans h.bits_eq
  frames_eq := h.frames_eq
  memory_eq := h.memory_eq
  shaped := hwf
  free_lt := h.free_lt
  free_nodup := h.free_nodup
  free_complete := h.free_complete
  valid_lt := fun vpn hv => by
    obtain ⟨h1, h2⟩ := hf vpn hv
    rw [h2]; exact h.valid_lt vpn h1

theorem consistent_translate (config : Config) (pt : PageTable) (pm : PhysicalMemory) (vpn : Nat)
    (h : Consistent config pt pm) : Consistent config (pt.translate vpn).2 pm :=
  consistent_fields config pt _ pm h (translate_snd_params pt vpn).1 (translate_snd_params pt vpn).2.1
    (translate_snd_wellShaped pt vpn h.shaped)
    (fun w hv => by
      obtain ⟨h1, h2⟩ := translate_snd_fields pt vpn h.shaped w
      exact ⟨h1 ▸ hv, h2⟩)

theorem consistent_set_dirty (config : Config) (pt : PageTable) (pm : PhysicalMemory) (vpn : Nat)
    (d : Bool) (h : Consistent config pt pm) : Consistent config (pt.set_dirty vpn d) pm :=
  consistent_fields config pt _ pm h (set_dirty_params pt vpn d).1 (set_dirty_params pt vpn d).2.1
    (set_dirty_wellShaped pt vpn d h.shaped)
    (fun w hv => by
      obtain ⟨h1, h2⟩ := set_dirty_fields pt vpn d h.shaped w
      exact ⟨h1 ▸ hv, h2⟩)

theorem consistent_set_referenced (config : Config) (pt : PageTable) (pm : PhysicalMemory)
    (vpn : Nat) (d : Bool) (h : Consistent config pt pm) :
    Consistent config (pt.set_referenced vpn d) pm :=
  consistent_fields config pt _ pm h (set_referenced_params pt vpn d).1
    (set_referenced_params pt vpn d).2.1 (set_referenced_wellShaped pt vpn d h.shaped)
    (fun w hv => by
      obtain ⟨h1, h2⟩ := set_referenced_fields pt vpn d h.shaped w
      exact ⟨h1 ▸ hv, h2⟩)

theorem consistent_invalidate (config : Config) (pt : PageTable) (pm : PhysicalMemory) (vpn : Nat)
    (h : Consistent config pt pm) : Consistent config (pt.invalidate vpn) pm :=
  consistent_fields config pt _ pm h (invalidate_params pt vpn).1 (invalidate_params pt vpn).2
    (invalidate_wellShaped pt vpn h.shaped)
    (fun w hv => by
      obtain ⟨_, h2⟩ := invalidate_valid pt vpn w h.shaped hv
      rw [h2] at hv
      exact ⟨hv, by rw [h2]⟩)

/-- What is valid after an insertion is the inserted slot, holding the inserted
frame, or was there before. -/
theorem insert_valid (pt : PageTable) (vpn pfn w : Nat)
    (hwf : WellShaped pt.num_levels_ pt.root_)
    (_hv : ((pt.insert vpn pfn).entry_at w).valid = true) :
    (pt.same_slot w vpn ∧ 1 ≤ pt.num_levels_ ∧ ((pt.insert vpn pfn).entry_at w).frame_number = pfn) ∨
      (¬ pt.same_slot w vpn ∧ (pt.insert vpn pfn).entry_at w = pt.entry_at w) := by
  rcases Nat.eq_zero_or_pos pt.num_levels_ with h0 | hpos
  · rw [insert_zero_levels pt vpn pfn h0, entry_at_zero_levels pt w h0] at _hv
    simp [PageTableEntry.empty] at _hv
  · by_cases hs : pt.same_slot w vpn
    · left
      refine ⟨hs, hpos, ?_⟩
      rw [insert_same pt vpn pfn w hwf hpos hs]
    · right
      exact ⟨hs, insert_other pt vpn pfn w hwf hs⟩

theorem consistent_insert (config : Config) (pt : PageTable) (pm : PhysicalMemory) (vpn pfn : Nat)
    (h : Consistent config pt pm) (hp : pfn < pm.num_frames_) :
    Consistent config (pt.insert vpn pfn) pm where
  levels_eq := (insert_params pt vpn pfn).1.trans h.levels_eq
  bits_eq := (insert_params pt vpn pfn).2.trans h.bits_eq
  frames_eq := h.frames_eq
  memory_eq := h.memory_eq
  shaped := insert_wellShaped pt vpn pfn h.shaped
  free_lt := h.free_lt
  free_nodup := h.free_nodup
  free_complete := h.free_complete
  valid_lt := fun w hv => by
    rcases insert_valid pt vpn pfn w h.shaped hv with ⟨_, _, h3⟩ | ⟨_, h2⟩
    · rw [h3]; exact hp
    · rw [h2] at hv ⊢; exact h.valid_lt w hv

theorem consistent_allocate (config : Config) (pt : PageTable) (pm : PhysicalMemory) (vpn : Nat)
    (h : Consistent config pt pm) :
    Consistent config pt (pm.allocate_frame vpn).2 ∧
      ∀ pfn, (pm.allocate_frame vpn).1 = some pfn → pfn < pm.num_frames_ := by
  cases hf : pm.free_frames_ with
  | nil =>
    rw [allocate_frame_nil pm vpn hf]
    refine ⟨⟨h.levels_eq, h.bits_eq, h.frames_eq, h.memory_eq, h.shaped, h.free_lt, h.free_nodup,
      h.free_complete, h.valid_lt⟩, ?_⟩
    intro pfn hp
    have := find_victim_loop_some _ _ _ _ hp
    omega
  | cons a rest =>
    rw [allocate_frame_cons pm vpn a rest hf]
    have ha := h.free_lt a (by rw [hf]; exact List.mem_cons_self _ _)
    have hnd : (a :: rest).Nodup := hf ▸ h.free_nodup
    have hnotin : a ∉ rest := (List.nodup_cons.mp hnd).1
    refine ⟨⟨h.levels_eq, h.bits_eq, h.frames_eq, h.memory_eq, h.shaped, ?_, ?_, ?_, h.valid_lt⟩, ?_⟩
    · intro f hfm
      have hne : f ≠ a := fun e => hnotin (e ▸ hfm)
      have := h.free_lt f (by rw [hf]; exact List.mem_cons_of_mem _ hfm)
      simpa [setAt_other _ _ _ _ hne] using this
    · exact (List.nodup_cons.mp hnd).2
    · intro f hlt hal
      by_cases hfa : f = a
      · subst hfa; simp [setAt_same] at hal
      · simp only [setAt_other _ _ _ _ hfa] at hal
        have := h.free_complete f hlt hal
        rw [hf] at this
        rcases List.mem_cons.mp this with e | e
        · exact absurd e hfa
        · exact e
    · intro pfn hp
      simp only [Option.some.injEq] at hp
      subst hp
      exact ha.1

theorem consistent_free_frame (config : Config) (pt : PageTable) (pm pm2 : PhysicalMemory)
    (pfn : Nat) (h : Consistent config pt pm) (hfree : pm.free_frame pfn = Except.ok pm2) :
    Consistent config pt pm2 := by
  unfold PhysicalMemory.free_frame at hfree
  by_cases hge : pfn ≥ pm.num_frames_
  · simp [hge] at hfree
  · simp only [hge, if_false] at hfree
    by_cases hal : (pm.frames_ pfn).allocated = true
    · simp only [hal, if_true, Except.ok.injEq] at hfree
      subst hfree
      have hnotin : pfn ∉ pm.free_frames_ := fun hm => by
        have := (h.free_lt pfn hm).2
        rw [hal] at this; exact absurd this (by simp)
      refine ⟨h.levels_eq, h.bits_eq, h.frames_eq, h.memory_eq, h.shaped, ?_, ?_, ?_, h.valid_lt⟩
      · intro f hfm
        simp only [List.mem_append, List.mem_singleton] at hfm
        rcases hfm with hfm | hfm
        · have hne : f ≠ pfn := fun e => hnotin (e ▸ hfm)
          simpa [setAt_other _ _ _ _ hne] using h.free_lt f hfm
        · subst hfm
          exact ⟨by simpa using hge, by simp [setAt_same, Frame.empty]⟩
      · simp only
        rw [List.nodup_append]
        refine ⟨h.free_nodup, List.nodup_singleton _, ?_⟩
        intro a ha hb
        simp only [List.mem_singleton] at hb
        subst hb
        exact hnotin ha
      · intro f hlt hal2
        simp only [List.mem_append, List.mem_singleton]
        by_cases hfa : f = pfn
        · right; exact hfa
        · left
          simp only [setAt_other _ _ _ _ hfa] at hal2
          exact h.free_complete f hlt hal2
    · simp only [hal, Bool.false_eq_true, if_false, Except.ok.injEq] at hfree
      subst hfree
      exact h

theorem consistent_memory (config : Config) (pt : PageTable) (pm : PhysicalMemory)
    (m : Nat → Nat) (h : Consistent config pt pm) :
    Consistent config pt { pm with memory_ := m } :=
  ⟨h.levels_eq, h.bits_eq, h.frames_eq, h.memory_eq, h.shaped, h.free_lt, h.free_nodup,
    h.free_complete, h.valid_lt⟩

theorem consistent_reset_stats (config : Config) (pt : PageTable) (pm : PhysicalMemory)
    (h : Consistent config pt pm) : Consistent config pt pm.reset_stats :=
  ⟨h.levels_eq, h.bits_eq, h.frames_eq, h.memory_eq, h.shaped, h.free_lt, h.free_nodup,
    h.free_complete, h.valid_lt⟩

/-! ## The bookkeeping invariant holds in every reachable state -/

theorem allocate_frame_num_frames (pm : PhysicalMemory) (vpn : Nat) :
    (pm.allocate_frame vpn).2.num_frames_ = pm.num_frames_ := by
  unfold PhysicalMemory.allocate_frame
  cases pm.free_frames_ <;> simp

theorem allocate_frame_memory (pm : PhysicalMemory) (vpn : Nat) :
    (pm.allocate_frame vpn).2.memory_ = pm.memory_ ∧
      (pm.allocate_frame vpn).2.memory_size = pm.memory_size := by
  unfold PhysicalMemory.allocate_frame
  cases pm.free_frames_ <;> simp

theorem translate_consistent (config : Config) (s : VirtualMemoryManager) (vaddr : Nat)
    (write : Bool) (hc : s.config_ = config)
    (h : Consistent config s.page_table_ s.physical_memory_) :
    (s.translate vaddr write).2.config_ = config ∧
      Consistent config (s.translate vaddr write).2.page_table_
        (s.translate vaddr write).2.physical_memory_ := by
  refine translate_cases s vaddr write
    (fun r => r.2.config_ = config ∧ Consistent config r.2.page_table_ r.2.physical_memory_)
    ?_ ?_ ?_ ?_ ?_
  · intro pfn _
    refine ⟨hc, consistent_set_referenced _ _ _ _ _ ?_⟩
    cases write
    · exact h
    · exact consistent_set_dirty _ _ _ _ _ h
  · intro _ _
    refine ⟨hc, ?_⟩
    cases write
    · exact consistent_translate _ _ _ _ h
    · exact consistent_set_dirty _ _ _ _ _ (consistent_translate _ _ _ _ h)
  · intro _ _ _
    exact ⟨hc, (consistent_allocate _ _ _ _ h).1⟩
  · intro pfn _ _ ha _
    have h1 := consistent_allocate config _ _ (s.extract_page_number vaddr) h
    have h2 := consistent_insert config _ _ (s.extract_page_number vaddr) pfn h1.1
      (by have := h1.2 pfn ha; simpa [allocate_frame_num_frames] using this)
    refine ⟨hc, ?_⟩
    cases write
    · exact consistent_translate _ _ _ _ h2
    · exact consistent_set_dirty _ _ _ _ _ (consistent_translate _ _ _ _ h2)
  · intro pfn _ _ ha _
    have h1 := consistent_allocate config _ _ (s.extract_page_number vaddr) h
    exact ⟨hc, consistent_insert config _ _ (s.extract_page_number vaddr) pfn h1.1
      (by have := h1.2 pfn ha; simpa [allocate_frame_num_frames] using this)⟩

theorem read_byte_snd (s : VirtualMemoryManager) (vaddr : Nat) :
    (s.read_byte vaddr).2 = (s.translate vaddr false).2 := by
  unfold VirtualMemoryManager.read_byte
  split <;> rename_i h <;> simp [h]

theorem read_byte_fst (s : VirtualMemoryManager) (vaddr : Nat) :
    (s.read_byte vaddr).1 =
      match (s.translate vaddr false).1 with
      | none => Except.error Error.runtime_error
      | some paddr => (s.translate vaddr false).2.physical_memory_.read_byte paddr := by
  unfold VirtualMemoryManager.read_byte
  split <;> rename_i h <;> simp [h]

theorem write_byte_cases (s : VirtualMemoryManager) (vaddr value : Nat)
    (P : Except Error Unit × VirtualMemoryManager → Prop)
    (failed : (s.translate vaddr true).1 = none →
      P (Except.error Error.runtime_error, (s.translate vaddr true).2))
    (out_of_range : ∀ paddr, (s.translate vaddr true).1 = some paddr →
      paddr ≥ (s.translate vaddr true).2.physical_memory_.memory_size →
      P (Except.error Error.out_of_range, (s.translate vaddr true).2))
    (written : ∀ paddr, (s.translate vaddr true).1 = some paddr →
      paddr < (s.translate vaddr true).2.physical_memory_.memory_size →
      P (Except.ok (),
        { (s.translate vaddr true).2 with
          physical_memory_ :=
            { (s.translate vaddr true).2.physical_memory_ with
              memory_ := setAt (s.translate vaddr true).2.physical_memory_.memory_ paddr
                (value % 256) } })) :
    P (s.write_byte vaddr value) := by
  unfold VirtualMemoryManager.write_byte
  cases h1 : (s.translate vaddr true).1 with
  | none =>
    have : s.translate vaddr true = (none, (s.translate vaddr true).2) := Prod.ext h1 rfl
    rw [this]
    exact failed h1
  | some paddr =>
    have : s.translate vaddr true = (some paddr, (s.translate vaddr true).2) := Prod.ext h1 rfl
    rw [this]
    simp only
    by_cases hge : paddr ≥ (s.translate vaddr true).2.physical_memory_.memory_size
    · simp only [PhysicalMemory.write_byte, hge, if_true]
      exact out_of_range paddr h1 hge
    · simp only [PhysicalMemory.write_byte, hge, if_false]
      exact written paddr h1 (by omega)

theorem allocate_page_cases (s : VirtualMemoryManager) (vaddr : Nat)
    (P : Bool × VirtualMemoryManager → Prop)
    (present : (s.page_table_.entry_at (s.extract_page_number vaddr)).valid = true → P (true, s))
    (no_frame : (s.page_table_.entry_at (s.extract_page_number vaddr)).valid = false →
      (s.physical_memory_.allocate_frame (s.extract_page_number vaddr)).1 = none →
      P (false,
        { s with
          physical_memory_ :=
            (s.physical_memory_.allocate_frame (s.extract_page_number vaddr)).2 }))
    (mapped : ∀ pfn, (s.page_table_.entry_at (s.extract_page_number vaddr)).valid = false →
      (s.physical_memory_.allocate_frame (s.extract_page_number vaddr)).1 = some pfn →
      P (true,
        { s with
          physical_memory_ :=
            (s.physical_memory_.allocate_frame (s.extract_page_number vaddr)).2
          page_table_ := s.page_table_.insert (s.extract_page_number vaddr) pfn })) :
    P (s.allocate_page vaddr) := by
  unfold VirtualMemoryManager.allocate_page
  simp only [is_present_eq]
  cases hv : (s.page_table_.entry_at (s.extract_page_number vaddr)).valid with
  | true => simpa using present hv
  | false =>
    simp only [Bool.false_eq_true, if_false]
    cases ha : (s.physical_memory_.allocate_frame (s.extract_page_number vaddr)).1 with
    | none => rw [handle_page_fault_none _ _ ha]; exact no_frame hv ha
    | some pfn => rw [handle_page_fault_some _ _ _ ha]; exact mapped pfn hv ha

theorem free_page_cases (s : VirtualMemoryManager) (vaddr : Nat)
    (P : Except Error Unit × VirtualMemoryManager → Prop)
    (absent : (s.page_table_.entry_at (s.extract_page_number vaddr)).valid = false →
      P (Except.ok (), s))
    (freed : ∀ pm, (s.page_table_.entry_at (s.extract_page_number vaddr)).valid = true →
      s.physical_memory_.free_frame
        (s.page_table_.entry_at (s.extract_page_number vaddr)).frame_number = Except.ok pm →
      P (Except.ok (),
        { s with
          page_table_ := s.page_table_.invalidate (s.extract_page_number vaddr)
          tlb_ := s.tlb_.invalidate (s.extract_page_number vaddr)
          physical_memory_ := pm }))
    (thrown : ∀ e, (s.page_table_.entry_at (s.extract_page_number vaddr)).valid = true →
      s.physical_memory_.free_frame
        (s.page_table_.entry_at (s.extract_page_number vaddr)).frame_number = Except.error e →
      P (Except.error e,
        { s with
          page_table_ := s.page_table_.invalidate (s.extract_page_number vaddr)
          tlb_ := s.tlb_.invalidate (s.extract_page_number vaddr) })) :
    P (s.free_page vaddr) := by
  unfold VirtualMemoryManager.free_page
  simp only
  cases hg : s.page_table_.get_entry (s.extract_page_number vaddr) with
  | none =>
    simp only
    exact absent (by simp [PageTable.entry_at, hg, PageTableEntry.empty])
  | some entry =>
    have he : s.page_table_.entry_at (s.extract_page_number vaddr) = entry :=
      entry_at_of_get_entry _ _ _ hg
    simp only
    cases hv : entry.valid with
    | false =>
      simp only [Bool.false_eq_true, if_false]
      exact absent (by rw [he]; exact hv)
    | true =>
      simp only [if_true]
      cases hfree : s.physical_memory_.free_frame entry.frame_number with
      | ok pm =>
        simp only
        exact freed pm (by rw [he]; exact hv) (by rw [he]; exact hfree)
      | error e =>
        simp only
        exact thrown e (by rw [he]; exact hv) (by rw [he]; exact hfree)

theorem free_frame_ok_of_lt (pm : PhysicalMemory) (pfn : Nat) (h : pfn < pm.num_frames_) :
    ∃ pm2, pm.free_frame pfn = Except.ok pm2 := by
  unfold PhysicalMemory.free_frame
  have : ¬ pfn ≥ pm.num_frames_ := by omega
  simp only [this, if_false]
  by_cases hal : (pm.frames_ pfn).allocated = true
  · simp [hal]
  · simp [hal]

theorem wellShaped_root (L : Nat) : WellShaped L (PageTableNode.make (L == 1)) := by
  cases L with
  | zero => simp [WellShaped]
  | succ r =>
    cases r with
    | zero => simp [PageTableNode.make, WellShaped]
    | succ r => simp [PageTableNode.make, WellShaped]

theorem entry_at_new (config : Config) (vpn : Nat) :
    (PageTable.new config).entry_at vpn = PageTableEntry.empty := by
  simp only [PageTable.entry_at, PageTable.get_entry, PageTable.walk_page_table, PageTable.new]
  exact lookup_make _ _ _ _ _ _

theorem consistent_new (config : Config) :
    Consistent config (PageTable.new config) (PhysicalMemory.new config) where
  levels_eq := rfl
  bits_eq := rfl
  frames_eq := rfl
  memory_eq := rfl
  shaped := wellShaped_root _
  free_lt := fun f hf => by
    simp only [PhysicalMemory.new, List.mem_range] at hf
    exact ⟨hf, rfl⟩
  free_nodup := List.nodup_range _
  free_complete := fun f hlt _ => by
    simp only [PhysicalMemory.new] at hlt ⊢
    exact List.mem_range.mpr hlt
  valid_lt := fun vpn hv => by
    rw [entry_at_new] at hv
    simp [PageTableEntry.empty] at hv

theorem step_consistent (config : Config) (s : VirtualMemoryManager) (op : Op)
    (hc : s.config_ = config) (h : Consistent config s.page_table_ s.physical_memory_) :
    (step s op).config_ = config ∧
      Consistent config (step s op).page_table_ (step s op).physical_memory_ := by
  cases op with
  | translate vaddr write => exact translate_consistent config s vaddr write hc h
  | read_byte vaddr =>
    simp only [step, read_byte_snd]
    exact translate_consistent config s vaddr false hc h
  | write_byte vaddr value =>
    simp only [step]
    have ht := translate_consistent config s vaddr true hc h
    refine write_byte_cases s vaddr value
      (fun r => r.2.config_ = config ∧ Consistent config r.2.page_table_ r.2.physical_memory_)
      (fun _ => ht) (fun _ _ _ => ht) (fun paddr _ _ => ⟨ht.1, ?_⟩)
    exact consistent_memory _ _ _ _ ht.2
  | allocate_page vaddr =>
    simp only [step]
    refine allocate_page_cases s vaddr
      (fun r => r.2.config_ = config ∧ Consistent config r.2.page_table_ r.2.physical_memory_)
      (fun _ => ⟨hc, h⟩) (fun _ _ => ⟨hc, (consistent_allocate _ _ _ _ h).1⟩) ?_
    intro pfn _ ha
    have h1 := consistent_allocate config _ _ (s.extract_page_number vaddr) h
    exact ⟨hc, consistent_insert config _ _ (s.extract_page_number vaddr) pfn h1.1
      (by have := h1.2 pfn ha; simpa [allocate_frame_num_frames] using this)⟩
  | free_page vaddr =>
    simp only [step]
    refine free_page_cases s vaddr
      (fun r => r.2.config_ = config ∧ Consistent config r.2.page_table_ r.2.physical_memory_)
      (fun _ => ⟨hc, h⟩) ?_ ?_
    · intro pm _ hfree
      exact ⟨hc, consistent_free_frame config _ _ pm _ (consistent_invalidate _ _ _ _ h) hfree⟩
    · intro e _ _
      exact ⟨hc, consistent_invalidate _ _ _ _ h⟩
  | reset_statistics =>
    exact ⟨hc, consistent_reset_stats _ _ _ h⟩

/-- Every reachable state keeps the configuration it was built from and the
bookkeeping invariant. -/
theorem reachable_consistent (config : Config) (guard : VirtualMemoryManager → Op → Prop)
    (s : VirtualMemoryManager) (h : ReachableBy config guard s) :
    s.config_ = config ∧ Consistent config s.page_table_ s.physical_memory_ := by
  induction h with
  | init => exact ⟨rfl, consistent_new config⟩
  | next s op _ _ ih => exact step_consistent config s op ih.1 ih.2

theorem reachableBy_mono (config : Config) (g1 g2 : VirtualMemoryManager → Op → Prop)
    (hg : ∀ s op, g1 s op → g2 s op) (s : VirtualMemoryManager)
    (h : ReachableBy config g1 s) : ReachableBy config g2 s := by
  induction h with
  | init => exact ReachableBy.init
  | next s op _ hgd ih => exact ReachableBy.next s op ih (hg s op hgd)

theorem reachableBy_reachable (config : Config) (g : VirtualMemoryManager → Op → Prop)
    (s : VirtualMemoryManager) (h : ReachableBy config g s) : Reachable config s :=
  reachableBy_mono config g _ (fun _ _ _ => trivial) s h

/-! ## C1: immediate round trip -/

/-- A successful translation leaves the page number cached with the frame the
returned address was computed from, and keeps the configuration. -/
theorem translate_some_cached (s : VirtualMemoryManager) (vaddr : Nat) (write : Bool) (p : Nat)
    (h : (s.translate vaddr write).1 = some p) :
    (s.translate vaddr write).2.config_ = s.config_ ∧
      ∃ pfn, (s.translate vaddr write).2.tlb_.find (s.extract_page_number vaddr) = some pfn ∧
        p = s.physical_address pfn (s.extract_offset vaddr) := by
  revert h
  refine translate_cases s vaddr write
    (fun r => r.1 = some p → r.2.config_ = s.config_ ∧
      ∃ pfn, r.2.tlb_.find (s.extract_page_number vaddr) = some pfn ∧
        p = s.physical_address pfn (s.extract_offset vaddr)) ?_ ?_ ?_ ?_ ?_
  · intro pfn hf h
    simp only [Option.some.injEq] at h
    exact ⟨rfl, pfn, by simp only [lookup_find]; exact hf, h.symm⟩
  · intro _ _ h
    simp only [Option.some.injEq] at h
    exact ⟨rfl, _, insert_find_self _ _ _, h.symm⟩
  · intro _ _ _ h
    simp at h
  · intro pfn _ _ _ _ h
    simp only [Option.some.injEq] at h
    exact ⟨rfl, _, insert_find_self _ _ _, h.symm⟩
  · intro pfn _ _ _ _ h
    simp at h

theorem translate_of_cached (s : VirtualMemoryManager) (vaddr : Nat) (write : Bool) (pfn : Nat)
    (h : s.tlb_.find (s.extract_page_number vaddr) = some pfn) :
    (s.translate vaddr write).1 = some (s.physical_address pfn (s.extract_offset vaddr)) ∧
      (s.translate vaddr write).2.physical_memory_ = s.physical_memory_ := by
  rw [translate_hit s vaddr write pfn h]
  exact ⟨rfl, rfl⟩

theorem extract_config (s t : VirtualMemoryManager) (h : t.config_ = s.config_) (vaddr : Nat) :
    t.extract_page_number vaddr = s.extract_page_number vaddr ∧
      t.extract_offset vaddr = s.extract_offset vaddr ∧
      ∀ pfn off, t.physical_address pfn off = s.physical_address pfn off := by
  simp [VirtualMemoryManager.extract_page_number, VirtualMemoryManager.extract_offset,
    VirtualMemoryManager.physical_address, h]

/-- C1, immediate round trip: when `write_byte vaddr value` completes without
an error, a `read_byte vaddr` made right after it returns `value`.  This holds in
every state of the translator, so in every reachable one; `value < 256` says
that the value is a byte. -/
theorem write_then_read (s : VirtualMemoryManager) (vaddr value : Nat) (hb : value < 256)
    (hw : (s.write_byte vaddr value).1 = Except.ok ()) :
    ((s.write_byte vaddr value).2.read_byte vaddr).1 = Except.ok value := by
  revert hw
  refine write_byte_cases s vaddr value
    (fun r => r.1 = Except.ok () → (r.2.read_byte vaddr).1 = Except.ok value) ?_ ?_ ?_
  · intro _ h; simp at h
  · intro _ _ _ h; simp at h
  · intro paddr ht hlt _
    obtain ⟨hcfg, pfn, hfind, hp⟩ := translate_some_cached s vaddr true paddr ht
    generalize hT : (s.translate vaddr true).2 = t at hcfg hfind hlt
    generalize hU : ({ t with physical_memory_ :=
      { t.physical_memory_ with memory_ := setAt t.physical_memory_.memory_ paddr (value % 256) } } :
      VirtualMemoryManager) = u
    have hucfg : u.config_ = s.config_ := by rw [← hU]; exact hcfg
    obtain ⟨e1, e2, e3⟩ := extract_config s u hucfg vaddr
    have hufind : u.tlb_.find (u.extract_page_number vaddr) = some pfn := by
      rw [e1, ← hU]; exact hfind
    obtain ⟨h1, h2⟩ := translate_of_cached u vaddr false pfn hufind
    rw [read_byte_fst, h1, h2]
    simp only
    rw [e3, e2, ← hp, ← hU]
    simp [PhysicalMemory.read_byte, hlt, setAt_same, Nat.mod_eq_of_lt hb]

/-- The scenario of C1 on the small preset: writing 7 to address 0 succeeds
and reading address 0 gives 7. -/
theorem write_then_read_witness :
    (7 < 256 ∧
      ((VirtualMemoryManager.new Config.small_config).write_byte 0 7).1 = Except.ok ()) ∧
    (((VirtualMemoryManager.new Config.small_config).write_byte 0 7).2.read_byte 0).1 =
      Except.ok 7 :=
  ⟨⟨by decide, rfl⟩,
    write_then_read (VirtualMemoryManager.new Config.small_config) 0 7 (by decide) rfl⟩

/-! ## The statistics counters -/

/-- The four counters after one `translate` call, by the path taken. -/
theorem translate_statistics (s : VirtualMemoryManager) (vaddr : Nat) (write : Bool) :
    (s.translate vaddr write).2.total_accesses_ = s.total_accesses_ + 1 ∧
    (s.tlb_.find (s.extract_page_number vaddr) ≠ none →
      (s.translate vaddr write).2.tlb_hits_ = s.tlb_hits_ + 1 ∧
      (s.translate vaddr write).2.page_table_hits_ = s.page_table_hits_ ∧
      (s.translate vaddr write).2.page_faults_ = s.page_faults_) ∧
    (s.tlb_.find (s.extract_page_number vaddr) = none →
      (s.page_table_.entry_at (s.extract_page_number vaddr)).valid = true →
      (s.translate vaddr write).2.tlb_hits_ = s.tlb_hits_ ∧
      (s.translate vaddr write).2.page_table_hits_ = s.page_table_hits_ + 1 ∧
      (s.translate vaddr write).2.page_faults_ = s.page_faults_) ∧
    (s.tlb_.find (s.extract_page_number vaddr) = none →
      (s.page_table_.entry_at (s.extract_page_number vaddr)).valid = false →
      (s.translate vaddr write).2.tlb_hits_ = s.tlb_hits_ ∧
      (s.translate vaddr write).2.page_table_hits_ = s.page_table_hits_ ∧
      (s.translate vaddr write).2.page_faults_ = s.page_faults_ + 1) ∧
    ((s.translate vaddr write).1 = none →
      (s.translate vaddr write).2.page_faults_ = s.page_faults_ + 1) := by
  refine translate_cases s vaddr write
    (fun r => r.2.total_accesses_ = s.total_accesses_ + 1 ∧
      (s.tlb_.find (s.extract_page_number vaddr) ≠ none →
        r.2.tlb_hits_ = s.tlb_hits_ + 1 ∧ r.2.page_table_hits_ = s.page_table_hits_ ∧
        r.2.page_faults_ = s.page_faults_) ∧
      (s.tlb_.find (s.extract_page_number vaddr) = none →
        (s.page_table_.entry_at (s.extract_page_number vaddr)).valid = true →
        r.2.tlb_hits_ = s.tlb_hits_ ∧ r.2.page_table_hits_ = s.page_table_hits_ + 1 ∧
        r.2.page_faults_ = s.page_faults_) ∧
      (s.tlb_.find (s.extract_page_number vaddr) = none →
        (s.page_table_.entry_at (s.extract_page_number vaddr)).valid = false →
        r.2.tlb_hits_ = s.tlb_hits_ ∧ r.2.page_table_hits_ = s.page_table_hits_ ∧
        r.2.page_faults_ = s.page_faults_ + 1) ∧
      (r.1 = none → r.2.page_faults_ = s.page_faults_ + 1)) ?_ ?_ ?_ ?_ ?_
  · intro pfn hf
    simp [hf]
  · intro hf hv
    simp [hf, hv]
  · intro hf hv _
    simp [hf, hv]
  · intro pfn hf hv _ _
    simp [hf, hv]
  · intro pfn hf hv _ _
    simp [hf, hv]

theorem write_byte_statistics (s : VirtualMemoryManager) (vaddr value : Nat) :
    (s.write_byte vaddr value).2.total_accesses_ = (s.translate vaddr true).2.total_accesses_ ∧
    (s.write_byte vaddr value).2.tlb_hits_ = (s.translate vaddr true).2.tlb_hits_ ∧
    (s.write_byte vaddr value).2.page_table_hits_ = (s.translate vaddr true).2.page_table_hits_ ∧
    (s.write_byte vaddr value).2.page_faults_ = (s.translate vaddr true).2.page_faults_ := by
  refine write_byte_cases s vaddr value
    (fun r => r.2.total_accesses_ = (s.translate vaddr true).2.total_accesses_ ∧
      r.2.tlb_hits_ = (s.translate vaddr true).2.tlb_hits_ ∧
      r.2.page_table_hits_ = (s.translate vaddr true).2.page_table_hits_ ∧
      r.2.page_faults_ = (s.translate vaddr true).2.page_faults_) ?_ ?_ ?_
  · intro _; exact ⟨rfl, rfl, rfl, rfl⟩
  · intro _ _ _; exact ⟨rfl, rfl, rfl, rfl⟩
  · intro _ _ _; exact ⟨rfl, rfl, rfl, rfl⟩

theorem allocate_page_statistics (s : VirtualMemoryManager) (vaddr : Nat) :
    (s.allocate_page vaddr).2.total_accesses_ = s.total_accesses_ ∧
    (s.allocate_page vaddr).2.tlb_hits_ = s.tlb_hits_ ∧
    (s.allocate_page vaddr).2.page_table_hits_ = s.page_table_hits_ ∧
    (s.allocate_page vaddr).2.page_faults_ = s.page_faults_ := by
  refine allocate_page_cases s vaddr
    (fun r => r.2.total_accesses_ = s.total_accesses_ ∧ r.2.tlb_hits_ = s.tlb_hits_ ∧
      r.2.page_table_hits_ = s.page_table_hits_ ∧ r.2.page_faults_ = s.page_faults_) ?_ ?_ ?_
  · intro _; exact ⟨rfl, rfl, rfl, rfl⟩
  · intro _ _; exact ⟨rfl, rfl, rfl, rfl⟩
  · intro _ _ _; exact ⟨rfl, rfl, rfl, rfl⟩

theorem free_page_statistics (s : VirtualMemoryManager) (vaddr : Nat) :
    (s.free_page vaddr).2.total_accesses_ = s.total_accesses_ ∧
    (s.free_page vaddr).2.tlb_hits_ = s.tlb_hits_ ∧
    (s.free_page vaddr).2.page_table_hits_ = s.page_table_hits_ ∧
    (s.free_page vaddr).2.page_faults_ = s.page_faults_ := by
  refine free_page_cases s vaddr
    (fun r => r.2.total_accesses_ = s.total_accesses_ ∧ r.2.tlb_hits_ = s.tlb_hits_ ∧
      r.2.page_table_hits_ = s.page_table_hits_ ∧ r.2.page_faults_ = s.page_faults_) ?_ ?_ ?_
  · intro _; exact ⟨rfl, rfl, rfl, rfl⟩
  · intro _ _ _; exact ⟨rfl, rfl, rfl, rfl⟩
  · intro _ _ _; exact ⟨rfl, rfl, rfl, rfl⟩

theorem translate_statistics_sum (s : VirtualMemoryManager) (vaddr : Nat) (write : Bool)
    (h : s.total_accesses_ = s.tlb_hits_ + s.page_table_hits_ + s.page_faults_) :
    (s.translate vaddr write).2.total_accesses_ =
      (s.translate vaddr write).2.tlb_hits_ + (s.translate vaddr write).2.page_table_hits_ +
        (s.translate vaddr write).2.page_faults_ := by
  obtain ⟨h1, h2, h3, h4, _⟩ := translate_statistics s vaddr write
  cases hf : s.tlb_.find (s.extract_page_number vaddr) with
  | some pfn =>
    obtain ⟨a, b, c⟩ := h2 (by simp [hf])
    omega
  | none =>
    cases hv : (s.page_table_.entry_at (s.extract_page_number vaddr)).valid with
    | true => obtain ⟨a, b, c⟩ := h3 hf hv; omega
    | false => obtain ⟨a, b, c⟩ := h4 hf hv; omega

theorem step_statistics_sum (s : VirtualMemoryManager) (op : Op)
    (h : s.total_accesses_ = s.tlb_hits_ + s.page_table_hits_ + s.page_faults_) :
    (step s op).total_accesses_ =
      (step s op).tlb_hits_ + (step s op).page_table_hits_ + (step s op).page_faults_ := by
  cases op with
  | translate vaddr write => exact translate_statistics_sum s vaddr write h
  | read_byte vaddr =>
    simp only [step, read_byte_snd]
    exact translate_statistics_sum s vaddr false h
  | write_byte vaddr value =>
    simp only [step]
    obtain ⟨a, b, c, d⟩ := write_byte_statistics s vaddr value
    rw [a, b, c, d]
    exact translate_statistics_sum s vaddr true h
  | allocate_page vaddr =>
    simp only [step]
    obtain ⟨a, b, c, d⟩ := allocate_page_statistics s vaddr
    rw [a, b, c, d]; exact h
  | free_page vaddr =>
    simp only [step]
    obtain ⟨a, b, c, d⟩ := free_page_statistics s vaddr
    rw [a, b, c, d]; exact h
  | reset_statistics => rfl

theorem reachable_statistics_sum (config : Config) (s : VirtualMemoryManager)
    (h : Reachable config s) :
    s.total_accesses_ = s.tlb_hits_ + s.page_table_hits_ + s.page_faults_ := by
  induction h with
  | init => rfl
  | next s op _ _ ih => exact step_statistics_sum s op ih

theorem run_statistics_sum (s : VirtualMemoryManager) (ops : List Op)
    (h : s.total_accesses_ = s.tlb_hits_ + s.page_table_hits_ + s.page_faults_) :
    (run s ops).total_accesses_ =
      (run s ops).tlb_hits_ + (run s ops).page_table_hits_ + (run s ops).page_faults_ := by
  induction ops generalizing s with
  | nil => exact h
  | cons op ops ih => exact ih (step s op) (step_statistics_sum s op h)

/-! ## C4: free_page postcondition -/

theorem free_frame_post (config : Config) (pt : PageTable) (pm pm2 : PhysicalMemory) (pfn : Nat)
    (h : Consistent config pt pm) (hfree : pm.free_frame pfn = Except.ok pm2) :
    pfn < pm.num_frames_ ∧ pm2.num_frames_ = pm.num_frames_ ∧
      (pm2.frames_ pfn).allocated = false ∧ pfn ∈ pm2.free_frames_ ∧
      pm2.page_faults_ = pm.page_faults_ := by
  unfold PhysicalMemory.free_frame at hfree
  by_cases hge : pfn ≥ pm.num_frames_
  · simp [hge] at hfree
  · simp only [hge, if_false] at hfree
    have hlt : pfn < pm.num_frames_ := by omega
    by_cases hal : (pm.frames_ pfn).allocated = true
    · simp only [hal, if_true, Except.ok.injEq] at hfree
      subst hfree
      simp [hlt, setAt_same, Frame.empty]
    · simp only [hal, Bool.false_eq_true, if_false, Except.ok.injEq] at hfree
      subst hfree
      have hal2 : (pm.frames_ pfn).allocated = false := by
        cases hx : (pm.frames_ pfn).allocated
        · rfl
        · exact absurd hx hal
      exact ⟨hlt, rfl, hal2, h.free_complete pfn hlt hal2, rfl⟩

/-- C4, `free_page` postcondition.  In a reachable state, when the page of
`vaddr` has a valid page-table entry with frame `f`, `free_page vaddr` completes
and leaves no valid page-table entry for the page, no cache entry for its page
number, and frame `f` unallocated and on the free list; when the entry is absent
or invalid the call returns the state unchanged. -/
theorem free_page_postcondition (config : Config) (s : VirtualMemoryManager)
    (hs : Reachable config s) (vaddr : Nat) :
    (∀ e, s.page_table_.get_entry (s.extract_page_number vaddr) = some e → e.valid = true →
      (s.free_page vaddr).1 = Except.ok () ∧
      (s.free_page vaddr).2.page_table_.is_present (s.extract_page_number vaddr) = false ∧
      (∀ e2, (s.free_page vaddr).2.page_table_.get_entry (s.extract_page_number vaddr) = some e2 →
        e2.valid = false) ∧
      (s.free_page vaddr).2.tlb_.find (s.extract_page_number vaddr) = none ∧
      ((s.free_page vaddr).2.physical_memory_.frames_ e.frame_number).allocated = false ∧
      (s.free_page vaddr).2.physical_memory_.is_allocated e.frame_number = false ∧
      e.frame_number ∈ (s.free_page vaddr).2.physical_memory_.free_frames_) ∧
    ((s.page_table_.get_entry (s.extract_page_number vaddr) = none ∨
        ∃ e, s.page_table_.get_entry (s.extract_page_number vaddr) = some e ∧ e.valid = false) →
      s.free_page vaddr = (Except.ok (), s)) := by
  obtain ⟨_, hc⟩ := reachable_consistent config _ s hs
  constructor
  · intro e hg hv
    have he : s.page_table_.entry_at (s.extract_page_number vaddr) = e :=
      entry_at_of_get_entry _ _ _ hg
    refine free_page_cases s vaddr
      (fun r => r.1 = Except.ok () ∧
        r.2.page_table_.is_present (s.extract_page_number vaddr) = false ∧
        (∀ e2, r.2.page_table_.get_entry (s.extract_page_number vaddr) = some e2 →
          e2.valid = false) ∧
        r.2.tlb_.find (s.extract_page_number vaddr) = none ∧
        (r.2.physical_memory_.frames_ e.frame_number).allocated = false ∧
        r.2.physical_memory_.is_allocated e.frame_number = false ∧
        e.frame_number ∈ r.2.physical_memory_.free_frames_) ?_ ?_ ?_
    · intro hv2
      rw [he, hv] at hv2
      exact absurd hv2 (by simp)
    · intro pm _ hfree
      rw [he] at hfree
      obtain ⟨h1, h2, h3, h4, _⟩ := free_frame_post config _ _ pm _ hc hfree
      have hinv := invalidate_same s.page_table_ (s.extract_page_number vaddr)
        (s.extract_page_number vaddr) (same_slot_refl _ _)
      refine ⟨rfl, ?_, ?_, invalidate_find_self _ _, h3, ?_, h4⟩
      · simp only [is_present_eq]; exact hinv
      · intro e2 hg2
        simp only at hg2
        rw [← entry_at_of_get_entry _ _ _ hg2]; exact hinv
      · simp only [PhysicalMemory.is_allocated, h3]
        simp
    · intro err _ hfree
      rw [he] at hfree
      have hlt := hc.valid_lt (s.extract_page_number vaddr) (by rw [he]; exact hv)
      rw [he] at hlt
      obtain ⟨pm2, hok⟩ := free_frame_ok_of_lt s.physical_memory_ e.frame_number hlt
      rw [hok] at hfree
      exact absurd hfree (by simp)
  · intro h
    refine free_page_cases s vaddr (fun r => r = (Except.ok (), s)) (fun _ => rfl) ?_ ?_
    · intro pm hv _
      rcases h with h | ⟨e, hg, hv2⟩
      · simp [PageTable.entry_at, h, PageTableEntry.empty] at hv
      · rw [entry_at_of_get_entry _ _ _ hg, hv2] at hv; exact absurd hv (by simp)
    · intro err hv _
      rcases h with h | ⟨e, hg, hv2⟩
      · simp [PageTable.entry_at, h, PageTableEntry.empty] at hv
      · rw [entry_at_of_get_entry _ _ _ hg, hv2] at hv; exact absurd hv (by simp)

/-- C4 on the small preset: after writing to address 0, the page has a valid
entry with frame 0, and `free_page 0` leaves the page unmapped, uncached and
frame 0 on the free list. -/
theorem free_page_postcondition_witness :
    Reachable Config.small_config
      (step (VirtualMemoryManager.new Config.small_config) (Op.write_byte 0 7)) ∧
    ((step (VirtualMemoryManager.new Config.small_config) (Op.write_byte 0 7)).free_page 0).1 =
      Except.ok () ∧
    ((step (VirtualMemoryManager.new Config.small_config)
      (Op.write_byte 0 7)).free_page 0).2.page_table_.is_present 0 = false ∧
    ((step (VirtualMemoryManager.new Config.small_config)
      (Op.write_byte 0 7)).free_page 0).2.tlb_.find 0 = none ∧
    (0 : Nat) ∈ ((step (VirtualMemoryManager.new Config.small_config)
      (Op.write_byte 0 7)).free_page 0).2.physical_memory_.free_frames_ :=
  have h := (free_page_postcondition Config.small_config
    (step (VirtualMemoryManager.new Config.small_config) (Op.write_byte 0 7))
    (ReachableBy.next _ _ ReachableBy.init trivial) 0).1
    { frame_number := 0, valid := true, dirty := true, referenced := true } rfl rfl
  ⟨ReachableBy.next _ _ ReachableBy.init trivial, h.1, h.2.1, h.2.2.2.1, h.2.2.2.2.2.2⟩

/-! ## C10: failure atomicity of translate -/

/-- C10 as stated fails without page-table levels: on the small preset with
`page_table_levels` set to 0, `translate 0` returns nothing although the fault
path took frame 0 off the free list and marked it allocated. -/
theorem translate_failure_mutates_without_levels :
    ((VirtualMemoryManager.new { Config.small_config with page_table_levels := 0 }).translate
      0 false).1 = none ∧
    (((VirtualMemoryManager.new { Config.small_config with page_table_levels := 0 }).translate
      0 false).2.physical_memory_.frames_ 0).allocated = true ∧
    ((VirtualMemoryManager.new { Config.small_config with page_table_levels :=
      0 }).physical_memory_.frames_ 0).allocated = false ∧
    ((VirtualMemoryManager.new { Config.small_config with page_table_levels := 0 }).translate
      0 false).2.physical_memory_.free_frames_.length = 63 ∧
    (VirtualMemoryManager.new { Config.small_config with page_table_levels :=
      0 }).physical_memory_.free_frames_.length = 64 := by
  refine ⟨rfl, rfl, rfl, ?_, ?_⟩ <;> decide

/-- C10 amended, failure atomicity of `translate` with at least one page-table
level.  In every state whose page table has the shape that its constructor builds
and its methods keep (so in every reachable state, also after frames were pinned
through the allocator), when `translate` returns nothing, the cache's entries and
recency order, the whole page table (every entry and the occupied-entry count),
every frame's metadata, the free list, the allocated-frame count and the byte
store are as before the call. -/
theorem translate_failure_atomic (s : VirtualMemoryManager)
    (hshape : WellShaped s.page_table_.num_levels_ s.page_table_.root_)
    (hL : 1 ≤ s.page_table_.num_levels_) (vaddr : Nat) (write : Bool)
    (h : (s.translate vaddr write).1 = none) :
    (s.translate vaddr write).2.tlb_.cache_ = s.tlb_.cache_ ∧
    (s.translate vaddr write).2.tlb_.lru_list_ = s.tlb_.lru_list_ ∧
    (s.translate vaddr write).2.page_table_ = s.page_table_ ∧
    (s.translate vaddr write).2.physical_memory_.frames_ = s.physical_memory_.frames_ ∧
    (s.translate vaddr write).2.physical_memory_.free_frames_ = s.physical_memory_.free_frames_ ∧
    (s.translate vaddr write).2.physical_memory_.allocated_frames_ =
      s.physical_memory_.allocated_frames_ ∧
    (s.translate vaddr write).2.physical_memory_.memory_ = s.physical_memory_.memory_ := by
  revert h
  refine translate_cases s vaddr write
    (fun r => r.1 = none →
      r.2.tlb_.cache_ = s.tlb_.cache_ ∧ r.2.tlb_.lru_list_ = s.tlb_.lru_list_ ∧
      r.2.page_table_ = s.page_table_ ∧
      r.2.physical_memory_.frames_ = s.physical_memory_.frames_ ∧
      r.2.physical_memory_.free_frames_ = s.physical_memory_.free_frames_ ∧
      r.2.physical_memory_.allocated_frames_ = s.physical_memory_.allocated_frames_ ∧
      r.2.physical_memory_.memory_ = s.physical_memory_.memory_) ?_ ?_ ?_ ?_ ?_
  · intro _ _ h; simp at h
  · intro _ _ h; simp at h
  · intro hf _ ha _
    obtain ⟨h1, h2, _⟩ := lookup_miss s.tlb_ _ hf
    obtain ⟨_, h4⟩ := allocate_frame_none _ _ ha
    refine ⟨h1, h2, rfl, ?_, ?_, ?_, ?_⟩ <;> simp only [h4]
  · intro _ _ _ _ _ h; simp at h
  · intro pfn _ _ _ hv2 _
    have := insert_same s.page_table_ (s.extract_page_number vaddr) pfn
      (s.extract_page_number vaddr) hshape hL (same_slot_refl _ _)
    rw [this] at hv2
    simp at hv2

/-- C10 amended on the small preset cut down to one frame: page 0 takes the
frame, the frame is pinned, and the fault of page 1 (address 256) finds neither a
free frame nor a victim; the failed call leaves the page table, the frames and
the free list as they were. -/
theorem translate_failure_atomic_witness :
    (WellShaped (pinned_one_frame.page_table_.num_levels_) pinned_one_frame.page_table_.root_ ∧
      1 ≤ pinned_one_frame.page_table_.num_levels_ ∧
      (pinned_one_frame.translate 256 true).1 = none) ∧
    (pinned_one_frame.translate 256 true).2.page_table_ = pinned_one_frame.page_table_ ∧
    (pinned_one_frame.translate 256 true).2.physical_memory_.frames_ =
      pinned_one_frame.physical_memory_.frames_ ∧
    (pinned_one_frame.translate 256 true).2.physical_memory_.free_frames_ =
      pinned_one_frame.physical_memory_.free_frames_ :=
  have hr : Reachable { Config.small_config with physical_memory_size := 256, num_frames := 1 }
      (step (VirtualMemoryManager.new
        { Config.small_config with physical_memory_size := 256, num_frames := 1 })
        (Op.translate 0 false)) :=
    ReachableBy.next _ _ ReachableBy.init trivial
  have hshape : WellShaped pinned_one_frame.page_table_.num_levels_
      pinned_one_frame.page_table_.root_ :=
    (reachable_consistent _ _ _ hr).2.shaped
  have h := translate_failure_atomic pinned_one_frame hshape (by decide) 256 true rfl
  ⟨⟨hshape, by decide, rfl⟩, h.2.2.1, h.2.2.2.1, h.2.2.2.2.1⟩

/-! ## Level indices are digits of the page number -/

theorem extract_level_index_eq (L B vpn level : Nat) :
    extract_level_index L B vpn level = vpn / 2 ^ ((L - 1 - level) * B) % 2 ^ B := by
  simp [extract_level_index, Nat.shiftRight_eq_div_pow, Nat.and_pow_two_sub_one_eq_mod]

/-- Two numbers whose base-`2 ^ B` digits agree below position `n` agree modulo
`2 ^ (n * B)`. -/
theorem mod_eq_of_digits (B v w : Nat) (n : Nat) :
    (∀ j, j < n → v / 2 ^ (j * B) % 2 ^ B = w / 2 ^ (j * B) % 2 ^ B) →
      v % 2 ^ (n * B) = w % 2 ^ (n * B) := by
  induction n with
  | zero => intro _; simp [Nat.mod_one]
  | succ n ih =>
    intro h
    have h1 := ih (fun j hj => h j (by omega))
    have h2 := h n (by omega)
    have e : 2 ^ ((n + 1) * B) = 2 ^ (n * B) * 2 ^ B := by
      rw [Nat.succ_mul, pow_add]
    rw [e, Nat.mod_mul, Nat.mod_mul, h1, h2]

theorem same_slot_eq (pt : PageTable) (v w : Nat)
    (hv : v < 2 ^ (pt.num_levels_ * pt.bits_per_level_))
    (hw : w < 2 ^ (pt.num_levels_ * pt.bits_per_level_)) (h : pt.same_slot v w) : v = w := by
  have := mod_eq_of_digits pt.bits_per_level_ v w pt.num_levels_ (fun j hj => by
    have := h (pt.num_levels_ - 1 - j) (by omega)
    rw [extract_level_index_eq, extract_level_index_eq] at this
    have e : pt.num_levels_ - 1 - (pt.num_levels_ - 1 - j) = j := by omega
    rw [e] at this
    exact this)
  rwa [Nat.mod_eq_of_lt hv, Nat.mod_eq_of_lt hw] at this

/-! ## Coherence of the cache with the page table -/

theorem coherent_fields (tlb : TLB) (pt pt2 : PageTable) (h : Coherent tlb pt)
    (hL : pt2.num_levels_ = pt.num_levels_) (hB : pt2.bits_per_level_ = pt.bits_per_level_)
    (hf : ∀ w, (pt.entry_at w).valid = true →
      (pt2.entry_at w).valid = true ∧ (pt2.entry_at w).frame_number = (pt.entry_at w).frame_number) :
    Coherent tlb pt2 := by
  intro vpn f hfind
  obtain ⟨h1, h2, h3⟩ := h vpn f hfind
  obtain ⟨h4, h5⟩ := hf vpn h2
  exact ⟨by rw [hL, hB]; exact h1, h4, by rw [h5]; exact h3⟩

theorem coherent_translate (tlb : TLB) (pt : PageTable) (vpn : Nat) (h : Coherent tlb pt)
    (hwf : WellShaped pt.num_levels_ pt.root_) : Coherent tlb (pt.translate vpn).2 :=
  coherent_fields tlb pt _ h (translate_snd_params pt vpn).1 (translate_snd_params pt vpn).2.1
    (fun w hv => by
      obtain ⟨h1, h2⟩ := translate_snd_fields pt vpn hwf w
      exact ⟨h1.trans hv, h2⟩)

theorem coherent_set_dirty (tlb : TLB) (pt : PageTable) (vpn : Nat) (d : Bool)
    (h : Coherent tlb pt) (hwf : WellShaped pt.num_levels_ pt.root_) :
    Coherent tlb (pt.set_dirty vpn d) :=
  coherent_fields tlb pt _ h (set_dirty_params pt vpn d).1 (set_dirty_params pt vpn d).2.1
    (fun w hv => by
      obtain ⟨h1, h2⟩ := set_dirty_fields pt vpn d hwf w
      exact ⟨h1.trans hv, h2⟩)

theorem coherent_set_referenced (tlb : TLB) (pt : PageTable) (vpn : Nat) (d : Bool)
    (h : Coherent tlb pt) (hwf : WellShaped pt.num_levels_ pt.root_) :
    Coherent tlb (pt.set_referenced vpn d) :=
  coherent_fields tlb pt _ h (set_referenced_params pt vpn d).1
    (set_referenced_params pt vpn d).2.1
    (fun w hv => by
      obtain ⟨h1, h2⟩ := set_referenced_fields pt vpn d hwf w
      exact ⟨h1.trans hv, h2⟩)

theorem coherent_lookup (tlb : TLB) (pt : PageTable) (vpn : Nat) (h : Coherent tlb pt) :
    Coherent (tlb.lookup vpn).2 pt := by
  intro w f hfind
  rw [lookup_find] at hfind
  exact h w f hfind

theorem coherent_tlb_insert (tlb : TLB) (pt : PageTable) (vpn pfn : Nat) (h : Coherent tlb pt)
    (hlt : vpn < 2 ^ (pt.num_levels_ * pt.bits_per_level_))
    (hv : (pt.entry_at vpn).valid = true) (hf : (pt.entry_at vpn).frame_number = pfn) :
    Coherent (tlb.insert vpn pfn) pt := by
  intro w f hfind
  by_cases hw : w = vpn
  · subst hw
    rw [insert_find_self] at hfind
    simp only [Option.some.injEq] at hfind
    exact ⟨hlt, hv, hf.trans hfind⟩
  · exact h w f (insert_find_other tlb vpn pfn w f hw hfind)

theorem coherent_pt_insert (tlb : TLB) (pt : PageTable) (vpn pfn : Nat) (h : Coherent tlb pt)
    (hwf : WellShaped pt.num_levels_ pt.root_) (hv : (pt.entry_at vpn).valid = false) :
    Coherent tlb (pt.insert vpn pfn) := by
  intro w f hfind
  obtain ⟨h1, h2, h3⟩ := h w f hfind
  have hs : ¬ pt.same_slot w vpn := fun hs => by
    rw [entry_at_same_slot pt w vpn hs, hv] at h2
    exact absurd h2 (by simp)
  rw [insert_other pt vpn pfn w hwf hs, (insert_params pt vpn pfn).1, (insert_params pt vpn pfn).2]
  exact ⟨h1, h2, h3⟩

theorem coherent_invalidate (tlb : TLB) (pt : PageTable) (vpn : Nat) (h : Coherent tlb pt)
    (hwf : WellShaped pt.num_levels_ pt.root_)
    (hlt : vpn < 2 ^ (pt.num_levels_ * pt.bits_per_level_)) :
    Coherent (tlb.invalidate vpn) (pt.invalidate vpn) := by
  intro w f hfind
  have hw : w ≠ vpn := fun e => by
    subst e
    rw [invalidate_find_self] at hfind
    exact absurd hfind (by simp)
  rw [invalidate_find_other tlb vpn w hw] at hfind
  obtain ⟨h1, h2, h3⟩ := h w f hfind
  have hs : ¬ pt.same_slot w vpn := fun hs => hw (same_slot_eq pt w vpn h1 hlt hs)
  rw [invalidate_other pt vpn w hwf hs, (invalidate_params pt vpn).1, (invalidate_params pt vpn).2]
  exact ⟨h1, h2, h3⟩

theorem coherent_reset_stats (tlb : TLB) (pt : PageTable) (h : Coherent tlb pt) :
    Coherent tlb.reset_stats pt := fun w f hfind => h w f hfind

theorem page_number_lt (config : Config) (s : VirtualMemoryManager) (vaddr : Nat)
    (hc : s.config_ = config) (hcov : config.covers)
    (hl : s.page_table_.num_levels_ = config.page_table_levels)
    (hb : s.page_table_.bits_per_level_ = config.bits_per_level)
    (h : vaddr < 2 ^ config.virtual_address_bits) :
    s.extract_page_number vaddr < 2 ^ (s.page_table_.num_levels_ * s.page_table_.bits_per_level_) := by
  simp only [VirtualMemoryManager.extract_page_number, hc, hl, hb, Nat.shiftRight_eq_div_pow]
  apply Nat.div_lt_of_lt_mul
  rw [← pow_add]
  exact lt_of_lt_of_le h (Nat.pow_le_pow_right (by omega) hcov)

theorem coherent_access (tlb : TLB) (pt : PageTable) (vpn : Nat) (write : Bool)
    (h : Coherent tlb pt) (hwf : WellShaped pt.num_levels_ pt.root_)
    (hlt : vpn < 2 ^ (pt.num_levels_ * pt.bits_per_level_))
    (hv : (pt.entry_at vpn).valid = true) :
    Coherent (tlb.insert vpn (pt.entry_at vpn).frame_number)
      (if write then (pt.translate vpn).2.set_dirty vpn true else (pt.translate vpn).2) := by
  have ht := coherent_translate tlb pt vpn h hwf
  have hwt := translate_snd_wellShaped pt vpn hwf
  obtain ⟨p1, p2, _⟩ := translate_snd_params pt vpn
  obtain ⟨f1, f2⟩ := translate_snd_fields pt vpn hwf vpn
  cases write
  · simp only [Bool.false_eq_true, if_false]
    exact coherent_tlb_insert tlb _ vpn _ ht (by rw [p1, p2]; exact hlt) (f1.trans hv) f2
  · simp only [if_true]
    obtain ⟨q1, q2, _⟩ := set_dirty_params (pt.translate vpn).2 vpn true
    obtain ⟨g1, g2⟩ := set_dirty_fields (pt.translate vpn).2 vpn true hwt vpn
    exact coherent_tlb_insert tlb _ vpn _ (coherent_set_dirty tlb _ vpn true ht hwt)
      (by rw [q1, q2, p1, p2]; exact hlt) (g1.trans (f1.trans hv)) (g2.trans f2)

theorem translate_coherent (config : Config) (s : VirtualMemoryManager) (vaddr : Nat)
    (write : Bool) (hc : s.config_ = config)
    (hk : Consistent config s.page_table_ s.physical_memory_) (hcov : config.covers)
    (hin : vaddr < 2 ^ config.virtual_address_bits) (h : Coherent s.tlb_ s.page_table_) :
    Coherent (s.translate vaddr write).2.tlb_ (s.translate vaddr write).2.page_table_ := by
  have hlt := page_number_lt config s vaddr hc hcov hk.levels_eq hk.bits_eq hin
  refine translate_cases s vaddr write (fun r => Coherent r.2.tlb_ r.2.page_table_) ?_ ?_ ?_ ?_ ?_
  · intro pfn _
    have h1 := coherent_lookup s.tlb_ s.page_table_ (s.extract_page_number vaddr) h
    cases write
    · exact coherent_set_referenced _ _ _ _ h1 hk.shaped
    · exact coherent_set_referenced _ _ _ _ (coherent_set_dirty _ _ _ _ h1 hk.shaped)
        (set_dirty_wellShaped _ _ _ hk.shaped)
  · intro _ hv
    exact coherent_access _ _ _ write
      (coherent_lookup s.tlb_ s.page_table_ (s.extract_page_number vaddr) h) hk.shaped hlt hv
  · intro _ _ _
    exact coherent_lookup s.tlb_ s.page_table_ (s.extract_page_number vaddr) h
  · intro pfn _ hv _ hv2
    have h1 := coherent_pt_insert _ _ (s.extract_page_number vaddr) pfn
      (coherent_lookup s.tlb_ s.page_table_ (s.extract_page_number vaddr) h) hk.shaped hv
    exact coherent_access _ _ _ write h1 (insert_wellShaped _ _ _ hk.shaped)
      (by rw [(insert_params _ _ _).1, (insert_params _ _ _).2]; exact hlt) hv2
  · intro pfn _ hv _ _
    exact coherent_pt_insert _ _ (s.extract_page_number vaddr) pfn
      (coherent_lookup s.tlb_ s.page_table_ (s.extract_page_number vaddr) h) hk.shaped hv

theorem step_coherent (config : Config) (s : VirtualMemoryManager) (op : Op)
    (hc : s.config_ = config) (hk : Consistent config s.page_table_ s.physical_memory_)
    (hcov : config.covers) (hin : in_address_space config op)
    (h : Coherent s.tlb_ s.page_table_) :
    Coherent (step s op).tlb_ (step s op).page_table_ := by
  cases op with
  | translate vaddr write => exact translate_coherent config s vaddr write hc hk hcov (hin _ rfl) h
  | read_byte vaddr =>
    simp only [step, read_byte_snd]
    exact translate_coherent config s vaddr false hc hk hcov (hin _ rfl) h
  | write_byte vaddr value =>
    simp only [step]
    have ht := translate_coherent config s vaddr true hc hk hcov (hin _ rfl) h
    exact write_byte_cases s vaddr value (fun r => Coherent r.2.tlb_ r.2.page_table_)
      (fun _ => ht) (fun _ _ _ => ht) (fun _ _ _ => ht)
  | allocate_page vaddr =>
    simp only [step]
    refine allocate_page_cases s vaddr (fun r => Coherent r.2.tlb_ r.2.page_table_)
      (fun _ => h) (fun _ _ => h) ?_
    intro pfn hv _
    exact coherent_pt_insert _ _ _ pfn h hk.shaped hv
  | free_page vaddr =>
    simp only [step]
    have hlt := page_number_lt config s vaddr hc hcov hk.levels_eq hk.bits_eq (hin _ rfl)
    refine free_page_cases s vaddr (fun r => Coherent r.2.tlb_ r.2.page_table_)
      (fun _ => h) ?_ ?_
    · intro pm _ _
      exact coherent_invalidate _ _ _ h hk.shaped hlt
    · intro e _ _
      exact coherent_invalidate _ _ _ h hk.shaped hlt
  | reset_statistics => exact coherent_reset_stats _ _ h

theorem coherent_new (config : Config) :
    Coherent (TLB.new config.tlb_size) (PageTable.new config) := by
  intro vpn f h
  simp [TLB.new, TLB.find] at h

/-- Calls that stay inside the configured address space, of a configuration
whose page table covers it, keep the cache coherent with the page table. -/
theorem reachable_coherent (config : Config) (hcov : config.covers)
    (guard : VirtualMemoryManager → Op → Prop)
    (hg : ∀ s op, guard s op → in_address_space config op)
    (s : VirtualMemoryManager) (h : ReachableBy config guard s) :
    Coherent s.tlb_ s.page_table_ := by
  induction h with
  | init => exact coherent_new config
  | next s op hr hgd ih =>
    obtain ⟨hc, hk⟩ := reachable_consistent config guard s hr
    exact step_coherent config s op hc hk hcov (hg s op hgd) ih

/-! ## Exclusive ownership of frames -/

theorem exclusive_fields (pt pt2 : PageTable) (pm : PhysicalMemory) (h : Exclusive pt pm)
    (hL : pt2.num_levels_ = pt.num_levels_) (hB : pt2.bits_per_level_ = pt.bits_per_level_)
    (hf : ∀ w, (pt2.entry_at w).valid = true →
      (pt.entry_at w).valid = true ∧ (pt2.entry_at w).frame_number = (pt.entry_at w).frame_number) :
    Exclusive pt2 pm := by
  refine ⟨fun vpn hv => ?_, fun v w hv hw hvw => ?_⟩
  · obtain ⟨h1, h2⟩ := hf vpn hv
    rw [h2]; exact h.1 vpn h1
  · obtain ⟨a1, a2⟩ := hf v hv
    obtain ⟨b1, b2⟩ := hf w hw
    rw [a2, b2] at hvw
    exact (same_slot_params pt pt2 hL hB v w).mpr (h.2 v w a1 b1 hvw)

theorem exclusive_translate (pt : PageTable) (pm : PhysicalMemory) (vpn : Nat)
    (h : Exclusive pt pm) (hwf : WellShaped pt.num_levels_ pt.root_) :
    Exclusive (pt.translate vpn).2 pm :=
  exclusive_fields pt _ pm h (translate_snd_params pt vpn).1 (translate_snd_params pt vpn).2.1
    (fun w hv => by
      obtain ⟨h1, h2⟩ := translate_snd_fields pt vpn hwf w
      exact ⟨h1 ▸ hv, h2⟩)

theorem exclusive_set_dirty (pt : PageTable) (pm : PhysicalMemory) (vpn : Nat) (d : Bool)
    (h : Exclusive pt pm) (hwf : WellShaped pt.num_levels_ pt.root_) :
    Exclusive (pt.set_dirty vpn d) pm :=
  exclusive_fields pt _ pm h (set_dirty_params pt vpn d).1 (set_dirty_params pt vpn d).2.1
    (fun w hv => by
      obtain ⟨h1, h2⟩ := set_dirty_fields pt vpn d hwf w
      exact ⟨h1 ▸ hv, h2⟩)

theorem exclusive_set_referenced (pt : PageTable) (pm : PhysicalMemory) (vpn : Nat) (d : Bool)
    (h : Exclusive pt pm) (hwf : WellShaped pt.num_levels_ pt.root_) :
    Exclusive (pt.set_referenced vpn d) pm :=
  exclusive_fields pt _ pm h (set_referenced_params pt vpn d).1
    (set_referenced_params pt vpn d).2.1
    (fun w hv => by
      obtain ⟨h1, h2⟩ := set_referenced_fields pt vpn d hwf w
      exact ⟨h1 ▸ hv, h2⟩)

theorem exclusive_frames (pt : PageTable) (pm pm2 : PhysicalMemory) (h : Exclusive pt pm)
    (hf : pm2.frames_ = pm.frames_) : Exclusive pt pm2 :=
  ⟨fun vpn hv => by rw [hf]; exact h.1 vpn hv, h.2⟩

/-- A fault served from the free list keeps the mapping exclusive: the frame
taken was unallocated, so no valid entry held it. -/
theorem exclusive_fault (config : Config) (pt : PageTable) (pm : PhysicalMemory)
    (vpn pfn : Nat) (rest : List Nat) (hk : Consistent config pt pm) (h : Exclusive pt pm)
    (hfree : pm.free_frames_ = pfn :: rest) :
    Exclusive (pt.insert vpn pfn) (pm.allocate_frame vpn).2 := by
  rw [allocate_frame_cons pm vpn pfn rest hfree]
  have hun : (pm.frames_ pfn).allocated = false :=
    (hk.free_lt pfn (by rw [hfree]; exact List.mem_cons_self _ _)).2
  have hold : ∀ w, (pt.entry_at w).valid = true → (pt.entry_at w).frame_number ≠ pfn :=
    fun w hv e => by
      have := h.1 w hv
      rw [e, hun] at this
      exact absurd this (by simp)
  obtain ⟨p1, p2⟩ := insert_params pt vpn pfn
  refine ⟨fun w hv => ?_, fun v w hv hw hvw => ?_⟩
  · simp only
    rcases insert_valid pt vpn pfn w hk.shaped hv with ⟨_, _, h3⟩ | ⟨_, h2⟩
    · rw [h3, setAt_same]
    · rw [h2] at hv ⊢
      rw [setAt_other _ _ _ _ (hold w hv)]
      exact h.1 w hv
  · rw [same_slot_params pt _ p1 p2]
    rcases insert_valid pt vpn pfn v hk.shaped hv with ⟨a1, _, a3⟩ | ⟨_, a2⟩
    · rcases insert_valid pt vpn pfn w hk.shaped hw with ⟨b1, _, _⟩ | ⟨_, b2⟩
      · exact same_slot_trans pt v vpn w a1 (same_slot_symm pt w vpn b1)
      · rw [b2] at hw hvw
        rw [a3] at hvw
        exact absurd hvw.symm (hold w hw)
    · rcases insert_valid pt vpn pfn w hk.shaped hw with ⟨_, _, b3⟩ | ⟨_, b2⟩
      · rw [a2] at hv hvw
        rw [b3] at hvw
        exact absurd hvw (hold v hv)
      · rw [a2] at hv hvw
        rw [b2] at hw hvw
        exact h.2 v w hv hw hvw

theorem exclusive_free (config : Config) (pt : PageTable) (pm pm2 : PhysicalMemory) (vpn : Nat)
    (hk : Consistent config pt pm) (h : Exclusive pt pm)
    (hvv : (pt.entry_at vpn).valid = true)
    (hfree : pm.free_frame (pt.entry_at vpn).frame_number = Except.ok pm2) :
    Exclusive (pt.invalidate vpn) pm2 := by
  obtain ⟨p1, p2⟩ := invalidate_params pt vpn
  have hframes : ∀ f, f ≠ (pt.entry_at vpn).frame_number → pm2.frames_ f = pm.frames_ f := by
    intro f hf
    unfold PhysicalMemory.free_frame at hfree
    by_cases hge : (pt.entry_at vpn).frame_number ≥ pm.num_frames_
    · simp [hge] at hfree
    · simp only [hge, if_false] at hfree
      by_cases hal : (pm.frames_ (pt.entry_at vpn).frame_number).allocated = true
      · simp only [hal, if_true, Except.ok.injEq] at hfree
        subst hfree
        simp [setAt_other _ _ _ _ hf]
      · simp only [hal, Bool.false_eq_true, if_false, Except.ok.injEq] at hfree
        subst hfree; rfl
  refine ⟨fun w hv => ?_, fun v w hv hw hvw => ?_⟩
  · obtain ⟨hs, he⟩ := invalidate_valid pt vpn w hk.shaped hv
    rw [he] at hv ⊢
    by_cases hfe : (pt.entry_at w).frame_number = (pt.entry_at vpn).frame_number
    · exact absurd (h.2 w vpn hv hvv hfe) hs
    · rw [hframes _ hfe]; exact h.1 w hv
  · rw [same_slot_params pt _ p1 p2]
    obtain ⟨_, a2⟩ := invalidate_valid pt vpn v hk.shaped hv
    obtain ⟨_, b2⟩ := invalidate_valid pt vpn w hk.shaped hw
    rw [a2] at hv hvw
    rw [b2] at hw hvw
    exact h.2 v w hv hw hvw

theorem exclusive_access (pt : PageTable) (pm : PhysicalMemory) (vpn : Nat) (write : Bool)
    (h : Exclusive pt pm) (hwf : WellShaped pt.num_levels_ pt.root_) :
    Exclusive (if write then (pt.translate vpn).2.set_dirty vpn true else (pt.translate vpn).2)
      pm := by
  cases write
  · exact exclusive_translate pt pm vpn h hwf
  · exact exclusive_set_dirty _ pm vpn true (exclusive_translate pt pm vpn h hwf)
      (translate_snd_wellShaped pt vpn hwf)

/-- What the guard `from_free_list` gives at a fault: the frame handed out is
the head of a non-empty free list. -/
theorem free_list_head (pm : PhysicalMemory) (vpn pfn : Nat)
    (hg : pm.free_frames_ ≠ [] ∨ (pm.allocate_frame vpn).2.page_faults_ = pm.page_faults_)
    (ha : (pm.allocate_frame vpn).1 = some pfn) :
    ∃ rest, pm.free_frames_ = pfn :: rest := by
  have hne : pm.free_frames_ ≠ [] := by
    rcases hg with hg | hg
    · exact hg
    · rw [allocate_frame_page_faults] at hg; omega
  cases hf : pm.free_frames_ with
  | nil => exact absurd hf hne
  | cons a rest =>
    rw [allocate_frame_cons pm vpn a rest hf] at ha
    simp only [Option.some.injEq] at ha
    exact ⟨rest, by rw [ha]⟩

theorem translate_exclusive (config : Config) (s : VirtualMemoryManager) (vaddr : Nat)
    (write : Bool) (hk : Consistent config s.page_table_ s.physical_memory_)
    (hg : s.physical_memory_.free_frames_ ≠ [] ∨
      (s.translate vaddr write).2.physical_memory_.page_faults_ = s.physical_memory_.page_faults_)
    (h : Exclusive s.page_table_ s.physical_memory_) :
    Exclusive (s.translate vaddr write).2.page_table_ (s.translate vaddr write).2.physical_memory_ := by
  revert hg
  refine translate_cases s vaddr write
    (fun r => (s.physical_memory_.free_frames_ ≠ [] ∨
        r.2.physical_memory_.page_faults_ = s.physical_memory_.page_faults_) →
      Exclusive r.2.page_table_ r.2.physical_memory_) ?_ ?_ ?_ ?_ ?_
  · intro pfn _ _
    cases write
    · exact exclusive_set_referenced _ _ _ _ h hk.shaped
    · exact exclusive_set_referenced _ _ _ _ (exclusive_set_dirty _ _ _ _ h hk.shaped)
        (set_dirty_wellShaped _ _ _ hk.shaped)
  · intro _ _ _
    exact exclusive_access _ _ _ write h hk.shaped
  · intro _ _ ha _
    exact exclusive_frames _ _ _ h (by rw [(allocate_frame_none _ _ ha).2])
  · intro pfn _ _ ha _ hg
    obtain ⟨rest, hfree⟩ := free_list_head _ _ pfn hg ha
    have h1 := exclusive_fault config _ _ (s.extract_page_number vaddr) pfn rest hk h hfree
    exact exclusive_access _ _ _ write h1 (insert_wellShaped _ _ _ hk.shaped)
  · intro pfn _ _ ha _ hg
    obtain ⟨rest, hfree⟩ := free_list_head _ _ pfn hg ha
    exact exclusive_fault config _ _ (s.extract_page_number vaddr) pfn rest hk h hfree

theorem write_byte_page_faults (s : VirtualMemoryManager) (vaddr value : Nat) :
    (s.write_byte vaddr value).2.physical_memory_.page_faults_ =
      (s.translate vaddr true).2.physical_memory_.page_faults_ ∧
    (s.write_byte vaddr value).2.physical_memory_.allocated_frames_ =
      (s.translate vaddr true).2.physical_memory_.allocated_frames_ := by
  refine write_byte_cases s vaddr value
    (fun r => r.2.physical_memory_.page_faults_ =
        (s.translate vaddr true).2.physical_memory_.page_faults_ ∧
      r.2.physical_memory_.allocated_frames_ =
        (s.translate vaddr true).2.physical_memory_.allocated_frames_) ?_ ?_ ?_
  · intro _; exact ⟨rfl, rfl⟩
  · intro _ _ _; exact ⟨rfl, rfl⟩
  · intro _ _ _; exact ⟨rfl, rfl⟩

theorem step_exclusive (config : Config) (s : VirtualMemoryManager) (op : Op)
    (hk : Consistent config s.page_table_ s.physical_memory_) (hg : from_free_list s op)
    (h : Exclusive s.page_table_ s.physical_memory_) :
    Exclusive (step s op).page_table_ (step s op).physical_memory_ := by
  cases op with
  | translate vaddr write => exact translate_exclusive config s vaddr write hk hg h
  | read_byte vaddr =>
    simp only [from_free_list, step, read_byte_snd] at hg
    simp only [step, read_byte_snd]
    exact translate_exclusive config s vaddr false hk hg h
  | write_byte vaddr value =>
    simp only [from_free_list, step, (write_byte_page_faults s vaddr value).1] at hg
    simp only [step]
    have ht := translate_exclusive config s vaddr true hk hg h
    refine write_byte_cases s vaddr value
      (fun r => Exclusive r.2.page_table_ r.2.physical_memory_)
      (fun _ => ht) (fun _ _ _ => ht) (fun _ _ _ => exclusive_frames _ _ _ ht rfl)
  | allocate_page vaddr =>
    simp only [from_free_list, step] at hg
    simp only [step]
    revert hg
    refine allocate_page_cases s vaddr
      (fun r => (s.physical_memory_.free_frames_ ≠ [] ∨
          r.2.physical_memory_.page_faults_ = s.physical_memory_.page_faults_) →
        Exclusive r.2.page_table_ r.2.physical_memory_) (fun _ _ => h) ?_ ?_
    · intro _ ha _
      exact exclusive_frames _ _ _ h (by rw [(allocate_frame_none _ _ ha).2])
    · intro pfn _ ha hg
      obtain ⟨rest, hfree⟩ := free_list_head _ _ pfn hg ha
      exact exclusive_fault config _ _ (s.extract_page_number vaddr) pfn rest hk h hfree
  | free_page vaddr =>
    simp only [step]
    refine free_page_cases s vaddr (fun r => Exclusive r.2.page_table_ r.2.physical_memory_)
      (fun _ => h) ?_ ?_
    · intro pm hv hfree
      exact exclusive_free config _ _ pm _ hk h hv hfree
    · intro e hv hfree
      have hlt := hk.valid_lt _ hv
      obtain ⟨pm2, hok⟩ := free_frame_ok_of_lt s.physical_memory_ _ hlt
      rw [hok] at hfree
      exact absurd hfree (by simp)
  | reset_statistics => exact exclusive_frames _ _ _ h rfl

theorem exclusive_new (config : Config) :
    Exclusive (PageTable.new config) (PhysicalMemory.new config) := by
  refine ⟨fun vpn hv => ?_, fun v w hv _ _ => ?_⟩
  · rw [entry_at_new] at hv; simp [PageTableEntry.empty] at hv
  · rw [entry_at_new] at hv; simp [PageTableEntry.empty] at hv

/-- While every fault is served from the free list, every valid entry holds an
allocated frame and no two leaf slots hold the same frame. -/
theorem reachable_exclusive (config : Config) (guard : VirtualMemoryManager → Op → Prop)
    (hg : ∀ s op, guard s op → from_free_list s op)
    (s : VirtualMemoryManager) (h : ReachableBy config guard s) :
    Exclusive s.page_table_ s.physical_memory_ := by
  induction h with
  | init => exact exclusive_new config
  | next s op hr hgd ih =>
    obtain ⟨_, hk⟩ := reachable_consistent config guard s hr
    exact step_exclusive config s op hk (hg s op hgd) ih

/-! ## C6: cache/page-table coherence -/

theorem reachable_run (config : Config) (ops : List Op) :
    ∀ s, Reachable config s → Reachable config (run s ops) := by
  induction ops with
  | nil => intro s h; exact h
  | cons op ops ih => intro s h; exact ih (step s op) (ReachableBy.next s op h trivial)

/-- C6 as stated fails for addresses beyond the page-table width.  On the small
preset (16-bit addresses, 8 page-number bits) address `0x10000` has page number
256, which the walk takes to the leaf slot of page 0.  After `translate 0`,
`translate 0x10000` and `free_page 0` the cache still holds `256 -> 0` while the
page table has no valid entry for page 256. -/
theorem cache_entry_outlives_aliased_page :
    Reachable Config.small_config
      (run (VirtualMemoryManager.new Config.small_config)
        [Op.translate 0 false, Op.translate 0x10000 false, Op.free_page 0]) ∧
    (VirtualMemoryManager.new Config.small_config).extract_page_number 0x10000 = 256 ∧
    (run (VirtualMemoryManager.new Config.small_config)
      [Op.translate 0 false, Op.translate 0x10000 false, Op.free_page 0]).tlb_.find 256 =
        some 0 ∧
    (run (VirtualMemoryManager.new Config.small_config)
      [Op.translate 0 false, Op.translate 0x10000 false,
        Op.free_page 0]).page_table_.is_present 256 = false ∧
    ¬ ∃ e, (run (VirtualMemoryManager.new Config.small_config)
      [Op.translate 0 false, Op.translate 0x10000 false,
        Op.free_page 0]).page_table_.get_entry 256 = some e ∧ e.valid = true ∧
        e.frame_number = 0 := by
  refine ⟨reachable_run _ _ _ ReachableBy.init, by decide, by decide, by decide, ?_⟩
  rintro ⟨e, h1, h2, _⟩
  have h3 : (run (VirtualMemoryManager.new Config.small_config)
      [Op.translate 0 false, Op.translate 0x10000 false,
        Op.free_page 0]).page_table_.get_entry 256 =
      some { frame_number := 0, valid := false, dirty := false, referenced := true } := by
    decide
  rw [h3] at h1
  simp only [Option.some.injEq] at h1
  rw [← h1] at h2
  exact absurd h2 (by decide)

/-- C6 amended, cache/page-table coherence inside the address space.  For a
configuration whose page table covers the virtual address space
(`virtual_address_bits ≤ offset_bits + levels * bits_per_level`) and whose shift
counts are below 64 (`Config.shifts_defined`), both true of both presets, in
every state reached through public operations called with
addresses below `2 ^ virtual_address_bits`: whenever the cache holds an entry
`vpn -> f`, the page table holds a valid entry for `vpn` with frame `f`. -/
theorem cache_page_table_coherence (config : Config) (hcov : config.covers)
    (_hdef : config.shifts_defined) (s : VirtualMemoryManager)
    (hs : ReachableBy config (fun _ op => in_address_space config op) s) (vpn f : Nat)
    (h : s.tlb_.find vpn = some f) :
    ∃ e, s.page_table_.get_entry vpn = some e ∧ e.valid = true ∧ e.frame_number = f := by
  obtain ⟨_, hv, hf⟩ := reachable_coherent config hcov _ (fun _ _ hg => hg) s hs vpn f h
  obtain ⟨e, he, hev⟩ := (entry_at_valid_iff _ _).mp hv
  exact ⟨e, he, hev, by rw [← entry_at_of_get_entry _ _ _ he]; exact hf⟩

/-- C6 amended on the small preset: after writing to address 0 the cache holds
`0 -> 0`, and the page table has the valid entry of page 0 with frame 0. -/
theorem cache_page_table_coherence_witness :
    (Config.small_config.covers ∧ Config.small_config.shifts_defined ∧
      ReachableBy Config.small_config (fun _ op => in_address_space Config.small_config op)
        (step (VirtualMemoryManager.new Config.small_config) (Op.write_byte 0 7)) ∧
      (step (VirtualMemoryManager.new Config.small_config) (Op.write_byte 0 7)).tlb_.find 0 =
        some 0) ∧
    ∃ e, (step (VirtualMemoryManager.new Config.small_config)
      (Op.write_byte 0 7)).page_table_.get_entry 0 = some e ∧ e.valid = true ∧
        e.frame_number = 0 :=
  have hcov : Config.small_config.covers := by unfold Config.covers; decide
  have hr : ReachableBy Config.small_config (fun _ op => in_address_space Config.small_config op)
      (step (VirtualMemoryManager.new Config.small_config) (Op.write_byte 0 7)) :=
    ReachableBy.next _ _ ReachableBy.init (fun a ha => by
      simp only [Op.vaddr, Option.some.injEq] at ha
      subst ha
      decide)
  ⟨⟨hcov, (by unfold Config.shifts_defined Config.levels_defined; decide), hr, rfl⟩,
    cache_page_table_coherence Config.small_config hcov
      (by unfold Config.shifts_defined Config.levels_defined; decide) _ hr 0 0 rfl⟩

/-! ## C7: at most one owner -/

theorem length_le_one_of_all_eq (l : List Nat) (hnd : l.Nodup)
    (h : ∀ a, a ∈ l → ∀ b, b ∈ l → a = b) : l.length ≤ 1 := by
  match l, hnd, h with
  | [], _, _ => simp
  | [_], _, _ => simp
  | a :: b :: t, hnd, h =>
    have hab : a = b := h a (List.mem_cons_self _ _) b
      (List.mem_cons_of_mem _ (List.mem_cons_self _ _))
    have hne : a ≠ b := fun e =>
      (List.nodup_cons.mp hnd).1 (e ▸ List.mem_cons_self _ _)
    exact absurd hab hne

/-- C7, at most one owner.  In every state reached through public operations
whose page faults were all served from the free list, for every frame `f`: at
most one leaf entry is valid with frame `f` (counted over the page numbers below
`2 ^ (levels * bits)`, one per leaf slot), and any two page numbers, of any
magnitude, whose entries are valid with frame `f` walk to the same leaf slot. -/
theorem at_most_one_owner (config : Config) (s : VirtualMemoryManager)
    (hs : ReachableBy config from_free_list s) (f : Nat) :
    s.page_table_.owners f ≤ 1 ∧
    ∀ v w e1 e2, s.page_table_.get_entry v = some e1 → e1.valid = true → e1.frame_number = f →
      s.page_table_.get_entry w = some e2 → e2.valid = true → e2.frame_number = f →
      s.page_table_.same_slot v w := by
  have hex := reachable_exclusive config from_free_list (fun _ _ h => h) s hs
  constructor
  · unfold PageTable.owners
    apply length_le_one_of_all_eq
    · exact (List.nodup_range _).filter _
    · intro a ha b hb
      simp only [List.mem_filter, List.mem_range, Bool.and_eq_true, decide_eq_true_eq] at ha hb
      exact same_slot_eq s.page_table_ a b ha.1 hb.1
        (hex.2 a b ha.2.1 hb.2.1 (ha.2.2.trans hb.2.2.symm))
  · intro v w e1 e2 h1 hv1 hf1 h2 hv2 hf2
    have a := entry_at_of_get_entry _ _ _ h1
    have b := entry_at_of_get_entry _ _ _ h2
    exact hex.2 v w (by rw [a]; exact hv1) (by rw [b]; exact hv2)
      (by rw [a, b, hf1, hf2])

/-- C7 on the small preset: after first accesses to pages 0 and 1, both served
from the free list, frame 0 has at most one owner. -/
theorem at_most_one_owner_witness :
    ReachableBy Config.small_config from_free_list
      (step (step (VirtualMemoryManager.new Config.small_config) (Op.write_byte 0 7))
        (Op.read_byte 256)) ∧
    (step (step (VirtualMemoryManager.new Config.small_config) (Op.write_byte 0 7))
      (Op.read_byte 256)).page_table_.owners 0 ≤ 1 :=
  have hr : ReachableBy Config.small_config from_free_list
      (step (step (VirtualMemoryManager.new Config.small_config) (Op.write_byte 0 7))
        (Op.read_byte 256)) :=
    ReachableBy.next _ _
      (ReachableBy.next _ _ ReachableBy.init (Or.inl (by decide))) (Or.inl (by decide))
  ⟨hr, (at_most_one_owner Config.small_config _ hr 0).1⟩

/-! ## C8: translation result -/

theorem extract_offset_eq (s : VirtualMemoryManager) (vaddr : Nat) :
    s.extract_offset vaddr = vaddr % 2 ^ s.config_.offset_bits := by
  simp [VirtualMemoryManager.extract_offset, Nat.and_pow_two_sub_one_eq_mod]

theorem extract_page_number_eq (s : VirtualMemoryManager) (vaddr : Nat) :
    s.extract_page_number vaddr = vaddr / 2 ^ s.config_.offset_bits := by
  simp [VirtualMemoryManager.extract_page_number, Nat.shiftRight_eq_div_pow]

/-- C8 as stated fails in two ways.  (1) On the cache-hit path for addresses
beyond the page-table width: on the small preset, page number 256 (address
`0x10000`) shares the leaf slot of page 0.  After `translate 0`,
`translate 0x10000`, `free_page 0` and `translate 0`, the slot holds frame 1 and
the cache still holds `256 -> 0`: `translate 0x10000` returns address 0, while
the valid entry of page 256 after the call holds frame 1, for which the claim
gives `1 * 256 + 0`.  (2) Where the product leaves the 64-bit word: on the small
preset with `page_size` `2 ^ 63`, whose page table covers the address space and
whose shift counts are below 64, after `translate 0` and `translate 256` the
call `translate 512` maps page 2 to frame 2 and returns address 0, while
`2 * 2 ^ 63 + 0` is `2 ^ 64`. -/
theorem translate_returns_stale_frame :
    (Reachable Config.small_config
      (run (VirtualMemoryManager.new Config.small_config)
        [Op.translate 0 false, Op.translate 0x10000 false, Op.free_page 0,
          Op.translate 0 false]) ∧
    ((run (VirtualMemoryManager.new Config.small_config)
        [Op.translate 0 false, Op.translate 0x10000 false, Op.free_page 0,
          Op.translate 0 false]).translate 0x10000 false).1 = some 0 ∧
    ((run (VirtualMemoryManager.new Config.small_config)
        [Op.translate 0 false, Op.translate 0x10000 false, Op.free_page 0,
          Op.translate 0 false]).translate 0x10000 false).2.page_table_.get_entry
        (0x10000 / 2 ^ 8) =
      some { frame_number := 1, valid := true, dirty := false, referenced := true } ∧
    (0 : Nat) ≠ 1 * Config.small_config.page_size + 0x10000 % 2 ^ Config.small_config.offset_bits) ∧
    (({ Config.small_config with page_size := 2 ^ 63 } : Config).covers ∧
      ({ Config.small_config with page_size := 2 ^ 63 } : Config).shifts_defined ∧
      512 < 2 ^ ({ Config.small_config with page_size := 2 ^ 63 } : Config).virtual_address_bits ∧
      ((run (VirtualMemoryManager.new { Config.small_config with page_size := 2 ^ 63 })
        [Op.translate 0 false, Op.translate 256 false]).translate 512 false).1 = some 0 ∧
      ((run (VirtualMemoryManager.new { Config.small_config with page_size := 2 ^ 63 })
        [Op.translate 0 false, Op.translate 256 false]).translate 512
          false).2.page_table_.get_entry (512 / 2 ^ 8) =
        some { frame_number := 2, valid := true, dirty := false, referenced := true } ∧
      (0 : Nat) ≠ 2 * ({ Config.small_config with page_size := 2 ^ 63 } : Config).page_size +
        512 % 2 ^ ({ Config.small_config with page_size := 2 ^ 63 } : Config).offset_bits) := by
  refine ⟨⟨reachable_run _ _ _ ReachableBy.init, by decide, by decide, by decide⟩,
    by unfold Config.covers; decide,
    by unfold Config.shifts_defined Config.levels_defined; decide,
    by decide, by decide, by decide, by decide⟩

/-- C8 amended, translation result inside the address space.  For a
configuration whose page table covers the virtual address space and whose shift
counts are below 64 (`Config.shifts_defined`), in every state reached through public operations called with addresses below
`2 ^ virtual_address_bits`, and for such an address: when `translate` returns `p`,
the page table after the call holds a valid entry for the page number
`vaddr / 2 ^ offset_bits`, and with `f` its frame number `p` is
`f * page_size + vaddr % 2 ^ offset_bits` in 64-bit arithmetic, which is that sum
itself whenever the sum is below `2 ^ 64`. -/
theorem translate_result (config : Config) (hcov : config.covers)
    (_hdef : config.shifts_defined) (s : VirtualMemoryManager)
    (hs : ReachableBy config (fun _ op => in_address_space config op) s) (vaddr : Nat)
    (hin : vaddr < 2 ^ config.virtual_address_bits) (write : Bool) (p : Nat)
    (h : (s.translate vaddr write).1 = some p) :
    ∃ e, (s.translate vaddr write).2.page_table_.get_entry (vaddr / 2 ^ config.offset_bits) =
        some e ∧ e.valid = true ∧
      p = (e.frame_number * config.page_size + vaddr % 2 ^ config.offset_bits) % 2 ^ 64 ∧
      (e.frame_number * config.page_size + vaddr % 2 ^ config.offset_bits < 2 ^ 64 →
        p = e.frame_number * config.page_size + vaddr % 2 ^ config.offset_bits) := by
  obtain ⟨hc, _⟩ := reachable_consistent config _ s hs
  have hs2 : ReachableBy config (fun _ op => in_address_space config op)
      (step s (Op.translate vaddr write)) :=
    ReachableBy.next s _ hs (fun a ha => by
      simp only [Op.vaddr, Option.some.injEq] at ha
      subst ha; exact hin)
  obtain ⟨_, pfn, hfind, hp⟩ := translate_some_cached s vaddr write p h
  obtain ⟨_, hv, hf⟩ := reachable_coherent config hcov _ (fun _ _ hg => hg) _ hs2 _ pfn hfind
  obtain ⟨e, he, hev⟩ := (entry_at_valid_iff _ _).mp hv
  have hef : e.frame_number = pfn := by rw [← entry_at_of_get_entry _ _ _ he]; exact hf
  have hpe : p = (e.frame_number * config.page_size + vaddr % 2 ^ config.offset_bits) % 2 ^ 64 := by
    rw [hp, hef]
    simp [VirtualMemoryManager.physical_address, extract_offset_eq, hc, W64]
  refine ⟨e, ?_, hev, hpe, fun hlt => ?_⟩
  · rw [← hc, ← extract_page_number_eq]; exact he
  · rw [hpe]; exact Nat.mod_eq_of_lt hlt

/-- C8 amended on the small preset: in the state after writing to address 0,
`translate 300` (page 1, offset 44) faults, maps page 1 to frame 1 and returns
`1 * 256 + 44`. -/
theorem translate_result_witness :
    (Config.small_config.covers ∧ Config.small_config.shifts_defined ∧
      ReachableBy Config.small_config (fun _ op => in_address_space Config.small_config op)
        (step (VirtualMemoryManager.new Config.small_config) (Op.write_byte 0 7)) ∧
      300 < 2 ^ Config.small_config.virtual_address_bits ∧
      ((step (VirtualMemoryManager.new Config.small_config) (Op.write_byte 0 7)).translate
        300 false).1 = some 300) ∧
    ∃ e, ((step (VirtualMemoryManager.new Config.small_config) (Op.write_byte 0 7)).translate
        300 false).2.page_table_.get_entry (300 / 2 ^ Config.small_config.offset_bits) =
        some e ∧ e.valid = true ∧
      300 = (e.frame_number * Config.small_config.page_size +
        300 % 2 ^ Config.small_config.offset_bits) % 2 ^ 64 ∧
      (e.frame_number * Config.small_config.page_size +
          300 % 2 ^ Config.small_config.offset_bits < 2 ^ 64 →
        300 = e.frame_number * Config.small_config.page_size +
          300 % 2 ^ Config.small_config.offset_bits) :=
  have hcov : Config.small_config.covers := by unfold Config.covers; decide
  have hr : ReachableBy Config.small_config (fun _ op => in_address_space Config.small_config op)
      (step (VirtualMemoryManager.new Config.small_config) (Op.write_byte 0 7)) :=
    ReachableBy.next _ _ ReachableBy.init (fun a ha => by
      simp only [Op.vaddr, Option.some.injEq] at ha
      subst ha
      decide)
  ⟨⟨hcov, (by unfold Config.shifts_defined Config.levels_defined; decide), hr, by decide, rfl⟩,
    translate_result Config.small_config hcov
      (by unfold Config.shifts_defined Config.levels_defined; decide) _ hr 300 (by decide) false 300 rfl⟩

/-! ## C5: no freed frame is observed as mapped -/

theorem reachable_exhausted_small : Reachable Config.small_config exhausted_small :=
  reachable_run _ _ _ ReachableBy.init

set_option maxRecDepth 100000 in
/-- C5 as stated fails once a fault is served by victim selection, with every
address inside the 16-bit address space of the small preset.  After pages 0 to
63 took all 64 frames, the fault of page 64 (address 16384) is handed frame 0,
which page 0 still maps; `free_page 0` then frees frame 0.  Page 64 keeps a valid
entry and a cache entry with frame 0, frame 0 is unallocated and on the free
list, and `translate 16384` returns address 0 inside it.  It also fails, with
every fault served from the free list, for an address beyond the page-table
width: after `translate 0`, `translate 0x10000` and `free_page 0` the cache holds
`256 -> 0` and frame 0 is free. -/
theorem freed_frame_still_mapped :
    Reachable Config.small_config
      (run exhausted_small [Op.translate 16384 false, Op.free_page 0]) ∧
    (run exhausted_small [Op.translate 16384 false, Op.free_page 0]).page_table_.get_entry 64 =
      some { frame_number := 0, valid := true, dirty := false, referenced := true } ∧
    (run exhausted_small [Op.translate 16384 false, Op.free_page 0]).tlb_.find 64 = some 0 ∧
    (run exhausted_small
      [Op.translate 16384 false, Op.free_page 0]).physical_memory_.is_allocated 0 = false ∧
    (run exhausted_small
      [Op.translate 16384 false, Op.free_page 0]).physical_memory_.free_frames_ = [0] ∧
    ((run exhausted_small [Op.translate 16384 false, Op.free_page 0]).translate
      16384 false).1 = some 0 ∧
    ((run exhausted_small [Op.translate 16384 false, Op.free_page 0]).translate
      16384 false).2.physical_memory_.is_allocated 0 = false ∧
    (run (VirtualMemoryManager.new Config.small_config)
      [Op.translate 0 false, Op.translate 0x10000 false, Op.free_page 0]).tlb_.find 256 =
        some 0 ∧
    (run (VirtualMemoryManager.new Config.small_config)
      [Op.translate 0 false, Op.translate 0x10000 false,
        Op.free_page 0]).physical_memory_.is_allocated 0 = false := by
  refine ⟨reachable_run _ _ _ reachable_exhausted_small, ?_, ?_, ?_, ?_, ?_, ?_, ?_, ?_⟩ <;>
    decide

theorem is_allocated_of (pm : PhysicalMemory) (f : Nat) (hlt : f < pm.num_frames_)
    (h : (pm.frames_ f).allocated = true) : pm.is_allocated f = true := by
  have : ¬ f ≥ pm.num_frames_ := by omega
  simp [PhysicalMemory.is_allocated, this, h]

/-- C5 amended, no freed frame is observed as mapped.  For a configuration whose
page table covers the virtual address space and whose shift counts are below 64
(`Config.shifts_defined`), in every state reached through
public operations called with addresses below `2 ^ virtual_address_bits` and with
every page fault served from the free list: every frame held by a valid
page-table entry or by a cache entry is marked allocated, and a further such
`translate` call that returns an address returns one computed from a frame that
is allocated after the call. -/
theorem mapped_frames_allocated (config : Config) (hcov : config.covers)
    (_hdef : config.shifts_defined) (s : VirtualMemoryManager)
    (hs : ReachableBy config
      (fun s op => in_address_space config op ∧ from_free_list s op) s) :
    (∀ vpn e, s.page_table_.get_entry vpn = some e → e.valid = true →
      s.physical_memory_.is_allocated e.frame_number = true) ∧
    (∀ vpn f, s.tlb_.find vpn = some f → s.physical_memory_.is_allocated f = true) ∧
    (∀ vaddr write p, vaddr < 2 ^ config.virtual_address_bits →
      from_free_list s (Op.translate vaddr write) →
      (s.translate vaddr write).1 = some p →
      ∃ f, p = (f * config.page_size + vaddr % 2 ^ config.offset_bits) % 2 ^ 64 ∧
        (s.translate vaddr write).2.physical_memory_.is_allocated f = true) := by
  have key : ∀ t, ReachableBy config
      (fun s op => in_address_space config op ∧ from_free_list s op) t →
      (∀ vpn, (t.page_table_.entry_at vpn).valid = true →
        t.physical_memory_.is_allocated (t.page_table_.entry_at vpn).frame_number = true) ∧
      (∀ vpn f, t.tlb_.find vpn = some f → t.physical_memory_.is_allocated f = true) := by
    intro t ht
    obtain ⟨_, hk⟩ := reachable_consistent config _ t ht
    have hex := reachable_exclusive config _ (fun _ _ h => h.2) t ht
    have hco := reachable_coherent config hcov _ (fun _ _ h => h.1) t ht
    have h1 : ∀ vpn, (t.page_table_.entry_at vpn).valid = true →
        t.physical_memory_.is_allocated (t.page_table_.entry_at vpn).frame_number = true :=
      fun vpn hv => is_allocated_of _ _ (hk.valid_lt vpn hv) (hex.1 vpn hv)
    refine ⟨h1, fun vpn f hf => ?_⟩
    obtain ⟨_, hv, hfr⟩ := hco vpn f hf
    rw [← hfr]; exact h1 vpn hv
  obtain ⟨k1, k2⟩ := key s hs
  refine ⟨fun vpn e he hv => ?_, k2, fun vaddr write p hin hg hp => ?_⟩
  · have := k1 vpn (by rw [entry_at_of_get_entry _ _ _ he]; exact hv)
    rwa [entry_at_of_get_entry _ _ _ he] at this
  · obtain ⟨hc, _⟩ := reachable_consistent config _ s hs
    have hs2 : ReachableBy config
        (fun s op => in_address_space config op ∧ from_free_list s op)
        (step s (Op.translate vaddr write)) :=
      ReachableBy.next s _ hs ⟨fun a ha => by
        simp only [Op.vaddr, Option.some.injEq] at ha
        subst ha; exact hin, hg⟩
    obtain ⟨_, pfn, hfind, hpp⟩ := translate_some_cached s vaddr write p hp
    refine ⟨pfn, ?_, (key _ hs2).2 _ pfn hfind⟩
    rw [hpp]
    simp [VirtualMemoryManager.physical_address, extract_offset_eq, hc, W64]

/-- C5 amended on the small preset: after writing to address 0 (a fault served
from the free list) the cache entry `0 -> 0` names an allocated frame. -/
theorem mapped_frames_allocated_witness :
    (Config.small_config.covers ∧ Config.small_config.shifts_defined ∧
      ReachableBy Config.small_config
        (fun s op => in_address_space Config.small_config op ∧ from_free_list s op)
        (step (VirtualMemoryManager.new Config.small_config) (Op.write_byte 0 7))) ∧
    (step (VirtualMemoryManager.new Config.small_config) (Op.write_byte 0 7)).tlb_.find 0 =
      some 0 ∧
    (step (VirtualMemoryManager.new Config.small_config)
      (Op.write_byte 0 7)).physical_memory_.is_allocated 0 = true :=
  have hcov : Config.small_config.covers := by unfold Config.covers; decide
  have hr : ReachableBy Config.small_config
      (fun s op => in_address_space Config.small_config op ∧ from_free_list s op)
      (step (VirtualMemoryManager.new Config.small_config) (Op.write_byte 0 7)) :=
    ReachableBy.next _ _ ReachableBy.init ⟨fun a ha => by
      simp only [Op.vaddr, Option.some.injEq] at ha
      subst ha
      decide, Or.inl (by decide)⟩
  ⟨⟨hcov, (by unfold Config.shifts_defined Config.levels_defined; decide), hr⟩, rfl,
    (mapped_frames_allocated Config.small_config hcov
      (by unfold Config.shifts_defined Config.levels_defined; decide) _ hr).2.1 0 0 rfl⟩

/-! ## C3: demand paging -/

/-- An access leaves the counters, the cache and the configuration that its
`translate` call leaves. -/
theorem access_step (s : VirtualMemoryManager) (op : Op) (vaddr : Nat)
    (h : op.is_access = true) (ha : op.vaddr = some vaddr) :
    ∃ write, (step s op).page_faults_ = (s.translate vaddr write).2.page_faults_ ∧
      (step s op).physical_memory_.page_faults_ =
        (s.translate vaddr write).2.physical_memory_.page_faults_ ∧
      (step s op).physical_memory_.allocated_frames_ =
        (s.translate vaddr write).2.physical_memory_.allocated_frames_ ∧
      (step s op).tlb_ = (s.translate vaddr write).2.tlb_ ∧
      (step s op).config_ = (s.translate vaddr write).2.config_ := by
  cases op with
  | translate a w =>
    simp only [Op.vaddr, Option.some.injEq] at ha; subst ha
    exact ⟨w, rfl, rfl, rfl, rfl, rfl⟩
  | read_byte a =>
    simp only [Op.vaddr, Option.some.injEq] at ha; subst ha
    refine ⟨false, ?_, ?_, ?_, ?_, ?_⟩ <;> simp only [step, read_byte_snd]
  | write_byte a v =>
    simp only [Op.vaddr, Option.some.injEq] at ha; subst ha
    refine ⟨true, ?_⟩
    simp only [step]
    refine write_byte_cases s a v
      (fun r => r.2.page_faults_ = (s.translate a true).2.page_faults_ ∧
        r.2.physical_memory_.page_faults_ =
          (s.translate a true).2.physical_memory_.page_faults_ ∧
        r.2.physical_memory_.allocated_frames_ =
          (s.translate a true).2.physical_memory_.allocated_frames_ ∧
        r.2.tlb_ = (s.translate a true).2.tlb_ ∧
        r.2.config_ = (s.translate a true).2.config_) ?_ ?_ ?_
    · intro _; exact ⟨rfl, rfl, rfl, rfl, rfl⟩
    · intro _ _ _; exact ⟨rfl, rfl, rfl, rfl, rfl⟩
    · intro _ _ _; exact ⟨rfl, rfl, rfl, rfl, rfl⟩
  | allocate_page a => simp [Op.is_access] at h
  | free_page a => simp [Op.is_access] at h
  | reset_statistics => simp [Op.is_access] at h

/-- The first `translate` of a page that is neither mapped nor cached, with a
free frame at hand and at least one page-table level. -/
theorem translate_first_access (s : VirtualMemoryManager) (vaddr : Nat) (write : Bool)
    (hshape : WellShaped s.page_table_.num_levels_ s.page_table_.root_)
    (hL : 1 ≤ s.page_table_.num_levels_)
    (hnv : (s.page_table_.entry_at (s.extract_page_number vaddr)).valid = false)
    (hnc : s.tlb_.find (s.extract_page_number vaddr) = none)
    (hfree : s.physical_memory_.free_frames_ ≠ []) :
    (s.translate vaddr write).2.page_faults_ = s.page_faults_ + 1 ∧
    (s.translate vaddr write).2.physical_memory_.page_faults_ =
      s.physical_memory_.page_faults_ + 1 ∧
    (s.translate vaddr write).2.physical_memory_.allocated_frames_ =
      s.physical_memory_.allocated_frames_ + 1 ∧
    (s.translate vaddr write).2.config_ = s.config_ ∧
    ∃ pfn, (s.translate vaddr write).2.tlb_.find (s.extract_page_number vaddr) = some pfn := by
  obtain ⟨a, rest, hcons⟩ : ∃ a rest, s.physical_memory_.free_frames_ = a :: rest := by
    cases hf : s.physical_memory_.free_frames_ with
    | nil => exact absurd hf hfree
    | cons a rest => exact ⟨a, rest, rfl⟩
  have hal := allocate_frame_cons s.physical_memory_ (s.extract_page_number vaddr) a rest hcons
  refine translate_cases s vaddr write
    (fun r => r.2.page_faults_ = s.page_faults_ + 1 ∧
      r.2.physical_memory_.page_faults_ = s.physical_memory_.page_faults_ + 1 ∧
      r.2.physical_memory_.allocated_frames_ = s.physical_memory_.allocated_frames_ + 1 ∧
      r.2.config_ = s.config_ ∧
      ∃ pfn, r.2.tlb_.find (s.extract_page_number vaddr) = some pfn) ?_ ?_ ?_ ?_ ?_
  · intro pfn hf; rw [hnc] at hf; exact absurd hf (by simp)
  · intro _ hv; rw [hnv] at hv; exact absurd hv (by simp)
  · intro _ _ ha; rw [hal] at ha; exact absurd ha (by simp)
  · intro pfn _ _ _ _
    refine ⟨rfl, ?_, ?_, rfl, _, insert_find_self _ _ _⟩
    · simp only [hal]
    · simp only [hal]
  · intro pfn _ _ _ hv2
    have := insert_same s.page_table_ (s.extract_page_number vaddr) pfn
      (s.extract_page_number vaddr) hshape hL (same_slot_refl _ _)
    rw [this] at hv2
    simp at hv2

theorem translate_cached_access (s : VirtualMemoryManager) (vaddr : Nat) (write : Bool)
    (pfn : Nat) (h : s.tlb_.find (s.extract_page_number vaddr) = some pfn) :
    (s.translate vaddr write).2.page_faults_ = s.page_faults_ ∧
    (s.translate vaddr write).2.physical_memory_.page_faults_ = s.physical_memory_.page_faults_ ∧
    (s.translate vaddr write).2.physical_memory_.allocated_frames_ =
      s.physical_memory_.allocated_frames_ := by
  rw [translate_hit s vaddr write pfn h]
  exact ⟨rfl, rfl, rfl⟩

set_option maxRecDepth 100000 in
/-- C3 as stated fails in three ways.  (1) Free list empty, addresses inside the
address space: on the small preset with all 64 frames taken, page 64 has neither
a valid entry nor a cache entry, and its first access counts a fault but is
handed a victim, so the allocated-frame count stays 64.  (2) A page beyond the
page-table width: after `translate 0`, `translate 0x10000`, `free_page 0`, page
256 has no valid entry but is still cached, and its access counts no fault.
(3) No page-table levels: on the small preset with `page_table_levels` 0, the
second access to page 0 faults and allocates again. -/
theorem demand_paging_fails :
    (exhausted_small.page_table_.is_present 64 = false ∧
      exhausted_small.tlb_.find 64 = none ∧
      exhausted_small.physical_memory_.free_frames_ = [] ∧
      (exhausted_small.translate 16384 false).2.page_faults_ =
        exhausted_small.page_faults_ + 1 ∧
      (exhausted_small.translate 16384 false).2.physical_memory_.allocated_frames_ = 64 ∧
      exhausted_small.physical_memory_.allocated_frames_ = 64) ∧
    ((run (VirtualMemoryManager.new Config.small_config)
        [Op.translate 0 false, Op.translate 0x10000 false,
          Op.free_page 0]).page_table_.is_present 256 = false ∧
      ((run (VirtualMemoryManager.new Config.small_config)
        [Op.translate 0 false, Op.translate 0x10000 false,
          Op.free_page 0]).translate 0x10000 false).2.page_faults_ =
      (run (VirtualMemoryManager.new Config.small_config)
        [Op.translate 0 false, Op.translate 0x10000 false, Op.free_page 0]).page_faults_ ∧
      ((run (VirtualMemoryManager.new Config.small_config)
        [Op.translate 0 false, Op.translate 0x10000 false,
          Op.free_page 0]).translate 0x10000 false).2.physical_memory_.page_faults_ =
      (run (VirtualMemoryManager.new Config.small_config)
        [Op.translate 0 false, Op.translate 0x10000 false,
          Op.free_page 0]).physical_memory_.page_faults_) ∧
    ((step (VirtualMemoryManager.new { Config.small_config with page_table_levels := 0 })
        (Op.translate 0 false)).page_faults_ = 1 ∧
      (step (VirtualMemoryManager.new { Config.small_config with page_table_levels := 0 })
        (Op.translate 0 false)).physical_memory_.allocated_frames_ = 1 ∧
      (step (step (VirtualMemoryManager.new { Config.small_config with page_table_levels := 0 })
        (Op.translate 0 false)) (Op.translate 0 false)).page_faults_ = 2 ∧
      (step (step (VirtualMemoryManager.new { Config.small_config with page_table_levels := 0 })
        (Op.translate 0 false)) (Op.translate 0 false)).physical_memory_.allocated_frames_ =
        2) := by
  refine ⟨⟨?_, ?_, ?_, ?_, ?_, ?_⟩, ⟨?_, ?_, ?_⟩, ⟨?_, ?_, ?_, ?_⟩⟩ <;> decide

/-! ## C2: round trip across intervening operations -/

/-- Flag writes and the insertion of another page keep a valid mapping. -/
theorem kept_translate (pt : PageTable) (vpn w : Nat) (hwf : WellShaped pt.num_levels_ pt.root_) :
    ((pt.translate vpn).2.entry_at w).valid = (pt.entry_at w).valid ∧
      ((pt.translate vpn).2.entry_at w).frame_number = (pt.entry_at w).frame_number :=
  translate_snd_fields pt vpn hwf w

theorem kept_access (pt : PageTable) (vpn w : Nat) (write : Bool)
    (hwf : WellShaped pt.num_levels_ pt.root_) :
    ((if write then (pt.translate vpn).2.set_dirty vpn true
        else (pt.translate vpn).2).entry_at w).valid = (pt.entry_at w).valid ∧
      ((if write then (pt.translate vpn).2.set_dirty vpn true
        else (pt.translate vpn).2).entry_at w).frame_number = (pt.entry_at w).frame_number := by
  obtain ⟨a1, a2⟩ := translate_snd_fields pt vpn hwf w
  cases write
  · exact ⟨a1, a2⟩
  · obtain ⟨b1, b2⟩ := set_dirty_fields (pt.translate vpn).2 vpn true
      (translate_snd_wellShaped pt vpn hwf) w
    exact ⟨b1.trans a1, b2.trans a2⟩

theorem kept_insert (pt : PageTable) (vpn pfn w : Nat) (hwf : WellShaped pt.num_levels_ pt.root_)
    (hv : (pt.entry_at vpn).valid = false) (hw : (pt.entry_at w).valid = true) :
    (pt.insert vpn pfn).entry_at w = pt.entry_at w := by
  have hs : ¬ pt.same_slot w vpn := fun hs => by
    rw [entry_at_same_slot pt w vpn hs, hv] at hw
    exact absurd hw (by simp)
  exact insert_other pt vpn pfn w hwf hs

/-- A `translate` call keeps every valid mapping, with its frame. -/
theorem translate_keeps_mapping (s : VirtualMemoryManager) (vaddr : Nat) (write : Bool) (w : Nat)
    (hwf : WellShaped s.page_table_.num_levels_ s.page_table_.root_)
    (hw : (s.page_table_.entry_at w).valid = true) :
    ((s.translate vaddr write).2.page_table_.entry_at w).valid = true ∧
      ((s.translate vaddr write).2.page_table_.entry_at w).frame_number =
        (s.page_table_.entry_at w).frame_number := by
  refine translate_cases s vaddr write
    (fun r => (r.2.page_table_.entry_at w).valid = true ∧
      (r.2.page_table_.entry_at w).frame_number = (s.page_table_.entry_at w).frame_number)
    ?_ ?_ ?_ ?_ ?_
  · intro pfn _
    cases write
    · obtain ⟨a1, a2⟩ := set_referenced_fields s.page_table_ (s.extract_page_number vaddr) true
        hwf w
      exact ⟨a1.trans hw, a2⟩
    · obtain ⟨a1, a2⟩ := set_dirty_fields s.page_table_ (s.extract_page_number vaddr) true hwf w
      obtain ⟨b1, b2⟩ := set_referenced_fields
        (s.page_table_.set_dirty (s.extract_page_number vaddr) true)
        (s.extract_page_number vaddr) true (set_dirty_wellShaped _ _ _ hwf) w
      exact ⟨b1.trans (a1.trans hw), b2.trans a2⟩
  · intro _ _
    obtain ⟨a1, a2⟩ := kept_access s.page_table_ (s.extract_page_number vaddr) w write hwf
    exact ⟨a1.trans hw, a2⟩
  · intro _ _ _
    exact ⟨hw, rfl⟩
  · intro pfn _ hv _ _
    obtain ⟨a1, a2⟩ := kept_access (s.page_table_.insert (s.extract_page_number vaddr) pfn)
      (s.extract_page_number vaddr) w write (insert_wellShaped _ _ _ hwf)
    have e := kept_insert s.page_table_ (s.extract_page_number vaddr) pfn w hwf hv hw
    rw [e] at a1 a2
    exact ⟨a1.trans hw, a2⟩
  · intro pfn _ hv _ _
    have e := kept_insert s.page_table_ (s.extract_page_number vaddr) pfn w hwf hv hw
    show ((s.page_table_.insert (s.extract_page_number vaddr) pfn).entry_at w).valid = true ∧ _
    rw [e]
    exact ⟨hw, rfl⟩

/-- Every call other than `free_page` on the same leaf slot keeps a valid
mapping, with its frame. -/
theorem step_keeps_mapping (s : VirtualMemoryManager) (op : Op) (w : Nat)
    (hwf : WellShaped s.page_table_.num_levels_ s.page_table_.root_)
    (hw : (s.page_table_.entry_at w).valid = true)
    (hop : ∀ v, op = Op.free_page v → ¬ s.page_table_.same_slot w (s.extract_page_number v)) :
    ((step s op).page_table_.entry_at w).valid = true ∧
      ((step s op).page_table_.entry_at w).frame_number =
        (s.page_table_.entry_at w).frame_number := by
  cases op with
  | translate vaddr write => exact translate_keeps_mapping s vaddr write w hwf hw
  | read_byte vaddr =>
    simp only [step, read_byte_snd]
    exact translate_keeps_mapping s vaddr false w hwf hw
  | write_byte vaddr value =>
    simp only [step]
    have ht := translate_keeps_mapping s vaddr true w hwf hw
    exact write_byte_cases s vaddr value
      (fun r => (r.2.page_table_.entry_at w).valid = true ∧
        (r.2.page_table_.entry_at w).frame_number = (s.page_table_.entry_at w).frame_number)
      (fun _ => ht) (fun _ _ _ => ht) (fun _ _ _ => ht)
  | allocate_page vaddr =>
    simp only [step]
    refine allocate_page_cases s vaddr
      (fun r => (r.2.page_table_.entry_at w).valid = true ∧
        (r.2.page_table_.entry_at w).frame_number = (s.page_table_.entry_at w).frame_number)
      (fun _ => ⟨hw, rfl⟩) (fun _ _ => ⟨hw, rfl⟩) ?_
    intro pfn hv _
    have e := kept_insert s.page_table_ (s.extract_page_number vaddr) pfn w hwf hv hw
    show ((s.page_table_.insert (s.extract_page_number vaddr) pfn).entry_at w).valid = true ∧ _
    rw [e]
    exact ⟨hw, rfl⟩
  | free_page vaddr =>
    simp only [step]
    have hs := hop vaddr rfl
    have e := invalidate_other s.page_table_ (s.extract_page_number vaddr) w hwf hs
    refine free_page_cases s vaddr
      (fun r => (r.2.page_table_.entry_at w).valid = true ∧
        (r.2.page_table_.entry_at w).frame_number = (s.page_table_.entry_at w).frame_number)
      (fun _ => ⟨hw, rfl⟩) ?_ ?_
    · intro pm _ _
      show ((s.page_table_.invalidate (s.extract_page_number vaddr)).entry_at w).valid = true ∧ _
      rw [e]
      exact ⟨hw, rfl⟩
    · intro err _ _
      show ((s.page_table_.invalidate (s.extract_page_number vaddr)).entry_at w).valid = true ∧ _
      rw [e]
      exact ⟨hw, rfl⟩
  | reset_statistics => exact ⟨hw, rfl⟩

theorem translate_memory (s : VirtualMemoryManager) (vaddr : Nat) (write : Bool) :
    (s.translate vaddr write).2.physical_memory_.memory_ = s.physical_memory_.memory_ ∧
      (s.translate vaddr write).2.physical_memory_.memory_size =
        s.physical_memory_.memory_size := by
  refine translate_cases s vaddr write
    (fun r => r.2.physical_memory_.memory_ = s.physical_memory_.memory_ ∧
      r.2.physical_memory_.memory_size = s.physical_memory_.memory_size) ?_ ?_ ?_ ?_ ?_
  · intro _ _; exact ⟨rfl, rfl⟩
  · intro _ _; exact ⟨rfl, rfl⟩
  · intro _ _ _; exact allocate_frame_memory _ _
  · intro _ _ _ _ _; exact allocate_frame_memory _ _
  · intro _ _ _ _ _; exact allocate_frame_memory _ _

theorem free_frame_memory (pm pm2 : PhysicalMemory) (pfn : Nat)
    (h : pm.free_frame pfn = Except.ok pm2) :
    pm2.memory_ = pm.memory_ ∧ pm2.memory_size = pm.memory_size := by
  unfold PhysicalMemory.free_frame at h
  by_cases hge : pfn ≥ pm.num_frames_
  · simp [hge] at h
  · simp only [hge, if_false] at h
    by_cases hal : (pm.frames_ pfn).allocated = true
    · simp only [hal, if_true, Except.ok.injEq] at h
      subst h; exact ⟨rfl, rfl⟩
    · simp only [hal, Bool.false_eq_true, if_false, Except.ok.injEq] at h
      subst h; exact ⟨rfl, rfl⟩

/-- Only `write_byte` changes the byte store, and only at the address it
translated to. -/
theorem step_memory (s : VirtualMemoryManager) (op : Op) :
    (step s op).physical_memory_.memory_size = s.physical_memory_.memory_size ∧
    ((step s op).physical_memory_.memory_ = s.physical_memory_.memory_ ∨
      ∃ v value p, op = Op.write_byte v value ∧ (s.translate v true).1 = some p ∧
        (step s op).physical_memory_.memory_ = setAt s.physical_memory_.memory_ p (value % 256)) := by
  cases op with
  | translate vaddr write =>
    exact ⟨(translate_memory s vaddr write).2, Or.inl (translate_memory s vaddr write).1⟩
  | read_byte vaddr =>
    simp only [step, read_byte_snd]
    exact ⟨(translate_memory s vaddr false).2, Or.inl (translate_memory s vaddr false).1⟩
  | write_byte vaddr value =>
    simp only [step]
    obtain ⟨m1, m2⟩ := translate_memory s vaddr true
    refine write_byte_cases s vaddr value
      (fun r => r.2.physical_memory_.memory_size = s.physical_memory_.memory_size ∧
        (r.2.physical_memory_.memory_ = s.physical_memory_.memory_ ∨
          ∃ v val p, Op.write_byte vaddr value = Op.write_byte v val ∧
            (s.translate v true).1 = some p ∧
            r.2.physical_memory_.memory_ = setAt s.physical_memory_.memory_ p (val % 256)))
      (fun _ => ⟨m2, Or.inl m1⟩) (fun _ _ _ => ⟨m2, Or.inl m1⟩) ?_
    intro p hp _
    exact ⟨m2, Or.inr ⟨vaddr, value, p, rfl, hp, by simp only [m1]⟩⟩
  | allocate_page vaddr =>
    simp only [step]
    refine allocate_page_cases s vaddr
      (fun r => r.2.physical_memory_.memory_size = s.physical_memory_.memory_size ∧
        (r.2.physical_memory_.memory_ = s.physical_memory_.memory_ ∨
          ∃ v val p, Op.allocate_page vaddr = Op.write_byte v val ∧
            (s.translate v true).1 = some p ∧
            r.2.physical_memory_.memory_ = setAt s.physical_memory_.memory_ p (val % 256)))
      (fun _ => ⟨rfl, Or.inl rfl⟩) ?_ ?_
    · intro _ _
      exact ⟨(allocate_frame_memory _ _).2, Or.inl (allocate_frame_memory _ _).1⟩
    · intro _ _ _
      exact ⟨(allocate_frame_memory _ _).2, Or.inl (allocate_frame_memory _ _).1⟩
  | free_page vaddr =>
    simp only [step]
    refine free_page_cases s vaddr
      (fun r => r.2.physical_memory_.memory_size = s.physical_memory_.memory_size ∧
        (r.2.physical_memory_.memory_ = s.physical_memory_.memory_ ∨
          ∃ v val p, Op.free_page vaddr = Op.write_byte v val ∧
            (s.translate v true).1 = some p ∧
            r.2.physical_memory_.memory_ = setAt s.physical_memory_.memory_ p (val % 256)))
      (fun _ => ⟨rfl, Or.inl rfl⟩) ?_ (fun _ _ _ => ⟨rfl, Or.inl rfl⟩)
    intro pm _ hfree
    exact ⟨(free_frame_memory _ _ _ hfree).2, Or.inl (free_frame_memory _ _ _ hfree).1⟩
  | reset_statistics => exact ⟨rfl, Or.inl rfl⟩

theorem frame_address_lt (ps nf ob f off : Nat) (hf : f < nf) (ho : off < 2 ^ ob)
    (hps : 2 ^ ob ≤ ps) (hnw : nf * ps ≤ 2 ^ 64) : f * ps + off < 2 ^ 64 := by
  have h1 : (f + 1) * ps ≤ nf * ps := Nat.mul_le_mul_right ps (by omega)
  have h2 : (f + 1) * ps = f * ps + ps := by ring
  omega

theorem frame_address_inj (ps ob f g off off2 : Nat) (ho : off < 2 ^ ob) (ho2 : off2 < 2 ^ ob)
    (hps : 2 ^ ob ≤ ps) (h : f * ps + off = g * ps + off2) : f = g ∧ off = off2 := by
  rcases Nat.lt_trichotomy f g with hlt | heq | hgt
  · have h1 : (f + 1) * ps ≤ g * ps := Nat.mul_le_mul_right ps (by omega)
    have h2 : (f + 1) * ps = f * ps + ps := by ring
    omega
  · subst heq; exact ⟨rfl, by omega⟩
  · have h1 : (g + 1) * ps ≤ f * ps := Nat.mul_le_mul_right ps (by omega)
    have h2 : (g + 1) * ps = g * ps + ps := by ring
    omega

/-- A `translate` of a mapped page returns an address and leaves the allocator
alone. -/
theorem translate_mapped (s : VirtualMemoryManager) (vaddr : Nat) (write : Bool)
    (hv : (s.page_table_.entry_at (s.extract_page_number vaddr)).valid = true) :
    (∃ p, (s.translate vaddr write).1 = some p) ∧
      (s.translate vaddr write).2.physical_memory_ = s.physical_memory_ := by
  refine translate_cases s vaddr write
    (fun r => (∃ p, r.1 = some p) ∧ r.2.physical_memory_ = s.physical_memory_) ?_ ?_ ?_ ?_ ?_
  · intro pfn _; exact ⟨⟨_, rfl⟩, rfl⟩
  · intro _ _; exact ⟨⟨_, rfl⟩, rfl⟩
  · intro _ h _; rw [hv] at h; exact absurd h (by simp)
  · intro _ _ h _ _; rw [hv] at h; exact absurd h (by simp)
  · intro _ _ h _ _; rw [hv] at h; exact absurd h (by simp)

theorem reachableBy_runsTo (config : Config) (g1 g2 : VirtualMemoryManager → Op → Prop)
    (hg : ∀ s op, g2 s op → g1 s op) (start t : VirtualMemoryManager)
    (hs : ReachableBy config g1 start) (ht : RunsTo g2 start t) : ReachableBy config g1 t := by
  induction ht with
  | refl => exact hs
  | next s op _ hgd ih => exact ReachableBy.next s op ih (hg s op hgd)

theorem write_byte_parts (s : VirtualMemoryManager) (vaddr value : Nat) :
    (s.write_byte vaddr value).2.tlb_ = (s.translate vaddr true).2.tlb_ ∧
      (s.write_byte vaddr value).2.page_table_ = (s.translate vaddr true).2.page_table_ := by
  refine write_byte_cases s vaddr value
    (fun r => r.2.tlb_ = (s.translate vaddr true).2.tlb_ ∧
      r.2.page_table_ = (s.translate vaddr true).2.page_table_) ?_ ?_ ?_
  · intro _; exact ⟨rfl, rfl⟩
  · intro _ _ _; exact ⟨rfl, rfl⟩
  · intro _ _ _; exact ⟨rfl, rfl⟩

theorem write_byte_ok (s : VirtualMemoryManager) (vaddr value : Nat)
    (h : (s.write_byte vaddr value).1 = Except.ok ()) :
    ∃ p, (s.translate vaddr true).1 = some p ∧
      p < (s.write_byte vaddr value).2.physical_memory_.memory_size ∧
      (s.write_byte vaddr value).2.physical_memory_.memory_ p = value % 256 := by
  revert h
  refine write_byte_cases s vaddr value
    (fun r => r.1 = Except.ok () → ∃ p, (s.translate vaddr true).1 = some p ∧
      p < r.2.physical_memory_.memory_size ∧ r.2.physical_memory_.memory_ p = value % 256)
    ?_ ?_ ?_
  · intro _ h; simp at h
  · intro _ _ _ h; simp at h
  · intro p hp hlt _
    exact ⟨p, hp, hlt, by simp [setAt_same]⟩

/-- The facts that hold in every state reached with in-range addresses and
faults served from the free list. -/
theorem guarded_facts (config : Config) (hcov : config.covers) (t : VirtualMemoryManager)
    (ht : ReachableBy config (fun s op => in_address_space config op ∧ from_free_list s op) t) :
    t.config_ = config ∧ Consistent config t.page_table_ t.physical_memory_ ∧
      Coherent t.tlb_ t.page_table_ ∧ Exclusive t.page_table_ t.physical_memory_ :=
  ⟨(reachable_consistent config _ t ht).1, (reachable_consistent config _ t ht).2,
    reachable_coherent config hcov _ (fun _ _ h => h.1) t ht,
    reachable_exclusive config _ (fun _ _ h => h.2) t ht⟩

theorem page_number_lt_table (config : Config) (hcov : config.covers) (pt : PageTable)
    (hl : pt.num_levels_ = config.page_table_levels)
    (hb : pt.bits_per_level_ = config.bits_per_level) (vaddr : Nat)
    (h : vaddr < 2 ^ config.virtual_address_bits) :
    vaddr / 2 ^ config.offset_bits < 2 ^ (pt.num_levels_ * pt.bits_per_level_) := by
  rw [hl, hb]
  apply Nat.div_lt_of_lt_mul
  rw [← pow_add]
  exact lt_of_lt_of_le h (Nat.pow_le_pow_right (by omega) hcov)

/-- The address a successful `translate` returns, in a state reached with
in-range addresses and faults served from the free list: the frame of the page's
valid entry after the call times the page size, plus the offset, without
wrap-around. -/
theorem translate_address (config : Config) (hcov : config.covers)
    (hps : 2 ^ config.offset_bits ≤ config.page_size)
    (hnw : config.num_frames * config.page_size ≤ 2 ^ 64)
    (t : VirtualMemoryManager)
    (ht : ReachableBy config (fun s op => in_address_space config op ∧ from_free_list s op) t)
    (v : Nat) (write : Bool) (hin : v < 2 ^ config.virtual_address_bits)
    (hg : from_free_list t (Op.translate v write)) (p : Nat)
    (hp : (t.translate v write).1 = some p) :
    ((t.translate v write).2.page_table_.entry_at (v / 2 ^ config.offset_bits)).valid = true ∧
      p = ((t.translate v write).2.page_table_.entry_at
        (v / 2 ^ config.offset_bits)).frame_number * config.page_size +
          v % 2 ^ config.offset_bits := by
  obtain ⟨hc, _, _, _⟩ := guarded_facts config hcov t ht
  have hu : ReachableBy config (fun s op => in_address_space config op ∧ from_free_list s op)
      (step t (Op.translate v write)) :=
    ReachableBy.next t _ ht ⟨fun a ha => by
      simp only [Op.vaddr, Option.some.injEq] at ha
      subst ha; exact hin, hg⟩
  obtain ⟨_, hk2, hco2, _⟩ := guarded_facts config hcov _ hu
  simp only [step] at hk2 hco2
  obtain ⟨_, pfn, hfind, hpp⟩ := translate_some_cached t v write p hp
  rw [extract_page_number_eq, hc] at hfind
  obtain ⟨_, hv, hf⟩ := hco2 _ pfn hfind
  refine ⟨hv, ?_⟩
  have hlt := hk2.valid_lt _ hv
  rw [hk2.frames_eq] at hlt
  rw [hpp]
  simp only [VirtualMemoryManager.physical_address, extract_offset_eq, hc, W64]
  rw [hf]
  rw [hf] at hlt
  exact Nat.mod_eq_of_lt (frame_address_lt _ _ _ _ _ hlt (Nat.mod_lt _ (by positivity)) hps hnw)

/-- One guarded step that spares `vaddr` keeps the page of `vaddr` mapped to the
same frame and keeps the byte stored for `vaddr`. -/
theorem persists_step (config : Config) (hcov : config.covers)
    (hps : 2 ^ config.offset_bits ≤ config.page_size)
    (hnw : config.num_frames * config.page_size ≤ 2 ^ 64)
    (t : VirtualMemoryManager)
    (ht : ReachableBy config (fun s op => in_address_space config op ∧ from_free_list s op) t)
    (vaddr value f : Nat) (hin : vaddr < 2 ^ config.virtual_address_bits) (op : Op)
    (hop : (in_address_space config op ∧ from_free_list t op) ∧ spares config vaddr op)
    (hv : (t.page_table_.entry_at (vaddr / 2 ^ config.offset_bits)).valid = true)
    (hf : (t.page_table_.entry_at (vaddr / 2 ^ config.offset_bits)).frame_number = f)
    (hm : t.physical_memory_.memory_ (f * config.page_size + vaddr % 2 ^ config.offset_bits) =
      value)
    (hlt : f * config.page_size + vaddr % 2 ^ config.offset_bits <
      t.physical_memory_.memory_size) :
    ((step t op).page_table_.entry_at (vaddr / 2 ^ config.offset_bits)).valid = true ∧
      ((step t op).page_table_.entry_at (vaddr / 2 ^ config.offset_bits)).frame_number = f ∧
      (step t op).physical_memory_.memory_
        (f * config.page_size + vaddr % 2 ^ config.offset_bits) = value ∧
      f * config.page_size + vaddr % 2 ^ config.offset_bits <
        (step t op).physical_memory_.memory_size := by
  obtain ⟨hc, hk, _, _⟩ := guarded_facts config hcov t ht
  have hu := ReachableBy.next t op ht hop.1
  obtain ⟨_, hk2, _, hex2⟩ := guarded_facts config hcov _ hu
  have keep := step_keeps_mapping t op (vaddr / 2 ^ config.offset_bits) hk.shaped hv (by
    intro v e hss
    subst e
    have h1 := page_number_lt_table config hcov t.page_table_ hk.levels_eq hk.bits_eq vaddr hin
    have h2 := page_number_lt_table config hcov t.page_table_ hk.levels_eq hk.bits_eq v
      (hop.1.1 v rfl)
    rw [extract_page_number_eq, hc] at hss
    exact hop.2 (same_slot_eq _ _ _ h1 h2 hss).symm)
  refine ⟨keep.1, keep.2.trans hf, ?_, ?_⟩
  · rcases (step_memory t op).2 with h | ⟨v, val, p, e, hp, hmem⟩
    · rw [h]; exact hm
    · subst e
      rw [hmem, setAt_other]
      · exact hm
      · intro heq
        have hg' : from_free_list t (Op.translate v true) := by
          have := hop.1.2
          simp only [from_free_list, step] at this ⊢
          rw [(write_byte_page_faults t v val).1] at this
          exact this
        obtain ⟨hv', hp'⟩ :=
          translate_address config hcov hps hnw t ht v true (hop.1.1 v rfl) hg' p hp
        have hpt := (write_byte_parts t v val).2
        simp only [step] at keep hex2 hk2
        rw [← hpt] at hv' hp'
        rw [hp'] at heq
        have hinj := frame_address_inj config.page_size config.offset_bits _ _ _ _
          (Nat.mod_lt _ (by positivity)) (Nat.mod_lt _ (by positivity)) hps heq
        have hss := hex2.2 _ _ keep.1 hv' ((keep.2.trans hf).trans hinj.1)
        have h1 := page_number_lt_table config hcov _ hk2.levels_eq hk2.bits_eq vaddr hin
        have h2 := page_number_lt_table config hcov _ hk2.levels_eq hk2.bits_eq v
          (hop.1.1 v rfl)
        have hpage := same_slot_eq _ _ _ h1 h2 hss
        have e1 := Nat.div_add_mod vaddr (2 ^ config.offset_bits)
        have e2 := Nat.div_add_mod v (2 ^ config.offset_bits)
        rw [hpage, hinj.2] at e1
        exact hop.2 (e2.symm.trans e1)
  · rw [(step_memory t op).1]; exact hlt

/-- A read of an address whose page is mapped to frame `f` returns the byte
stored at `f * page_size + offset`. -/
theorem read_of_mapped (config : Config) (hcov : config.covers)
    (hps : 2 ^ config.offset_bits ≤ config.page_size)
    (hnw : config.num_frames * config.page_size ≤ 2 ^ 64)
    (t : VirtualMemoryManager)
    (ht : ReachableBy config (fun s op => in_address_space config op ∧ from_free_list s op) t)
    (vaddr value f : Nat) (hin : vaddr < 2 ^ config.virtual_address_bits)
    (hv : (t.page_table_.entry_at (vaddr / 2 ^ config.offset_bits)).valid = true)
    (hf : (t.page_table_.entry_at (vaddr / 2 ^ config.offset_bits)).frame_number = f)
    (hm : t.physical_memory_.memory_ (f * config.page_size + vaddr % 2 ^ config.offset_bits) =
      value)
    (hlt : f * config.page_size + vaddr % 2 ^ config.offset_bits <
      t.physical_memory_.memory_size) :
    (t.read_byte vaddr).1 = Except.ok value := by
  obtain ⟨hc, hk, _, _⟩ := guarded_facts config hcov t ht
  have hv2 : (t.page_table_.entry_at (t.extract_page_number vaddr)).valid = true := by
    rw [extract_page_number_eq, hc]; exact hv
  obtain ⟨⟨p, hp⟩, hpm⟩ := translate_mapped t vaddr false hv2
  have hg : from_free_list t (Op.translate vaddr false) := by
    simp only [from_free_list, step]
    rw [hpm]
    exact Or.inr rfl
  obtain ⟨_, hp'⟩ := translate_address config hcov hps hnw t ht vaddr false hin hg p hp
  rw [(translate_keeps_mapping t vaddr false _ hk.shaped hv).2, hf] at hp'
  rw [read_byte_fst, hp]
  simp only [PhysicalMemory.read_byte, hpm, hp']
  rw [if_neg (by omega), hm]

set_option maxRecDepth 100000 in
/-- C2 as stated fails in four ways.  (1) Victim path: on the small preset with
all 64 frames in use, a write to address 0 is followed by a write to address
16384 (page 64, never accessed); the allocator hands the second page the frame
of page 0, and the read of address 0 returns 9.  (2) Shared leaf slot: on the
fresh small preset, address `0x10000` (page 256) uses the leaf slot of page 0,
so its write lands on the byte of address 0.  (3) With `page_size` 128 below
`2 ^ offset_bits` = 256, address 128 (page 0, offset 128) and address 256
(page 1, offset 0) both have physical address 128.  (4) With `page_size` 2^63
the address of frame 2 wraps to 0 in 64-bit arithmetic. -/
theorem write_lost_to_later_write :
    ((exhausted_small.write_byte 0 7).1 = Except.ok () ∧
      ((step (exhausted_small.write_byte 0 7).2 (Op.write_byte 16384 9)).read_byte 0).1 =
        Except.ok 9) ∧
    (((VirtualMemoryManager.new Config.small_config).write_byte 0 7).1 = Except.ok () ∧
      ((step ((VirtualMemoryManager.new Config.small_config).write_byte 0 7).2
        (Op.write_byte 65536 9)).read_byte 0).1 = Except.ok 9) ∧
    (((VirtualMemoryManager.new { Config.small_config with page_size := 128 }).write_byte
        128 7).1 = Except.ok () ∧
      ((step ((VirtualMemoryManager.new
        { Config.small_config with page_size := 128 }).write_byte 128 7).2
          (Op.write_byte 256 9)).read_byte 128).1 = Except.ok 9) ∧
    (((VirtualMemoryManager.new { Config.small_config with page_size := 2 ^ 63 }).write_byte
        0 7).1 = Except.ok () ∧
      ((run ((VirtualMemoryManager.new
        { Config.small_config with page_size := 2 ^ 63 }).write_byte 0 7).2
          [Op.translate 256 false, Op.write_byte 512 9]).read_byte 0).1 = Except.ok 9) :=
  ⟨⟨rfl, rfl⟩, ⟨rfl, rfl⟩, ⟨rfl, rfl⟩, ⟨rfl, rfl⟩⟩

/-- C2 (amended): for a configuration whose page table covers the virtual address
space, whose shift counts are below 64 (`Config.shifts_defined`), whose pages
are at least `2 ^ offset_bits` bytes and whose frames lie below `2 ^ 64`, in
runs that use addresses below `2 ^ virtual_address_bits` and
serve every fault from the free list: after `write_byte a b` succeeds, any
sequence of public operations with no `free_page` on the page of `a` and no
`write_byte` to `a` leaves a state in which `read_byte a` returns `b`. -/
theorem write_survives_operations (config : Config) (hcov : config.covers)
    (_hdef : config.shifts_defined)
    (hps : 2 ^ config.offset_bits ≤ config.page_size)
    (hnw : config.num_frames * config.page_size ≤ 2 ^ 64)
    (s : VirtualMemoryManager)
    (hs : ReachableBy config (fun s op => in_address_space config op ∧ from_free_list s op) s)
    (vaddr value : Nat) (hin : vaddr < 2 ^ config.virtual_address_bits) (hb : value < 256)
    (hg : from_free_list s (Op.write_byte vaddr value))
    (hw : (s.write_byte vaddr value).1 = Except.ok ())
    (t : VirtualMemoryManager)
    (ht : RunsTo (fun s op => (in_address_space config op ∧ from_free_list s op) ∧
      spares config vaddr op) (s.write_byte vaddr value).2 t) :
    (t.read_byte vaddr).1 = Except.ok value := by
  have hs1 : ReachableBy config (fun s op => in_address_space config op ∧ from_free_list s op)
      (s.write_byte vaddr value).2 :=
    ReachableBy.next s (Op.write_byte vaddr value) hs ⟨fun a ha => by
      simp only [Op.vaddr, Option.some.injEq] at ha
      subst ha; exact hin, hg⟩
  obtain ⟨p, hp, hplt, hpm⟩ := write_byte_ok s vaddr value hw
  have hg' : from_free_list s (Op.translate vaddr true) := by
    have := hg
    simp only [from_free_list, step] at this ⊢
    rw [(write_byte_page_faults s vaddr value).1] at this
    exact this
  obtain ⟨hv, hpe⟩ := translate_address config hcov hps hnw s hs vaddr true hin hg' p hp
  rw [← (write_byte_parts s vaddr value).2] at hv hpe
  rw [Nat.mod_eq_of_lt hb] at hpm
  rw [hpe] at hpm hplt
  have key : ReachableBy config
      (fun s op => in_address_space config op ∧ from_free_list s op) t ∧
      ((t.page_table_.entry_at (vaddr / 2 ^ config.offset_bits)).valid = true ∧
        (t.page_table_.entry_at (vaddr / 2 ^ config.offset_bits)).frame_number =
          ((s.write_byte vaddr value).2.page_table_.entry_at
            (vaddr / 2 ^ config.offset_bits)).frame_number ∧
        t.physical_memory_.memory_
          (((s.write_byte vaddr value).2.page_table_.entry_at
            (vaddr / 2 ^ config.offset_bits)).frame_number * config.page_size +
              vaddr % 2 ^ config.offset_bits) = value ∧
        ((s.write_byte vaddr value).2.page_table_.entry_at
            (vaddr / 2 ^ config.offset_bits)).frame_number * config.page_size +
              vaddr % 2 ^ config.offset_bits < t.physical_memory_.memory_size) := by
    induction ht with
    | refl => exact ⟨hs1, hv, rfl, hpm, hplt⟩
    | next u op _ hgd ih =>
      exact ⟨ReachableBy.next u op ih.1 hgd.1,
        persists_step config hcov hps hnw u ih.1 vaddr value _ hin op hgd
          ih.2.1 ih.2.2.1 ih.2.2.2.1 ih.2.2.2.2⟩
  exact read_of_mapped config hcov hps hnw t key.1 vaddr value _ hin
    key.2.1 key.2.2.1 key.2.2.2.1 key.2.2.2.2

/-- Witness for C2 on the small preset: address 0 is written with 7, then
address 256 is written with 9 and page 2 is freed; the read of address 0
returns 7. -/
theorem write_survives_operations_witness :
    (((step (step ((VirtualMemoryManager.new Config.small_config).write_byte 0 7).2
      (Op.write_byte 256 9)) (Op.free_page 512)).read_byte 0).1 = Except.ok 7) :=
  write_survives_operations Config.small_config (by unfold Config.covers; decide)
    (by unfold Config.shifts_defined Config.levels_defined; decide)
    (by decide) (by decide) (VirtualMemoryManager.new Config.small_config)
    ReachableBy.init 0 7 (by decide) (by decide) (Or.inl (by decide)) rfl _
    (RunsTo.next _ (Op.free_page 512)
      (RunsTo.next _ (Op.write_byte 256 9) RunsTo.refl
        ⟨⟨fun a ha => by
          simp only [Op.vaddr, Option.some.injEq] at ha
          subst ha; decide, Or.inl (by decide)⟩, by simp only [spares]; decide⟩)
      ⟨⟨fun a ha => by
          simp only [Op.vaddr, Option.some.injEq] at ha
          subst ha; decide, Or.inl (by decide)⟩, by simp only [spares]; decide⟩)

/-! ## C11: translation fails exactly when the fault is unsatisfiable -/

theorem find_victim_loop_none (frames : Nat → Frame) (fuel : Nat) :
    ∀ i, find_victim_loop frames fuel i = none ↔
      ∀ j, i ≤ j → j < i + fuel → ¬ ((frames j).allocated = true ∧ (frames j).pinned = false) := by
  induction fuel with
  | zero =>
    intro i
    simp only [find_victim_loop, true_iff]
    intro j h1 h2; omega
  | succ fuel ih =>
    intro i
    simp only [find_victim_loop]
    by_cases hc : ((frames i).allocated && !(frames i).pinned) = true
    · rw [if_pos hc]
      simp only [Bool.and_eq_true, Bool.not_eq_true'] at hc
      constructor
      · intro h; simp at h
      · intro h; exact absurd hc (h i (Nat.le_refl i) (by omega))
    · rw [if_neg hc, ih (i + 1)]
      simp only [Bool.and_eq_true, Bool.not_eq_true'] at hc
      constructor
      · intro h j h1 h2
        rcases Nat.eq_or_lt_of_le h1 with e | hlt
        · subst e; exact hc
        · exact h j hlt (by omega)
      · intro h j h1 h2
        exact h j (by omega) (by omega)

/-- The allocator returns no frame exactly when the free list is empty and no
frame of the pool is allocated and unpinned. -/
theorem allocate_frame_fst_none (pm : PhysicalMemory) (vpn : Nat) :
    (pm.allocate_frame vpn).1 = none ↔
      pm.free_frames_ = [] ∧
        ∀ j, j < pm.num_frames_ →
          ¬ ((pm.frames_ j).allocated = true ∧ (pm.frames_ j).pinned = false) := by
  cases hf : pm.free_frames_ with
  | nil =>
    rw [allocate_frame_nil pm vpn hf]
    simp only [PhysicalMemory.find_victim_frame, true_and]
    rw [find_victim_loop_none]
    constructor
    · intro h j hj; exact h j (Nat.zero_le j) (by omega)
    · intro h j _ hj; exact h j (by omega)
  | cons pfn rest =>
    rw [allocate_frame_cons pm vpn pfn rest hf]
    simp

/-- C11 on the calls with defined behaviour: on a well-shaped page table of at
least one level, a `translate` call that stays clear of `back()` on an empty
recency list returns absent exactly when the cache has no entry for the page
number, the page table has no valid entry for it, the free list is empty and no
frame of the pool is allocated and unpinned; `allocate_page`, which never calls
the cache, returns false exactly when the last three hold. -/
theorem translation_fails_iff (s : VirtualMemoryManager)
    (hshape : WellShaped s.page_table_.num_levels_ s.page_table_.root_)
    (hL : 1 ≤ s.page_table_.num_levels_) (vaddr : Nat) (write : Bool) :
    (s.translate_defined vaddr = true →
      ((s.translate vaddr write).1 = none ↔
      s.tlb_.find (s.extract_page_number vaddr) = none ∧
      s.page_table_.is_present (s.extract_page_number vaddr) = false ∧
      s.physical_memory_.free_frames_ = [] ∧
      ∀ j, j < s.physical_memory_.num_frames_ →
        ¬ ((s.physical_memory_.frames_ j).allocated = true ∧
          (s.physical_memory_.frames_ j).pinned = false))) ∧
    ((s.allocate_page vaddr).1 = false ↔
      s.page_table_.is_present (s.extract_page_number vaddr) = false ∧
      s.physical_memory_.free_frames_ = [] ∧
      ∀ j, j < s.physical_memory_.num_frames_ →
        ¬ ((s.physical_memory_.frames_ j).allocated = true ∧
          (s.physical_memory_.frames_ j).pinned = false)) := by
  simp only [is_present_eq]
  rw [← allocate_frame_fst_none s.physical_memory_ (s.extract_page_number vaddr)]
  constructor
  · intro _
    refine translate_cases s vaddr write
      (fun r => r.1 = none ↔
        s.tlb_.find (s.extract_page_number vaddr) = none ∧
        (s.page_table_.entry_at (s.extract_page_number vaddr)).valid = false ∧
        (s.physical_memory_.allocate_frame (s.extract_page_number vaddr)).1 = none)
      ?_ ?_ ?_ ?_ ?_
    · intro pfn hf; simp [hf]
    · intro _ hv; simp [hv]
    · intro hf hv ha; simp [hf, hv, ha]
    · intro pfn _ _ ha _; simp [ha]
    · intro pfn _ _ _ hv2
      have := insert_same s.page_table_ (s.extract_page_number vaddr) pfn
        (s.extract_page_number vaddr) hshape hL (same_slot_refl _ _)
      rw [this] at hv2
      simp at hv2
  · refine allocate_page_cases s vaddr
      (fun r => r.1 = false ↔
        (s.page_table_.entry_at (s.extract_page_number vaddr)).valid = false ∧
        (s.physical_memory_.allocate_frame (s.extract_page_number vaddr)).1 = none)
      ?_ ?_ ?_
    · intro hv; simp [hv]
    · intro hv ha; simp [hv, ha]
    · intro pfn _ ha; simp [ha]

/-- The small preset cut down to one frame, with page 0 holding the pinned
frame: for page 1 (address 256) the `translate` call has defined behaviour,
`translate` returns absent and `allocate_page` returns false, the cache and the
page table have no entry for the page and the free list is empty. -/
theorem translation_fails_iff_witness :
    (WellShaped (pinned_one_frame.page_table_.num_levels_) pinned_one_frame.page_table_.root_ ∧
      1 ≤ pinned_one_frame.page_table_.num_levels_ ∧
      pinned_one_frame.translate_defined 256 = true) ∧
    ((pinned_one_frame.translate 256 true).1 = none ∧
      (pinned_one_frame.allocate_page 256).1 = false) ∧
    pinned_one_frame.tlb_.find (pinned_one_frame.extract_page_number 256) = none ∧
    pinned_one_frame.page_table_.is_present (pinned_one_frame.extract_page_number 256) = false ∧
    pinned_one_frame.physical_memory_.free_frames_ = [] :=
  have hr : Reachable { Config.small_config with physical_memory_size := 256, num_frames := 1 }
      (step (VirtualMemoryManager.new
        { Config.small_config with physical_memory_size := 256, num_frames := 1 })
        (Op.translate 0 false)) :=
    ReachableBy.next _ _ ReachableBy.init trivial
  have hshape : WellShaped pinned_one_frame.page_table_.num_levels_
      pinned_one_frame.page_table_.root_ :=
    (reachable_consistent _ _ _ hr).2.shaped
  have h :=
    ((translation_fails_iff pinned_one_frame hshape (by decide) 256 true).1 (by decide)).mp rfl
  ⟨⟨hshape, by decide, by decide⟩, ⟨rfl, rfl⟩, h.1, h.2.1, h.2.2.1⟩

/-- C11 at a cache capacity of 0.  On the fresh translator of the small preset
with `tlb_size` 0 the page table has two levels and the free list holds frames,
so the fault of `translate 0` can be satisfied and the claim has the call return
an address; the call serves the fault and then reaches `tlb_->insert` on the
empty cache, where `cache_.size() >= capacity_` holds and `back()` runs on an
empty list: the call has no defined behaviour. -/
theorem translate_undefined_at_zero_capacity :
    1 ≤ ({ Config.small_config with tlb_size := 0 } : Config).page_table_levels ∧
    (VirtualMemoryManager.new
      { Config.small_config with tlb_size := 0 }).physical_memory_.free_frames_ ≠ [] ∧
    (VirtualMemoryManager.new
      { Config.small_config with tlb_size := 0 }).tlb_.find 0 = none ∧
    (VirtualMemoryManager.new
      { Config.small_config with tlb_size := 0 }).translate_defined 0 = false := by
  refine ⟨?_, ?_, ?_, ?_⟩ <;> decide

/-! ## C12: allocate_page is idempotent -/

/-- C12 as stated fails without page-table levels.  On the small preset with
`page_table_levels` 0 the first `allocate_page 0` returns true after taking
frame 0, but the insert reaches no entry, so the second call faults again: it
takes frame 1 and leaves two frames allocated instead of one. -/
theorem allocate_page_twice_without_levels :
    ((VirtualMemoryManager.new
      { Config.small_config with page_table_levels := 0 }).allocate_page 0).1 = true ∧
    ((VirtualMemoryManager.new
      { Config.small_config with page_table_levels := 0 }).allocate_page
        0).2.physical_memory_.allocated_frames_ = 1 ∧
    (((VirtualMemoryManager.new
      { Config.small_config with page_table_levels := 0 }).allocate_page 0).2.allocate_page
        0).2.physical_memory_.allocated_frames_ = 2 := by
  decide

/-- C12 (amended): in every state, when the page of `vaddr` has a valid entry,
`allocate_page` returns true and the state it leaves is the state it found; on
a well-shaped page table of at least one level, a second `allocate_page` right
after a successful first one returns true and leaves the state of the first. -/
theorem allocate_page_idempotent (s : VirtualMemoryManager) (vaddr : Nat) :
    (s.page_table_.is_present (s.extract_page_number vaddr) = true →
      s.allocate_page vaddr = (true, s)) ∧
    (WellShaped s.page_table_.num_levels_ s.page_table_.root_ →
      1 ≤ s.page_table_.num_levels_ → (s.allocate_page vaddr).1 = true →
      (s.allocate_page vaddr).2.allocate_page vaddr = (true, (s.allocate_page vaddr).2)) := by
  have first : ∀ t : VirtualMemoryManager,
      t.page_table_.is_present (t.extract_page_number vaddr) = true →
        t.allocate_page vaddr = (true, t) := by
    intro t h
    unfold VirtualMemoryManager.allocate_page
    simp only [h, if_true]
  refine ⟨first s, fun hshape hL h => first _ ?_⟩
  revert h
  refine allocate_page_cases s vaddr
    (fun r => r.1 = true → r.2.page_table_.is_present (r.2.extract_page_number vaddr) = true)
    ?_ ?_ ?_
  · intro hv _
    rw [is_present_eq]; exact hv
  · intro _ _ h; simp at h
  · intro pfn _ _ _
    rw [is_present_eq]
    show ((s.page_table_.insert (s.extract_page_number vaddr) pfn).entry_at
      (s.extract_page_number vaddr)).valid = true
    rw [insert_same s.page_table_ _ pfn _ hshape hL (same_slot_refl _ _)]

/-- C12 amended on the fresh small preset: the first `allocate_page 0` succeeds
and the second returns true with the state of the first. -/
theorem allocate_page_idempotent_witness :
    (WellShaped (VirtualMemoryManager.new Config.small_config).page_table_.num_levels_
        (VirtualMemoryManager.new Config.small_config).page_table_.root_ ∧
      1 ≤ (VirtualMemoryManager.new Config.small_config).page_table_.num_levels_ ∧
      ((VirtualMemoryManager.new Config.small_config).allocate_page 0).1 = true) ∧
    ((VirtualMemoryManager.new Config.small_config).allocate_page 0).2.allocate_page 0 =
      (true, ((VirtualMemoryManager.new Config.small_config).allocate_page 0).2) :=
  have hshape : WellShaped (VirtualMemoryManager.new Config.small_config).page_table_.num_levels_
      (VirtualMemoryManager.new Config.small_config).page_table_.root_ :=
    (reachable_consistent Config.small_config (fun _ _ => True) _ ReachableBy.init).2.shaped
  ⟨⟨hshape, by decide, rfl⟩,
    (allocate_page_idempotent (VirtualMemoryManager.new Config.small_config) 0).2 hshape
      (by decide) rfl⟩

/-! ## C20: allocate_frame from the free list -/

/-- C20: every `allocate_frame` call adds one to the allocator's page-fault
counter.  With a non-empty free list the call returns the frame at the front of
the queue, marks it allocated with the given owner, adds one to the
allocated-frame count, takes that frame (and no other) off the queue and leaves
every other frame record alone.  The queue is first-in first-out: construction
fills it with `0, 1, ..., num_frames - 1` in this order, and `free_frame` of an
allocated frame puts the frame at the back. -/
theorem allocate_frame_from_free_list (pm : PhysicalMemory) (vpn : Nat) :
    (pm.allocate_frame vpn).2.page_faults_ = pm.page_faults_ + 1 ∧
    (∀ pfn rest, pm.free_frames_ = pfn :: rest →
      (pm.allocate_frame vpn).1 = some pfn ∧
      ((pm.allocate_frame vpn).2.frames_ pfn).allocated = true ∧
      ((pm.allocate_frame vpn).2.frames_ pfn).owner_vpn = vpn ∧
      (pm.allocate_frame vpn).2.allocated_frames_ = pm.allocated_frames_ + 1 ∧
      (pm.allocate_frame vpn).2.free_frames_ = rest ∧
      (pm.allocate_frame vpn).2.free_frames_.length + 1 = pm.free_frames_.length ∧
      ∀ j, j ≠ pfn → (pm.allocate_frame vpn).2.frames_ j = pm.frames_ j) ∧
    (∀ config : Config, (PhysicalMemory.new config).free_frames_ = List.range config.num_frames) ∧
    (∀ pfn pm2, pm.free_frame pfn = Except.ok pm2 → (pm.frames_ pfn).allocated = true →
      pm2.free_frames_ = pm.free_frames_ ++ [pfn]) := by
  refine ⟨allocate_frame_page_faults pm vpn, ?_, fun _ => rfl, ?_⟩
  · intro pfn rest h
    rw [allocate_frame_cons pm vpn pfn rest h]
    refine ⟨rfl, ?_, ?_, rfl, rfl, ?_, ?_⟩
    · simp [setAt_same]
    · simp [setAt_same]
    · simp [h]
    · intro j hj
      simp [setAt_other _ _ _ _ hj]
  · intro pfn pm2 h ha
    unfold PhysicalMemory.free_frame at h
    split at h
    · simp at h
    · simp only [ha, if_true, Except.ok.injEq] at h
      rw [← h]

/-- C20 on the small preset: the first call on the fresh allocator returns
frame 0, the second frame 1; after frame 0 is freed it is the last frame of the
queue. -/
theorem allocate_frame_from_free_list_witness :
    ((PhysicalMemory.new Config.small_config).allocate_frame 7).1 = some 0 ∧
    (((PhysicalMemory.new Config.small_config).allocate_frame 7).2.allocate_frame 9).1 = some 1 ∧
    (((PhysicalMemory.new Config.small_config).allocate_frame 7).2.frames_ 0).owner_vpn = 7 ∧
    ((PhysicalMemory.new Config.small_config).allocate_frame 7).2.page_faults_ = 1 :=
  have h := allocate_frame_from_free_list (PhysicalMemory.new Config.small_config) 7
  have h2 := allocate_frame_from_free_list
    ((PhysicalMemory.new Config.small_config).allocate_frame 7).2 9
  ⟨(h.2.1 0 (List.range' 1 63) (by decide)).1, (h2.2.1 1 (List.range' 2 62) (by decide)).1,
    (h.2.1 0 (List.range' 1 63) (by decide)).2.2.1, h.1⟩

/-! ## C14: insert then translate on the page table -/

theorem pt_step_params (pt : PageTable) (op : PtOp) :
    (pt.step op).num_levels_ = pt.num_levels_ ∧
      (pt.step op).bits_per_level_ = pt.bits_per_level_ := by
  cases op with
  | translate vpn => exact ⟨(translate_snd_params pt vpn).1, (translate_snd_params pt vpn).2.1⟩
  | insert vpn pfn => exact insert_params pt vpn pfn
  | is_present vpn => exact ⟨rfl, rfl⟩
  | get_entry vpn => exact ⟨rfl, rfl⟩
  | set_dirty vpn d => exact ⟨(set_dirty_params pt vpn d).1, (set_dirty_params pt vpn d).2.1⟩
  | set_referenced vpn r =>
    exact ⟨(set_referenced_params pt vpn r).1, (set_referenced_params pt vpn r).2.1⟩
  | invalidate vpn => exact invalidate_params pt vpn
  | clear => exact ⟨rfl, rfl⟩

theorem pt_step_wellShaped (pt : PageTable) (op : PtOp)
    (hwf : WellShaped pt.num_levels_ pt.root_) :
    WellShaped (pt.step op).num_levels_ (pt.step op).root_ := by
  cases op with
  | translate vpn => exact translate_snd_wellShaped pt vpn hwf
  | insert vpn pfn => exact insert_wellShaped pt vpn pfn hwf
  | is_present vpn => exact hwf
  | get_entry vpn => exact hwf
  | set_dirty vpn d => exact set_dirty_wellShaped pt vpn d hwf
  | set_referenced vpn r => exact set_referenced_wellShaped pt vpn r hwf
  | invalidate vpn => exact invalidate_wellShaped pt vpn hwf
  | clear => exact wellShaped_root pt.num_levels_

theorem pt_run_snoc (pt : PageTable) (ops : List PtOp) (op : PtOp) :
    pt.run (ops ++ [op]) = (pt.run ops).step op := by
  simp [PageTable.run, List.foldl_append]

/-- Every page table reached from construction keeps the configured parameters
and the shape of the tree. -/
theorem pt_run_shaped (config : Config) (ops : List PtOp) :
    ((PageTable.new config).run ops).num_levels_ = config.page_table_levels ∧
      ((PageTable.new config).run ops).bits_per_level_ = config.bits_per_level ∧
      WellShaped ((PageTable.new config).run ops).num_levels_
        ((PageTable.new config).run ops).root_ := by
  induction ops using List.reverseRecOn with
  | nil => exact ⟨rfl, rfl, wellShaped_root config.page_table_levels⟩
  | append_singleton ops op ih =>
    rw [pt_run_snoc]
    refine ⟨(pt_step_params _ op).1.trans ih.1, (pt_step_params _ op).2.trans ih.2.1,
      pt_step_wellShaped _ op ih.2.2⟩

/-- C14: on every page table reached from construction with at least one level,
right after `insert vpn f` the call `translate vpn` returns `f`, `is_present vpn`
is true and the entry of `vpn` is valid, referenced and holds `f`. -/
theorem insert_then_translate (config : Config) (hL : 1 ≤ config.page_table_levels)
    (ops : List PtOp) (vpn f : Nat) :
    ((((PageTable.new config).run ops).insert vpn f).translate vpn).1 = some f ∧
    (((PageTable.new config).run ops).insert vpn f).is_present vpn = true ∧
    ∃ e, (((PageTable.new config).run ops).insert vpn f).get_entry vpn = some e ∧
      e.valid = true ∧ e.referenced = true ∧ e.frame_number = f := by
  obtain ⟨hl, _, hwf⟩ := pt_run_shaped config ops
  have key := insert_same ((PageTable.new config).run ops) vpn f vpn hwf (by omega)
    (same_slot_refl _ _)
  have hv : ((((PageTable.new config).run ops).insert vpn f).entry_at vpn).valid = true := by
    rw [key]
  refine ⟨?_, ?_, ?_⟩
  · rw [translate_fst, hv, if_pos rfl, key]
  · rw [is_present_eq, hv]
  · obtain ⟨e, he, hev⟩ := (entry_at_valid_iff _ _).mp hv
    have := entry_at_of_get_entry _ _ _ he
    rw [key] at this
    refine ⟨e, he, hev, ?_, ?_⟩
    · rw [← this]
    · rw [← this]

/-- C14 on the page table of the small preset, after an insert and an
invalidate of page 3: `translate 3` right after `insert 3 9` returns 9. -/
theorem insert_then_translate_witness :
    1 ≤ Config.small_config.page_table_levels ∧
    ((((PageTable.new Config.small_config).run
      [PtOp.insert 3 1, PtOp.invalidate 3]).insert 3 9).translate 3).1 = some 9 :=
  ⟨by decide, (insert_then_translate Config.small_config (by decide)
    [PtOp.insert 3 1, PtOp.invalidate 3] 3 9).1⟩

/-! ## C15: persistence of a page-table mapping -/

/-- Two page numbers that take the same path agree on their low
`levels * bits` bits. -/
theorem same_slot_mod (pt : PageTable) (v w : Nat) (h : pt.same_slot v w) :
    v % 2 ^ (pt.num_levels_ * pt.bits_per_level_) =
      w % 2 ^ (pt.num_levels_ * pt.bits_per_level_) :=
  mod_eq_of_digits pt.bits_per_level_ v w pt.num_levels_ (fun j hj => by
    have := h (pt.num_levels_ - 1 - j) (by omega)
    rw [extract_level_index_eq, extract_level_index_eq] at this
    have e : pt.num_levels_ - 1 - (pt.num_levels_ - 1 - j) = j := by omega
    rw [e] at this
    exact this)

/-- A call other than `clear`, and other than an `insert` or an `invalidate`
that names a page number of the slot of `w`, leaves the validity and the frame
of the entry of `w` alone. -/
theorem pt_step_keeps_mapping (pt : PageTable) (op : PtOp) (w : Nat)
    (hwf : WellShaped pt.num_levels_ pt.root_)
    (hc : op ≠ PtOp.clear)
    (hop : ∀ v, (op = PtOp.invalidate v ∨ ∃ g, op = PtOp.insert v g) → ¬ pt.same_slot w v) :
    ((pt.step op).entry_at w).valid = (pt.entry_at w).valid ∧
      ((pt.step op).entry_at w).frame_number = (pt.entry_at w).frame_number := by
  cases op with
  | translate vpn => exact translate_snd_fields pt vpn hwf w
  | insert vpn pfn =>
    simp only [PageTable.step]
    rw [insert_other pt vpn pfn w hwf (hop vpn (Or.inr ⟨pfn, rfl⟩))]
    exact ⟨rfl, rfl⟩
  | is_present vpn => exact ⟨rfl, rfl⟩
  | get_entry vpn => exact ⟨rfl, rfl⟩
  | set_dirty vpn d => exact set_dirty_fields pt vpn d hwf w
  | set_referenced vpn r => exact set_referenced_fields pt vpn r hwf w
  | invalidate vpn =>
    simp only [PageTable.step]
    rw [invalidate_other pt vpn w hwf (hop vpn (Or.inl rfl))]
    exact ⟨rfl, rfl⟩
  | clear => exact absurd rfl hc

/-- C15 as stated fails in two ways.  On the page table of the small preset
(2 levels of 4 bits) page number 256 takes the path of page number 0, so
`insert 256 7` after `insert 0 5` makes `translate 0` return 7, and
`invalidate 256` makes it return absent.  With `page_table_levels` 0 the insert
reaches no entry and `translate 0` right after `insert 0 5` returns absent. -/
theorem mapping_overwritten_through_alias :
    ((((PageTable.new Config.small_config).insert 0 5).run
      [PtOp.insert 256 7]).translate 0).1 = some 7 ∧
    ((((PageTable.new Config.small_config).insert 0 5).run
      [PtOp.invalidate 256]).translate 0).1 = none ∧
    (((PageTable.new { Config.small_config with page_table_levels := 0 }).insert
      0 5).translate 0).1 = none := by
  decide

/-- C15 (amended): on every page table reached from construction with at least
one level and shift counts below 64 (`Config.levels_defined`), after
`insert vpn f` the call `translate vpn` returns `f` after any sequence of
page-table calls that holds no `clear`, and no `invalidate` or `insert` on a
page number that agrees with `vpn` in its low `levels * bits` bits.  The calls
of the sequence may name any page number, `vpn` included, when they are
`translate`, `set_dirty`, `set_referenced`, `is_present` or `get_entry`; so
only `clear`, or an `invalidate` or a further `insert` on `vpn` or on a page
number that agrees with it in those bits, can change the result. -/
theorem mapping_persists (config : Config) (hL : 1 ≤ config.page_table_levels)
    (_hdef : config.levels_defined)
    (ops0 : List PtOp) (vpn f : Nat) (ops : List PtOp)
    (hops : ∀ op, op ∈ ops → op ≠ PtOp.clear ∧
      ∀ v, (op = PtOp.invalidate v ∨ ∃ g, op = PtOp.insert v g) →
        v % 2 ^ (config.page_table_levels * config.bits_per_level) ≠
          vpn % 2 ^ (config.page_table_levels * config.bits_per_level)) :
    (((((PageTable.new config).run ops0).insert vpn f).run ops).translate vpn).1 = some f := by
  obtain ⟨hl, hb, hwf⟩ := pt_run_shaped config ops0
  have key : ∀ ops : List PtOp,
      (∀ op, op ∈ ops → op ≠ PtOp.clear ∧
        ∀ v, (op = PtOp.invalidate v ∨ ∃ g, op = PtOp.insert v g) →
          v % 2 ^ (config.page_table_levels * config.bits_per_level) ≠
            vpn % 2 ^ (config.page_table_levels * config.bits_per_level)) →
      ((((PageTable.new config).run ops0).insert vpn f).run ops).num_levels_ =
          config.page_table_levels ∧
        ((((PageTable.new config).run ops0).insert vpn f).run ops).bits_per_level_ =
          config.bits_per_level ∧
        WellShaped ((((PageTable.new config).run ops0).insert vpn f).run ops).num_levels_
          ((((PageTable.new config).run ops0).insert vpn f).run ops).root_ ∧
        (((((PageTable.new config).run ops0).insert vpn f).run ops).entry_at vpn).valid = true ∧
        (((((PageTable.new config).run ops0).insert vpn f).run ops).entry_at vpn).frame_number =
          f := by
    intro ops
    induction ops using List.reverseRecOn with
    | nil =>
      intro _
      have e := insert_same ((PageTable.new config).run ops0) vpn f vpn hwf (by omega)
        (same_slot_refl _ _)
      refine ⟨(insert_params _ vpn f).1.trans hl, (insert_params _ vpn f).2.trans hb,
        insert_wellShaped _ vpn f hwf, ?_, ?_⟩
      · show ((((PageTable.new config).run ops0).insert vpn f).entry_at vpn).valid = true
        rw [e]
      · show ((((PageTable.new config).run ops0).insert vpn f).entry_at vpn).frame_number = f
        rw [e]
    | append_singleton ops op ih =>
      intro h
      obtain ⟨il, ib, iwf, iv, ifr⟩ := ih (fun o ho => h o (List.mem_append_left _ ho))
      obtain ⟨hnc, hne⟩ := h op (List.mem_append_right _ (List.mem_singleton.mpr rfl))
      rw [pt_run_snoc]
      have keep := pt_step_keeps_mapping _ op vpn iwf hnc (fun v hv hs => by
        have := same_slot_mod _ _ _ hs
        rw [il, ib] at this
        exact hne v hv this.symm)
      exact ⟨(pt_step_params _ op).1.trans il, (pt_step_params _ op).2.trans ib,
        pt_step_wellShaped _ op iwf, keep.1.trans iv, keep.2.trans ifr⟩
  obtain ⟨_, _, _, hv, hf⟩ := key ops hops
  rw [translate_fst, hv, if_pos rfl, hf]

/-- C15 amended on the page table of the small preset: after `insert 0 5`, an
insert and an invalidate on pages 1 and 2, and a `translate`, a `set_dirty`, a
`set_referenced`, an `is_present` and a `get_entry` on page 0 and on page 256,
which shares its slot, leave `translate 0` returning 5. -/
theorem mapping_persists_witness :
    (1 ≤ Config.small_config.page_table_levels ∧ Config.small_config.levels_defined) ∧
    ((((PageTable.new Config.small_config).insert 0 5).run
      [PtOp.insert 1 7, PtOp.invalidate 2, PtOp.translate 0, PtOp.set_dirty 256 true,
        PtOp.set_referenced 0 false, PtOp.is_present 256, PtOp.get_entry 0]).translate 0).1 =
      some 5 :=
  ⟨⟨by decide, by unfold Config.levels_defined; decide⟩,
    mapping_persists Config.small_config (by decide) (by unfold Config.levels_defined; decide)
      [] 0 5
      [PtOp.insert 1 7, PtOp.invalidate 2, PtOp.translate 0, PtOp.set_dirty 256 true,
        PtOp.set_referenced 0 false, PtOp.is_present 256, PtOp.get_entry 0] (by
      intro op hop
      simp only [List.mem_cons, List.mem_singleton, List.not_mem_nil, or_false] at hop
      rcases hop with h | h | h | h | h | h | h <;> subst h <;>
        refine ⟨by simp, fun v hv => ?_⟩ <;> simp at hv <;> subst hv <;> decide)⟩

/-! ## The recency list and the map of the cache -/

theorem keys_mapAssign (m : List (Nat × Nat)) (v p : Nat) :
    (mapAssign m v p).map Prod.fst = m.map Prod.fst := by
  induction m with
  | nil => rfl
  | cons a m ih =>
    simp only [mapAssign, List.map_cons] at ih ⊢
    rw [ih]
    by_cases h : a.1 = v <;> simp [h]

theorem keys_mapErase (m : List (Nat × Nat)) (v : Nat) :
    (mapErase m v).map Prod.fst = (m.map Prod.fst).filter (fun k => k != v) := by
  induction m with
  | nil => rfl
  | cons a m ih =>
    simp only [mapErase, List.map_cons] at ih ⊢
    by_cases h : a.1 = v
    · simp [List.filter_cons, h, ih]
    · simp [List.filter_cons, h, ih]

theorem find_none_iff (t : TLB) (v : Nat) : t.find v = none ↔ v ∉ t.keys := by
  simp only [TLB.find, TLB.keys, List.lookup_eq_none_iff, List.mem_map, not_exists, not_and]
  constructor
  · intro h p hp e
    have := h p hp
    simp [e] at this
  · intro h p hp
    simp only [bne_iff_ne, ne_eq]
    intro e
    exact h p hp e.symm

theorem find_some_mem (t : TLB) (v f : Nat) (h : t.find v = some f) : v ∈ t.keys := by
  by_contra hn
  rw [(find_none_iff t v).mpr hn] at h
  simp at h

theorem mem_keys_find (t : TLB) (v : Nat) (h : v ∈ t.keys) : ∃ f, t.find v = some f := by
  cases hf : t.find v with
  | none => exact absurd h ((find_none_iff t v).mp hf)
  | some f => exact ⟨f, rfl⟩

theorem linked_lru_nodup (t : TLB) (h : t.Linked) : t.lru_list_.Nodup :=
  (h.2.nodup_iff).mpr h.1

theorem linked_length (t : TLB) (h : t.Linked) : t.lru_list_.length = t.cache_.length := by
  have := h.2.length_eq
  simpa [TLB.keys] using this

/-- Keys of the map after `cache_.erase(v)`. -/
theorem keys_erase (m : List (Nat × Nat)) (v : Nat) (h : (m.map Prod.fst).Nodup) :
    (mapErase m v).map Prod.fst = (m.map Prod.fst).erase v := by
  rw [keys_mapErase, h.erase_eq_filter]

theorem linked_touch (t : TLB) (v : Nat) (h : t.Linked) : (t.touch v).Linked := by
  unfold TLB.touch
  cases hf : t.find v with
  | none => exact h
  | some f =>
    have hm : v ∈ t.lru_list_ := h.2.symm.subset (find_some_mem t v f hf)
    exact ⟨h.1, (List.perm_cons_erase hm).symm.trans h.2⟩

theorem linked_lookup (t : TLB) (v : Nat) (h : t.Linked) : (t.lookup v).2.Linked := by
  unfold TLB.lookup
  cases hf : t.find v with
  | none => exact h
  | some f => exact linked_touch { t with hits_ := t.hits_ + 1 } v h

theorem linked_evict (t : TLB) (h : t.Linked) : t.evict.Linked := by
  unfold TLB.evict
  cases hl : t.lru_list_.getLast? with
  | none => exact h
  | some x =>
    obtain ⟨d, hd⟩ := List.getLast?_eq_some_iff.mp hl
    have hnd := linked_lru_nodup t h
    rw [hd] at hnd
    have hx : x ∉ d := by
      intro hx
      have := (List.nodup_append.mp hnd).2.2
      exact this hx (List.mem_singleton.mpr rfl)
    have e : t.lru_list_.erase x = d := by
      rw [hd, List.erase_append_right _ hx]
      simp
    refine ⟨?_, ?_⟩
    · show ((mapErase t.cache_ x).map Prod.fst).Nodup
      rw [keys_erase _ _ h.1]
      exact h.1.erase x
    · show (t.lru_list_.dropLast).Perm ((mapErase t.cache_ x).map Prod.fst)
      rw [keys_erase _ _ h.1, hd, List.dropLast_concat, ← e]
      exact h.2.erase x

theorem evict_keys_subset (t : TLB) (v : Nat) (h : v ∈ t.evict.keys) : v ∈ t.keys := by
  unfold TLB.evict at h
  cases hl : t.lru_list_.getLast? with
  | none => rw [hl] at h; exact h
  | some x =>
    rw [hl] at h
    simp only [TLB.keys, keys_mapErase] at h
    exact (List.mem_filter.mp h).1

theorem linked_insert (t : TLB) (v p : Nat) (h : t.Linked) : (t.insert v p).Linked := by
  unfold TLB.insert
  cases hf : t.find v with
  | some f =>
    apply linked_touch
    refine ⟨?_, ?_⟩
    · show ((mapAssign t.cache_ v p).map Prod.fst).Nodup
      rw [keys_mapAssign]; exact h.1
    · show t.lru_list_.Perm ((mapAssign t.cache_ v p).map Prod.fst)
      rw [keys_mapAssign]; exact h.2
  | none =>
    have hv : v ∉ t.keys := (find_none_iff t v).mp hf
    by_cases hc : t.cache_.length ≥ t.capacity_
    · simp only [hc, if_true]
      have he := linked_evict t h
      have hv2 : v ∉ t.evict.keys := fun hm => hv (evict_keys_subset t v hm)
      exact ⟨List.nodup_cons.mpr ⟨hv2, he.1⟩, List.Perm.cons v he.2⟩
    · simp only [hc, if_false]
      exact ⟨List.nodup_cons.mpr ⟨hv, h.1⟩, List.Perm.cons v h.2⟩

theorem linked_invalidate (t : TLB) (v : Nat) (h : t.Linked) : (t.invalidate v).Linked := by
  unfold TLB.invalidate
  cases hf : t.find v with
  | none => exact h
  | some f =>
    refine ⟨?_, ?_⟩
    · show ((mapErase t.cache_ v).map Prod.fst).Nodup
      rw [keys_erase _ _ h.1]
      exact h.1.erase v
    · show (t.lru_list_.erase v).Perm ((mapErase t.cache_ v).map Prod.fst)
      rw [keys_erase _ _ h.1]
      exact h.2.erase v

theorem linked_step (t : TLB) (op : TlbOp) (h : t.Linked) : (t.step op).Linked := by
  cases op with
  | lookup v => exact linked_lookup t v h
  | insert v p => exact linked_insert t v p h
  | invalidate v => exact linked_invalidate t v h
  | clear => exact ⟨List.nodup_nil, List.Perm.refl _⟩

theorem tlb_run_snoc (t : TLB) (ops : List TlbOp) (op : TlbOp) :
    t.run (ops ++ [op]) = (t.run ops).step op := by
  simp [TLB.run, List.foldl_append]

theorem linked_run (capacity : Nat) (ops : List TlbOp) : ((TLB.new capacity).run ops).Linked := by
  induction ops using List.reverseRecOn with
  | nil => exact ⟨List.nodup_nil, List.Perm.refl _⟩
  | append_singleton ops op ih =>
    rw [tlb_run_snoc]
    exact linked_step _ op ih

theorem tlb_step_capacity (t : TLB) (op : TlbOp) : (t.step op).capacity_ = t.capacity_ := by
  cases op with
  | lookup v =>
    simp only [TLB.step, TLB.lookup]
    cases hf : t.find v with
    | none => rfl
    | some f =>
      have h2 : TLB.find { t with hits_ := t.hits_ + 1 } v = some f := hf
      simp only [TLB.touch, h2]
  | insert v p =>
    simp only [TLB.step, TLB.insert, TLB.touch, TLB.evict]
    cases hf : t.find v with
    | some f =>
      simp only []
      cases hg : TLB.find { t with cache_ := mapAssign t.cache_ v p } v <;> rfl
    | none =>
      simp only []
      split
      · cases hl : t.lru_list_.getLast? <;> rfl
      · rfl
  | invalidate v =>
    simp only [TLB.step, TLB.invalidate]
    cases hf : t.find v <;> rfl
  | clear => rfl

theorem tlb_run_capacity (capacity : Nat) (ops : List TlbOp) :
    ((TLB.new capacity).run ops).capacity_ = capacity := by
  induction ops using List.reverseRecOn with
  | nil => rfl
  | append_singleton ops op ih =>
    rw [tlb_run_snoc, tlb_step_capacity]
    exact ih

/-- The insert of a page number that is present: the frame is overwritten and
the page number moves to the front of the recency list. -/
theorem insert_present (t : TLB) (v p f : Nat) (h : t.find v = some f) :
    t.insert v p =
      { t with cache_ := mapAssign t.cache_ v p, lru_list_ := v :: t.lru_list_.erase v } := by
  have h2 : TLB.find { t with cache_ := mapAssign t.cache_ v p } v = some p :=
    lookup_mapAssign_self t.cache_ v p f h
  unfold TLB.insert
  simp only [h, TLB.touch, h2]

/-- The insert of an absent page number into a cache below its capacity. -/
theorem insert_absent_room (t : TLB) (v p : Nat) (h : t.find v = none)
    (hc : t.cache_.length < t.capacity_) :
    t.insert v p = { t with cache_ := (v, p) :: t.cache_, lru_list_ := v :: t.lru_list_ } := by
  unfold TLB.insert
  simp only [h]
  rw [if_neg (by omega)]

/-- The insert of an absent page number into a cache at its capacity: the page
number at the back of the recency list leaves the list and the map. -/
theorem insert_absent_full (t : TLB) (v p x : Nat) (h : t.find v = none)
    (hc : t.cache_.length ≥ t.capacity_) (hx : t.lru_list_.getLast? = some x) :
    t.insert v p =
      { t with
        cache_ := (v, p) :: mapErase t.cache_ x
        lru_list_ := v :: t.lru_list_.dropLast } := by
  unfold TLB.insert
  simp only [h]
  rw [if_pos hc]
  simp only [TLB.evict, hx]

theorem getLast_of_linked (t : TLB) (h : t.Linked) (hc : 1 ≤ t.cache_.length) :
    ∃ x, t.lru_list_.getLast? = some x ∧ x ∈ t.keys := by
  have hl := linked_length t h
  cases hg : t.lru_list_.getLast? with
  | none =>
    rw [List.getLast?_eq_none_iff] at hg
    rw [hg] at hl
    simp at hl
    omega
  | some x =>
    refine ⟨x, rfl, h.2.subset ?_⟩
    obtain ⟨d, hd⟩ := List.getLast?_eq_some_iff.mp hg
    rw [hd]; simp

theorem mapErase_length (m : List (Nat × Nat)) (x : Nat) (hn : (m.map Prod.fst).Nodup)
    (hx : x ∈ m.map Prod.fst) : (mapErase m x).length + 1 = m.length := by
  have h1 : ((mapErase m x).map Prod.fst).length = ((m.map Prod.fst).erase x).length := by
    rw [keys_erase m x hn]
  rw [List.length_erase_of_mem hx] at h1
  simp only [List.length_map] at h1
  have : 1 ≤ m.length := by
    have := List.length_pos_of_mem hx
    simpa using this
  omega

theorem mapErase_length_le (m : List (Nat × Nat)) (x : Nat) :
    (mapErase m x).length ≤ m.length :=
  List.length_filter_le _ _

theorem mapAssign_length (m : List (Nat × Nat)) (v p : Nat) :
    (mapAssign m v p).length = m.length := by
  simp [mapAssign]

/-! ## C17: capacity bound of the cache -/

theorem run_defined_snoc (t : TLB) (ops : List TlbOp) (op : TlbOp) :
    t.run_defined (ops ++ [op]) = (t.run_defined ops && (t.run ops).step_defined op) := by
  induction ops generalizing t with
  | nil => simp [TLB.run_defined, TLB.run]
  | cons o ops ih =>
    have e : t.run (o :: ops) = (t.step o).run ops := rfl
    show (t.step_defined o && (t.step o).run_defined (ops ++ [op])) = _
    rw [ih, e]
    simp only [TLB.run_defined, Bool.and_assoc]

/-- A defined insert of an absent page number into a full cache finds a page
number at the back of the recency list. -/
theorem getLast_of_defined (t : TLB) (v : Nat) (hf : t.find v = none)
    (hc : t.cache_.length ≥ t.capacity_) (hd : t.insert_defined v = true) :
    ∃ x, t.lru_list_.getLast? = some x := by
  simp only [TLB.insert_defined, hf, hc, if_true] at hd
  cases hg : t.lru_list_.getLast? with
  | none =>
    rw [List.getLast?_eq_none_iff] at hg
    rw [hg] at hd
    simp at hd
  | some x => exact ⟨x, rfl⟩

/-- One defined call keeps the number of entries within the capacity. -/
theorem tlb_step_bound_defined (t : TLB) (op : TlbOp) (hl : t.Linked)
    (hd : t.step_defined op = true) (hb : t.cache_.length ≤ t.capacity_) :
    (t.step op).cache_.length ≤ t.capacity_ := by
  cases op with
  | lookup v =>
    simp only [TLB.step, lookup_cache]; exact hb
  | insert v p =>
    simp only [TLB.step]
    cases hf : t.find v with
    | some f =>
      rw [insert_present t v p f hf]
      simp only [mapAssign_length]; exact hb
    | none =>
      by_cases hc : t.cache_.length ≥ t.capacity_
      · obtain ⟨x, hx⟩ := getLast_of_defined t v hf hc hd
        have hxk : x ∈ t.keys := by
          refine hl.2.subset ?_
          obtain ⟨d, hd2⟩ := List.getLast?_eq_some_iff.mp hx
          rw [hd2]; simp
        rw [insert_absent_full t v p x hf hc hx]
        have := mapErase_length t.cache_ x hl.1 hxk
        simp only [List.length_cons]
        omega
      · rw [insert_absent_room t v p hf (by omega)]
        simp only [List.length_cons]
        omega
  | invalidate v =>
    simp only [TLB.step, TLB.invalidate]
    cases hf : t.find v with
    | none => exact hb
    | some f => exact Nat.le_trans (mapErase_length_le _ _) hb
  | clear => simp [TLB.step, TLB.clear]

/-- With a capacity of at least one every insert has defined behaviour: a full
cache holds an entry, so its recency list is not empty. -/
theorem insert_defined_of_capacity (t : TLB) (v : Nat) (hl : t.Linked) (hcap : 1 ≤ t.capacity_) :
    t.insert_defined v = true := by
  unfold TLB.insert_defined
  cases hf : t.find v with
  | some f => rfl
  | none =>
    simp only []
    split
    · rename_i hc
      obtain ⟨x, hx, _⟩ := getLast_of_linked t hl (by omega)
      cases hn : t.lru_list_ with
      | nil => rw [hn] at hx; simp at hx
      | cons a l => rfl
    · rfl

theorem step_defined_of_capacity (t : TLB) (op : TlbOp) (hl : t.Linked) (hcap : 1 ≤ t.capacity_) :
    t.step_defined op = true := by
  cases op with
  | insert v p => exact insert_defined_of_capacity t v hl hcap
  | lookup v => rfl
  | invalidate v => rfl
  | clear => rfl

theorem run_defined_of_capacity (capacity : Nat) (hcap : 1 ≤ capacity) (ops : List TlbOp) :
    (TLB.new capacity).run_defined ops = true := by
  induction ops using List.reverseRecOn with
  | nil => rfl
  | append_singleton ops op ih =>
    rw [run_defined_snoc, ih, Bool.true_and]
    exact step_defined_of_capacity _ op (linked_run capacity ops)
      (by rw [tlb_run_capacity]; exact hcap)

/-- C17 on the sequences with defined behaviour: for every capacity and every
sequence of `lookup`, `insert`, `invalidate` and `clear` calls on the empty cache
in which every call has defined behaviour, the number of entries of the cache is
at most the capacity; and with a capacity of at least one every sequence has
defined behaviour. -/
theorem cache_capacity_bound (capacity : Nat) (ops : List TlbOp) :
    ((TLB.new capacity).run_defined ops = true →
      ((TLB.new capacity).run ops).cache_.length ≤ capacity) ∧
    (1 ≤ capacity → (TLB.new capacity).run_defined ops = true) := by
  refine ⟨?_, fun hcap => run_defined_of_capacity capacity hcap ops⟩
  induction ops using List.reverseRecOn with
  | nil => intro _; exact Nat.zero_le _
  | append_singleton ops op ih =>
    intro hd
    rw [run_defined_snoc, Bool.and_eq_true] at hd
    rw [tlb_run_snoc]
    have hc := tlb_run_capacity capacity ops
    have := tlb_step_bound_defined ((TLB.new capacity).run ops) op (linked_run capacity ops)
      hd.2 (by rw [hc]; exact ih hd.1)
    rw [hc] at this
    exact this

/-- A cache of capacity 2: the three inserts of distinct page numbers have
defined behaviour and leave two entries. -/
theorem cache_capacity_bound_witness :
    (TLB.new 2).run_defined [TlbOp.insert 0 5, TlbOp.insert 1 6, TlbOp.insert 2 7] = true ∧
    ((TLB.new 2).run [TlbOp.insert 0 5, TlbOp.insert 1 6, TlbOp.insert 2 7]).cache_.length ≤ 2 ∧
    ((TLB.new 2).run [TlbOp.insert 0 5, TlbOp.insert 1 6, TlbOp.insert 2 7]).cache_.length = 2 :=
  ⟨by decide,
    (cache_capacity_bound 2 [TlbOp.insert 0 5, TlbOp.insert 1 6, TlbOp.insert 2 7]).1 (by decide),
    by decide⟩

/-- C17 at capacity 0.  On the empty cache of capacity 0 the call `insert(0, 0)`
finds no entry for page 0, the test `cache_.size() >= capacity_` is `0 >= 0`, and
the recency list is empty: the call runs `back()` and `pop_back()` on an empty
list and has no defined behaviour, so the one-call sequence has none either.
`lookup`, `invalidate` and `clear` on that cache are defined. -/
theorem insert_undefined_at_zero_capacity :
    (TLB.new 0).find 0 = none ∧
    (TLB.new 0).cache_.length ≥ (TLB.new 0).capacity_ ∧
    (TLB.new 0).lru_list_ = [] ∧
    (TLB.new 0).insert_defined 0 = false ∧
    (TLB.new 0).run_defined [TlbOp.insert 0 0] = false ∧
    (TLB.new 0).run_defined [TlbOp.lookup 0, TlbOp.invalidate 0, TlbOp.clear] = true := by
  refine ⟨?_, ?_, ?_, ?_, ?_, ?_⟩ <;> decide

/-! ## Calls of the translator with defined behaviour -/

theorem handle_page_fault_tlb (s : VirtualMemoryManager) (vpn : Nat) :
    (s.handle_page_fault vpn).2.tlb_ = s.tlb_ := by
  unfold VirtualMemoryManager.handle_page_fault
  split <;> rfl

theorem lookup_capacity (t : TLB) (vpn : Nat) : (t.lookup vpn).2.capacity_ = t.capacity_ :=
  tlb_step_capacity t (TlbOp.lookup vpn)

/-- A `translate` call on a linked cache of capacity at least one has defined
behaviour. -/
theorem translate_defined_of_linked (s : VirtualMemoryManager) (vaddr : Nat)
    (hl : s.tlb_.Linked) (hcap : 1 ≤ s.tlb_.capacity_) : s.translate_defined vaddr = true := by
  have h1 : ∀ v, ((s.tlb_.lookup (s.extract_page_number vaddr)).2).insert_defined v = true :=
    fun v => insert_defined_of_capacity _ v (linked_lookup _ _ hl)
      (by rw [lookup_capacity]; exact hcap)
  unfold VirtualMemoryManager.translate_defined
  simp only
  split
  · rfl
  · rename_i tlb1 hlk
    have e1 : tlb1 = (s.tlb_.lookup (s.extract_page_number vaddr)).2 := by rw [hlk]
    split
    · rw [e1]; exact h1 _
    · rename_i pt1 hpt
      split
      · rfl
      · rename_i s2 hpf
        have e2 : s2.tlb_ = tlb1 := by
          have := congrArg (fun r => r.2.tlb_) hpf
          simp only [handle_page_fault_tlb] at this
          exact this.symm
        split
        · rw [e2, e1]; exact h1 _
        · rfl

theorem translate_tlb_linked (s : VirtualMemoryManager) (vaddr : Nat) (write : Bool)
    (hl : s.tlb_.Linked) :
    (s.translate vaddr write).2.tlb_.Linked ∧
      (s.translate vaddr write).2.tlb_.capacity_ = s.tlb_.capacity_ := by
  have hk := linked_lookup s.tlb_ (s.extract_page_number vaddr) hl
  have hc := lookup_capacity s.tlb_ (s.extract_page_number vaddr)
  apply translate_cases s vaddr write
    (fun r => r.2.tlb_.Linked ∧ r.2.tlb_.capacity_ = s.tlb_.capacity_)
  · intro pfn _; exact ⟨hk, hc⟩
  · intro _ _
    exact ⟨linked_insert _ _ _ hk, (tlb_step_capacity _ (TlbOp.insert _ _)).trans hc⟩
  · intro _ _ _; exact ⟨hk, hc⟩
  · intro pfn _ _ _ _
    exact ⟨linked_insert _ _ _ hk, (tlb_step_capacity _ (TlbOp.insert _ _)).trans hc⟩
  · intro pfn _ _ _ _; exact ⟨hk, hc⟩

/-- Every public operation keeps the cache linked and its capacity. -/
theorem step_tlb_linked (s : VirtualMemoryManager) (op : Op) (hl : s.tlb_.Linked) :
    (step s op).tlb_.Linked ∧ (step s op).tlb_.capacity_ = s.tlb_.capacity_ := by
  cases op with
  | translate vaddr write => exact translate_tlb_linked s vaddr write hl
  | read_byte vaddr =>
    simp only [step, read_byte_snd]
    exact translate_tlb_linked s vaddr false hl
  | write_byte vaddr value =>
    simp only [step]
    apply write_byte_cases s vaddr value
      (fun r => r.2.tlb_.Linked ∧ r.2.tlb_.capacity_ = s.tlb_.capacity_)
    · intro _; exact translate_tlb_linked s vaddr true hl
    · intro _ _ _; exact translate_tlb_linked s vaddr true hl
    · intro _ _ _; exact translate_tlb_linked s vaddr true hl
  | allocate_page vaddr =>
    simp only [step]
    apply allocate_page_cases s vaddr
      (fun r => r.2.tlb_.Linked ∧ r.2.tlb_.capacity_ = s.tlb_.capacity_)
    · intro _; exact ⟨hl, rfl⟩
    · intro _ _; exact ⟨hl, rfl⟩
    · intro _ _ _; exact ⟨hl, rfl⟩
  | free_page vaddr =>
    simp only [step]
    apply free_page_cases s vaddr
      (fun r => r.2.tlb_.Linked ∧ r.2.tlb_.capacity_ = s.tlb_.capacity_)
    · intro _; exact ⟨hl, rfl⟩
    · intro _ _ _
      exact ⟨linked_invalidate _ _ hl, tlb_step_capacity _ (TlbOp.invalidate _)⟩
    · intro _ _ _
      exact ⟨linked_invalidate _ _ hl, tlb_step_capacity _ (TlbOp.invalidate _)⟩
  | reset_statistics => exact ⟨hl, rfl⟩

/-- In every reachable state the cache is linked and has the configured
capacity. -/
theorem reachable_tlb_linked (config : Config) (guard : VirtualMemoryManager → Op → Prop)
    (s : VirtualMemoryManager) (h : ReachableBy config guard s) :
    s.tlb_.Linked ∧ s.tlb_.capacity_ = config.tlb_size := by
  induction h with
  | init => exact ⟨⟨List.nodup_nil, List.Perm.refl _⟩, rfl⟩
  | next s op _ _ ih =>
    have := step_tlb_linked s op ih.1
    exact ⟨this.1, this.2.trans ih.2⟩

/-- With a cache capacity of at least one, every `translate` call in a reachable
state has defined behaviour. -/
theorem reachable_translate_defined (config : Config) (guard : VirtualMemoryManager → Op → Prop)
    (htlb : 1 ≤ config.tlb_size) (s : VirtualMemoryManager) (h : ReachableBy config guard s)
    (vaddr : Nat) : s.translate_defined vaddr = true := by
  obtain ⟨hl, hc⟩ := reachable_tlb_linked config guard s h
  exact translate_defined_of_linked s vaddr hl (by rw [hc]; exact htlb)

/-! ## C9: statistics accounting -/

/-- C9 on the calls with defined behaviour.  In a reachable state `s`: a
`translate` call with defined behaviour adds one to the total and one to exactly one of the three
path counters, the one of the path taken (cache hit, page-table hit, fault), a
call that returns nothing having counted a fault; with a cache capacity of at
least one every `translate` call has defined behaviour (with capacity 0 a call
that reaches `tlb_->insert` runs `back()` on an empty list); the total equals the
sum of the three path counters in `s`, and in every state reached from a
`reset_statistics` of any state; and `allocate_page` and `free_page` leave all
four counters alone. -/
theorem statistics_accounting (config : Config) (s : VirtualMemoryManager)
    (hs : Reachable config s) (vaddr : Nat) (write : Bool) :
    (s.translate_defined vaddr = true →
      (s.translate vaddr write).2.total_accesses_ = s.total_accesses_ + 1 ∧
      (s.tlb_.find (s.extract_page_number vaddr) ≠ none →
        (s.translate vaddr write).2.tlb_hits_ = s.tlb_hits_ + 1 ∧
        (s.translate vaddr write).2.page_table_hits_ = s.page_table_hits_ ∧
        (s.translate vaddr write).2.page_faults_ = s.page_faults_) ∧
      (s.tlb_.find (s.extract_page_number vaddr) = none →
        (s.page_table_.entry_at (s.extract_page_number vaddr)).valid = true →
        (s.translate vaddr write).2.tlb_hits_ = s.tlb_hits_ ∧
        (s.translate vaddr write).2.page_table_hits_ = s.page_table_hits_ + 1 ∧
        (s.translate vaddr write).2.page_faults_ = s.page_faults_) ∧
      (s.tlb_.find (s.extract_page_number vaddr) = none →
        (s.page_table_.entry_at (s.extract_page_number vaddr)).valid = false →
        (s.translate vaddr write).2.tlb_hits_ = s.tlb_hits_ ∧
        (s.translate vaddr write).2.page_table_hits_ = s.page_table_hits_ ∧
        (s.translate vaddr write).2.page_faults_ = s.page_faults_ + 1) ∧
      ((s.translate vaddr write).1 = none →
        (s.translate vaddr write).2.page_faults_ = s.page_faults_ + 1)) ∧
    (1 ≤ config.tlb_size → s.translate_defined vaddr = true) ∧
    s.total_accesses_ = s.tlb_hits_ + s.page_table_hits_ + s.page_faults_ ∧
    (∀ (t : VirtualMemoryManager) (ops : List Op),
      (run t.reset_statistics ops).total_accesses_ =
        (run t.reset_statistics ops).tlb_hits_ + (run t.reset_statistics ops).page_table_hits_ +
          (run t.reset_statistics ops).page_faults_) ∧
    ((s.allocate_page vaddr).2.total_accesses_ = s.total_accesses_ ∧
      (s.allocate_page vaddr).2.tlb_hits_ = s.tlb_hits_ ∧
      (s.allocate_page vaddr).2.page_table_hits_ = s.page_table_hits_ ∧
      (s.allocate_page vaddr).2.page_faults_ = s.page_faults_) ∧
    ((s.free_page vaddr).2.total_accesses_ = s.total_accesses_ ∧
      (s.free_page vaddr).2.tlb_hits_ = s.tlb_hits_ ∧
      (s.free_page vaddr).2.page_table_hits_ = s.page_table_hits_ ∧
      (s.free_page vaddr).2.page_faults_ = s.page_faults_) :=
  ⟨fun _ => translate_statistics s vaddr write,
    fun htlb => reachable_translate_defined config _ htlb s hs vaddr,
    reachable_statistics_sum config s hs,
    fun _ ops => run_statistics_sum _ ops rfl,
    allocate_page_statistics s vaddr, free_page_statistics s vaddr⟩

/-- The small preset, in the state reached by writing 7 to address 0 and
reading it back: two accesses, one cache hit and one fault; a further
`translate 0` has defined behaviour and makes the total three. -/
theorem statistics_accounting_witness :
    Reachable Config.small_config
      (step (step (VirtualMemoryManager.new Config.small_config) (Op.write_byte 0 7))
        (Op.read_byte 0)) ∧
    (step (step (VirtualMemoryManager.new Config.small_config) (Op.write_byte 0 7))
        (Op.read_byte 0)).translate_defined 0 = true ∧
    (step (step (VirtualMemoryManager.new Config.small_config) (Op.write_byte 0 7))
        (Op.read_byte 0)).total_accesses_ = 1 + 0 + 1 ∧
    (((step (step (VirtualMemoryManager.new Config.small_config) (Op.write_byte 0 7))
        (Op.read_byte 0)).translate 0 false).2.total_accesses_ =
      (step (step (VirtualMemoryManager.new Config.small_config) (Op.write_byte 0 7))
        (Op.read_byte 0)).total_accesses_ + 1) :=
  ⟨ReachableBy.next _ _ (ReachableBy.next _ _ ReachableBy.init trivial) trivial,
    by decide,
    (statistics_accounting Config.small_config
      (step (step (VirtualMemoryManager.new Config.small_config) (Op.write_byte 0 7))
        (Op.read_byte 0))
      (ReachableBy.next _ _ (ReachableBy.next _ _ ReachableBy.init trivial) trivial)
      0 false).2.2.1,
    ((statistics_accounting Config.small_config
      (step (step (VirtualMemoryManager.new Config.small_config) (Op.write_byte 0 7))
        (Op.read_byte 0))
      (ReachableBy.next _ _ (ReachableBy.next _ _ ReachableBy.init trivial) trivial)
      0 false).1 (by decide)).1⟩

/-- C9 at a cache capacity of 0, on the two paths that call `tlb_->insert`.  On
the small preset with `tlb_size` 0: (1) on the fresh translator `translate 0`
misses the cache and the page table, counts the access and the fault, serves the
fault and reaches `tlb_->insert` on the empty cache; (2) after
`allocate_page 0`, which maps page 0 without touching the cache, `translate 0`
misses the cache, hits the page table, counts the access and the hit and reaches
`tlb_->insert` on the empty cache.  In both the insert runs `back()` on an empty
list: the call has no defined behaviour and leaves no counters to read. -/
theorem translate_paths_undefined_at_zero_capacity :
    ((VirtualMemoryManager.new { Config.small_config with tlb_size := 0 }).page_table_.is_present
        0 = false ∧
      (VirtualMemoryManager.new
        { Config.small_config with tlb_size := 0 }).translate_defined 0 = false) ∧
    ((step (VirtualMemoryManager.new { Config.small_config with tlb_size := 0 })
        (Op.allocate_page 0)).tlb_.find 0 = none ∧
      (step (VirtualMemoryManager.new { Config.small_config with tlb_size := 0 })
        (Op.allocate_page 0)).page_table_.is_present 0 = true ∧
      step_defined (VirtualMemoryManager.new { Config.small_config with tlb_size := 0 })
        (Op.allocate_page 0) = true ∧
      (step (VirtualMemoryManager.new { Config.small_config with tlb_size := 0 })
        (Op.allocate_page 0)).translate_defined 0 = false) := by
  refine ⟨⟨?_, ?_⟩, ?_, ?_, ?_, ?_⟩ <;> decide

/-! ## C3: demand paging with a free frame -/

/-- C3 amended, demand paging.  In a reachable state of a configuration with at
least one page-table level and a cache capacity of at least one, when the free
list is non-empty and the page of `vaddr` has neither a valid page-table entry
nor a cache entry: the `translate` calls of the two accesses have defined
behaviour, one access (`translate`, `read_byte` or `write_byte`) to `vaddr` adds
exactly one to the
translator's page-fault statistic, to the allocator's page-fault counter and to
the allocated-frame count, and a second access to any address of the same page
right after it changes none of the three. -/
theorem demand_paging (config : Config) (s : VirtualMemoryManager) (hs : Reachable config s)
    (hL : 1 ≤ config.page_table_levels) (htlb : 1 ≤ config.tlb_size)
    (vaddr vaddr2 : Nat) (op1 op2 : Op)
    (h1 : op1.is_access = true) (ha1 : op1.vaddr = some vaddr)
    (h2 : op2.is_access = true) (ha2 : op2.vaddr = some vaddr2)
    (hpage : s.extract_page_number vaddr2 = s.extract_page_number vaddr)
    (hnv : s.page_table_.is_present (s.extract_page_number vaddr) = false)
    (hnc : s.tlb_.find (s.extract_page_number vaddr) = none)
    (hfree : s.physical_memory_.free_frames_ ≠ []) :
    (s.translate_defined vaddr = true ∧ (step s op1).translate_defined vaddr2 = true) ∧
    ((step s op1).page_faults_ = s.page_faults_ + 1 ∧
      (step s op1).physical_memory_.page_faults_ = s.physical_memory_.page_faults_ + 1 ∧
      (step s op1).physical_memory_.allocated_frames_ =
        s.physical_memory_.allocated_frames_ + 1) ∧
    ((step (step s op1) op2).page_faults_ = (step s op1).page_faults_ ∧
      (step (step s op1) op2).physical_memory_.page_faults_ =
        (step s op1).physical_memory_.page_faults_ ∧
      (step (step s op1) op2).physical_memory_.allocated_frames_ =
        (step s op1).physical_memory_.allocated_frames_) := by
  obtain ⟨_, hk⟩ := reachable_consistent config _ s hs
  rw [is_present_eq] at hnv
  obtain ⟨w1, a1, a2, a3, a4, a5⟩ := access_step s op1 vaddr h1 ha1
  obtain ⟨b1, b2, b3, b4, pfn, b5⟩ := translate_first_access s vaddr w1 hk.shaped
    (by rw [hk.levels_eq]; exact hL) hnv hnc hfree
  refine ⟨⟨reachable_translate_defined config _ htlb s hs vaddr,
    reachable_translate_defined config _ htlb _ (ReachableBy.next s op1 hs trivial) vaddr2⟩,
    ⟨a1.trans b1, a2.trans b2, a3.trans b3⟩, ?_⟩
  obtain ⟨w2, c1, c2, c3, _, _⟩ := access_step (step s op1) op2 vaddr2 h2 ha2
  have hcfg : (step s op1).config_ = s.config_ := a5.trans b4
  have hfind : (step s op1).tlb_.find ((step s op1).extract_page_number vaddr2) = some pfn := by
    rw [(extract_config s (step s op1) hcfg vaddr2).1, hpage, a4]
    exact b5
  obtain ⟨d1, d2, d3⟩ := translate_cached_access (step s op1) vaddr2 w2 pfn hfind
  exact ⟨c1.trans d1, c2.trans d2, c3.trans d3⟩

/-- C3 amended on the small preset: the first write to address 0 of the fresh
translator counts one fault and allocates one frame, and a read of address 5 in
the same page right after it changes neither. -/
theorem demand_paging_witness :
    (Reachable Config.small_config (VirtualMemoryManager.new Config.small_config) ∧
      1 ≤ Config.small_config.page_table_levels ∧
      1 ≤ Config.small_config.tlb_size ∧
      (VirtualMemoryManager.new Config.small_config).page_table_.is_present 0 = false ∧
      (VirtualMemoryManager.new Config.small_config).tlb_.find 0 = none ∧
      (VirtualMemoryManager.new Config.small_config).physical_memory_.free_frames_ ≠ []) ∧
    ((VirtualMemoryManager.new Config.small_config).translate_defined 0 = true ∧
      (step (VirtualMemoryManager.new Config.small_config)
        (Op.write_byte 0 7)).translate_defined 5 = true) ∧
    ((step (VirtualMemoryManager.new Config.small_config) (Op.write_byte 0 7)).page_faults_ =
        0 + 1 ∧
      (step (VirtualMemoryManager.new Config.small_config)
        (Op.write_byte 0 7)).physical_memory_.page_faults_ = 0 + 1 ∧
      (step (VirtualMemoryManager.new Config.small_config)
        (Op.write_byte 0 7)).physical_memory_.allocated_frames_ = 0 + 1) ∧
    ((step (step (VirtualMemoryManager.new Config.small_config) (Op.write_byte 0 7))
        (Op.read_byte 5)).page_faults_ =
      (step (VirtualMemoryManager.new Config.small_config) (Op.write_byte 0 7)).page_faults_ ∧
      (step (step (VirtualMemoryManager.new Config.small_config) (Op.write_byte 0 7))
        (Op.read_byte 5)).physical_memory_.page_faults_ =
      (step (VirtualMemoryManager.new Config.small_config)
        (Op.write_byte 0 7)).physical_memory_.page_faults_ ∧
      (step (step (VirtualMemoryManager.new Config.small_config) (Op.write_byte 0 7))
        (Op.read_byte 5)).physical_memory_.allocated_frames_ =
      (step (VirtualMemoryManager.new Config.small_config)
        (Op.write_byte 0 7)).physical_memory_.allocated_frames_) :=
  ⟨⟨ReachableBy.init, by decide, by decide, by decide, by decide, by decide⟩,
    demand_paging Config.small_config (VirtualMemoryManager.new Config.small_config)
      ReachableBy.init (by decide) (by decide) 0 5 (Op.write_byte 0 7) (Op.read_byte 5)
      rfl rfl rfl rfl
      (by decide) (by decide) (by decide) (by decide)⟩

/-! ## The recency list is in the order of the touches -/

theorem recency_run_snoc (capacity : Nat) (ops : List TlbOp) (op : TlbOp) :
    Recency.run capacity (ops ++ [op]) = (Recency.run capacity ops).step op := by
  simp [Recency.run, List.foldl_append]

theorem recency_run_tlb (capacity : Nat) (ops : List TlbOp) :
    (Recency.run capacity ops).tlb = (TLB.new capacity).run ops := by
  induction ops using List.reverseRecOn with
  | nil => rfl
  | append_singleton ops op ih =>
    rw [recency_run_snoc, tlb_run_snoc, ← ih]
    rfl

/-- A call that touches `v` puts `v` in front of a sublist of the recency list
that does not hold `v`. -/
theorem step_lru_touched (t : TLB) (op : TlbOp) (v : Nat) (hl : t.Linked)
    (h : op.touched t = some v) :
    ∃ rest, (t.step op).lru_list_ = v :: rest ∧ rest.Sublist t.lru_list_ ∧ v ∉ rest := by
  have hnd := linked_lru_nodup t hl
  cases op with
  | lookup w =>
    simp only [TlbOp.touched] at h
    cases hf : t.find w with
    | none => simp [hf] at h
    | some f =>
      simp only [hf, Option.isSome_some, if_true, Option.some.injEq] at h
      subst h
      have h2 : TLB.find { t with hits_ := t.hits_ + 1 } w = some f := hf
      refine ⟨t.lru_list_.erase w, ?_, List.erase_sublist _ _, ?_⟩
      · simp only [TLB.step, TLB.lookup, hf, TLB.touch, h2]
      · intro hm
        exact (hnd.mem_erase_iff.mp hm).1 rfl
  | insert w p =>
    simp only [TlbOp.touched, Option.some.injEq] at h
    subst h
    cases hf : t.find w with
    | some f =>
      refine ⟨t.lru_list_.erase w, ?_, List.erase_sublist _ _, ?_⟩
      · simp only [TLB.step, insert_present t w p f hf]
      · intro hm
        exact (hnd.mem_erase_iff.mp hm).1 rfl
    | none =>
      have hw : w ∉ t.lru_list_ := fun hm => (find_none_iff t w).mp hf (hl.2.subset hm)
      by_cases hc : t.cache_.length ≥ t.capacity_
      · cases hg : t.lru_list_.getLast? with
        | none =>
          refine ⟨t.lru_list_, ?_, List.Sublist.refl _, hw⟩
          simp only [TLB.step, TLB.insert, hf, if_pos hc, TLB.evict, hg]
        | some x =>
          refine ⟨t.lru_list_.dropLast, ?_, List.dropLast_sublist _, ?_⟩
          · simp only [TLB.step, insert_absent_full t w p x hf hc hg]
          · exact fun hm => hw ((List.dropLast_sublist _).subset hm)
      · refine ⟨t.lru_list_, ?_, List.Sublist.refl _, hw⟩
        simp only [TLB.step, insert_absent_room t w p hf (by omega)]
  | invalidate w => simp [TlbOp.touched] at h
  | clear => simp [TlbOp.touched] at h

/-- A call that touches nothing leaves a sublist of the recency list. -/
theorem step_lru_untouched (t : TLB) (op : TlbOp) (h : op.touched t = none) :
    (t.step op).lru_list_.Sublist t.lru_list_ := by
  cases op with
  | lookup w =>
    simp only [TlbOp.touched] at h
    cases hf : t.find w with
    | none =>
      simp only [TLB.step, TLB.lookup, hf]
      exact List.Sublist.refl _
    | some f => simp [hf] at h
  | insert w p => simp [TlbOp.touched] at h
  | invalidate w =>
    simp only [TLB.step, TLB.invalidate]
    cases hf : t.find w with
    | none => exact List.Sublist.refl _
    | some f => exact List.erase_sublist _ _
  | clear => exact List.nil_sublist _

theorem ordered_step (r : Recency) (op : TlbOp) (hl : r.tlb.Linked) (ho : r.Ordered) :
    (r.step op).Ordered := by
  cases ht : op.touched r.tlb with
  | none =>
    refine ⟨?_, ?_⟩
    · simp only [Recency.step, ht]
      exact ho.1.sublist (step_lru_untouched r.tlb op ht)
    · intro v
      simp only [Recency.step, ht]
      exact Nat.le_succ_of_le (ho.2 v)
  | some v =>
    obtain ⟨rest, hr, hsub, hv⟩ := step_lru_touched r.tlb op v hl ht
    refine ⟨?_, ?_⟩
    · simp only [Recency.step, ht, hr]
      refine List.pairwise_cons.mpr ⟨?_, ?_⟩
      · intro b hb
        have hbv : b ≠ v := fun e => hv (e ▸ hb)
        rw [setAt_same, setAt_other _ _ _ _ hbv]
        exact Nat.lt_succ_of_le (ho.2 b)
      · refine (ho.1.sublist hsub).imp_of_mem ?_
        intro a b ha hb hab
        have hav : a ≠ v := fun e => hv (e ▸ ha)
        have hbv : b ≠ v := fun e => hv (e ▸ hb)
        rw [setAt_other _ _ _ _ hav, setAt_other _ _ _ _ hbv]
        exact hab
    · intro w
      simp only [Recency.step, ht]
      by_cases hw : w = v
      · subst hw; rw [setAt_same]
      · rw [setAt_other _ _ _ _ hw]
        exact Nat.le_succ_of_le (ho.2 w)

/-- After every sequence of calls on the empty cache the recency list is in the
order of the recorded touches, latest first. -/
theorem ordered_run (capacity : Nat) (ops : List TlbOp) : (Recency.run capacity ops).Ordered := by
  induction ops using List.reverseRecOn with
  | nil => exact ⟨List.Pairwise.nil, fun _ => Nat.le_refl _⟩
  | append_singleton ops op ih =>
    rw [recency_run_snoc]
    refine ordered_step _ op ?_ ih
    rw [recency_run_tlb]
    exact linked_run capacity ops

/-! ## C18: eviction of the least recently used entry -/

theorem find_cons_other (m : List (Nat × Nat)) (v p w : Nat) (h : w ≠ v) :
    List.lookup w ((v, p) :: m) = List.lookup w m := by
  have e : (w == v) = false := by simp [h]
  simp only [List.lookup, e]

/-- C18: on every cache reached from the empty cache of a capacity of at least
one, the recency list is in the order of the most recent touches (insert or
lookup hit), latest first.  An `insert` of an absent page number into a cache
holding exactly `capacity` entries removes one entry, the one whose most recent
touch is the oldest among the entries present; every other entry keeps its
frame, the new page number is stored and heads the recency list, and the cache
holds `capacity` entries again.  An `insert` of a present page number overwrites
its frame, moves it to the head of the recency list and removes nothing.  In
both cases the inserted page number has the latest touch. -/
theorem lru_eviction (capacity : Nat) (hcap : 1 ≤ capacity) (ops : List TlbOp)
    (vpn frame : Nat) :
    (Recency.run capacity ops).tlb.lru_list_.Pairwise
      (fun a b => (Recency.run capacity ops).last_touch b <
        (Recency.run capacity ops).last_touch a) ∧
    ((Recency.run capacity ops).tlb.find vpn = none →
      (Recency.run capacity ops).tlb.cache_.length = capacity →
      ∃ victim,
        (∃ f, (Recency.run capacity ops).tlb.find victim = some f) ∧
        (∀ w f, w ≠ victim → (Recency.run capacity ops).tlb.find w = some f →
          (Recency.run capacity ops).last_touch victim <
            (Recency.run capacity ops).last_touch w) ∧
        ((Recency.run capacity ops).tlb.insert vpn frame).find victim = none ∧
        (∀ w, w ≠ victim → w ≠ vpn →
          ((Recency.run capacity ops).tlb.insert vpn frame).find w =
            (Recency.run capacity ops).tlb.find w) ∧
        ((Recency.run capacity ops).tlb.insert vpn frame).find vpn = some frame ∧
        ((Recency.run capacity ops).tlb.insert vpn frame).lru_list_.head? = some vpn ∧
        ((Recency.run capacity ops).tlb.insert vpn frame).cache_.length = capacity) ∧
    (∀ f0, (Recency.run capacity ops).tlb.find vpn = some f0 →
      ((Recency.run capacity ops).tlb.insert vpn frame).find vpn = some frame ∧
      (∀ w, w ≠ vpn →
        ((Recency.run capacity ops).tlb.insert vpn frame).find w =
          (Recency.run capacity ops).tlb.find w) ∧
      ((Recency.run capacity ops).tlb.insert vpn frame).lru_list_.head? = some vpn ∧
      ((Recency.run capacity ops).tlb.insert vpn frame).cache_.length =
        (Recency.run capacity ops).tlb.cache_.length) ∧
    (∀ w, w ≠ vpn →
      ((Recency.run capacity ops).step (TlbOp.insert vpn frame)).last_touch w <
        ((Recency.run capacity ops).step (TlbOp.insert vpn frame)).last_touch vpn) := by
  have ho := ordered_run capacity ops
  have hl : (Recency.run capacity ops).tlb.Linked := by
    rw [recency_run_tlb]; exact linked_run capacity ops
  have hc : (Recency.run capacity ops).tlb.capacity_ = capacity := by
    rw [recency_run_tlb]; exact tlb_run_capacity capacity ops
  refine ⟨ho.1, ?_, ?_, ?_⟩
  · intro hf hlen
    obtain ⟨x, hx, hxk⟩ := getLast_of_linked _ hl (by omega)
    have hins := insert_absent_full _ vpn frame x hf (by omega) hx
    have hxv : x ≠ vpn := fun e => (find_none_iff _ vpn).mp hf (e ▸ hxk)
    obtain ⟨d, hd⟩ := List.getLast?_eq_some_iff.mp hx
    refine ⟨x, mem_keys_find _ x hxk, ?_, ?_, ?_, insert_find_self _ vpn frame, ?_, ?_⟩
    · intro w f hw hfw
      have hm : w ∈ (Recency.run capacity ops).tlb.lru_list_ :=
        hl.2.symm.subset (find_some_mem _ w f hfw)
      rw [hd] at hm
      have hwd : w ∈ d := by
        rcases List.mem_append.mp hm with h | h
        · exact h
        · exact absurd (List.mem_singleton.mp h) hw
      have hp := ho.1
      rw [hd] at hp
      exact (List.pairwise_append.mp hp).2.2 w hwd x (List.mem_singleton.mpr rfl)
    · rw [hins]
      show List.lookup x ((vpn, frame) :: mapErase _ x) = none
      rw [find_cons_other _ _ _ _ hxv]
      exact lookup_mapErase_self _ x
    · intro w hw hwv
      rw [hins]
      show List.lookup w ((vpn, frame) :: mapErase _ x) = _
      rw [find_cons_other _ _ _ _ hwv]
      exact lookup_mapErase_other _ x w hw
    · rw [hins]; rfl
    · rw [hins]
      have := mapErase_length _ x hl.1 hxk
      simp only [List.length_cons]
      omega
  · intro f0 hf
    have hins := insert_present _ vpn frame f0 hf
    refine ⟨insert_find_self _ vpn frame, ?_, ?_, ?_⟩
    · intro w hw
      rw [hins]
      exact lookup_mapAssign_other _ vpn frame w hw
    · rw [hins]; rfl
    · rw [hins]
      exact mapAssign_length _ vpn frame
  · intro w hw
    simp only [Recency.step, TlbOp.touched]
    rw [setAt_same, setAt_other _ _ _ _ hw]
    exact Nat.lt_succ_of_le (ho.2 w)

set_option maxRecDepth 100000 in
/-- C18 on a cache of capacity 64: after the inserts of pages 0 to 72 the cache
is full and page 73 is absent; its insert stores it, and the run of the inserts of
pages 0 to 73 leaves exactly the pages 10 to 73, page 73 at the head of the recency
list and page 10 at its back. -/
theorem lru_eviction_witness :
    1 ≤ 64 ∧
    ((Recency.run 64 ((List.range 73).map (fun i => TlbOp.insert i i))).tlb.insert
      73 73).find 73 = some 73 ∧
    ((TLB.new 64).run ((List.range 74).map (fun i => TlbOp.insert i i))).lru_list_ =
      (List.range' 10 64).reverse ∧
    ((TLB.new 64).run ((List.range 74).map (fun i => TlbOp.insert i i))).keys =
      (List.range' 10 64).reverse :=
  ⟨by decide,
    Exists.elim
      ((lru_eviction 64 (by decide) ((List.range 73).map (fun i => TlbOp.insert i i))
        73 73).2.1 (by decide) (by decide))
      (fun _ h => h.2.2.2.2.1),
    by decide, by decide⟩

/-! ## C19: lookup in the cache -/

theorem last_inserted_snoc (v : Nat) (ops : List TlbOp) (op : TlbOp) :
    last_inserted v (ops ++ [op]) =
      match op with
      | TlbOp.insert w p => if w = v then some p else last_inserted v ops
      | _ => last_inserted v ops := by
  simp only [last_inserted, List.foldl_append, List.foldl_cons, List.foldl_nil]

/-- The frame the cache holds for a page number is the frame of the most recent
`insert` of that page number. -/
theorem find_last_inserted (capacity : Nat) (ops : List TlbOp) :
    ∀ v f, ((TLB.new capacity).run ops).find v = some f → last_inserted v ops = some f := by
  induction ops using List.reverseRecOn with
  | nil =>
    intro v f h
    simp [TLB.run, TLB.new, TLB.find] at h
  | append_singleton ops op ih =>
    intro v f h
    rw [tlb_run_snoc] at h
    rw [last_inserted_snoc]
    cases op with
    | lookup w =>
      simp only [TLB.step, lookup_find] at h
      exact ih v f h
    | insert w p =>
      simp only [TLB.step] at h
      by_cases hw : w = v
      · subst hw
        rw [insert_find_self] at h
        simp only [if_true]
        exact h
      · simp only [if_neg hw]
        exact ih v f (insert_find_other _ w p v f (fun e => hw e.symm) h)
    | invalidate w =>
      simp only [TLB.step] at h
      by_cases hw : v = w
      · subst hw
        rw [invalidate_find_self] at h
        simp at h
      · rw [invalidate_find_other _ w v hw] at h
        exact ih v f h
    | clear =>
      simp [TLB.step, TLB.clear, TLB.find] at h

/-- C19: on every cache reached from the empty cache, a `lookup` of a page
number held with frame `f` returns `f`, which is the frame of the most recent
insert of that page number, adds one to the hit counter, leaves the miss counter
and the map alone and moves the page number to the head of the recency list,
the other page numbers keeping their order; a `lookup` of a page number not
held returns absent, adds one to the miss counter and leaves the hit counter,
the map and the recency list alone. -/
theorem cache_lookup (capacity : Nat) (ops : List TlbOp) (vpn : Nat) :
    (∀ f, ((TLB.new capacity).run ops).find vpn = some f →
      (((TLB.new capacity).run ops).lookup vpn).1 = some f ∧
      last_inserted vpn ops = some f ∧
      (((TLB.new capacity).run ops).lookup vpn).2.hits_ =
        ((TLB.new capacity).run ops).hits_ + 1 ∧
      (((TLB.new capacity).run ops).lookup vpn).2.misses_ =
        ((TLB.new capacity).run ops).misses_ ∧
      (((TLB.new capacity).run ops).lookup vpn).2.cache_ = ((TLB.new capacity).run ops).cache_ ∧
      (((TLB.new capacity).run ops).lookup vpn).2.lru_list_ =
        vpn :: ((TLB.new capacity).run ops).lru_list_.erase vpn ∧
      (((TLB.new capacity).run ops).lookup vpn).2.lru_list_.Perm
        ((TLB.new capacity).run ops).lru_list_) ∧
    (((TLB.new capacity).run ops).find vpn = none →
      (((TLB.new capacity).run ops).lookup vpn).1 = none ∧
      (((TLB.new capacity).run ops).lookup vpn).2.hits_ = ((TLB.new capacity).run ops).hits_ ∧
      (((TLB.new capacity).run ops).lookup vpn).2.misses_ =
        ((TLB.new capacity).run ops).misses_ + 1 ∧
      (((TLB.new capacity).run ops).lookup vpn).2.cache_ = ((TLB.new capacity).run ops).cache_ ∧
      (((TLB.new capacity).run ops).lookup vpn).2.lru_list_ =
        ((TLB.new capacity).run ops).lru_list_) := by
  have hl := linked_run capacity ops
  refine ⟨?_, ?_⟩
  · intro f hf
    have h2 : TLB.find { (TLB.new capacity).run ops with
        hits_ := ((TLB.new capacity).run ops).hits_ + 1 } vpn = some f := hf
    have hm : vpn ∈ ((TLB.new capacity).run ops).lru_list_ :=
      hl.2.symm.subset (find_some_mem _ vpn f hf)
    have e : (((TLB.new capacity).run ops).lookup vpn).2.lru_list_ =
        vpn :: ((TLB.new capacity).run ops).lru_list_.erase vpn := by
      simp only [TLB.lookup, hf, TLB.touch, h2]
    refine ⟨by rw [lookup_fst]; exact hf, find_last_inserted capacity ops vpn f hf, ?_, ?_,
      lookup_cache _ vpn, e, ?_⟩
    · simp only [TLB.lookup, hf, TLB.touch, h2]
    · simp only [TLB.lookup, hf, TLB.touch, h2]
    · rw [e]
      exact (List.perm_cons_erase hm).symm
  · intro hf
    refine ⟨by rw [lookup_fst]; exact hf, ?_, ?_, lookup_cache _ vpn, ?_⟩
    · simp only [TLB.lookup, hf]
    · simp only [TLB.lookup, hf]
    · simp only [TLB.lookup, hf]

/-- C19 on a cache of capacity 2 after `insert 0 5`, `insert 1 6`, `insert 0 7`:
the lookup of page 0 returns 7, the frame of its most recent insert, and the
lookup of page 3 returns absent and counts one miss. -/
theorem cache_lookup_witness :
    (((TLB.new 2).run [TlbOp.insert 0 5, TlbOp.insert 1 6, TlbOp.insert 0 7]).lookup 0).1 =
      some 7 ∧
    last_inserted 0 [TlbOp.insert 0 5, TlbOp.insert 1 6, TlbOp.insert 0 7] = some 7 ∧
    (((TLB.new 2).run [TlbOp.insert 0 5, TlbOp.insert 1 6, TlbOp.insert 0 7]).lookup 3).1 =
      none ∧
    (((TLB.new 2).run [TlbOp.insert 0 5, TlbOp.insert 1 6, TlbOp.insert 0 7]).lookup 3).2.misses_ =
      1 :=
  have h := cache_lookup 2 [TlbOp.insert 0 5, TlbOp.insert 1 6, TlbOp.insert 0 7] 0
  have h3 := cache_lookup 2 [TlbOp.insert 0 5, TlbOp.insert 1 6, TlbOp.insert 0 7] 3
  ⟨(h.1 7 (by decide)).1, (h.1 7 (by decide)).2.1, (h3.2 (by decide)).1,
    (h3.2 (by decide)).2.2.1⟩

/-! ## The occupied-entry counter counts the valid leaf slots -/

/-- The low `levels * bits` bits of a page number take the path of the page
number. -/
theorem same_slot_mod_self (pt : PageTable) (v : Nat) :
    pt.same_slot (v % 2 ^ (pt.num_levels_ * pt.bits_per_level_)) v := by
  intro level hlevel
  rw [extract_level_index_eq, extract_level_index_eq]
  have e : pt.num_levels_ * pt.bits_per_level_ =
      (pt.num_levels_ - 1 - level) * pt.bits_per_level_ +
        (level + 1) * pt.bits_per_level_ := by
    rw [← Nat.add_mul]
    congr 1
    omega
  rw [e, pow_add, Nat.mod_mul_right_div_self]
  apply Nat.mod_mod_of_dvd
  rw [Nat.add_mul, pow_add, Nat.one_mul]
  exact Dvd.intro_left _ rfl

theorem mod_slot_lt (pt : PageTable) (v : Nat) :
    v % 2 ^ (pt.num_levels_ * pt.bits_per_level_) < 2 ^ (pt.num_levels_ * pt.bits_per_level_) :=
  Nat.mod_lt _ (by positivity)

/-- Among the page numbers below `2 ^ (levels * bits)`, only the low bits of
`v` take the path of `v`. -/
theorem same_slot_iff_mod (pt : PageTable) (v w : Nat)
    (hw : w < 2 ^ (pt.num_levels_ * pt.bits_per_level_)) :
    pt.same_slot w v ↔ w = v % 2 ^ (pt.num_levels_ * pt.bits_per_level_) := by
  constructor
  · intro h
    exact same_slot_eq pt _ _ hw (mod_slot_lt pt v)
      (same_slot_trans pt _ _ _ h (same_slot_symm pt _ _ (same_slot_mod_self pt v)))
  · intro h
    rw [h]
    exact same_slot_mod_self pt v

theorem filter_range_congr (p q : Nat → Bool) (n : Nat) (h : ∀ v, v < n → q v = p v) :
    ((List.range n).filter q).length = ((List.range n).filter p).length := by
  have : (List.range n).filter q = (List.range n).filter p := by
    apply List.filter_congr
    intro v hv
    exact h v (List.mem_range.mp hv)
  rw [this]

/-- Turning one predicate value of the range from false to true adds one to the
count. -/
theorem filter_range_flip (p q : Nat → Bool) (n v0 : Nat) (hv0 : v0 < n)
    (hp : p v0 = false) (hq : q v0 = true) (h : ∀ v, v < n → v ≠ v0 → q v = p v) :
    ((List.range n).filter q).length = ((List.range n).filter p).length + 1 := by
  induction n with
  | zero => omega
  | succ n ih =>
    rw [List.range_succ, List.filter_append, List.filter_append, List.length_append,
      List.length_append]
    by_cases e : v0 = n
    · subst e
      rw [filter_range_congr p q v0 (fun v hv => h v (by omega) (by omega))]
      simp [List.filter_cons, hp, hq]
    · have hlt : v0 < n := by omega
      rw [ih hlt (fun v hv hne => h v (by omega) hne)]
      have hn : q n = p n := h n (by omega) (fun e2 => e e2.symm)
      simp [List.filter_cons, hn]
      omega

theorem valid_count_pos (pt : PageTable) (v : Nat) (h : (pt.entry_at v).valid = true) :
    1 ≤ pt.valid_count := by
  have hm : v % 2 ^ (pt.num_levels_ * pt.bits_per_level_) ∈
      (List.range (2 ^ (pt.num_levels_ * pt.bits_per_level_))).filter
        (fun vpn => (pt.entry_at vpn).valid) := by
    rw [List.mem_filter]
    refine ⟨List.mem_range.mpr (mod_slot_lt pt v), ?_⟩
    show (pt.entry_at _).valid = true
    rw [entry_at_same_slot pt _ _ (same_slot_mod_self pt v)]
    exact h
  exact List.length_pos_of_mem hm

theorem counted_fields (pt pt2 : PageTable) (hL : pt2.num_levels_ = pt.num_levels_)
    (hB : pt2.bits_per_level_ = pt.bits_per_level_) (hn : pt2.num_entries_ = pt.num_entries_)
    (hf : ∀ w, (pt2.entry_at w).valid = (pt.entry_at w).valid)
    (h : pt.num_entries_ = pt.valid_count) : pt2.num_entries_ = pt2.valid_count := by
  rw [hn, h]
  unfold PageTable.valid_count
  rw [hL, hB]
  exact (filter_range_congr _ _ _ (fun v _ => hf v)).symm

theorem counted_translate (pt : PageTable) (vpn : Nat)
    (hwf : WellShaped pt.num_levels_ pt.root_) (h : pt.num_entries_ = pt.valid_count) :
    (pt.translate vpn).2.num_entries_ = (pt.translate vpn).2.valid_count :=
  counted_fields pt _ (translate_snd_params pt vpn).1 (translate_snd_params pt vpn).2.1
    (translate_snd_params pt vpn).2.2 (fun w => (translate_snd_fields pt vpn hwf w).1) h

theorem counted_set_dirty (pt : PageTable) (vpn : Nat) (d : Bool)
    (hwf : WellShaped pt.num_levels_ pt.root_) (h : pt.num_entries_ = pt.valid_count) :
    (pt.set_dirty vpn d).num_entries_ = (pt.set_dirty vpn d).valid_count :=
  counted_fields pt _ (set_dirty_params pt vpn d).1 (set_dirty_params pt vpn d).2.1
    (set_dirty_params pt vpn d).2.2 (fun w => (set_dirty_fields pt vpn d hwf w).1) h

theorem counted_set_referenced (pt : PageTable) (vpn : Nat) (d : Bool)
    (hwf : WellShaped pt.num_levels_ pt.root_) (h : pt.num_entries_ = pt.valid_count) :
    (pt.set_referenced vpn d).num_entries_ = (pt.set_referenced vpn d).valid_count :=
  counted_fields pt _ (set_referenced_params pt vpn d).1 (set_referenced_params pt vpn d).2.1
    (set_referenced_params pt vpn d).2.2 (fun w => (set_referenced_fields pt vpn d hwf w).1) h

/-- The valid entries after an insert into an invalid slot: one more. -/
theorem valid_count_insert (pt : PageTable) (vpn pfn : Nat)
    (hwf : WellShaped pt.num_levels_ pt.root_) (hL : 1 ≤ pt.num_levels_)
    (hv : (pt.entry_at vpn).valid = false) :
    (pt.insert vpn pfn).valid_count = pt.valid_count + 1 := by
  unfold PageTable.valid_count
  rw [(insert_params pt vpn pfn).1, (insert_params pt vpn pfn).2]
  refine filter_range_flip _ _ _ (vpn % 2 ^ (pt.num_levels_ * pt.bits_per_level_))
    (mod_slot_lt pt vpn) ?_ ?_ ?_
  · show (pt.entry_at _).valid = false
    rw [entry_at_same_slot pt _ _ (same_slot_mod_self pt vpn)]; exact hv
  · show ((pt.insert vpn pfn).entry_at _).valid = true
    rw [insert_same pt vpn pfn _ hwf hL (same_slot_mod_self pt vpn)]
  · intro w hw hne
    show ((pt.insert vpn pfn).entry_at w).valid = (pt.entry_at w).valid
    rw [insert_other pt vpn pfn w hwf (fun hs => hne ((same_slot_iff_mod pt vpn w hw).mp hs))]

theorem counted_insert (pt : PageTable) (vpn pfn : Nat)
    (hwf : WellShaped pt.num_levels_ pt.root_) (h : pt.num_entries_ = pt.valid_count) :
    (pt.insert vpn pfn).num_entries_ = (pt.insert vpn pfn).valid_count := by
  rcases Nat.eq_zero_or_pos pt.num_levels_ with h0 | hL
  · rw [insert_zero_levels pt vpn pfn h0]; exact h
  · rw [insert_num_entries pt vpn pfn hwf hL]
    cases hv : (pt.entry_at vpn).valid with
    | false =>
      rw [valid_count_insert pt vpn pfn hwf hL hv, h]
      simp
    | true =>
      simp only [if_true]
      rw [h]
      unfold PageTable.valid_count
      rw [(insert_params pt vpn pfn).1, (insert_params pt vpn pfn).2]
      refine (filter_range_congr _ _ _ (fun w _ => ?_)).symm
      show ((pt.insert vpn pfn).entry_at w).valid = (pt.entry_at w).valid
      by_cases hs : pt.same_slot w vpn
      · rw [insert_same pt vpn pfn w hwf hL hs, entry_at_same_slot pt w vpn hs, hv]
      · rw [insert_other pt vpn pfn w hwf hs]

/-- The valid entries after an invalidate of a valid slot: one less. -/
theorem valid_count_invalidate (pt : PageTable) (vpn : Nat)
    (hwf : WellShaped pt.num_levels_ pt.root_) (hv : (pt.entry_at vpn).valid = true) :
    (pt.invalidate vpn).valid_count + 1 = pt.valid_count := by
  unfold PageTable.valid_count
  rw [(invalidate_params pt vpn).1, (invalidate_params pt vpn).2]
  refine (filter_range_flip _ _ _ (vpn % 2 ^ (pt.num_levels_ * pt.bits_per_level_))
    (mod_slot_lt pt vpn) ?_ ?_ ?_).symm
  · show ((pt.invalidate vpn).entry_at _).valid = false
    exact invalidate_same pt vpn _ (same_slot_mod_self pt vpn)
  · show (pt.entry_at _).valid = true
    rw [entry_at_same_slot pt _ _ (same_slot_mod_self pt vpn)]; exact hv
  · intro w hw hne
    show (pt.entry_at w).valid = ((pt.invalidate vpn).entry_at w).valid
    rw [invalidate_other pt vpn w hwf (fun hs => hne ((same_slot_iff_mod pt vpn w hw).mp hs))]

theorem counted_invalidate (pt : PageTable) (vpn : Nat)
    (hwf : WellShaped pt.num_levels_ pt.root_) (h : pt.num_entries_ = pt.valid_count) :
    (pt.invalidate vpn).num_entries_ = (pt.invalidate vpn).valid_count := by
  rw [invalidate_num_entries]
  cases hv : (pt.entry_at vpn).valid with
  | true =>
    have := valid_count_invalidate pt vpn hwf hv
    simp only [if_true]
    omega
  | false =>
    simp only [Bool.false_eq_true, if_false]
    rw [h]
    unfold PageTable.valid_count
    rw [(invalidate_params pt vpn).1, (invalidate_params pt vpn).2]
    refine (filter_range_congr _ _ _ (fun w _ => ?_)).symm
    show ((pt.invalidate vpn).entry_at w).valid = (pt.entry_at w).valid
    by_cases hs : pt.same_slot w vpn
    · rw [invalidate_same pt vpn w hs, entry_at_same_slot pt w vpn hs, hv]
    · rw [invalidate_other pt vpn w hwf hs]

theorem translate_counted (s : VirtualMemoryManager) (vaddr : Nat) (write : Bool)
    (hwf : WellShaped s.page_table_.num_levels_ s.page_table_.root_)
    (h : s.page_table_.num_entries_ = s.page_table_.valid_count) :
    (s.translate vaddr write).2.page_table_.num_entries_ =
      (s.translate vaddr write).2.page_table_.valid_count := by
  refine translate_cases s vaddr write
    (fun r => r.2.page_table_.num_entries_ = r.2.page_table_.valid_count) ?_ ?_ ?_ ?_ ?_
  · intro _ _
    cases write with
    | true =>
      exact counted_set_referenced _ _ _ (set_dirty_wellShaped _ _ _ hwf)
        (counted_set_dirty _ _ _ hwf h)
    | false => exact counted_set_referenced _ _ _ hwf h
  · intro _ _
    cases write with
    | true =>
      exact counted_set_dirty _ _ _ (translate_snd_wellShaped _ _ hwf)
        (counted_translate _ _ hwf h)
    | false => exact counted_translate _ _ hwf h
  · intro _ _ _; exact h
  · intro pfn _ _ _ _
    have h1 := counted_insert s.page_table_ (s.extract_page_number vaddr) pfn hwf h
    have w1 := insert_wellShaped s.page_table_ (s.extract_page_number vaddr) pfn hwf
    cases write with
    | true =>
      exact counted_set_dirty _ _ _ (translate_snd_wellShaped _ _ w1)
        (counted_translate _ _ w1 h1)
    | false => exact counted_translate _ _ w1 h1
  · intro pfn _ _ _ _
    exact counted_insert s.page_table_ (s.extract_page_number vaddr) pfn hwf h

/-- One public call keeps the occupied-entry counter equal to the number of
valid leaf slots. -/
theorem step_counted (s : VirtualMemoryManager) (op : Op)
    (hwf : WellShaped s.page_table_.num_levels_ s.page_table_.root_)
    (h : s.page_table_.num_entries_ = s.page_table_.valid_count) :
    (step s op).page_table_.num_entries_ = (step s op).page_table_.valid_count := by
  cases op with
  | translate vaddr write => exact translate_counted s vaddr write hwf h
  | read_byte vaddr =>
    simp only [step, read_byte_snd]
    exact translate_counted s vaddr false hwf h
  | write_byte vaddr value =>
    simp only [step]
    rw [(write_byte_parts s vaddr value).2]
    exact translate_counted s vaddr true hwf h
  | allocate_page vaddr =>
    simp only [step]
    refine allocate_page_cases s vaddr
      (fun r => r.2.page_table_.num_entries_ = r.2.page_table_.valid_count) ?_ ?_ ?_
    · intro _; exact h
    · intro _ _; exact h
    · intro pfn _ _
      exact counted_insert s.page_table_ (s.extract_page_number vaddr) pfn hwf h
  | free_page vaddr =>
    simp only [step]
    refine free_page_cases s vaddr
      (fun r => r.2.page_table_.num_entries_ = r.2.page_table_.valid_count) ?_ ?_ ?_
    · intro _; exact h
    · intro _ _ _
      exact counted_invalidate s.page_table_ (s.extract_page_number vaddr) hwf h
    · intro _ _ _
      exact counted_invalidate s.page_table_ (s.extract_page_number vaddr) hwf h
  | reset_statistics => exact h

theorem counted_new (config : Config) :
    (PageTable.new config).num_entries_ = (PageTable.new config).valid_count := by
  unfold PageTable.valid_count
  have : (List.range (2 ^ ((PageTable.new config).num_levels_ *
      (PageTable.new config).bits_per_level_))).filter
        (fun vpn => ((PageTable.new config).entry_at vpn).valid) = [] := by
    rw [List.filter_eq_nil_iff]
    intro v _
    rw [entry_at_new]
    simp [PageTableEntry.empty]
  rw [this]
  rfl

/-- In every reachable state the occupied-entry counter is the number of valid
leaf slots. -/
theorem reachable_counted (config : Config) (guard : VirtualMemoryManager → Op → Prop)
    (s : VirtualMemoryManager) (h : ReachableBy config guard s) :
    s.page_table_.num_entries_ = s.page_table_.valid_count := by
  induction h with
  | init => exact counted_new config
  | next s op hr _ ih =>
    exact step_counted s op (reachable_consistent config guard s hr).2.shaped ih

/-! ## C13: free then re-allocate -/

/-- C13: in every reachable state, for an address whose page has a valid entry,
`free_page` returns normally and changes neither page-fault counter, and the
`allocate_page` that follows returns true and leaves the occupied-entry count at
its value before the `free_page`. -/
theorem free_then_allocate (config : Config) (s : VirtualMemoryManager)
    (hs : Reachable config s) (a : Nat)
    (hv : s.page_table_.is_present (s.extract_page_number a) = true) :
    (s.free_page a).1 = Except.ok () ∧
    ((s.free_page a).2.allocate_page a).1 = true ∧
    ((s.free_page a).2.allocate_page a).2.page_table_.num_entries_ =
      s.page_table_.num_entries_ ∧
    (s.free_page a).2.page_faults_ = s.page_faults_ ∧
    (s.free_page a).2.physical_memory_.page_faults_ = s.physical_memory_.page_faults_ := by
  obtain ⟨_, hk⟩ := reachable_consistent config _ s hs
  have hcnt := reachable_counted config _ s hs
  rw [is_present_eq] at hv
  have hpos := valid_count_pos s.page_table_ _ hv
  have hL : 1 ≤ s.page_table_.num_levels_ := by
    rcases Nat.eq_zero_or_pos s.page_table_.num_levels_ with h0 | h1
    · rw [entry_at_zero_levels s.page_table_ _ h0] at hv
      simp [PageTableEntry.empty] at hv
    · exact h1
  obtain ⟨pm2, hpm2⟩ := free_frame_ok_of_lt s.physical_memory_ _ (hk.valid_lt _ hv)
  have hfp : s.free_page a =
      (Except.ok (),
        { s with
          page_table_ := s.page_table_.invalidate (s.extract_page_number a)
          tlb_ := s.tlb_.invalidate (s.extract_page_number a)
          physical_memory_ := pm2 }) := by
    refine free_page_cases s a
      (fun r => r = (Except.ok (),
        { s with
          page_table_ := s.page_table_.invalidate (s.extract_page_number a)
          tlb_ := s.tlb_.invalidate (s.extract_page_number a)
          physical_memory_ := pm2 })) ?_ ?_ ?_
    · intro h; rw [hv] at h; simp at h
    · intro pm _ h
      rw [hpm2] at h
      simp only [Except.ok.injEq] at h
      rw [h]
    · intro e _ h
      rw [hpm2] at h
      simp at h
  obtain ⟨_, _, _, hmem, hpf⟩ := free_frame_post config _ _ pm2 _ hk hpm2
  rw [hfp]
  suffices hal : ((VirtualMemoryManager.allocate_page
      { s with
        page_table_ := s.page_table_.invalidate (s.extract_page_number a)
        tlb_ := s.tlb_.invalidate (s.extract_page_number a)
        physical_memory_ := pm2 } a).1 = true ∧
      (VirtualMemoryManager.allocate_page
        { s with
          page_table_ := s.page_table_.invalidate (s.extract_page_number a)
          tlb_ := s.tlb_.invalidate (s.extract_page_number a)
          physical_memory_ := pm2 } a).2.page_table_.num_entries_ =
        s.page_table_.num_entries_) from ⟨rfl, hal.1, hal.2, rfl, hpf⟩
  refine allocate_page_cases
    { s with
      page_table_ := s.page_table_.invalidate (s.extract_page_number a)
      tlb_ := s.tlb_.invalidate (s.extract_page_number a)
      physical_memory_ := pm2 } a
    (fun r => r.1 = true ∧ r.2.page_table_.num_entries_ = s.page_table_.num_entries_) ?_ ?_ ?_
  · intro h
    have h2 : ((s.page_table_.invalidate (s.extract_page_number a)).entry_at
        (s.extract_page_number a)).valid = true := h
    rw [invalidate_same s.page_table_ (s.extract_page_number a) (s.extract_page_number a)
      (same_slot_refl _ _)] at h2
    simp at h2
  · intro _ h
    have h2 : (pm2.allocate_frame (s.extract_page_number a)).1 = none := h
    have := (allocate_frame_none pm2 _ h2).1
    rw [this] at hmem
    simp at hmem
  · intro pfn hnv _
    refine ⟨rfl, ?_⟩
    show ((s.page_table_.invalidate (s.extract_page_number a)).insert
      (s.extract_page_number a) pfn).num_entries_ = s.page_table_.num_entries_
    rw [insert_num_entries _ _ _ (invalidate_wellShaped _ _ hk.shaped)
      (by rw [(invalidate_params _ _).1]; exact hL)]
    have hnv2 : ((s.page_table_.invalidate (s.extract_page_number a)).entry_at
        (s.extract_page_number a)).valid = false := hnv
    rw [hnv2, invalidate_num_entries, hv]
    simp only [Bool.false_eq_true, if_false, if_true]
    omega

/-- C13 on the small preset: page 0 is mapped by a write, then freed and
allocated again; the occupied-entry count is 1 before and after. -/
theorem free_then_allocate_witness :
    (step (VirtualMemoryManager.new Config.small_config)
      (Op.write_byte 0 7)).page_table_.is_present 0 = true ∧
    ((((step (VirtualMemoryManager.new Config.small_config)
      (Op.write_byte 0 7)).free_page 0).2.allocate_page 0).1 = true ∧
    (((step (VirtualMemoryManager.new Config.small_config)
      (Op.write_byte 0 7)).free_page 0).2.allocate_page 0).2.page_table_.num_entries_ = 1) :=
  have h := free_then_allocate Config.small_config
    (step (VirtualMemoryManager.new Config.small_config) (Op.write_byte 0 7))
    (ReachableBy.next _ _ ReachableBy.init trivial) 0 (by decide)
  ⟨by decide, h.2.1, h.2.2.1⟩

/-! ## C16: sparse allocation count -/

theorem write_byte_free_frames (s : VirtualMemoryManager) (vaddr value : Nat) :
    (s.write_byte vaddr value).2.physical_memory_.free_frames_ =
      (s.translate vaddr true).2.physical_memory_.free_frames_ := by
  refine write_byte_cases s vaddr value
    (fun r => r.2.physical_memory_.free_frames_ =
      (s.translate vaddr true).2.physical_memory_.free_frames_) ?_ ?_ ?_
  · intro _; rfl
  · intro _ _ _; rfl
  · intro _ _ _; rfl

/-- A `translate` of a page with no valid entry and no cache entry, served from
a non-empty free list: one more occupied entry, one frame less on the free
list, and the entries that are valid afterwards were valid before or are the
slot of the page. -/
theorem translate_allocates (s : VirtualMemoryManager) (vaddr : Nat) (write : Bool)
    (hwf : WellShaped s.page_table_.num_levels_ s.page_table_.root_)
    (hL : 1 ≤ s.page_table_.num_levels_)
    (hnv : (s.page_table_.entry_at (s.extract_page_number vaddr)).valid = false)
    (hnc : s.tlb_.find (s.extract_page_number vaddr) = none)
    (hfree : s.physical_memory_.free_frames_ ≠ []) :
    (s.translate vaddr write).2.page_table_.num_entries_ = s.page_table_.num_entries_ + 1 ∧
    (s.translate vaddr write).2.physical_memory_.free_frames_.length + 1 =
      s.physical_memory_.free_frames_.length ∧
    ∀ w, ((s.translate vaddr write).2.page_table_.entry_at w).valid = true →
      (s.page_table_.entry_at w).valid = true ∨
        s.page_table_.same_slot w (s.extract_page_number vaddr) := by
  obtain ⟨x, rest, hx⟩ := List.exists_cons_of_ne_nil hfree
  have hal := allocate_frame_cons s.physical_memory_ (s.extract_page_number vaddr) x rest hx
  refine translate_cases s vaddr write
    (fun r => r.2.page_table_.num_entries_ = s.page_table_.num_entries_ + 1 ∧
      r.2.physical_memory_.free_frames_.length + 1 = s.physical_memory_.free_frames_.length ∧
      ∀ w, (r.2.page_table_.entry_at w).valid = true →
        (s.page_table_.entry_at w).valid = true ∨
          s.page_table_.same_slot w (s.extract_page_number vaddr)) ?_ ?_ ?_ ?_ ?_
  · intro pfn h; rw [hnc] at h; simp at h
  · intro _ h; rw [hnv] at h; simp at h
  · intro _ _ h; rw [hal] at h; simp at h
  · intro pfn _ _ _ _
    have w1 := insert_wellShaped s.page_table_ (s.extract_page_number vaddr) pfn hwf
    have hn := insert_num_entries s.page_table_ (s.extract_page_number vaddr) pfn hwf hL
    rw [hnv] at hn
    simp only [Bool.false_eq_true, if_false] at hn
    have hins : ∀ w, ((s.page_table_.insert (s.extract_page_number vaddr) pfn).entry_at w).valid =
        true → (s.page_table_.entry_at w).valid = true ∨
          s.page_table_.same_slot w (s.extract_page_number vaddr) := by
      intro w hw
      rcases insert_valid s.page_table_ _ pfn w hwf hw with h | h
      · exact Or.inr h.1
      · rw [h.2] at hw; exact Or.inl hw
    refine ⟨?_, ?_, ?_⟩
    · cases write with
      | true =>
        show (((s.page_table_.insert _ pfn).translate _).2.set_dirty _ true).num_entries_ = _
        rw [(set_dirty_params _ _ _).2.2, (translate_snd_params _ _).2.2, hn]
      | false =>
        show ((s.page_table_.insert _ pfn).translate _).2.num_entries_ = _
        rw [(translate_snd_params _ _).2.2, hn]
    · show (s.physical_memory_.allocate_frame _).2.free_frames_.length + 1 = _
      rw [hal, hx]; rfl
    · intro w hw
      apply hins w
      cases write with
      | true =>
        have hw2 : ((((s.page_table_.insert (s.extract_page_number vaddr) pfn).translate
            (s.extract_page_number vaddr)).2.set_dirty (s.extract_page_number vaddr)
              true).entry_at w).valid = true := hw
        rw [(set_dirty_fields _ _ _ (translate_snd_wellShaped _ _ w1) w).1,
          (translate_snd_fields _ _ w1 w).1] at hw2
        exact hw2
      | false =>
        have hw2 : (((s.page_table_.insert (s.extract_page_number vaddr) pfn).translate
            (s.extract_page_number vaddr)).2.entry_at w).valid = true := hw
        rw [(translate_snd_fields _ _ w1 w).1] at hw2
        exact hw2
  · intro pfn _ _ _ hv2
    rw [insert_same s.page_table_ _ pfn _ hwf hL (same_slot_refl _ _)] at hv2
    simp at hv2

/-- The same for `allocate_page`. -/
theorem allocate_page_allocates (s : VirtualMemoryManager) (vaddr : Nat)
    (hwf : WellShaped s.page_table_.num_levels_ s.page_table_.root_)
    (hL : 1 ≤ s.page_table_.num_levels_)
    (hnv : (s.page_table_.entry_at (s.extract_page_number vaddr)).valid = false)
    (hfree : s.physical_memory_.free_frames_ ≠ []) :
    (s.allocate_page vaddr).2.page_table_.num_entries_ = s.page_table_.num_entries_ + 1 ∧
    (s.allocate_page vaddr).2.physical_memory_.free_frames_.length + 1 =
      s.physical_memory_.free_frames_.length ∧
    ∀ w, ((s.allocate_page vaddr).2.page_table_.entry_at w).valid = true →
      (s.page_table_.entry_at w).valid = true ∨
        s.page_table_.same_slot w (s.extract_page_number vaddr) := by
  obtain ⟨x, rest, hx⟩ := List.exists_cons_of_ne_nil hfree
  have hal := allocate_frame_cons s.physical_memory_ (s.extract_page_number vaddr) x rest hx
  refine allocate_page_cases s vaddr
    (fun r => r.2.page_table_.num_entries_ = s.page_table_.num_entries_ + 1 ∧
      r.2.physical_memory_.free_frames_.length + 1 = s.physical_memory_.free_frames_.length ∧
      ∀ w, (r.2.page_table_.entry_at w).valid = true →
        (s.page_table_.entry_at w).valid = true ∨
          s.page_table_.same_slot w (s.extract_page_number vaddr)) ?_ ?_ ?_
  · intro h; rw [hnv] at h; simp at h
  · intro _ h; rw [hal] at h; simp at h
  · intro pfn _ _
    have hn := insert_num_entries s.page_table_ (s.extract_page_number vaddr) pfn hwf hL
    rw [hnv] at hn
    simp only [Bool.false_eq_true, if_false] at hn
    refine ⟨hn, ?_, ?_⟩
    · show (s.physical_memory_.allocate_frame _).2.free_frames_.length + 1 = _
      rw [hal, hx]; rfl
    · intro w hw
      rcases insert_valid s.page_table_ _ pfn w hwf hw with h | h
      · exact Or.inr h.1
      · have hw2 : ((s.page_table_.insert (s.extract_page_number vaddr) pfn).entry_at w).valid =
            true := hw
        rw [h.2] at hw2; exact Or.inl hw2

theorem run_snoc (s : VirtualMemoryManager) (ops : List Op) (op : Op) :
    run s (ops ++ [op]) = step (run s ops) op := by
  simp [run, List.foldl_append]

/-- Allocating at addresses of pairwise distinct pages inside the address space
of a configuration whose page table covers it: after the calls the occupied-entry
count is the number of calls, as long as the frames suffice. -/
theorem sparse_count (config : Config) (hcov : config.covers)
    (hL : 1 ≤ config.page_table_levels) (ops : List Op)
    (hkind : ∀ op, op ∈ ops → ∃ v, v < 2 ^ config.virtual_address_bits ∧
      (op = Op.allocate_page v ∨ ∃ b, op = Op.write_byte v b))
    (hdist : (ops.map (fun op => op.vaddr.getD 0 / 2 ^ config.offset_bits)).Nodup)
    (hlen : ops.length ≤ config.num_frames) :
    ReachableBy config (fun s op => in_address_space config op ∧ from_free_list s op)
      (run (VirtualMemoryManager.new config) ops) ∧
    (run (VirtualMemoryManager.new config) ops).page_table_.num_entries_ = ops.length ∧
    (run (VirtualMemoryManager.new config) ops).physical_memory_.free_frames_.length +
      ops.length = config.num_frames ∧
    ∀ w, ((run (VirtualMemoryManager.new config) ops).page_table_.entry_at w).valid = true →
      w % 2 ^ (config.page_table_levels * config.bits_per_level) ∈
        ops.map (fun op => op.vaddr.getD 0 / 2 ^ config.offset_bits) := by
  induction ops using List.reverseRecOn with
  | nil =>
    refine ⟨ReachableBy.init, rfl, ?_, ?_⟩
    · simp [run, VirtualMemoryManager.new, PhysicalMemory.new]
    · intro w hw
      have : (PageTable.new config).entry_at w = PageTableEntry.empty := entry_at_new config w
      have hw2 : ((PageTable.new config).entry_at w).valid = true := hw
      rw [this] at hw2
      simp [PageTableEntry.empty] at hw2
  | append_singleton ops op ih =>
    rw [List.map_append, List.nodup_append] at hdist
    rw [List.length_append] at hlen
    simp only [List.length_singleton] at hlen
    obtain ⟨hr, hn, hfl, hval⟩ := ih (fun o ho => hkind o (List.mem_append_left _ ho))
      hdist.1 (by omega)
    obtain ⟨v, hv, hop⟩ := hkind op (List.mem_append_right _ (List.mem_singleton.mpr rfl))
    obtain ⟨hc, hk⟩ := reachable_consistent config _ _ hr
    have hco := reachable_coherent config hcov _ (fun _ _ h => h.1) _ hr
    have hpage : (run (VirtualMemoryManager.new config) ops).extract_page_number v =
        v / 2 ^ config.offset_bits := by
      rw [extract_page_number_eq, hc]
    have hvad : op.vaddr = some v := by
      rcases hop with h | ⟨b, h⟩ <;> rw [h] <;> rfl
    have hnew : v / 2 ^ config.offset_bits ∉
        ops.map (fun op => op.vaddr.getD 0 / 2 ^ config.offset_bits) := by
      intro hm
      refine hdist.2.2 hm ?_
      simp [hvad]
    have hlt : v / 2 ^ config.offset_bits <
        2 ^ (config.page_table_levels * config.bits_per_level) := by
      have := page_number_lt_table config hcov _ hk.levels_eq hk.bits_eq v hv
      rw [hk.levels_eq, hk.bits_eq] at this
      exact this
    have hnv : ((run (VirtualMemoryManager.new config) ops).page_table_.entry_at
        ((run (VirtualMemoryManager.new config) ops).extract_page_number v)).valid = false := by
      rw [hpage]
      cases hq : ((run (VirtualMemoryManager.new config) ops).page_table_.entry_at
        (v / 2 ^ config.offset_bits)).valid with
      | false => rfl
      | true =>
        have := hval _ hq
        rw [Nat.mod_eq_of_lt hlt] at this
        exact absurd this hnew
    have hnc : (run (VirtualMemoryManager.new config) ops).tlb_.find
        ((run (VirtualMemoryManager.new config) ops).extract_page_number v) = none := by
      cases hq : (run (VirtualMemoryManager.new config) ops).tlb_.find
        ((run (VirtualMemoryManager.new config) ops).extract_page_number v) with
      | none => rfl
      | some f =>
        have := (hco _ f hq).2.1
        rw [hnv] at this
        simp at this
    have hfree : (run (VirtualMemoryManager.new config) ops).physical_memory_.free_frames_ ≠
        [] := by
      intro h
      rw [h] at hfl
      simp at hfl
      omega
    have hL2 : 1 ≤ (run (VirtualMemoryManager.new config) ops).page_table_.num_levels_ := by
      rw [hk.levels_eq]; exact hL
    have key : (step (run (VirtualMemoryManager.new config) ops) op).page_table_.num_entries_ =
        (run (VirtualMemoryManager.new config) ops).page_table_.num_entries_ + 1 ∧
      (step (run (VirtualMemoryManager.new config) ops) op).physical_memory_.free_frames_.length +
        1 = (run (VirtualMemoryManager.new config) ops).physical_memory_.free_frames_.length ∧
      ∀ w, ((step (run (VirtualMemoryManager.new config) ops) op).page_table_.entry_at w).valid =
        true →
        ((run (VirtualMemoryManager.new config) ops).page_table_.entry_at w).valid = true ∨
          (run (VirtualMemoryManager.new config) ops).page_table_.same_slot w
            ((run (VirtualMemoryManager.new config) ops).extract_page_number v) := by
      rcases hop with h | ⟨b, h⟩
      · rw [h]
        exact allocate_page_allocates _ v hk.shaped hL2 hnv hfree
      · rw [h]
        simp only [step]
        rw [(write_byte_parts _ v b).2, write_byte_free_frames]
        exact translate_allocates _ v true hk.shaped hL2 hnv hnc hfree
    have hguard : in_address_space config op ∧
        from_free_list (run (VirtualMemoryManager.new config) ops) op := by
      refine ⟨?_, ?_⟩
      · intro a ha
        rw [hvad] at ha
        simp only [Option.some.injEq] at ha
        rw [← ha]; exact hv
      · rcases hop with h | ⟨b, h⟩ <;> rw [h] <;> exact Or.inl hfree
    rw [run_snoc]
    refine ⟨ReachableBy.next _ op hr hguard, ?_, ?_, ?_⟩
    · rw [key.1, hn, List.length_append]; rfl
    · rw [List.length_append]
      simp only [List.length_singleton]
      omega
    · intro w hw
      rw [List.map_append, List.mem_append]
      rcases key.2.2 w hw with h | h
      · exact Or.inl (hval w h)
      · right
        have := same_slot_mod _ _ _ h
        rw [hk.levels_eq, hk.bits_eq, hpage, Nat.mod_eq_of_lt hlt] at this
        simp [hvad, this]

theorem allocate_page_present (s : VirtualMemoryManager) (vaddr : Nat)
    (h : (s.page_table_.entry_at (s.extract_page_number vaddr)).valid = true) :
    s.allocate_page vaddr = (true, s) := by
  unfold VirtualMemoryManager.allocate_page
  simp only [is_present_eq, h, if_true]

/-- After `allocate_page` with a non-empty free list the page has a valid
entry. -/
theorem allocate_page_valid (s : VirtualMemoryManager) (vaddr : Nat)
    (hwf : WellShaped s.page_table_.num_levels_ s.page_table_.root_)
    (hL : 1 ≤ s.page_table_.num_levels_)
    (hfree : s.physical_memory_.free_frames_ ≠ []) :
    ((s.allocate_page vaddr).2.page_table_.entry_at (s.extract_page_number vaddr)).valid =
      true := by
  refine allocate_page_cases s vaddr
    (fun r => (r.2.page_table_.entry_at (s.extract_page_number vaddr)).valid = true) ?_ ?_ ?_
  · intro h; exact h
  · intro _ h
    exact absurd (allocate_frame_none _ _ h).1 hfree
  · intro pfn _ _
    show ((s.page_table_.insert (s.extract_page_number vaddr) pfn).entry_at
      (s.extract_page_number vaddr)).valid = true
    rw [insert_same s.page_table_ _ pfn _ hwf hL (same_slot_refl _ _)]

theorem new_free_frames (config : Config) (h : 0 < config.num_frames) :
    (VirtualMemoryManager.new config).physical_memory_.free_frames_ ≠ [] := by
  intro e
  have hl := congrArg List.length e
  change (List.range config.num_frames).length = 0 at hl
  rw [List.length_range] at hl
  omega

theorem allocate_page_config (s : VirtualMemoryManager) (vaddr : Nat) :
    (s.allocate_page vaddr).2.config_ = s.config_ ∧
    (s.allocate_page vaddr).2.page_table_.num_levels_ = s.page_table_.num_levels_ ∧
    (s.allocate_page vaddr).2.page_table_.bits_per_level_ = s.page_table_.bits_per_level_ := by
  refine allocate_page_cases s vaddr
    (fun r => r.2.config_ = s.config_ ∧
      r.2.page_table_.num_levels_ = s.page_table_.num_levels_ ∧
      r.2.page_table_.bits_per_level_ = s.page_table_.bits_per_level_) ?_ ?_ ?_
  · intro _; exact ⟨rfl, rfl, rfl⟩
  · intro _ _; exact ⟨rfl, rfl, rfl⟩
  · intro pfn _ _
    exact ⟨rfl, (insert_params _ _ _).1, (insert_params _ _ _).2⟩

/-- Two `allocate_page` calls on page numbers that take the same path: the
second finds the page present and only one entry is added. -/
theorem allocate_alias_once (s : VirtualMemoryManager) (a b : Nat)
    (hwf : WellShaped s.page_table_.num_levels_ s.page_table_.root_)
    (hL : 1 ≤ s.page_table_.num_levels_)
    (hnv : (s.page_table_.entry_at (s.extract_page_number a)).valid = false)
    (hfree : s.physical_memory_.free_frames_ ≠ [])
    (hss : s.page_table_.same_slot (s.extract_page_number b) (s.extract_page_number a)) :
    (run s [Op.allocate_page a, Op.allocate_page b]).page_table_.num_entries_ =
      s.page_table_.num_entries_ + 1 := by
  have hn := (allocate_page_allocates s a hwf hL hnv hfree).1
  have hv := allocate_page_valid s a hwf hL hfree
  obtain ⟨hc, hl, hb⟩ := allocate_page_config s a
  have hp : (s.allocate_page a).2.extract_page_number b = s.extract_page_number b := by
    rw [extract_page_number_eq, extract_page_number_eq, hc]
  have hss2 : (s.allocate_page a).2.page_table_.same_slot (s.extract_page_number b)
      (s.extract_page_number a) :=
    (same_slot_params s.page_table_ _ hl hb _ _).mpr hss
  have hpres : ((s.allocate_page a).2.page_table_.entry_at
      ((s.allocate_page a).2.extract_page_number b)).valid = true := by
    rw [hp, entry_at_same_slot _ _ _ hss2]
    exact hv
  have hsame := allocate_page_present _ b hpres
  simp only [run, List.foldl_cons, List.foldl_nil, step]
  rw [hsame]
  exact hn

/-- C16 as stated fails for addresses beyond the 32-bit address space.  On the
default preset the addresses 0 and `2 ^ 32` lie in the distinct pages 0 and
`2 ^ 20`, but the two-level table of 10 bits per level takes both page numbers
to the same leaf slot: the second `allocate_page` finds the page present and
the occupied-entry count is 1, not 2. -/
theorem sparse_count_beyond_address_space :
    (0 : Nat) / 4096 ≠ 4294967296 / 4096 ∧
    2 ≤ Config.default_config.num_frames ∧
    (run (VirtualMemoryManager.new Config.default_config)
      [Op.allocate_page 0, Op.allocate_page 4294967296]).page_table_.num_entries_ = 1 :=
  ⟨by decide, by decide,
    (allocate_alias_once (VirtualMemoryManager.new Config.default_config) 0 4294967296
      (reachable_consistent Config.default_config (fun _ _ => True) _ ReachableBy.init).2.shaped
      (by decide)
      (congrArg PageTableEntry.valid (entry_at_new Config.default_config _))
      (new_free_frames _ (by decide))
      (fun level hlevel => by
        have h2 : level < 2 := hlevel
        have : level = 0 ∨ level = 1 := by omega
        rcases this with e | e <;> subst e <;> decide)).trans (by decide)⟩

/-- C16 (amended): from the fresh translator of the default preset, allocating
a page (by `allocate_page` or `write_byte`) at each of `n` addresses below
`2 ^ 32` that lie in pairwise distinct pages, with `n` at most the number of
frames, leaves the occupied-entry count at `n`. -/
theorem sparse_allocation_count (ops : List Op)
    (hkind : ∀ op, op ∈ ops → ∃ v, v < 2 ^ Config.default_config.virtual_address_bits ∧
      (op = Op.allocate_page v ∨ ∃ b, op = Op.write_byte v b))
    (hdist : (ops.map
      (fun op => op.vaddr.getD 0 / 2 ^ Config.default_config.offset_bits)).Nodup)
    (hlen : ops.length ≤ Config.default_config.num_frames) :
    (run (VirtualMemoryManager.new Config.default_config) ops).page_table_.num_entries_ =
      ops.length :=
  (sparse_count Config.default_config (by unfold Config.covers; decide) (by decide) ops hkind
    hdist hlen).2.1

/-- C16 amended on the addresses `i * 1000000` for `i` from 0 to 9, each written
once: ten occupied entries. -/
theorem sparse_allocation_count_witness :
    (run (VirtualMemoryManager.new Config.default_config)
      ((List.range 10).map (fun i => Op.write_byte (i * 1000000) i))).page_table_.num_entries_ =
      10 :=
  sparse_allocation_count ((List.range 10).map (fun i => Op.write_byte (i * 1000000) i))
    (by
      intro op hop
      simp only [List.mem_map, List.mem_range] at hop
      obtain ⟨i, hi, e⟩ := hop
      refine ⟨i * 1000000, ?_, Or.inr ⟨i, e.symm⟩⟩
      have : (2 : Nat) ^ Config.default_config.virtual_address_bits = 4294967296 := by decide
      rw [this]
      omega)
    (by decide) (by decide)

/-! ## C21: victim selection -/

theorem find_victim_loop_least (frames : Nat → Frame) (fuel : Nat) :
    ∀ (i r : Nat), find_victim_loop frames fuel i = some r →
      ∀ j, i ≤ j → j < r → ¬ ((frames j).allocated = true ∧ (frames j).pinned = false) := by
  induction fuel with
  | zero => intro i r h; simp [find_victim_loop] at h
  | succ fuel ih =>
    intro i r h j hij hjr
    simp only [find_victim_loop] at h
    by_cases hc : ((frames i).allocated && !(frames i).pinned) = true
    · rw [if_pos hc] at h
      simp only [Option.some.injEq] at h
      omega
    · rw [if_neg hc] at h
      simp only [Bool.and_eq_true, Bool.not_eq_true'] at hc
      rcases Nat.eq_or_lt_of_le hij with e | hlt
      · subst e; exact hc
      · exact ih (i + 1) r h j hlt hjr

/-- C21: with an empty free list `allocate_frame` returns the lowest-index
frame of the pool that is allocated and not pinned, and absent exactly when the
pool has no such frame; the call leaves every frame record, the allocated-frame
count and the (empty) free list as they were. -/
theorem victim_selection (pm : PhysicalMemory) (vpn : Nat) (hfree : pm.free_frames_ = []) :
    (∀ r, (pm.allocate_frame vpn).1 = some r →
      r < pm.num_frames_ ∧ (pm.frames_ r).allocated = true ∧ (pm.frames_ r).pinned = false ∧
      ∀ j, j < r → ¬ ((pm.frames_ j).allocated = true ∧ (pm.frames_ j).pinned = false)) ∧
    ((pm.allocate_frame vpn).1 = none ↔
      ∀ j, j < pm.num_frames_ →
        ¬ ((pm.frames_ j).allocated = true ∧ (pm.frames_ j).pinned = false)) ∧
    (pm.allocate_frame vpn).2.frames_ = pm.frames_ ∧
    (pm.allocate_frame vpn).2.allocated_frames_ = pm.allocated_frames_ ∧
    (pm.allocate_frame vpn).2.free_frames_ = pm.free_frames_ := by
  have hnone := allocate_frame_fst_none pm vpn
  rw [allocate_frame_nil pm vpn hfree] at hnone ⊢
  refine ⟨?_, ?_, rfl, rfl, rfl⟩
  · intro r hr
    have hr2 : find_victim_loop pm.frames_ pm.num_frames_ 0 = some r := hr
    obtain ⟨_, h2, h3, h4⟩ := find_victim_loop_some pm.frames_ pm.num_frames_ 0 r hr2
    exact ⟨by omega, h3, h4,
      fun j hj => find_victim_loop_least pm.frames_ pm.num_frames_ 0 r hr2 j (Nat.zero_le j) hj⟩
  · rw [hnone]
    simp [hfree]

set_option maxRecDepth 100000 in
/-- C21 on the small preset with all 64 frames allocated and frame 0 pinned: the
free list is empty and the call returns frame 1, whose owner is still page 1. -/
theorem victim_selection_witness :
    (exhausted_small.pin 0).physical_memory_.free_frames_ = [] ∧
    ((exhausted_small.pin 0).physical_memory_.allocate_frame 99).1 = some 1 ∧
    (((exhausted_small.pin 0).physical_memory_.allocate_frame 99).2.frames_ 1).owner_vpn = 1 ∧
    ((exhausted_small.pin 0).physical_memory_.frames_ 0).pinned = true :=
  have h := victim_selection (exhausted_small.pin 0).physical_memory_ 99 (by decide)
  ⟨by decide, by decide, by rw [h.2.2.1]; decide, by decide⟩

/-! ## C22: out-of-range arguments -/

/-- C22: `free_frame`, `pin_frame` and `unpin_frame` throw exactly when the
frame number is not below `num_frames`, the allocator's `read_byte` and
`write_byte` exactly when the address is not below the size of the byte store,
and the exception is always `out_of_range`; a throwing call returns no new
allocator (the check is the first statement of each method), so the allocator
it leaves is the one it found; `free_frame` of a frame of the pool that is not
allocated returns the allocator unchanged. -/
theorem out_of_range_exact (pm : PhysicalMemory) (pfn addr value : Nat) :
    ((pm.free_frame pfn = Except.error Error.out_of_range ↔ pfn ≥ pm.num_frames_) ∧
      (pm.pin_frame pfn = Except.error Error.out_of_range ↔ pfn ≥ pm.num_frames_) ∧
      (pm.unpin_frame pfn = Except.error Error.out_of_range ↔ pfn ≥ pm.num_frames_) ∧
      (pm.read_byte addr = Except.error Error.out_of_range ↔ addr ≥ pm.memory_size) ∧
      (pm.write_byte addr value = Except.error Error.out_of_range ↔ addr ≥ pm.memory_size)) ∧
    ((∀ e, pm.free_frame pfn = Except.error e → e = Error.out_of_range) ∧
      (∀ e, pm.pin_frame pfn = Except.error e → e = Error.out_of_range) ∧
      (∀ e, pm.unpin_frame pfn = Except.error e → e = Error.out_of_range) ∧
      (∀ e, pm.read_byte addr = Except.error e → e = Error.out_of_range) ∧
      (∀ e, pm.write_byte addr value = Except.error e → e = Error.out_of_range)) ∧
    (pfn ≥ pm.num_frames_ → pm.state_after (pm.free_frame pfn) = pm ∧
      pm.state_after (pm.pin_frame pfn) = pm ∧ pm.state_after (pm.unpin_frame pfn) = pm) ∧
    (addr ≥ pm.memory_size → pm.state_after (pm.write_byte addr value) = pm) ∧
    (pfn < pm.num_frames_ → (pm.frames_ pfn).allocated = false →
      pm.free_frame pfn = Except.ok pm) := by
  refine ⟨⟨?_, ?_, ?_, ?_, ?_⟩, ⟨?_, ?_, ?_, ?_, ?_⟩, ?_, ?_, ?_⟩
  · unfold PhysicalMemory.free_frame
    by_cases h : pfn ≥ pm.num_frames_
    · simp [h]
    · by_cases ha : (pm.frames_ pfn).allocated = true <;> simp [h, ha]
  · unfold PhysicalMemory.pin_frame
    by_cases h : pfn ≥ pm.num_frames_ <;> simp [h]
  · unfold PhysicalMemory.unpin_frame
    by_cases h : pfn ≥ pm.num_frames_ <;> simp [h]
  · unfold PhysicalMemory.read_byte
    by_cases h : addr ≥ pm.memory_size <;> simp [h]
  · unfold PhysicalMemory.write_byte
    by_cases h : addr ≥ pm.memory_size <;> simp [h]
  · intro e
    unfold PhysicalMemory.free_frame
    by_cases h : pfn ≥ pm.num_frames_
    · simp only [h, if_true, Except.error.injEq]
      exact fun h2 => h2.symm
    · by_cases ha : (pm.frames_ pfn).allocated = true <;> simp [h, ha]
  · intro e
    unfold PhysicalMemory.pin_frame
    by_cases h : pfn ≥ pm.num_frames_
    · simp only [h, if_true, Except.error.injEq]
      exact fun h2 => h2.symm
    · simp [h]
  · intro e
    unfold PhysicalMemory.unpin_frame
    by_cases h : pfn ≥ pm.num_frames_
    · simp only [h, if_true, Except.error.injEq]
      exact fun h2 => h2.symm
    · simp [h]
  · intro e
    unfold PhysicalMemory.read_byte
    by_cases h : addr ≥ pm.memory_size
    · simp only [h, if_true, Except.error.injEq]
      exact fun h2 => h2.symm
    · simp [h]
  · intro e
    unfold PhysicalMemory.write_byte
    by_cases h : addr ≥ pm.memory_size
    · simp only [h, if_true, Except.error.injEq]
      exact fun h2 => h2.symm
    · simp [h]
  · intro h
    simp [PhysicalMemory.state_after, PhysicalMemory.free_frame, PhysicalMemory.pin_frame,
      PhysicalMemory.unpin_frame, h]
  · intro h
    simp [PhysicalMemory.state_after, PhysicalMemory.write_byte, h]
  · intro h ha
    unfold PhysicalMemory.free_frame
    rw [if_neg (by omega), if_neg (by simp [ha])]

/-- C22 on the fresh allocator of the small preset (64 frames, 16384 bytes):
frame 64 and address 16384 are out of range, frame 63 and address 16383 are not,
and `free_frame 63` of the unallocated frame returns the allocator as it is. -/
theorem out_of_range_exact_witness :
    (PhysicalMemory.new Config.small_config).pin_frame 64 = Except.error Error.out_of_range ∧
    (PhysicalMemory.new Config.small_config).read_byte 16384 =
      Except.error Error.out_of_range ∧
    (PhysicalMemory.new Config.small_config).read_byte 16383 = Except.ok 0 ∧
    (PhysicalMemory.new Config.small_config).free_frame 63 =
      Except.ok (PhysicalMemory.new Config.small_config) :=
  have h := out_of_range_exact (PhysicalMemory.new Config.small_config) 64 16384 0
  have h2 := out_of_range_exact (PhysicalMemory.new Config.small_config) 63 16383 0
  ⟨h.1.2.1.mpr (by decide), h.1.2.2.2.1.mpr (by decide), rfl,
    h2.2.2.2.2 (by decide) (by decide)⟩

/-! ## C24: most-significant-group-first indexing -/

theorem extract_level_index_lt (L B vpn level : Nat) :
    extract_level_index L B vpn level < 2 ^ B := by
  rw [extract_level_index_eq]
  exact Nat.mod_lt _ (by positivity)

/-- The groups of `B` bits of a number, weighted by their positions, add up to
its low `n * B` bits. -/
theorem sum_digits (B vpn : Nat) (n : Nat) :
    ∑ j ∈ Finset.range n, vpn / 2 ^ (j * B) % 2 ^ B * 2 ^ (j * B) = vpn % 2 ^ (n * B) := by
  induction n with
  | zero => simp [Nat.mod_one]
  | succ n ih =>
    rw [Finset.sum_range_succ, ih, Nat.add_mul, Nat.one_mul, pow_add, Nat.mod_mul]
    ring

/-- C24: every per-level index is below `2 ^ B`; the indices, weighted by
`2 ^ ((L - 1 - level) * B)`, add up to the low `L * B` bits of the page number,
so level 0 (the root) holds the highest group of these bits; two page numbers
below `2 ^ (L * B)` take the same path to a leaf entry exactly when they are
equal, and on a well-shaped tree an insert at one of two different such page
numbers leaves the entry of the other alone.  This holds for every `L` and `B`;
for `L ≥ 1` and `L * B < 64` every shift of the source is below 64 and is the
shift taken here. -/
theorem msb_first_indexing (pt : PageTable) (vpn : Nat) :
    (∀ level, extract_level_index pt.num_levels_ pt.bits_per_level_ vpn level <
      2 ^ pt.bits_per_level_) ∧
    ∑ level ∈ Finset.range pt.num_levels_,
      extract_level_index pt.num_levels_ pt.bits_per_level_ vpn level *
        2 ^ ((pt.num_levels_ - 1 - level) * pt.bits_per_level_) =
      vpn % 2 ^ (pt.num_levels_ * pt.bits_per_level_) ∧
    (1 ≤ pt.num_levels_ →
      extract_level_index pt.num_levels_ pt.bits_per_level_ vpn 0 =
        vpn % 2 ^ (pt.num_levels_ * pt.bits_per_level_) /
          2 ^ ((pt.num_levels_ - 1) * pt.bits_per_level_)) ∧
    ∀ v w, v < 2 ^ (pt.num_levels_ * pt.bits_per_level_) →
      w < 2 ^ (pt.num_levels_ * pt.bits_per_level_) →
      (pt.same_slot v w ↔ v = w) ∧
      (WellShaped pt.num_levels_ pt.root_ → v ≠ w →
        ∀ f, (pt.insert v f).entry_at w = pt.entry_at w) := by
  refine ⟨fun level => extract_level_index_lt _ _ _ _, ?_, ?_, ?_⟩
  · have h := Finset.sum_range_reflect
      (fun j => vpn / 2 ^ (j * pt.bits_per_level_) % 2 ^ pt.bits_per_level_ *
        2 ^ (j * pt.bits_per_level_)) pt.num_levels_
    rw [sum_digits] at h
    rw [← h]
    apply Finset.sum_congr rfl
    intro level _
    rw [extract_level_index_eq]
  · intro hL
    rw [extract_level_index_eq]
    have e : pt.num_levels_ * pt.bits_per_level_ =
        (pt.num_levels_ - 1) * pt.bits_per_level_ + pt.bits_per_level_ := by
      have : pt.num_levels_ = pt.num_levels_ - 1 + 1 := by omega
      nth_rewrite 1 [this]
      rw [Nat.add_mul, Nat.one_mul]
    rw [e, pow_add, Nat.mod_mul_right_div_self]
    simp
  · intro v w hv hw
    refine ⟨⟨same_slot_eq pt v w hv hw, fun e => e ▸ same_slot_refl pt v⟩, ?_⟩
    intro hwf hne f
    exact insert_other pt v f w hwf (fun hs => hne (same_slot_eq pt w v hw hv hs).symm)

/-- C24 on the page table of the default preset (2 levels of 10 bits) and the
page number `0x12345`: the indices are `0x48` at the root and `0x345` at the
leaf, and `0x48 * 2 ^ 10 + 0x345 = 0x12345`. -/
theorem msb_first_indexing_witness :
    extract_level_index 2 10 74565 0 = 72 ∧ extract_level_index 2 10 74565 1 = 837 ∧
    ∑ level ∈ Finset.range (PageTable.new Config.default_config).num_levels_,
      extract_level_index (PageTable.new Config.default_config).num_levels_
        (PageTable.new Config.default_config).bits_per_level_ 74565 level *
        2 ^ (((PageTable.new Config.default_config).num_levels_ - 1 - level) *
          (PageTable.new Config.default_config).bits_per_level_) =
      74565 % 2 ^ ((PageTable.new Config.default_config).num_levels_ *
        (PageTable.new Config.default_config).bits_per_level_) :=
  ⟨by decide, by decide, (msb_first_indexing (PageTable.new Config.default_config) 74565).2.1⟩

/-! ## The valid entries in the leaves of the tree -/

/-- The entry a lookup reaches depends on the indices of the levels it walks
only. -/
theorem walk_fst_congr (L B v w : Nat) (fuel level : Nat) (n : PageTableNode)
    (h : ∀ k, level ≤ k → k < level + fuel →
      extract_level_index L B w k = extract_level_index L B v k) :
    (walk_loop L B w false id fuel level n).1 = (walk_loop L B v false id fuel level n).1 := by
  have := walk_loop_lookup_same L B v w false id fuel level n h
  rw [walk_loop_lookup_snd] at this
  simpa using this

/-- A lookup in an internal node continues in the child the index selects. -/
theorem walk_node_fst (L B v : Nat) (fuel level : Nat) (cs : Nat → PageTableNode) :
    (walk_loop L B v false id (fuel + 1) level (PageTableNode.node cs)).1 =
      (walk_loop L B v false id fuel (level + 1) (cs (extract_level_index L B v level))).1 := by
  by_cases h : cs (extract_level_index L B v level) = PageTableNode.null
  · rw [walk_loop_node_null L B v false id fuel level cs h, h, walk_loop_null]
    simp
  · rw [walk_loop_node_child L B v false id fuel level cs h]

theorem digit_mod (B v n j : Nat) (hj : j < n) :
    v % 2 ^ (n * B) / 2 ^ (j * B) % 2 ^ B = v / 2 ^ (j * B) % 2 ^ B := by
  have e : n * B = j * B + (n - j - 1 + 1) * B := by
    rw [← Nat.add_mul]
    congr 1
    omega
  rw [e, pow_add, Nat.mod_mul_right_div_self]
  apply Nat.mod_mod_of_dvd
  rw [Nat.add_mul, pow_add, Nat.one_mul]
  exact Dvd.intro_left _ rfl

/-- Counting over `a` blocks of `b` numbers. -/
theorem filter_range_mul (p : Nat → Bool) (a b : Nat) :
    ((List.range (a * b)).filter p).length =
      ((List.range a).map
        (fun i => ((List.range b).filter (fun v => p (i * b + v))).length)).sum := by
  induction a with
  | zero => simp
  | succ a ih =>
    rw [Nat.succ_mul, List.range_add, List.filter_append, List.length_append, ih,
      List.range_succ, List.map_append, List.sum_append, List.filter_map, List.length_map]
    simp [Function.comp_def]

/-- The page numbers below `2 ^ (r * B)` whose lookup in a well-shaped subtree
of `r` levels reaches a valid entry are as many as the valid entries in the
leaves of the subtree. -/
theorem subtree_count (L B : Nat) :
    ∀ (r level : Nat) (n : PageTableNode), r + level = L → 1 ≤ r → WellShaped r n →
      ((List.range (2 ^ (r * B))).filter
        (fun v => ((walk_loop L B v false id r level n).1.getD PageTableEntry.empty).valid)).length =
        n.count_valid B := by
  intro r
  induction r with
  | zero => intro level n _ h; omega
  | succ k ih =>
    intro level n hL _ hwf
    cases k with
    | zero =>
      obtain ⟨es, hes⟩ := hwf
      subst hes
      simp only [PageTableNode.count_valid, Nat.zero_add, Nat.one_mul]
      congr 1
      apply List.filter_congr
      intro v hv
      rw [walk_loop_leaf]
      have hlt : v < 2 ^ B := List.mem_range.mp hv
      have e : extract_level_index L B v level = v := by
        rw [extract_level_index_eq]
        have : L - 1 - level = 0 := by omega
        rw [this]
        simp [Nat.mod_eq_of_lt hlt]
      simp [e]
    | succ m =>
      obtain ⟨cs, hcs, hch⟩ := hwf
      subst hcs
      have hpow : 2 ^ ((m + 1 + 1) * B) = 2 ^ B * 2 ^ ((m + 1) * B) := by
        rw [← pow_add]
        congr 1
        ring
      rw [hpow, filter_range_mul]
      simp only [PageTableNode.count_valid]
      congr 1
      apply List.map_congr_left
      intro i hi
      have hilt : i < 2 ^ B := List.mem_range.mp hi
      have hblock : ((List.range (2 ^ ((m + 1) * B))).filter
          (fun v => ((walk_loop L B (i * 2 ^ ((m + 1) * B) + v) false id (m + 1 + 1) level
            (PageTableNode.node cs)).1.getD PageTableEntry.empty).valid)) =
          (List.range (2 ^ ((m + 1) * B))).filter
            (fun v => ((walk_loop L B v false id (m + 1) (level + 1)
              (cs i)).1.getD PageTableEntry.empty).valid) := by
        apply List.filter_congr
        intro v hv
        have hvlt : v < 2 ^ ((m + 1) * B) := List.mem_range.mp hv
        have hpos : 0 < 2 ^ ((m + 1) * B) := by positivity
        have hidx : extract_level_index L B (i * 2 ^ ((m + 1) * B) + v) level = i := by
          rw [extract_level_index_eq]
          have : L - 1 - level = m + 1 := by omega
          rw [this, Nat.add_comm, Nat.add_mul_div_right _ _ hpos, Nat.div_eq_of_lt hvlt,
            Nat.zero_add, Nat.mod_eq_of_lt hilt]
        rw [walk_node_fst, hidx]
        have hmod : (i * 2 ^ ((m + 1) * B) + v) % 2 ^ ((m + 1) * B) = v := by
          rw [Nat.add_comm, Nat.add_mul_mod_self_right, Nat.mod_eq_of_lt hvlt]
        rw [walk_fst_congr L B v (i * 2 ^ ((m + 1) * B) + v) (m + 1) (level + 1) (cs i)
          (fun k hk1 hk2 => by
            rw [extract_level_index_eq, extract_level_index_eq]
            have := digit_mod B (i * 2 ^ ((m + 1) * B) + v) (m + 1) (L - 1 - k) (by omega)
            rw [hmod] at this
            exact this.symm)]
      rw [hblock]
      rcases hch i with hnull | hsub
      · rw [hnull]
        simp [walk_loop_null, PageTableNode.count_valid, PageTableEntry.empty]
      · exact ih (level + 1) (cs i) (by omega) (by omega) hsub

/-- On a well-shaped tree of at least one level the valid leaf slots counted by
page number are the valid entries in the leaves of the tree. -/
theorem valid_count_tree (pt : PageTable) (hwf : WellShaped pt.num_levels_ pt.root_)
    (hL : 1 ≤ pt.num_levels_) :
    pt.valid_count = pt.root_.count_valid pt.bits_per_level_ :=
  subtree_count pt.num_levels_ pt.bits_per_level_ pt.num_levels_ 0 pt.root_ rfl hL hwf

theorem count_valid_make (B : Nat) (b : Bool) : (PageTableNode.make b).count_valid B = 0 := by
  cases b with
  | true =>
    simp [PageTableNode.make, PageTableNode.count_valid, PageTableEntry.empty]
  | false =>
    simp [PageTableNode.make, PageTableNode.count_valid]

theorem entry_at_clear (pt : PageTable) (vpn : Nat) :
    pt.clear.entry_at vpn = PageTableEntry.empty := by
  simp only [PageTable.entry_at, PageTable.get_entry, PageTable.walk_page_table, PageTable.clear]
  exact lookup_make _ _ _ _ _ _

theorem valid_count_zero (pt : PageTable) (h : ∀ v, (pt.entry_at v).valid = false) :
    pt.valid_count = 0 := by
  unfold PageTable.valid_count
  rw [List.length_eq_zero, List.filter_eq_nil_iff]
  intro v _
  simp [h v]

theorem counted_clear (pt : PageTable) : pt.clear.num_entries_ = pt.clear.valid_count := by
  rw [valid_count_zero pt.clear (fun v => by rw [entry_at_clear]; rfl)]
  rfl

theorem pt_step_counted (pt : PageTable) (op : PtOp)
    (hwf : WellShaped pt.num_levels_ pt.root_) (h : pt.num_entries_ = pt.valid_count) :
    (pt.step op).num_entries_ = (pt.step op).valid_count := by
  cases op with
  | translate vpn => exact counted_translate pt vpn hwf h
  | insert vpn pfn => exact counted_insert pt vpn pfn hwf h
  | is_present vpn => exact h
  | get_entry vpn => exact h
  | set_dirty vpn d => exact counted_set_dirty pt vpn d hwf h
  | set_referenced vpn r => exact counted_set_referenced pt vpn r hwf h
  | invalidate vpn => exact counted_invalidate pt vpn hwf h
  | clear => exact counted_clear pt

theorem pt_run_counted (config : Config) (ops : List PtOp) :
    ((PageTable.new config).run ops).num_entries_ =
      ((PageTable.new config).run ops).valid_count := by
  induction ops using List.reverseRecOn with
  | nil => exact counted_new config
  | append_singleton ops op ih =>
    rw [pt_run_snoc]
    exact pt_step_counted _ op (pt_run_shaped config ops).2.2 ih

theorem get_entry_zero_levels (pt : PageTable) (vpn : Nat) (hL : pt.num_levels_ = 0) :
    pt.get_entry vpn = none := by
  simp [PageTable.get_entry, PageTable.walk_page_table, hL, walk_loop]

/-- Without levels no call changes the root, except that `clear` rebuilds it. -/
theorem pt_step_root_zero (pt : PageTable) (op : PtOp) (hL : pt.num_levels_ = 0)
    (hr : pt.root_ = PageTableNode.make false) :
    (pt.step op).root_ = PageTableNode.make false := by
  have hg := fun v => get_entry_zero_levels pt v hL
  cases op with
  | translate vpn => simp only [PageTable.step, PageTable.translate, hg]; exact hr
  | insert vpn pfn => simp only [PageTable.step, insert_zero_levels pt vpn pfn hL]; exact hr
  | is_present vpn => exact hr
  | get_entry vpn => exact hr
  | set_dirty vpn d => simp only [PageTable.step, PageTable.set_dirty, hg]; exact hr
  | set_referenced vpn r => simp only [PageTable.step, PageTable.set_referenced, hg]; exact hr
  | invalidate vpn => simp only [PageTable.step, PageTable.invalidate, hg]; exact hr
  | clear => simp [PageTable.step, PageTable.clear, hL]

theorem pt_run_root_zero (config : Config) (h0 : config.page_table_levels = 0)
    (ops : List PtOp) : ((PageTable.new config).run ops).root_ = PageTableNode.make false := by
  induction ops using List.reverseRecOn with
  | nil => simp [PageTable.run, PageTable.new, h0]
  | append_singleton ops op ih =>
    rw [pt_run_snoc]
    exact pt_step_root_zero _ op ((pt_run_shaped config ops).1.trans h0) ih

/-- On every page table reached from construction the valid leaf slots counted
by page number are the valid entries in the leaves of the tree. -/
theorem pt_run_tree_count (config : Config) (ops : List PtOp) :
    ((PageTable.new config).run ops).valid_count =
      ((PageTable.new config).run ops).root_.count_valid
        ((PageTable.new config).run ops).bits_per_level_ := by
  obtain ⟨hl, _, hwf⟩ := pt_run_shaped config ops
  rcases Nat.eq_zero_or_pos config.page_table_levels with h0 | h1
  · rw [pt_run_root_zero config h0 ops, count_valid_make]
    exact valid_count_zero _ (fun v => by
      rw [entry_at_zero_levels _ v (hl.trans h0)]; rfl)
  · exact valid_count_tree _ hwf (by rw [hl]; exact h1)

/-! ## C23: the occupied-entry counter -/

/-- C23: on every page table reached from construction through `insert`,
`translate`, `set_dirty`, `set_referenced`, `invalidate`, `clear` (and the
read-only `is_present`, `get_entry`) the occupied-entry counter is the number of
valid entries in the leaves of the tree, which is the number of valid leaf
slots counted by page number; an `insert` on a valid entry and an `invalidate`
on an entry that is invalid or absent leave the counter alone, an `invalidate`
on a valid entry takes one off a counter that is at least one, and `clear` sets
the counter to 0. -/
theorem entry_counter_invariant (config : Config) (ops : List PtOp) :
    ((PageTable.new config).run ops).num_entries_ =
      ((PageTable.new config).run ops).root_.count_valid
        ((PageTable.new config).run ops).bits_per_level_ ∧
    ((PageTable.new config).run ops).num_entries_ =
      ((PageTable.new config).run ops).valid_count ∧
    (∀ vpn pfn, ((PageTable.new config).run ops).is_present vpn = true →
      (((PageTable.new config).run ops).insert vpn pfn).num_entries_ =
        ((PageTable.new config).run ops).num_entries_) ∧
    (∀ vpn, ((PageTable.new config).run ops).is_present vpn = false →
      (((PageTable.new config).run ops).invalidate vpn).num_entries_ =
        ((PageTable.new config).run ops).num_entries_) ∧
    (∀ vpn, ((PageTable.new config).run ops).is_present vpn = true →
      1 ≤ ((PageTable.new config).run ops).num_entries_ ∧
      (((PageTable.new config).run ops).invalidate vpn).num_entries_ + 1 =
        ((PageTable.new config).run ops).num_entries_) ∧
    ((PageTable.new config).run ops).clear.num_entries_ = 0 := by
  have hc := pt_run_counted config ops
  obtain ⟨_, _, hwf⟩ := pt_run_shaped config ops
  refine ⟨hc.trans (pt_run_tree_count config ops), hc, ?_, ?_, ?_, rfl⟩
  · intro vpn pfn hv
    rw [is_present_eq] at hv
    have hL : 1 ≤ ((PageTable.new config).run ops).num_levels_ := by
      rcases Nat.eq_zero_or_pos ((PageTable.new config).run ops).num_levels_ with h0 | h1
      · rw [entry_at_zero_levels _ _ h0] at hv
        simp [PageTableEntry.empty] at hv
      · exact h1
    rw [insert_num_entries _ vpn pfn hwf hL, hv]
    simp
  · intro vpn hv
    rw [is_present_eq] at hv
    rw [invalidate_num_entries, hv]
    simp
  · intro vpn hv
    rw [is_present_eq] at hv
    have hpos := valid_count_pos _ vpn hv
    rw [← hc] at hpos
    refine ⟨hpos, ?_⟩
    rw [invalidate_num_entries, hv]
    simp only [if_true]
    omega

/-- C23 on the page table of the small preset after `insert 3 1`, `insert 3 2`,
`insert 5 7`, `invalidate 9`, `invalidate 3`: one valid entry is left in the
tree and the counter is 1. -/
theorem entry_counter_invariant_witness :
    ((PageTable.new Config.small_config).run
      [PtOp.insert 3 1, PtOp.insert 3 2, PtOp.insert 5 7, PtOp.invalidate 9,
        PtOp.invalidate 3]).num_entries_ = 1 ∧
    ((PageTable.new Config.small_config).run
      [PtOp.insert 3 1, PtOp.insert 3 2, PtOp.insert 5 7, PtOp.invalidate 9,
        PtOp.invalidate 3]).root_.count_valid
      ((PageTable.new Config.small_config).run
        [PtOp.insert 3 1, PtOp.insert 3 2, PtOp.insert 5 7, PtOp.invalidate 9,
          PtOp.invalidate 3]).bits_per_level_ = 1 :=
  have h := entry_counter_invariant Config.small_config
    [PtOp.insert 3 1, PtOp.insert 3 2, PtOp.insert 5 7, PtOp.invalidate 9, PtOp.invalidate 3]
  ⟨by decide, h.1.symm.trans (by decide)⟩

/-! ## C25: physical addresses stay in bounds -/

theorem translate_cached_in_pool (config : Config) (s : VirtualMemoryManager) (vaddr : Nat)
    (write : Bool) (hk : Consistent config s.page_table_ s.physical_memory_)
    (h : ∀ w f, s.tlb_.find w = some f → f < config.num_frames) :
    ∀ w f, (s.translate vaddr write).2.tlb_.find w = some f → f < config.num_frames := by
  have hins : ∀ pfn, pfn < config.num_frames → ∀ w f,
      ((s.tlb_.lookup (s.extract_page_number vaddr)).2.insert (s.extract_page_number vaddr)
        pfn).find w = some f → f < config.num_frames := by
    intro pfn hp w f hf
    by_cases hw : w = s.extract_page_number vaddr
    · subst hw
      rw [insert_find_self] at hf
      simp only [Option.some.injEq] at hf
      rw [← hf]; exact hp
    · have := insert_find_other _ _ pfn w f hw hf
      rw [lookup_find] at this
      exact h w f this
  have hlook : ∀ w f, (s.tlb_.lookup (s.extract_page_number vaddr)).2.find w = some f →
      f < config.num_frames := by
    intro w f hf
    rw [lookup_find] at hf
    exact h w f hf
  refine translate_cases s vaddr write
    (fun r => ∀ w f, r.2.tlb_.find w = some f → f < config.num_frames) ?_ ?_ ?_ ?_ ?_
  · intro _ _; exact hlook
  · intro _ hv
    exact hins _ (by rw [← hk.frames_eq]; exact hk.valid_lt _ hv)
  · intro _ _ _; exact hlook
  · intro pfn _ _ ha hv2
    refine hins _ ?_
    rcases insert_valid s.page_table_ _ pfn _ hk.shaped hv2 with hsame | hother
    · rw [hsame.2.2, ← hk.frames_eq]
      exact (consistent_allocate config _ _ _ hk).2 pfn ha
    · exact absurd (same_slot_refl _ _) hother.1
  · intro _ _ _ _ _; exact hlook

theorem allocate_page_tlb (s : VirtualMemoryManager) (vaddr : Nat) :
    (s.allocate_page vaddr).2.tlb_ = s.tlb_ := by
  refine allocate_page_cases s vaddr (fun r => r.2.tlb_ = s.tlb_) ?_ ?_ ?_
  · intro _; rfl
  · intro _ _; rfl
  · intro _ _ _; rfl

theorem invalidate_find_sub (t : TLB) (v w f : Nat) (h : (t.invalidate v).find w = some f) :
    t.find w = some f := by
  by_cases hw : w = v
  · subst hw
    rw [invalidate_find_self] at h
    simp at h
  · rw [invalidate_find_other t v w hw] at h
    exact h

theorem step_cached_in_pool (config : Config) (s : VirtualMemoryManager) (op : Op)
    (hk : Consistent config s.page_table_ s.physical_memory_)
    (h : ∀ w f, s.tlb_.find w = some f → f < config.num_frames) :
    ∀ w f, (step s op).tlb_.find w = some f → f < config.num_frames := by
  cases op with
  | translate vaddr write => exact translate_cached_in_pool config s vaddr write hk h
  | read_byte vaddr =>
    simp only [step, read_byte_snd]
    exact translate_cached_in_pool config s vaddr false hk h
  | write_byte vaddr value =>
    simp only [step]
    rw [(write_byte_parts s vaddr value).1]
    exact translate_cached_in_pool config s vaddr true hk h
  | allocate_page vaddr =>
    simp only [step]
    rw [allocate_page_tlb]
    exact h
  | free_page vaddr =>
    simp only [step]
    refine free_page_cases s vaddr
      (fun r => ∀ w f, r.2.tlb_.find w = some f → f < config.num_frames) ?_ ?_ ?_
    · intro _; exact h
    · intro _ _ _ w f hf
      exact h w f (invalidate_find_sub _ _ w f hf)
    · intro _ _ _ w f hf
      exact h w f (invalidate_find_sub _ _ w f hf)
  | reset_statistics => exact h

/-- In every reachable state the frames held by the cache are frames of the
pool. -/
theorem reachable_cached_in_pool (config : Config) (guard : VirtualMemoryManager → Op → Prop)
    (s : VirtualMemoryManager) (h : ReachableBy config guard s) :
    ∀ w f, s.tlb_.find w = some f → f < config.num_frames := by
  induction h with
  | init =>
    intro w f hf
    simp [VirtualMemoryManager.new, TLB.new, TLB.find] at hf
  | next s op hr _ ih =>
    exact step_cached_in_pool config s op (reachable_consistent config guard s hr).2 ih

/-- The address a `translate` of a reachable state returns is below the size of
the byte store. -/
theorem translate_in_bounds (config : Config) (hps : config.page_size = 2 ^ config.offset_bits)
    (hmem : config.num_frames * config.page_size ≤ config.physical_memory_size)
    (s : VirtualMemoryManager) (hs : Reachable config s) (vaddr : Nat) (write : Bool) (p : Nat)
    (hp : (s.translate vaddr write).1 = some p) :
    p < (s.translate vaddr write).2.physical_memory_.memory_size := by
  obtain ⟨hc, _⟩ := reachable_consistent config _ s hs
  have hs2 : Reachable config (step s (Op.translate vaddr write)) :=
    ReachableBy.next s _ hs trivial
  obtain ⟨_, hk2⟩ := reachable_consistent config _ _ hs2
  have hb := reachable_cached_in_pool config _ _ hs2
  obtain ⟨_, pfn, hfind, hpp⟩ := translate_some_cached s vaddr write p hp
  have hlt : pfn < config.num_frames := hb _ pfn hfind
  have hm : (s.translate vaddr write).2.physical_memory_.memory_size =
      config.physical_memory_size := hk2.memory_eq
  rw [hm, hpp]
  simp only [VirtualMemoryManager.physical_address, extract_offset_eq, hc, W64]
  have hoff : vaddr % 2 ^ config.offset_bits < config.page_size := by
    rw [hps]; exact Nat.mod_lt _ (by positivity)
  have h1 : (pfn + 1) * config.page_size ≤ config.num_frames * config.page_size :=
    Nat.mul_le_mul_right _ hlt
  have h2 : (pfn + 1) * config.page_size = pfn * config.page_size + config.page_size := by ring
  have h3 := Nat.mod_le (pfn * config.page_size + vaddr % 2 ^ config.offset_bits) (2 ^ 64)
  omega

/-- C25 with a cache capacity of at least one: for a configuration with
`page_size = 2 ^ offset_bits`, `num_frames * page_size ≤ physical_memory_size`
and `tlb_size ≥ 1`, in every reachable state the `translate` call of an access
has defined behaviour and every address `translate` returns is below the size of
the byte store; `read_byte` and `write_byte` never throw `out_of_range`, and
when they throw, the exception is the fatal access error and `translate`
returned absent. -/
theorem addresses_in_bounds (config : Config) (hps : config.page_size = 2 ^ config.offset_bits)
    (hmem : config.num_frames * config.page_size ≤ config.physical_memory_size)
    (htlb : 1 ≤ config.tlb_size)
    (s : VirtualMemoryManager) (hs : Reachable config s) (vaddr value : Nat) (write : Bool) :
    s.translate_defined vaddr = true ∧
    (∀ p, (s.translate vaddr write).1 = some p →
      p < (s.translate vaddr write).2.physical_memory_.memory_size) ∧
    (s.read_byte vaddr).1 ≠ Except.error Error.out_of_range ∧
    (∀ e, (s.read_byte vaddr).1 = Except.error e →
      e = Error.runtime_error ∧ (s.translate vaddr false).1 = none) ∧
    (s.write_byte vaddr value).1 ≠ Except.error Error.out_of_range ∧
    (∀ e, (s.write_byte vaddr value).1 = Except.error e →
      e = Error.runtime_error ∧ (s.translate vaddr true).1 = none) := by
  have hr : ∀ e, (s.read_byte vaddr).1 = Except.error e →
      e = Error.runtime_error ∧ (s.translate vaddr false).1 = none := by
    intro e he
    rw [read_byte_fst] at he
    cases ht : (s.translate vaddr false).1 with
    | none =>
      rw [ht] at he
      simp only [Except.error.injEq] at he
      exact ⟨he.symm, rfl⟩
    | some p =>
      rw [ht] at he
      have hlt := translate_in_bounds config hps hmem s hs vaddr false p ht
      simp only [PhysicalMemory.read_byte] at he
      rw [if_neg (by omega)] at he
      simp at he
  have hw : ∀ e, (s.write_byte vaddr value).1 = Except.error e →
      e = Error.runtime_error ∧ (s.translate vaddr true).1 = none := by
    refine write_byte_cases s vaddr value
      (fun r => ∀ e, r.1 = Except.error e →
        e = Error.runtime_error ∧ (s.translate vaddr true).1 = none) ?_ ?_ ?_
    · intro ht e he
      simp only [Except.error.injEq] at he
      exact ⟨he.symm, ht⟩
    · intro p ht hge
      have hlt := translate_in_bounds config hps hmem s hs vaddr true p ht
      omega
    · intro p _ _ e he
      simp at he
  refine ⟨reachable_translate_defined config _ htlb s hs vaddr,
    fun p hp => translate_in_bounds config hps hmem s hs vaddr write p hp, ?_, hr, ?_, hw⟩
  · intro he
    have := (hr _ he).1
    simp at this
  · intro he
    have := (hw _ he).1
    simp at this

/-- The small preset: both presets satisfy the three conditions, and in the
fresh state of the small preset the write to address 300 is translated to
address 44 of the 16384-byte store and succeeds. -/
theorem addresses_in_bounds_witness :
    (Config.small_config.page_size = 2 ^ Config.small_config.offset_bits ∧
      Config.small_config.num_frames * Config.small_config.page_size ≤
        Config.small_config.physical_memory_size ∧
      1 ≤ Config.small_config.tlb_size) ∧
    (Config.default_config.page_size = 2 ^ Config.default_config.offset_bits ∧
      Config.default_config.num_frames * Config.default_config.page_size ≤
        Config.default_config.physical_memory_size ∧
      1 ≤ Config.default_config.tlb_size) ∧
    ((VirtualMemoryManager.new Config.small_config).translate 300 true).1 = some 44 ∧
    ((VirtualMemoryManager.new Config.small_config).write_byte 300 7).1 ≠
      Except.error Error.out_of_range ∧
    ((VirtualMemoryManager.new Config.small_config).write_byte 300 7).1 = Except.ok () :=
  ⟨⟨by decide, by decide, by decide⟩, ⟨by decide, by decide, by decide⟩, by decide,
    (addresses_in_bounds Config.small_config (by decide) (by decide) (by decide)
      (VirtualMemoryManager.new Config.small_config) ReachableBy.init 300 7 true).2.2.2.2.1,
    rfl⟩

/-- C25 at a cache capacity of 0.  The small preset with `tlb_size` 0 satisfies
the two conditions of the claim; on its fresh translator `write_byte(300, 7)` and
`read_byte(300)` start with a `translate` call that serves the fault of page 1
and then reaches `tlb_->insert` on the empty cache, where `back()` runs on an
empty list: neither call has defined behaviour, so neither completes nor fails
with the fatal access error. -/
theorem access_undefined_at_zero_capacity :
    (({ Config.small_config with tlb_size := 0 } : Config).page_size =
        2 ^ ({ Config.small_config with tlb_size := 0 } : Config).offset_bits ∧
      ({ Config.small_config with tlb_size := 0 } : Config).num_frames *
          ({ Config.small_config with tlb_size := 0 } : Config).page_size ≤
        ({ Config.small_config with tlb_size := 0 } : Config).physical_memory_size) ∧
    step_defined (VirtualMemoryManager.new { Config.small_config with tlb_size := 0 })
      (Op.write_byte 300 7) = false ∧
    step_defined (VirtualMemoryManager.new { Config.small_config with tlb_size := 0 })
      (Op.read_byte 300) = false := by
  refine ⟨⟨?_, ?_⟩, ?_, ?_⟩ <;> decide

end vm
